import Mathlib

/-! Huntercoin (testnet playground) game-state engine: a shallow embedding.

The definitions below follow `src/gamestate.h`, `src/gamemap.h` and
`src/gamestate.cpp`.  Conventions of the embedding:

* `int`, `int64` and `unsigned char` values are integers (`Int`); the
  arithmetic of the modelled functions stays far inside the machine ranges for
  the amounts of the game, and signed overflow (undefined in C++) is outside
  the model.  C++ `/` on signed integers truncates towards zero and is
  `Int.tdiv`.
* `std::map` is a list of entries in strictly ascending key order (`StdMap`),
  so iterating the list is iterating the map.
* A failed `assert` (and the dereference of an `end()` iterator) is the result
  `none`.
* A function that mutates `*this` or a reference argument returns the new
  value.
-/

namespace Game

/-! ## `std::map` -/

/-- Lookup in an entry list (`find` / `count`). -/
def rawFind {K V : Type} [DecidableEq K] (k : K) : List (K × V) → Option V
  | [] => none
  | e :: t => if e.1 = k then some e.2 else rawFind k t

/-- Insert-or-overwrite in an ascending entry list. -/
def rawSet {K V : Type} [LinearOrder K] (k : K) (v : V) : List (K × V) → List (K × V)
  | [] => [(k, v)]
  | e :: t =>
    if k < e.1 then (k, v) :: e :: t
    else if k = e.1 then (k, v) :: t
    else e :: rawSet k v t

/-- Keys of `rawSet k v l` are `k` or keys of `l`. -/
theorem rawSet_key_mem {K V : Type} [LinearOrder K] (k : K) (v : V) (l : List (K × V))
    (e : K × V) (he : e ∈ rawSet k v l) : e.1 = k ∨ ∃ e0 ∈ l, e0.1 = e.1 := by
  induction l with
  | nil =>
    simp only [rawSet, List.mem_singleton] at he
    left; rw [he]
  | cons a t ih =>
    simp only [rawSet] at he
    split_ifs at he with h1 h2
    · rcases List.mem_cons.mp he with h | h
      · left; rw [h]
      · right; exact ⟨e, h, rfl⟩
    · rcases List.mem_cons.mp he with h | h
      · left; rw [h]
      · right; exact ⟨e, List.mem_cons_of_mem _ h, rfl⟩
    · rcases List.mem_cons.mp he with h | h
      · right; exact ⟨a, List.mem_cons_self _ _, by rw [h]⟩
      · rcases ih h with h3 | ⟨e0, h3, h4⟩
        · left; exact h3
        · right; exact ⟨e0, List.mem_cons_of_mem _ h3, h4⟩

/-- Insert-or-overwrite keeps the entry list strictly ascending. -/
theorem rawSet_sorted {K V : Type} [LinearOrder K] (k : K) (v : V) (l : List (K × V))
    (hl : l.Pairwise (fun a b => a.1 < b.1)) :
    (rawSet k v l).Pairwise (fun a b => a.1 < b.1) := by
  induction l with
  | nil => simp [rawSet]
  | cons a t ih =>
    have hat := List.pairwise_cons.mp hl
    simp only [rawSet]
    split_ifs with h1 h2
    · refine List.pairwise_cons.mpr ⟨?_, hl⟩
      intro b hb
      rcases List.mem_cons.mp hb with h | h
      · rw [h]; exact h1
      · exact lt_trans h1 (hat.1 b h)
    · refine List.pairwise_cons.mpr ⟨?_, hat.2⟩
      intro b hb
      have := hat.1 b hb
      rw [h2]; exact this
    · refine List.pairwise_cons.mpr ⟨?_, ih hat.2⟩
      intro b hb
      rcases rawSet_key_mem k v t b hb with h | ⟨e0, h3, h4⟩
      · rw [h]
        exact lt_of_le_of_ne (not_lt.mp h1) (fun h5 => h2 h5.symm)
      · rw [← h4]; exact hat.1 e0 h3

/-- A `std::map<K, V>`: entries in strictly ascending key order. -/
structure StdMap (K V : Type) [LinearOrder K] where
  entries : List (K × V)
  sorted : entries.Pairwise (fun a b => a.1 < b.1)

namespace StdMap

variable {K V : Type} [LinearOrder K]

instance [DecidableEq V] : DecidableEq (StdMap K V) := fun a b =>
  decidable_of_iff (a.entries = b.entries)
    ⟨fun h => by cases a; cases b; simp_all, fun h => by rw [h]⟩

/-- The empty map. -/
def empty : StdMap K V := ⟨[], List.Pairwise.nil⟩

/-- Lookup of a key: `find`, with `none` for `end()`. -/
def find (m : StdMap K V) (k : K) : Option V := rawFind k m.entries

/-- Membership test: `count(k) != 0`. -/
def contains (m : StdMap K V) (k : K) : Bool := (m.find k).isSome

/-- Assignment through `operator[]`: insert or overwrite. -/
def set (m : StdMap K V) (k : K) (v : V) : StdMap K V :=
  ⟨rawSet k v m.entries, rawSet_sorted k v m.entries m.sorted⟩

/-- Insertion with `insert`: an existing entry is kept. -/
def insert (m : StdMap K V) (k : K) (v : V) : StdMap K V :=
  if m.contains k then m else m.set k v

/-- Removal of a key: `erase`. -/
def erase (m : StdMap K V) (k : K) : StdMap K V :=
  ⟨m.entries.filter (fun e => decide (e.1 ≠ k)), List.Pairwise.filter _ m.sorted⟩

/-- In-place update of the value stored under a key (through an iterator or a
reference); no effect when the key is absent. -/
def modify (m : StdMap K V) (k : K) (f : V → V) : StdMap K V :=
  ⟨m.entries.map (fun e => if e.1 = k then (e.1, f e.2) else e), by
    refine (List.pairwise_map.mpr ?_)
    refine m.sorted.imp ?_
    intro a b hab
    by_cases ha : a.1 = k <;> by_cases hb : b.1 = k <;> simp [ha, hb] <;> simp_all⟩

/-- The keys in iteration order. -/
def keys (m : StdMap K V) : List K := m.entries.map Prod.fst

end StdMap

/-! ## Data model (`gamestate.h`) -/

/-- A player name (`typedef std::string PlayerID`), ordered as `std::string` is,
lexicographically by character code. -/
structure PlayerID where
  name : String
deriving DecidableEq

/-- The sequence of character codes that orders player names. -/
def PlayerID.key (s : PlayerID) : List ℕ := s.name.data.map Char.toNat

theorem PlayerID_key_injective : Function.Injective PlayerID.key := by
  intro a b h
  unfold PlayerID.key at h
  have h2 : a.name.data = b.name.data := by
    apply List.map_injective_iff.mpr _ h
    intro x y hxy
    exact Char.ext (UInt32.ext (by simpa [Char.toNat] using hxy))
  cases a with
  | mk a => cases b with
    | mk b => cases a; cases b; simp_all

instance : LinearOrder PlayerID := LinearOrder.lift' PlayerID.key PlayerID_key_injective

/-- A map coordinate. -/
structure Coord where
  x : Int
  y : Int
deriving DecidableEq

/-- The pair `(y, x)` by which `Coord::operator<` compares lexicographically. -/
def Coord.key (c : Coord) : Lex (Int × Int) := toLex (c.y, c.x)

theorem Coord_key_injective : Function.Injective Coord.key := by
  intro a b h
  cases a; cases b
  simp only [Coord.key, EmbeddingLike.apply_eq_iff_eq, Prod.mk.injEq] at h
  simp [h.1, h.2]

instance : LinearOrder Coord := LinearOrder.lift' Coord.key Coord_key_injective

/-- Loot lying on a tile. -/
structure LootInfo where
  nAmount : Int := 0
  firstBlock : Int := -1
  lastBlock : Int := -1
deriving DecidableEq

/-- Constructor `LootInfo(nAmount, nHeight)`. -/
def LootInfo.ofAmount (nAmount nHeight : Int) : LootInfo :=
  { nAmount := nAmount, firstBlock := nHeight, lastBlock := nHeight }

/-- Loot carried by a character, with the span over which it was collected. -/
structure CollectedLootInfo extends LootInfo where
  collectedFirstBlock : Int := -1
  collectedLastBlock : Int := -1
deriving DecidableEq

namespace CollectedLootInfo

/-- Check if this is a player refund record. -/
def IsRefund (l : CollectedLootInfo) : Bool :=
  decide (l.nAmount > 0) && decide (l.collectedFirstBlock = -1)

/-- Method `Collect`: add `loot` to the record; `none` when the assertion
`!IsRefund ()` fails. -/
def Collect (l : CollectedLootInfo) (loot : LootInfo) (nHeight : Int) :
    Option CollectedLootInfo :=
  if l.IsRefund then none
  else if loot.nAmount ≤ 0 then some l
  else
    some
      { nAmount := l.nAmount + loot.nAmount
        firstBlock :=
          if l.firstBlock < 0 ∨ loot.firstBlock < l.firstBlock then loot.firstBlock
          else l.firstBlock
        lastBlock := if loot.lastBlock > l.lastBlock then loot.lastBlock else l.lastBlock
        collectedFirstBlock := if l.collectedFirstBlock < 0 then nHeight else l.collectedFirstBlock
        collectedLastBlock := nHeight }

/-- Method `SetRefund`; `none` when one of its assertions fails. -/
def SetRefund (l : CollectedLootInfo) (refundAmount nHeight : Int) : Option CollectedLootInfo :=
  if l.nAmount = 0 ∧ l.collectedFirstBlock = -1 ∧ l.collectedLastBlock = -1 then
    some { l with nAmount := refundAmount, collectedLastBlock := nHeight }
  else none

end CollectedLootInfo

/-- Player name and character index. -/
structure CharacterID where
  player : PlayerID := ⟨""⟩
  index : Int := -1
deriving DecidableEq

/-- One movable unit (all fields of `struct CharacterState`). -/
structure CharacterState where
  coord : Coord := ⟨0, 0⟩
  dir : Nat := 0
  from_ : Coord := ⟨0, 0⟩
  waypoints : List Coord := []
  loot : CollectedLootInfo := {}
  stay_in_spawn_area : Nat := 0
  ai_npc_role : Nat := 0
  ai_slot_spell : Nat := 0
  rpg_slot_cooldown : Nat := 0
  ai_slot_amulet : Nat := 0
  ai_poi : Nat := 0
  ai_state : Nat := 0
  ai_state2 : Nat := 0
  ai_state3 : Nat := 0
  ai_chat : Nat := 0
  ai_idle_time : Nat := 0
  ai_mapitem_count : Nat := 0
  ai_foe_count : Nat := 0
  ai_foe_dist : Nat := 0
  ai_fav_harvest_poi : Nat := 0
  ai_slot_ring : Nat := 0
  ai_reserve64_1 : Int := 0
  ai_reserve64_2 : Int := 0
  ai_retreat : Nat := 0
  ai_queued_harvest_poi : Nat := 0
  ai_duty_harvest_poi : Nat := 0
  rpg_survival_points : Int := 0
  rpg_rations : Int := 0
  rpg_range_for_display : Int := 0
  ai_recall_timer : Int := 0
  ai_regen_timer : Int := 0
  ai_order_time : Int := 0
  ai_marked_harvest_poi : Nat := 0
  aux_storage_s1 : Int := 0
  aux_storage_s2 : Int := 0
  aux_storage_u1 : Nat := 0
  aux_storage_u2 : Nat := 0
  ai_reason : Nat := 0
  rpg_slot_armor : Nat := 0
  aux_spawn_block : Int := 0
  aux_last_sale_block : Int := 0
  aux_stasis_block : Int := 0
  ai_reserve6 : Int := 0
deriving DecidableEq

namespace CharacterState

/-- Method `StopMoving`. -/
def StopMoving (ch : CharacterState) : CharacterState :=
  { ch with from_ := ch.coord, waypoints := [] }

/-- Method `CollectLoot`: collect `newLoot` up to the carrying capacity and
return the new character state together with the amount that remains; `none`
when an assertion fails. -/
def CollectLoot (ch : CharacterState) (newLoot : LootInfo) (nHeight carryCap : Int) :
    Option (CharacterState × Int) :=
  let totalBefore := ch.loot.nAmount + newLoot.nAmount
  let freeCap0 := carryCap - ch.loot.nAmount
  let freeCap := if freeCap0 < 0 then 0 else freeCap0
  let remaining :=
    if carryCap = -1 ∨ newLoot.nAmount ≤ freeCap then 0 else newLoot.nAmount - freeCap
  let newLoot1 : LootInfo :=
    if remaining > 0 then { newLoot with nAmount := newLoot.nAmount - remaining } else newLoot
  match ch.loot.Collect newLoot1 nHeight with
  | none => none
  | some loot1 =>
    if remaining ≥ 0 ∧ newLoot1.nAmount ≥ 0
        ∧ totalBefore = loot1.nAmount + remaining
        ∧ (carryCap = -1 ∨ newLoot1.nAmount ≤ freeCap)
        ∧ (newLoot1.nAmount = 0 ∨ carryCap = -1 ∨ loot1.nAmount ≤ carryCap) then
      some ({ ch with loot := loot1 }, remaining)
    else none

end CharacterState

/-- State of one player (all fields of `struct PlayerState`). -/
structure PlayerState where
  color : Nat := 0xFF
  coinAmount : Int := -1
  characters : StdMap Int CharacterState := StdMap.empty
  next_character_index : Int := 0
  remainingLife : Int := -1
  message : String := ""
  message_block : Int := 0
  address : String := ""
  addressLock : String := ""
  addr_token : String := ""
  msg_vote : String := ""
  msg_vote_block : Int := 0
  msg_request : String := ""
  msg_request_block : Int := 0
  msg_fee : String := ""
  msg_comment : String := ""
  coins_vote : Int := 0
  coins_request : Int := 0
  coins_fee : Int := 0
deriving DecidableEq

/-- Map constants of `gamemap.h`. -/
def MAP_WIDTH : Int := 502

def MAP_HEIGHT : Int := 502

def SPAWN_AREA_LENGTH : Int := 15

def NUM_HARVEST_AREAS : Nat := 18

def NUM_CROWN_LOCATIONS : Int := 416

def CROWN_START_X : Int := 208

def CROWN_START_Y : Int := 265

def TOTAL_HARVEST : Int := 900

def CROWN_BONUS : Int := 25

def NUM_TEAM_COLORS : Int := 4

def MAX_STAY_IN_SPAWN_AREA : Nat := 30

def HUNTERMSG_CACHE_MAX : Nat := 10000

/-- The game state (all fields of `struct GameState`, initialised as by its
constructor). -/
structure GameState where
  players : StdMap PlayerID PlayerState := StdMap.empty
  dead_players_chat : StdMap PlayerID PlayerState := StdMap.empty
  loot : StdMap Coord LootInfo := StdMap.empty
  hearts : StdMap Coord Unit := StdMap.empty
  crownPos : Coord := ⟨CROWN_START_X, CROWN_START_Y⟩
  crownHolder : CharacterID := {}
  gameFund : Int := 0
  nHeight : Int := -1
  nDisasterHeight : Int := -1
  hashBlock : Nat := 0
  dao_BestFee : Int := 0
  dao_BestFeeFinal : Int := 0
  dao_BestRequest : Int := 0
  dao_BestRequestFinal : Int := 0
  dao_BestName : String := ""
  dao_BestNameFinal : String := ""
  dao_BountyPreviousWeek : Int := 0
  dao_NamePreviousWeek : String := ""
deriving DecidableEq

/-- A banked or refunded bounty. -/
structure CollectedBounty where
  character : CharacterID
  loot : CollectedLootInfo
  address : String
deriving DecidableEq

/-- Reason of a death (`KilledByInfo::Reason`). -/
inductive Reason where
  | KILLED_DESTRUCT
  | KILLED_SPAWN
  | KILLED_POISON
deriving DecidableEq

/-- Why or by whom a player was killed. -/
structure KilledByInfo where
  reason : Reason
  killer : CharacterID := {}
deriving DecidableEq

/-- See if this killing reason pays out miner tax or not. -/
def KilledByInfo.HasDeathTax (k : KilledByInfo) : Bool := decide (k.reason ≠ Reason.KILLED_SPAWN)

/-- Insertion into a `std::multimap`: after the entries whose key is not
greater. -/
def multimapInsert {K V : Type} [LinearOrder K] (k : K) (v : V) : List (K × V) → List (K × V)
  | [] => [(k, v)]
  | e :: t => if k < e.1 then (k, v) :: e :: t else e :: multimapInsert k v t

/-- Result of a step (`class StepResult`). -/
structure StepResult where
  killedPlayers : StdMap PlayerID Unit := StdMap.empty
  killedBy : List (PlayerID × KilledByInfo) := []
  bounties : List CollectedBounty := []
  nTaxAmount : Int := 0
deriving DecidableEq

/-- Method `KillPlayer`. -/
def StepResult.KillPlayer (step : StepResult) (victim : PlayerID) (killer : KilledByInfo) :
    StepResult :=
  { step with
    killedBy := multimapInsert victim killer step.killedBy
    killedPlayers := step.killedPlayers.insert victim () }

/-- The hard forks that `ForkInEffect` knows. -/
inductive Fork where
  | FORK_POISON
  | FORK_CARRYINGCAP
  | FORK_LESSHEARTS
deriving DecidableEq

/-- Function `IsInsideMap` of `gamemap.h`. -/
def IsInsideMap (x y : Int) : Bool :=
  decide (x ≥ 0) && decide (x < MAP_WIDTH) && decide (y ≥ 0) && decide (y < MAP_HEIGHT)

/-- Function `IsInSpawnArea` of `gamemap.h`. -/
def IsInSpawnArea (x y : Int) : Bool :=
  ((decide (x = 0) || decide (x = MAP_WIDTH - 1))
      && (decide (y < SPAWN_AREA_LENGTH) || decide (y ≥ MAP_HEIGHT - SPAWN_AREA_LENGTH)))
    || ((decide (y = 0) || decide (y = MAP_HEIGHT - 1))
      && (decide (x < SPAWN_AREA_LENGTH) || decide (x ≥ MAP_WIDTH - SPAWN_AREA_LENGTH)))

/-- Function `PushCoordOutOfSpawnArea`: loot is pushed out of the spawn area. -/
def PushCoordOutOfSpawnArea (c : Coord) : Coord :=
  if IsInSpawnArea c.x c.y = false then c
  else if c.x = 0 then
    if c.y = 0 then ⟨c.x + 1, c.y + 1⟩
    else if c.y = MAP_HEIGHT - 1 then ⟨c.x + 1, c.y - 1⟩
    else ⟨c.x + 1, c.y⟩
  else if c.x = MAP_WIDTH - 1 then
    if c.y = 0 then ⟨c.x - 1, c.y + 1⟩
    else if c.y = MAP_HEIGHT - 1 then ⟨c.x - 1, c.y - 1⟩
    else ⟨c.x - 1, c.y⟩
  else if c.y = 0 then ⟨c.x, c.y + 1⟩
  else if c.y = MAP_HEIGHT - 1 then ⟨c.x, c.y - 1⟩
  else c

/-- Constructor `CharacterID(player, index)`, which throws on a negative
index. -/
def CharacterID.make (player : PlayerID) (index : Int) : Option CharacterID :=
  if index < 0 then none else some { player := player, index := index }

namespace GameState

/-- Method `AddLoot`. -/
def AddLoot (gs : GameState) (coord : Coord) (nAmount : Int) : GameState :=
  if nAmount = 0 then gs
  else
    match gs.loot.find coord with
    | some li =>
      if li.nAmount + nAmount = 0 then { gs with loot := gs.loot.erase coord }
      else
        { gs with
          loot := gs.loot.modify coord
            (fun l => { l with nAmount := l.nAmount + nAmount, lastBlock := gs.nHeight }) }
    | none => { gs with loot := gs.loot.insert coord (LootInfo.ofAmount nAmount gs.nHeight) }

/-- Method `HandleKilledLoot`: handle the loot of a killed character.
`ForkInEffect` is declared outside the given sources and is a parameter.
The result is `none` when an assertion fails. -/
def HandleKilledLoot (ForkInEffect : Fork → Int → Bool) (gs : GameState) (pId : PlayerID)
    (chInd : Int) (hasTax canRefund : Bool) (step : StepResult) :
    Option (GameState × StepResult) :=
  match gs.players.find pId with
  | none => none
  | some pc =>
    match pc.characters.find chInd with
    | none => none
    | some ch =>
      if chInd = 0 ∧ ¬ (pc.coinAmount ≥ 0) then none
      else
        let nAmount0 := if chInd = 0 then ch.loot.nAmount + pc.coinAmount else ch.loot.nAmount
        let nTax := Int.tdiv nAmount0 25
        let step1 := if hasTax then { step with nTaxAmount := step.nTaxAmount + nTax } else step
        let nAmount := if hasTax then nAmount0 - nTax else nAmount0
        if nAmount = 0 then some (gs, step1)
        else if ¬ (nAmount > 0) then none
        else if pc.remainingLife ≥ 0 ∧ ForkInEffect Fork.FORK_LESSHEARTS gs.nHeight = true then
          some ({ gs with gameFund := gs.gameFund + nAmount }, step1)
        else if canRefund = true ∧ ForkInEffect Fork.FORK_LESSHEARTS gs.nHeight = true then
          match CollectedLootInfo.SetRefund {} nAmount gs.nHeight, CharacterID.make pId chInd with
          | some loot, some chid =>
            some (gs, { step1 with bounties := step1.bounties ++ [⟨chid, loot, pc.address⟩] })
          | _, _ => none
        else some (gs.AddLoot (PushCoordOutOfSpawnArea ch.coord) nAmount, step1)

end GameState

/-- Data and functions that the step uses and that are declared outside the
given sources: the fork schedule, the two uses of `SerializeHash` (on a block
hash and on the generator's big number), and the static map tables. -/
structure Env where
  ForkInEffect : Fork → Int → Bool
  SerializeHash256 : Nat → Nat
  SerializeHashBig : Int → Nat
  HarvestPortions : Nat → Int
  HarvestAreaSizes : Nat → Int
  HarvestAreas : Nat → Int → Int
  CrownSpawn : Int → Int
  ObstacleMap : Int → Int → Int
  Distance_To_POI : Int → Int → Int → Int
  fTestNet : Bool

/-- Random generator seeded with a block hash: `state` and `state0`. -/
structure RandomGenerator where
  state : Int
  state0 : Int
deriving DecidableEq

/-- The threshold `CBigNum().SetCompact(0x097FFFFF)`: mantissa `0x7FFFFF` and
size 9 bytes, that is `0x7FFFFF * 256^(9 - 3)` (`SetCompact` belongs to
`bignum.h`, which is not among the sources). -/
def MIN_STATE : Int := 0x7FFFFF * 256 ^ 6

namespace RandomGenerator

/-- Constructor `RandomGenerator(hashBlock)`. -/
def seed (env : Env) (hashBlock : Nat) : RandomGenerator :=
  { state := env.SerializeHash256 hashBlock, state0 := env.SerializeHash256 hashBlock }

/-- Method `GetIntRnd(modulo)`: rehash when most bits are used, then
`state.DivideGetRemainder(modulo)`.  Modelled from the spec: `CBigNum` belongs
to `bignum.h`, which is not among the sources; after the spec (the remainder
is taken via integer division) `DivideGetRemainder` leaves the quotient of the
truncating division in `state` and returns the remainder. -/
def GetIntRnd (env : Env) (r : RandomGenerator) (modulo : Int) : Int × RandomGenerator :=
  let r1 : RandomGenerator :=
    if r.state < MIN_STATE then
      { state := env.SerializeHashBig r.state0, state0 := env.SerializeHashBig r.state0 }
    else r
  (Int.tmod r1.state modulo, { r1 with state := Int.tdiv r1.state modulo })

end RandomGenerator

/-- One round of the loop of `PerformStep` that drops a reward onto harvest
area `i`; the accumulator is the state, the generator and `nTotalTreasure`. -/
def dropTreasureStep (env : Env) (nTreasureAmount : Int)
    (acc : GameState × RandomGenerator × Int) (i : Nat) : GameState × RandomGenerator × Int :=
  let draw := acc.2.1.GetIntRnd env (env.HarvestAreaSizes i)
  let harvest : Coord := ⟨env.HarvestAreas i (2 * draw.1), env.HarvestAreas i (2 * draw.1 + 1)⟩
  let nTreasure := Int.tdiv (env.HarvestPortions i * nTreasureAmount) TOTAL_HARVEST
  (acc.1.AddLoot harvest nTreasure, draw.2, acc.2.2 + nTreasure)

/-- The loop `for (int i = 0; i < NUM_HARVEST_AREAS; i++)` of `PerformStep`. -/
def dropTreasure (env : Env) (nTreasureAmount : Int) (gs : GameState) (rnd : RandomGenerator) :
    GameState × RandomGenerator × Int :=
  (List.range NUM_HARVEST_AREAS).foldl (dropTreasureStep env nTreasureAmount) (gs, rnd, 0)

/-- The crown bonus `CROWN_BONUS * nTreasureAmount / TOTAL_HARVEST`. -/
def crownBonusOf (nTreasureAmount : Int) : Int :=
  Int.tdiv (CROWN_BONUS * nTreasureAmount) TOTAL_HARVEST

/-! ## Flags and roles (`gamemap.h`) -/

def AI_STATE_AUTO_MODE : Nat := 4

def AI_STATE_SURVIVAL : Nat := 16

def AI_STATE_RESTING : Nat := 32

def AI_STATE2_DEATH_POISON : Nat := 1

def AI_STATE2_DEATH_FIRE : Nat := 2

def AI_STATE2_DEATH_DEATH : Nat := 4

def AI_STATE2_DEATH_LIGHTNING : Nat := 16

def AI_STATE2_DEATH_ALL : Nat := 23

def AI_STATE2_ESSENTIAL : Nat := 8

def AI_STATE2_ESCAPE : Nat := 32

def AI_POI_CHOOSE_NEW_ONE : Nat := 0

def AI_POI_STAYHERE : Nat := 1

def AI_POI_MONSTER_GO_TO_NEAREST : Nat := 2

def AI_ITEM_REGEN : Nat := 2

def AI_ITEM_LIFE_SAVING : Nat := 3

def AI_ATTACK_POISON : Nat := 1

def AI_ATTACK_FIRE : Nat := 2

def AI_ATTACK_DEATH : Nat := 3

def NUM_MERCHANTS : Nat := 39

def MONSTER_REAPER : Nat := 100

def MONSTER_SPITTER : Nat := 101

def MONSTER_REDHEAD : Nat := 102

/-- Macro `NPCROLE_IS_MERCHANT`. -/
def NPCROLE_IS_MERCHANT (n : Nat) : Bool := decide (n ≥ 1) && decide (n < NUM_MERCHANTS)

/-- The operation `x &= ~m` on a flag register. -/
def clearBits (x m : Nat) : Nat := x - (x &&& m)

/-- Conversion of an `int` to `unsigned char`. -/
def toUChar (v : Int) : Nat := (v % 256).toNat

/-- Function `AI_IS_SAFEZONE`: the four bases and the larger centre. -/
def AI_IS_SAFEZONE (X Y : Int) : Bool :=
  if X + Y ≤ 43 ∨ X + (MAP_HEIGHT - Y) ≤ 43 ∨ (MAP_WIDTH - X) + (MAP_HEIGHT - Y) ≤ 43
      ∨ (MAP_WIDTH - X) + Y ≤ 43 then true
  else if X ≥ 238 ∧ X ≤ 263 ∧ Y ≥ 259 ∧ Y ≤ 261 then false
  else if X + Y < 460 ∨ X + (MAP_HEIGHT - Y) < 460 ∨ (MAP_WIDTH - X) + (MAP_HEIGHT - Y) < 460
      ∨ (MAP_WIDTH - X) + Y < 460 then false
  else if X ≥ 225 ∧ X ≤ 276 ∧ Y ≥ 224 ∧ Y ≤ 275 then true
  else false

/-- Method `CharacterID::ToString`. -/
def CharacterID.ToString (player : PlayerID) (index : Int) : String :=
  if index = 0 then player.name else player.name ++ "." ++ toString index

/-- The file-scope scratch variables of `gamestate.cpp` that the modelled
functions read or write, by name; `other` stands for all remaining ones (the
per-tile maps, the merchant tables, the payment cache, ...), which only the
passes that are not modelled in detail use. -/
structure Cache (W : Type) where
  Rpg_MissingMerchantPerColor : Int → Int
  Rpg_PopulationCount : Nat → Int
  Rpg_StrongestTeam : Int
  Rpg_WeakestTeam : Int
  Rpg_less_monsters_than_players : Bool
  Rpg_need_monsters_badly : Bool
  Rpg_hearts_spawn : Bool
  Gamecache_devmode : Int
  other : W

/-- Macro `INTERVAL_MONSTERAPOCALYPSE`. -/
def INTERVAL_MONSTERAPOCALYPSE {W : Type} (cache : Cache W) : Int :=
  if cache.Gamecache_devmode = 8 then 200 else 2000

/-- Loop state of `KillRangedAttacks` inside one player. -/
structure RangedAcc (W : Type) where
  gs : GameState
  step : StepResult
  cache : Cache W
  general_is_merchant : Bool
  toErase : List Int

/-- The destruct orders of `PerformStep` applied to one character in
`KillRangedAttacks`: every cached name equal to the character's sets the death
flag, and clears it again on a merchant. -/
def applyDestructOrders (destruct : List String) (name : String) (ch : CharacterState) :
    CharacterState :=
  destruct.foldl
    (fun c msg =>
      if name = msg then
        let c1 := { c with ai_state2 := c.ai_state2 ||| AI_STATE2_DEATH_DEATH }
        if NPCROLE_IS_MERCHANT c1.ai_npc_role = true ∧ c1.ai_state2 &&& AI_STATE2_DEATH_DEATH ≠ 0
        then { c1 with ai_state2 := c1.ai_state2 - AI_STATE2_DEATH_DEATH }
        else c1
      else c)
    ch

/-- The outcome of the death-flag test of `KillRangedAttacks` for one
non-merchant character: the new character, the new cache, `idie` and `ilive`. -/
def rangedVerdict {W : Type} (cache : Cache W) (tmp_color : Int) (i : Int)
    (general_is_merchant : Bool) (ch : CharacterState) : CharacterState × Cache W × Bool × Int :=
  if ch.ai_state2 &&& AI_STATE2_DEATH_ALL ≠ 0 then
    if AI_IS_SAFEZONE ch.coord.x ch.coord.y = true ∨ ch.ai_state2 &&& AI_STATE2_ESSENTIAL ≠ 0
        ∨ ch.ai_slot_amulet = AI_ITEM_LIFE_SAVING then
      let ch1 :=
        if ch.ai_slot_amulet = AI_ITEM_LIFE_SAVING then
          let c := { ch with ai_slot_amulet := 0 }
          if c.ai_state &&& AI_STATE_AUTO_MODE = 0 then
            { c with ai_fav_harvest_poi := AI_POI_STAYHERE, ai_queued_harvest_poi := 0,
                     ai_marked_harvest_poi := 0, ai_duty_harvest_poi := 0 }
          else c
        else ch
      (ch1, cache, true, 2)
    else if cache.Rpg_MissingMerchantPerColor tmp_color ≠ 0
        ∧ (i = 0 ∨ general_is_merchant = true) then
      ({ ch with ai_npc_role := toUChar (cache.Rpg_MissingMerchantPerColor tmp_color) },
        { cache with
          Rpg_MissingMerchantPerColor :=
            fun c => if c = tmp_color then 0 else cache.Rpg_MissingMerchantPerColor c },
        true, 1)
    else if cache.Rpg_need_monsters_badly = true
        ∨ (tmp_color ≠ cache.Rpg_StrongestTeam ∧ cache.Rpg_less_monsters_than_players = true)
        ∨ tmp_color = cache.Rpg_WeakestTeam then
      let r1 :=
        if cache.Rpg_PopulationCount MONSTER_SPITTER < cache.Rpg_PopulationCount MONSTER_REAPER
        then MONSTER_SPITTER else MONSTER_REAPER
      let my_role :=
        if cache.Rpg_PopulationCount MONSTER_REDHEAD < cache.Rpg_PopulationCount r1
        then MONSTER_REDHEAD else r1
      let c : CharacterState :=
        { ch with
          ai_npc_role := my_role
          ai_regen_timer :=
            if ch.ai_slot_amulet = AI_ITEM_REGEN then INTERVAL_MONSTERAPOCALYPSE cache else -1
          ai_fav_harvest_poi := AI_POI_MONSTER_GO_TO_NEAREST
          ai_queued_harvest_poi := 0
          ai_marked_harvest_poi := 0
          ai_duty_harvest_poi := 0
          ai_slot_amulet := 0
          ai_slot_ring := 0
          rpg_slot_armor := 0
          ai_reason := 0
          ai_retreat := 0
          ai_slot_spell :=
            if my_role = MONSTER_REAPER then AI_ATTACK_DEATH
            else if my_role = MONSTER_SPITTER then AI_ATTACK_POISON
            else if my_role = MONSTER_REDHEAD then AI_ATTACK_FIRE
            else ch.ai_slot_spell }
      (c, cache, true, 2)
    else (ch, cache, true, 0)
  else if cache.Rpg_need_monsters_badly = false ∧ ch.ai_regen_timer > 0 then
    let c1 :=
      if Int.tmod ch.coord.x 2 + Int.tmod ch.coord.y 2 ≠ 0 then
        { ch with ai_regen_timer := ch.ai_regen_timer - 1 }
      else ch
    let c2 :=
      if c1.ai_regen_timer = 0 then
        { c1 with ai_npc_role := 0, ai_state2 := c1.ai_state2 ||| AI_STATE2_ESCAPE,
                  ai_retreat := 0, ai_fav_harvest_poi := AI_POI_CHOOSE_NEW_ONE }
      else c1
    (c2, cache, false, 0)
  else (ch, cache, false, 0)

/-- Write a character back into its player's character map. -/
def GameState.setCharacter (gs : GameState) (pid : PlayerID) (i : Int) (ch : CharacterState) :
    GameState :=
  { gs with
    players := gs.players.modify pid
      (fun pl => { pl with characters := pl.characters.modify i (fun _ => ch) }) }

/-- Body of the inner loop of `KillRangedAttacks` for character `i` of player
`pid`; `none` when the constructor of `CharacterID` throws or the assertion on
`coinAmount` fails. -/
def killRangedCharacter {W : Type} (destruct : List String) (pid : PlayerID)
    (acc : RangedAcc W) (i : Int) : Option (RangedAcc W) :=
  match acc.gs.players.find pid with
  | none => none
  | some pl =>
    match pl.characters.find i with
    | none => none
    | some ch0 =>
      let gim : Bool :=
        if i = 0 ∧ NPCROLE_IS_MERCHANT ch0.ai_npc_role = true then true
        else acc.general_is_merchant
      if i < 0 then none
      else
        let ch1 := applyDestructOrders destruct (CharacterID.ToString pid i) ch0
        if NPCROLE_IS_MERCHANT ch1.ai_npc_role = true then
          some { acc with gs := acc.gs.setCharacter pid i ch1, general_is_merchant := gim }
        else
          let v := rangedVerdict acc.cache (pl.color : Int) i gim ch1
          let ch2 := v.1
          let cache2 := v.2.1
          let idie := v.2.2.1
          let ilive := v.2.2.2
          if idie = true then
            if ilive ≠ 0 then
              let c3 := ch2.StopMoving
              let c4 :=
                { c3 with
                  ai_state := clearBits c3.ai_state (AI_STATE_SURVIVAL ||| AI_STATE_RESTING)
                  ai_state2 := clearBits c3.ai_state2
                    (AI_STATE2_DEATH_POISON ||| AI_STATE2_DEATH_FIRE ||| AI_STATE2_DEATH_DEATH
                      ||| AI_STATE2_DEATH_LIGHTNING) }
              let c5 :=
                if ilive ≥ 2 then { c4 with ai_state2 := c4.ai_state2 ||| AI_STATE2_ESCAPE }
                else c4
              some { acc with gs := acc.gs.setCharacter pid i c5, cache := cache2,
                              general_is_merchant := gim }
            else if i = 0 ∧ ¬ (pl.coinAmount ≥ 0) then none
            else
              let nAmount := if i = 0 then ch2.loot.nAmount + pl.coinAmount else ch2.loot.nAmount
              let step1 :=
                if i = 0 then acc.step.KillPlayer pid { reason := Reason.KILLED_POISON }
                else acc.step
              let gs1 := acc.gs.setCharacter pid i ch2
              let gs2 :=
                if nAmount > 0 then gs1.AddLoot (PushCoordOutOfSpawnArea ch2.coord) nAmount
                else gs1
              some { gs := gs2, step := step1, cache := cache2, general_is_merchant := gim,
                     toErase := acc.toErase ++ [i] }
          else
            some { acc with gs := acc.gs.setCharacter pid i ch2, cache := cache2,
                            general_is_merchant := gim }

/-- Body of the outer loop of `KillRangedAttacks` for player `pid`. -/
def killRangedPlayer {W : Type} (destruct : List String)
    (acc : GameState × StepResult × Cache W) (pid : PlayerID) :
    Option (GameState × StepResult × Cache W) :=
  match acc.1.players.find pid with
  | none => none
  | some pl =>
    match pl.characters.keys.foldlM (killRangedCharacter destruct pid)
        { gs := acc.1, step := acc.2.1, cache := acc.2.2, general_is_merchant := false,
          toErase := [] } with
    | none => none
    | some r =>
      some
        ({ r.gs with
            players := r.gs.players.modify pid
              (fun p => { p with
                characters := r.toErase.foldl (fun m i => m.erase i) p.characters }) },
          r.step, r.cache)

/-- Method `KillRangedAttacks`; `destruct` holds the first
`Huntermsg_idx_destruct` entries of `Huntermsg_destruct`. -/
def GameState.KillRangedAttacks {W : Type} (gs : GameState) (step : StepResult)
    (cache : Cache W) (destruct : List String) : Option (GameState × StepResult × Cache W) :=
  gs.players.keys.foldlM (killRangedPlayer destruct) (gs, step, cache)

/-! ## Loot division (`DivideLootAmongPlayers`) -/

/-- Function `GetCarryingCapacity`: the playground returns -1 (unlimited)
before looking at its arguments; the statements after that `return` are
unreachable. -/
def GetCarryingCapacity (_nHeight : Int) (_isGeneral _isCrownHolder : Bool) : Int := -1

/-- Lookup of a character by player name and index. -/
def GameState.findCharacter (gs : GameState) (pid : PlayerID) (cid : Int) :
    Option CharacterState :=
  (gs.players.find pid).bind (fun pl => pl.characters.find cid)

/-- An entry of the vector `collectors` (`class CharacterOnLootTile`); the
pointer `ch` is the character `(pid, cid)` of the state. -/
structure CharacterOnLootTile where
  pid : PlayerID
  cid : Int
  carryCap : Int
deriving DecidableEq

namespace CharacterOnLootTile

/-- Method `GetRemainingCapacity`, reading the character in `gs` (the pointer is valid for
every collector, the value for a missing character is never used). -/
def GetRemainingCapacity (gs : GameState) (t : CharacterOnLootTile) : Int :=
  if t.carryCap = -1 then -1
  else
    match gs.findCharacter t.pid t.cid with
    | none => 0
    | some ch => if t.carryCap < ch.loot.nAmount then 0 else t.carryCap - ch.loot.nAmount

/-- The order `operator<` on collectors: ascending remaining capacity with
unlimited last, ties by player name and then character index.  Its two
assertions compare a remaining capacity that is not -1 with 0 and cannot
fail. -/
def lt (gs : GameState) (a b : CharacterOnLootTile) : Bool :=
  if a.GetRemainingCapacity gs = b.GetRemainingCapacity gs then
    if a.pid ≠ b.pid then decide (a.pid < b.pid) else decide (a.cid < b.cid)
  else if a.GetRemainingCapacity gs = -1 then false
  else if b.GetRemainingCapacity gs = -1 then true
  else decide (a.GetRemainingCapacity gs < b.GetRemainingCapacity gs)

end CharacterOnLootTile

/-- Body of the first loop of `DivideLootAmongPlayers` for one character: count
it on its tile and append it to `collectors` when the tile holds loot. -/
def collectOnTile (capOf : Int → Bool → Bool → Int) (gs : GameState)
    (acc : StdMap Coord Int × List CharacterOnLootTile) (pid : PlayerID)
    (pc : Int × CharacterState) : StdMap Coord Int × List CharacterOnLootTile :=
  let isCrownHolder : Bool :=
    decide (pid = gs.crownHolder.player) && decide (pc.1 = gs.crownHolder.index)
  let tileChar : CharacterOnLootTile :=
    { pid := pid, cid := pc.1, carryCap := capOf gs.nHeight (decide (pc.1 = 0)) isCrownHolder }
  if gs.loot.contains pc.2.coord = true then
    ((match acc.1.find pc.2.coord with
      | some _ => acc.1.modify pc.2.coord (fun n => n + 1)
      | none => acc.1.insert pc.2.coord 1),
     acc.2 ++ [tileChar])
  else acc

/-- The first loop of `DivideLootAmongPlayers`: `playersOnLootTile` and
`collectors`. -/
def collectOnTiles (capOf : Int → Bool → Bool → Int) (gs : GameState) :
    StdMap Coord Int × List CharacterOnLootTile :=
  gs.players.entries.foldl
    (fun acc p => p.2.characters.entries.foldl (fun a pc => collectOnTile capOf gs a p.1 pc) acc)
    (StdMap.empty, [])

/-- Body of the second loop of `DivideLootAmongPlayers` for one collector;
`none` when an assertion fails. -/
def divideLootStep (acc : GameState × StdMap Coord Int) (t : CharacterOnLootTile) :
    Option (GameState × StdMap Coord Int) :=
  match acc.1.findCharacter t.pid t.cid with
  | none => none
  | some ch =>
    match acc.2.find ch.coord with
    | none => none
    | some n =>
      let gs1 : GameState :=
        if acc.1.loot.contains ch.coord = true then acc.1
        else { acc.1 with loot := acc.1.loot.insert ch.coord {} }
      let li : LootInfo := (gs1.loot.find ch.coord).getD {}
      if ¬ (n > 0) then none
      else
        let lootInfo : LootInfo := { li with nAmount := Int.tdiv li.nAmount n }
        let counts1 := acc.2.modify ch.coord (fun m => m - 1)
        if lootInfo.nAmount > 0 then
          match ch.CollectLoot lootInfo gs1.nHeight t.carryCap with
          | none => none
          | some r =>
            some ((gs1.setCharacter t.pid t.cid r.1).AddLoot ch.coord (r.2 - lootInfo.nAmount),
              counts1)
        else some (gs1, counts1)

/-- Method `DivideLootAmongPlayers`, with the carrying capacity function as a
parameter; `std::sort` is an insertion sort by `operator<`. -/
def GameState.DivideLootAmongPlayersWith (capOf : Int → Bool → Bool → Int) (gs : GameState) :
    Option GameState :=
  let r := collectOnTiles capOf gs
  let collectors :=
    List.insertionSort (fun a b => CharacterOnLootTile.lt gs b a = false) r.2
  (collectors.foldlM divideLootStep (gs, r.1)).map Prod.fst

/-- Method `DivideLootAmongPlayers`. -/
def GameState.DivideLootAmongPlayers (gs : GameState) : Option GameState :=
  gs.DivideLootAmongPlayersWith GetCarryingCapacity

/-! ## Moves (`struct Move`) -/

/-- A parsed move of one player (all fields of `struct Move`). -/
structure Move where
  player : PlayerID
  message : Option String := none
  address : Option String := none
  addressLock : Option String := none
  addr_token : Option String := none
  msg_vote : Option String := none
  msg_request : Option String := none
  msg_fee : Option String := none
  msg_comment : Option String := none
  color : Nat := 0xFF
  coinAmount : Int := -1
  waypoints : StdMap Int (List Coord) := StdMap.empty
  destruct : StdMap Int Unit := StdMap.empty

/-- The input of a step (`struct StepData`). -/
structure StepData where
  nTreasureAmount : Int
  newHash : Nat
  vMoves : List Move

namespace Move

/-- Method `IsSpawn`. -/
def IsSpawn (m : Move) : Bool := decide (m.color ≠ 0xFF)

/-- Method `IsValid`: a spawn move needs a new player, any other move an
existing one. -/
def IsValid (m : Move) (state : GameState) : Bool :=
  if m.IsSpawn = true then !(state.players.contains m.player)
  else state.players.contains m.player

/-- Method `ApplyWaypoints`. -/
def ApplyWaypoints (m : Move) (state : GameState) : GameState :=
  { state with
    players := state.players.modify m.player (fun pl =>
      { pl with
        characters := m.waypoints.entries.foldl
          (fun chars p =>
            chars.modify p.1 (fun ch =>
              let ch1 :=
                if ch.waypoints = [] ∨ p.2 = [] ∨ ch.waypoints.getLast? ≠ p.2.getLast? then
                  { ch with from_ := ch.coord }
                else ch
              { ch1 with waypoints := p.2 }))
          pl.characters }) }

/-- The updates of `ApplyCommon` on the state of a living player. -/
def commonUpdate (m : Move) (nHeight : Int) (pl : PlayerState) : PlayerState :=
  let p1 :=
    match m.message with
    | some s => { pl with message := s, message_block := nHeight }
    | none => pl
  let p2 := match m.address with
    | some s => { p1 with address := s }
    | none => p1
  let p3 := match m.addressLock with
    | some s => { p2 with addressLock := s }
    | none => p2
  let p4 := match m.addr_token with
    | some s => { p3 with addr_token := s }
    | none => p3
  let p5 := match m.msg_vote with
    | some s => { p4 with msg_vote := s, msg_vote_block := nHeight }
    | none => p4
  let p6 := match m.msg_request with
    | some s => { p5 with msg_request := s, msg_request_block := nHeight }
    | none => p5
  let p7 := match m.msg_fee with
    | some s => { p6 with msg_fee := s }
    | none => p6
  match m.msg_comment with
  | some s => { p7 with msg_comment := s }
  | none => p7

/-- Method `ApplyCommon`: address and message updates; the message of a player
who is no longer alive goes to `dead_players_chat`. -/
def ApplyCommon (m : Move) (state : GameState) : GameState :=
  match state.players.find m.player with
  | none =>
    match m.message with
    | some msg =>
      { state with
        dead_players_chat := (state.dead_players_chat.insert m.player {}).modify m.player
          (fun pl => { pl with message := msg, message_block := state.nHeight }) }
    | none => state
  | some _ =>
    { state with players := state.players.modify m.player (m.commonUpdate state.nHeight) }

end Move

/-- Method `CharacterState::Spawn`: a random tile of the team's corner strip;
`none` when it throws on an incorrect colour. -/
def CharacterState.Spawn (env : Env) (ch : CharacterState) (color : Int)
    (rnd : RandomGenerator) : Option (CharacterState × RandomGenerator) :=
  let draw := rnd.GetIntRnd env (2 * SPAWN_AREA_LENGTH - 1)
  let pos := draw.1
  let x := if pos < SPAWN_AREA_LENGTH then pos else 0
  let y := if pos < SPAWN_AREA_LENGTH then 0 else pos - SPAWN_AREA_LENGTH
  let place : Option Coord :=
    if color = 0 then some ⟨x, y⟩
    else if color = 1 then some ⟨MAP_WIDTH - 1 - x, y⟩
    else if color = 2 then some ⟨MAP_WIDTH - 1 - x, MAP_HEIGHT - 1 - y⟩
    else if color = 3 then some ⟨x, MAP_HEIGHT - 1 - y⟩
    else none
  match place with
  | none => none
  | some coord =>
    let dir : Nat :=
      if coord.x = 0 then
        if coord.y = 0 then 3 else if coord.y = MAP_HEIGHT - 1 then 9 else 6
      else if coord.x = MAP_WIDTH - 1 then
        if coord.y = 0 then 1 else if coord.y = MAP_HEIGHT - 1 then 7 else 4
      else if coord.y = 0 then 2
      else if coord.y = MAP_HEIGHT - 1 then 8
      else ch.dir
    some (({ ch with coord := coord, dir := dir }).StopMoving, draw.2)

namespace PlayerState

/-- Method `SpawnCharacter`: `characters[next_character_index++].Spawn(color, rnd)`. -/
def SpawnCharacter (env : Env) (pl : PlayerState) (rnd : RandomGenerator) :
    Option (PlayerState × RandomGenerator) :=
  match ((pl.characters.find pl.next_character_index).getD {}).Spawn env pl.color rnd with
  | none => none
  | some r =>
    some ({ pl with characters := pl.characters.set pl.next_character_index r.1
                    next_character_index := pl.next_character_index + 1 }, r.2)

/-- Method `CanSpawnCharacter`. -/
def CanSpawnCharacter (pl : PlayerState) : Bool :=
  decide (pl.characters.entries.length < 20) && decide (pl.next_character_index < 1000)

end PlayerState

/-- Method `GetNumInitialCharacters`. -/
def GameState.GetNumInitialCharacters (env : Env) (gs : GameState) : Nat :=
  if env.ForkInEffect Fork.FORK_POISON gs.nHeight = true then 1 else 3

/-- Method `Move::ApplySpawn`; `none` when its assertion fails or `Spawn`
throws. -/
def Move.ApplySpawn (env : Env) (m : Move) (state : GameState) (rnd : RandomGenerator) :
    Option (GameState × RandomGenerator) :=
  let pl0 : PlayerState := (state.players.find m.player).getD {}
  if pl0.next_character_index = 0 then
    if ¬ (pl0.coinAmount = -1 ∧ m.coinAmount ≥ 0) then none
    else
      match (List.range (state.GetNumInitialCharacters env)).foldlM
          (fun (acc : PlayerState × RandomGenerator) _ => acc.1.SpawnCharacter env acc.2)
          ({ pl0 with color := m.color, coinAmount := m.coinAmount }, rnd) with
      | none => none
      | some r => some ({ state with players := state.players.set m.player r.1 }, r.2)
  else some ({ state with players := state.players.insert m.player pl0 }, rnd)

/-! ## The kills of a step -/

/-- Loop state of `KillSpawnArea` inside one player. -/
structure SpawnKillAcc where
  gs : GameState
  step : StepResult
  toErase : List Int

/-- Body of the inner loop of `KillSpawnArea` for character `i` of `pid`. -/
def killSpawnCharacter (ForkInEffect : Fork → Int → Bool) (pid : PlayerID)
    (acc : SpawnKillAcc) (i : Int) : Option SpawnKillAcc :=
  match acc.gs.findCharacter pid i with
  | none => none
  | some ch =>
    if IsInSpawnArea ch.coord.x ch.coord.y = false then
      some { acc with gs := acc.gs.setCharacter pid i { ch with stay_in_spawn_area := 0 } }
    else if ch.ai_state2 &&& AI_STATE2_ESSENTIAL ≠ 0 then some acc
    else
      let gs1 := acc.gs.setCharacter pid i
        { ch with stay_in_spawn_area := (ch.stay_in_spawn_area + 1) % 256 }
      if ch.stay_in_spawn_area < MAX_STAY_IN_SPAWN_AREA then some { acc with gs := gs1 }
      else if ForkInEffect Fork.FORK_CARRYINGCAP gs1.nHeight = true
          ∧ ForkInEffect Fork.FORK_LESSHEARTS gs1.nHeight = false then
        some { acc with gs := gs1 }
      else
        match gs1.HandleKilledLoot ForkInEffect pid i false true acc.step with
        | none => none
        | some r =>
          some
            { gs := r.1
              step := if i = 0 then r.2.KillPlayer pid { reason := Reason.KILLED_SPAWN } else r.2
              toErase := acc.toErase ++ [i] }

/-- Body of the outer loop of `KillSpawnArea` for player `pid`. -/
def killSpawnPlayer (ForkInEffect : Fork → Int → Bool) (acc : GameState × StepResult)
    (pid : PlayerID) : Option (GameState × StepResult) :=
  match acc.1.players.find pid with
  | none => none
  | some pl =>
    match pl.characters.keys.foldlM (killSpawnCharacter ForkInEffect pid)
        { gs := acc.1, step := acc.2, toErase := [] } with
    | none => none
    | some r =>
      some
        ({ r.gs with
            players := r.gs.players.modify pid
              (fun p => { p with
                characters := r.toErase.foldl (fun m i => m.erase i) p.characters }) },
          r.step)

namespace GameState

/-- Method `KillSpawnArea`: kill characters that stay too long in the spawn
area. -/
def KillSpawnArea (ForkInEffect : Fork → Int → Bool) (gs : GameState) (step : StepResult) :
    Option (GameState × StepResult) :=
  gs.players.keys.foldlM (killSpawnPlayer ForkInEffect) (gs, step)

/-- Method `DecrementLife`; `none` when the assertion `remainingLife > 0`
fails. -/
def DecrementLife (gs : GameState) (step : StepResult) : Option (GameState × StepResult) :=
  gs.players.keys.foldlM
    (fun (acc : GameState × StepResult) pid =>
      match acc.1.players.find pid with
      | none => none
      | some pl =>
        if pl.remainingLife = -1 then some acc
        else if ¬ (pl.remainingLife > 0) then none
        else
          some
            ({ acc.1 with
                players := acc.1.players.modify pid
                  (fun p => { p with remainingLife := p.remainingLife - 1 }) },
              if pl.remainingLife - 1 = 0 then
                acc.2.KillPlayer pid { reason := Reason.KILLED_POISON }
              else acc.2))
    (gs, step)

/-- Method `FinaliseKills`: handle the loot of all characters of the killed
players and erase the players. -/
def FinaliseKills (ForkInEffect : Fork → Int → Bool) (gs : GameState) (step : StepResult) :
    Option (GameState × StepResult) :=
  match step.killedPlayers.keys.foldlM
      (fun (acc : GameState × StepResult) victim =>
        match acc.1.players.find victim, rawFind victim step.killedBy with
        | some victimState, some killer =>
          victimState.characters.keys.foldlM
            (fun (a : GameState × StepResult) i =>
              a.1.HandleKilledLoot ForkInEffect victim i killer.HasDeathTax false a.2)
            acc
        | _, _ => none)
      (gs, step) with
  | none => none
  | some r =>
    some
      ({ r.1 with players := step.killedPlayers.keys.foldl (fun m v => m.erase v) r.1.players },
        r.2)

/-- Method `CheckForDisaster`: the playground returns `false` before anything
else. -/
def CheckForDisaster (_gs : GameState) (_rnd : RandomGenerator) : Bool := false

/-- Method `UpdateCrownState`: the new state and `respawn_crown`. -/
def UpdateCrownState (gs : GameState) : GameState × Bool :=
  if gs.crownHolder.player.name = "" then (gs, false)
  else
    match gs.players.find gs.crownHolder.player with
    | none => ({ gs with crownHolder := {} }, false)
    | some pl =>
      match pl.characters.find gs.crownHolder.index with
      | none => ({ gs with crownHolder := {} }, false)
      | some ch =>
        if IsInSpawnArea ch.coord.x ch.coord.y = true then
          ({ gs with crownHolder := {} }, true)
        else ({ gs with crownPos := ch.coord }, false)

/-- Method `CrownBonus`. -/
def CrownBonus (gs : GameState) (nAmount : Int) : Option GameState :=
  if gs.crownHolder.player.name ≠ "" then
    let pl : PlayerState := (gs.players.find gs.crownHolder.player).getD {}
    let ch : CharacterState := (pl.characters.find gs.crownHolder.index).getD {}
    match ch.CollectLoot (LootInfo.ofAmount nAmount gs.nHeight) gs.nHeight
        (GetCarryingCapacity gs.nHeight (decide (gs.crownHolder.index = 0)) true) with
    | none => none
    | some r =>
      some
        { gs with
          players := gs.players.set gs.crownHolder.player
            { pl with characters := pl.characters.set gs.crownHolder.index r.1 }
          gameFund := gs.gameFund + r.2 }
  else some { gs with gameFund := gs.gameFund + nAmount }

end GameState

/-! ## Passes that are not modelled in detail -/

/-- The passes of `PerformStep` that see no move and whose thousands of lines
are not reproduced here: functions of the state, the scratch variables and,
for the two per-character movement methods, the generator `rnd0`; `none`
stands for a run that stops on a failed assertion. -/
structure Passes (W : Type) where
  Pass0_CacheDataForGame : GameState → Cache W → Option (GameState × Cache W)
  Pass1_DAO : GameState → Cache W → Option (GameState × Cache W)
  Pass2_Melee : GameState → Cache W → Option (GameState × Cache W)
  MoveTowardsWaypointX_Merchants :
    CharacterState → RandomGenerator → Cache W → Int → Int →
      Option (CharacterState × RandomGenerator × Cache W)
  MoveTowardsWaypointX_Pathfinder :
    CharacterState → RandomGenerator → Cache W → Int → Int →
      Option (CharacterState × RandomGenerator × Cache W)
  Pass3_PaymentAndHitscan : GameState → Cache W → Option (GameState × Cache W)
  Pass4_Refund : GameState → Cache W → Option (GameState × Cache W)

/-- Body of the loop `For all alive players perform path-finding` of
`PerformStep` for one character. -/
def pathfindCharacter {W : Type} (passes : Passes W)
    (acc : GameState × RandomGenerator × Cache W) (id : PlayerID × Int) :
    Option (GameState × RandomGenerator × Cache W) :=
  match acc.1.players.find id.1 with
  | none => none
  | some pl =>
    match pl.characters.find id.2 with
    | none => none
    | some ch =>
      let ch1 :=
        if ch.aux_spawn_block = 0 then
          { ch with aux_spawn_block := acc.1.nHeight - 1, rpg_rations := 10 }
        else ch
      match passes.MoveTowardsWaypointX_Merchants ch1 acc.2.1 acc.2.2 pl.color acc.1.nHeight with
      | none => none
      | some r1 =>
        match passes.MoveTowardsWaypointX_Pathfinder r1.1 r1.2.1 r1.2.2 pl.color
            acc.1.nHeight with
        | none => none
        | some r2 => some (acc.1.setCharacter id.1 id.2 r2.1, r2.2.1, r2.2.2)

/-- The identifiers of all characters in the order of the nested loops. -/
def GameState.characterIds (gs : GameState) : List (PlayerID × Int) :=
  gs.players.entries.flatMap (fun p => p.2.characters.keys.map (fun i => (p.1, i)))

/-- The path-finding loop of `PerformStep`. -/
def pathfindAll {W : Type} (passes : Passes W) (gs : GameState) (rnd0 : RandomGenerator)
    (cache : Cache W) : Option (GameState × RandomGenerator × Cache W) :=
  gs.characterIds.foldlM (pathfindCharacter passes) (gs, rnd0, cache)

/-- Body of the banking loop of `PerformStep` for one character. -/
def bankCharacter (acc : GameState × StepResult) (id : PlayerID × Int) :
    Option (GameState × StepResult) :=
  match acc.1.players.find id.1 with
  | none => none
  | some pl =>
    match pl.characters.find id.2 with
    | none => none
    | some ch =>
      if ch.ai_state2 &&& AI_STATE2_ESSENTIAL ≠ 0 then some acc
      else if ch.loot.nAmount > 0 ∧ IsInSpawnArea ch.coord.x ch.coord.y = true then
        let nTax := Int.tdiv ch.loot.nAmount 10
        match CharacterID.make id.1 id.2 with
        | none => none
        | some chid =>
          some
            (acc.1.setCharacter id.1 id.2 { ch with loot := {} },
              { acc.2 with
                nTaxAmount := acc.2.nTaxAmount + nTax
                bounties := acc.2.bounties ++
                  [⟨chid, { ch.loot with nAmount := ch.loot.nAmount - nTax }, pl.address⟩] })
      else some acc

/-- The banking loop of `PerformStep`. -/
def bankAll (gs : GameState) (step : StepResult) : Option (GameState × StepResult) :=
  gs.characterIds.foldlM bankCharacter (gs, step)

/-- Method `RandomGenerator::GetIntRnd(a, b)`; `none` when an assertion
fails. -/
def RandomGenerator.GetIntRndRange (env : Env) (r : RandomGenerator) (a b : Int) :
    Option (Int × RandomGenerator) :=
  if ¬ (a ≤ b) then none
  else
    let draw := r.GetIntRnd env (b - a + 1)
    if draw.1 + a ≥ a ∧ draw.1 + a ≤ b then some (draw.1 + a, draw.2) else none

/-- Method `ApplyDisaster` (never reached: `CheckForDisaster` returns
`false`). -/
def GameState.ApplyDisaster (env : Env) (gs : GameState) (rnd : RandomGenerator) :
    Option (GameState × RandomGenerator) :=
  match gs.players.keys.foldlM
      (fun (acc : GameState × RandomGenerator) pid =>
        match acc.1.players.find pid with
        | none => none
        | some pl =>
          if pl.remainingLife ≠ -1 then none
          else
            match acc.2.GetIntRndRange env 1 50 with
            | none => none
            | some d =>
              some
                ({ acc.1 with
                    players := acc.1.players.modify pid
                      (fun p => { p with remainingLife := d.1 }) },
                  d.2))
      (gs, rnd) with
  | none => none
  | some r =>
    some
      ({ r.1 with
          hearts :=
            if env.ForkInEffect Fork.FORK_LESSHEARTS r.1.nHeight = true then StdMap.empty
            else r.1.hearts
          nDisasterHeight := r.1.nHeight },
        r.2)

/-- Method `CollectedBounty::UpdateAddress`. -/
def CollectedBounty.UpdateAddress (b : CollectedBounty) (state : GameState) : CollectedBounty :=
  match state.players.find b.character.player with
  | none => b
  | some pl => { b with address := pl.address }

/-- The loop of `PerformStep` that sets the colours of dead players from the
input state; `none` when its assertion fails. -/
def setDeadColors (inState outState : GameState) : Option GameState :=
  match outState.dead_players_chat.keys.foldlM
      (fun (d : StdMap PlayerID PlayerState) pid =>
        match inState.players.find pid with
        | none => none
        | some pl => some (d.modify pid (fun p => { p with color := pl.color })))
      outState.dead_players_chat with
  | none => none
  | some d => some { outState with dead_players_chat := d }

/-- Function `IsWalkable` of `gamemap.h`, on the obstacle table of `env`. -/
def IsWalkable (env : Env) (x y : Int) : Bool := decide (env.ObstacleMap y x = 0)

def POIINDEX_NORMAL_FIRST : Nat := 9

def POIINDEX_NORMAL_LAST : Nat := 93

/-- The heart drop of `PerformStep` (`if (Rpg_hearts_spawn) ...`). -/
def dropHeart {W : Type} (env : Env) (cache : Cache W) (gs : GameState)
    (rnd : RandomGenerator) : GameState × RandomGenerator :=
  if cache.Rpg_hearts_spawn = true then
    let dx := rnd.GetIntRnd env MAP_WIDTH
    let dy := dx.2.GetIntRnd env MAP_HEIGHT
    let is_near_poi : Bool :=
      IsInsideMap dx.1 dy.1 && IsWalkable env dx.1 dy.1
        && ((List.range (POIINDEX_NORMAL_LAST + 1 - POIINDEX_NORMAL_FIRST)).any
            (fun j =>
              decide (env.Distance_To_POI ((POIINDEX_NORMAL_FIRST + j : Nat) : Int) dy.1 dx.1 ≤ 12)
                && decide (env.Distance_To_POI ((POIINDEX_NORMAL_FIRST + j : Nat) : Int) dy.1 dx.1
                    > 0)))
    (if is_near_poi = true then { gs with hearts := gs.hearts.insert ⟨dx.1, dy.1⟩ () } else gs,
      dy.2)
  else (gs, rnd)

/-- The first loop of `CollectHearts`: for every heart tile the players (by
name, one entry per character standing there) that can spawn a character. -/
def playersOnHeartTiles (gs : GameState) : StdMap Coord (List PlayerID) :=
  gs.players.entries.foldl
    (fun acc p =>
      if p.2.CanSpawnCharacter = false then acc
      else
        p.2.characters.entries.foldl
          (fun a pc =>
            if gs.hearts.contains pc.2.coord = true then
              (a.insert pc.2.coord []).modify pc.2.coord (fun v => v ++ [p.1])
            else a)
          acc)
    StdMap.empty

/-- The search loop `for (;;)` of `CollectHearts` on one heart tile: the index
chosen among `v` (or `none` for -1), the remaining vector and the generator;
`fuel` bounds the rounds by the length of the vector. -/
def pickHeartCollector (env : Env) (gs : GameState) :
    Nat → List PlayerID → RandomGenerator → Option Nat × List PlayerID × RandomGenerator
  | 0, v, rnd => (none, v, rnd)
  | fuel + 1, v, rnd =>
    if v.length = 0 then (none, v, rnd)
    else
      let draw : Int × RandomGenerator :=
        if v.length = 1 then (0, rnd) else rnd.GetIntRnd env (v.length : Int)
      let i := draw.1.toNat
      match v.get? i with
      | none => (none, v, draw.2)
      | some pid =>
        if ((gs.players.find pid).getD {}).CanSpawnCharacter = true then (some i, v, draw.2)
        else pickHeartCollector env gs fuel (v.eraseIdx i) draw.2

/-- Method `CollectHearts`. -/
def GameState.CollectHearts (env : Env) (gs : GameState) (rnd : RandomGenerator) :
    Option (GameState × RandomGenerator) :=
  (playersOnHeartTiles gs).entries.foldlM
    (fun (acc : GameState × RandomGenerator) e =>
      let r := pickHeartCollector env acc.1 (e.2.length + 1) e.2 acc.2
      match r.1 with
      | none => some (acc.1, r.2.2)
      | some i =>
        match r.2.1.get? i with
        | none => none
        | some pid =>
          match ((acc.1.players.find pid).getD {}).SpawnCharacter env r.2.2 with
          | none => none
          | some sp =>
            some
              ({ acc.1 with
                  players := acc.1.players.set pid sp.1
                  hearts := acc.1.hearts.erase e.1 },
                sp.2))
    (gs, rnd)

/-- Method `CollectCrown`; `none` when its assertion fails or the constructor
of `CharacterID` throws. -/
def GameState.CollectCrown (env : Env) (gs : GameState) (rnd : RandomGenerator)
    (respawn_crown : Bool) : Option (GameState × RandomGenerator) :=
  if gs.crownHolder.player.name ≠ "" then
    if respawn_crown = true then none else some (gs, rnd)
  else
    let r : GameState × RandomGenerator :=
      if respawn_crown = true then
        let draw := rnd.GetIntRnd env NUM_CROWN_LOCATIONS
        ({ gs with crownPos := ⟨env.CrownSpawn (2 * draw.1), env.CrownSpawn (2 * draw.1 + 1)⟩ },
          draw.2)
      else (gs, rnd)
    match (r.1.characterIds.filter
        (fun id => decide ((r.1.findCharacter id.1 id.2).map (fun c => c.coord)
          = some r.1.crownPos))).mapM (fun id => CharacterID.make id.1 id.2) with
    | none => none
    | some charactersOnCrownTile =>
      if charactersOnCrownTile.length = 0 then some r
      else
        let draw : Int × RandomGenerator :=
          if charactersOnCrownTile.length = 1 then (0, r.2)
          else r.2.GetIntRnd env (charactersOnCrownTile.length : Int)
        match charactersOnCrownTile.get? draw.1.toNat with
        | none => none
        | some chid => some ({ r.1 with crownHolder := chid }, draw.2)

/-! ## `PerformStep` -/

/-- One destruct order of the loop `Apply attacks` of `PerformStep`: the name
is cached while `Huntermsg_idx_destruct < HUNTERMSG_CACHE_MAX - 1`. -/
def pushDestruct (cached : List String) (name : String) : List String :=
  if cached.length < HUNTERMSG_CACHE_MAX - 1 then cached ++ [name] else cached

/-- Body of the loop `Apply attacks` of `PerformStep` for one move; `none`
when the player of a move with destruct orders is not in `inState` or the
constructor of `CharacterID` throws. -/
def destructOrdersOfMove (inState : GameState) (cached : List String) (m : Move) :
    Option (List String) :=
  if m.destruct.entries = [] then some cached
  else
    match inState.players.find m.player with
    | none => none
    | some pl =>
      m.destruct.keys.foldlM
        (fun acc i =>
          if pl.characters.contains i = false then some acc
          else if i < 0 then none
          else some (pushDestruct acc (CharacterID.ToString m.player i)))
        cached

/-- The loop `Apply attacks` of `PerformStep`: the content of
`Huntermsg_destruct`, which `Pass0_CacheDataForGame` has emptied before. -/
def destructOrders (inState : GameState) (moves : List Move) : Option (List String) :=
  moves.foldlM (destructOrdersOfMove inState) []

/-- The loop of `PerformStep` that applies the waypoints of the non-spawn
moves. -/
def applyWaypointsAll (moves : List Move) (state : GameState) : GameState :=
  moves.foldl (fun s m => if m.IsSpawn = true then s else m.ApplyWaypoints s) state

/-- The loop `Spawn new players` of `PerformStep`. -/
def applySpawnAll (env : Env) (moves : List Move) (state : GameState) (rnd : RandomGenerator) :
    Option (GameState × RandomGenerator) :=
  moves.foldlM
    (fun (acc : GameState × RandomGenerator) m =>
      if m.IsSpawn = true then m.ApplySpawn env acc.1 acc.2 else some acc)
    (state, rnd)

/-- The loop `Apply address & message updates` of `PerformStep`. -/
def applyCommonAll (moves : List Move) (state : GameState) : GameState :=
  moves.foldl (fun s m => m.ApplyCommon s) state

/-- The end of `PerformStep`, after the assertion on the treasure: loot
division, crown bonus, heart drop, and collection of hearts and crown. -/
def stepTail {W : Type} (env : Env) (cache : Cache W) (nCrownBonus : Int)
    (respawn_crown : Bool) (gs : GameState) (rnd : RandomGenerator) : Option GameState :=
  gs.DivideLootAmongPlayers.bind fun l1 =>
  (l1.CrownBonus nCrownBonus).bind fun l2 =>
  ((dropHeart env cache l2 rnd).1.CollectHearts env (dropHeart env cache l2 rnd).2).bind fun h2 =>
  (h2.1.CollectCrown env h2.2 respawn_crown).bind fun h3 =>
  some h3.1

/-- The part of `PerformStep` that runs only for a non-zero block hash: the
disaster check, spawns, common updates, address updates of the bounties,
colours of the dead players, treasure drop with its assertion, and
`stepTail`. -/
def stepRandomPart {W : Type} (env : Env) (cache : Cache W) (inState : GameState)
    (stepData : StepData) (respawn_crown : Bool) (gs : GameState) (step : StepResult) :
    Option (GameState × StepResult) :=
  (if gs.CheckForDisaster (RandomGenerator.seed env gs.hashBlock) = true then
      (gs.ApplyDisaster env (RandomGenerator.seed env gs.hashBlock)).bind
        (fun r => if r.1.nHeight = r.1.nDisasterHeight then some r else none)
    else some (gs, RandomGenerator.seed env gs.hashBlock)).bind fun d1 =>
  (applySpawnAll env stepData.vMoves d1.1 d1.2).bind fun sp =>
  (setDeadColors inState (applyCommonAll stepData.vMoves sp.1)).bind fun c2 =>
  if (dropTreasure env stepData.nTreasureAmount c2 sp.2).2.2
      + crownBonusOf stepData.nTreasureAmount ≠ stepData.nTreasureAmount then none
  else
    (stepTail env cache (crownBonusOf stepData.nTreasureAmount) respawn_crown
      (dropTreasure env stepData.nTreasureAmount c2 sp.2).1
      (dropTreasure env stepData.nTreasureAmount c2 sp.2).2.1).bind fun gs1 =>
    some (gs1,
      { step with
        bounties := step.bounties.map
          (fun b => b.UpdateAddress (applyCommonAll stepData.vMoves sp.1)) })

/-- The part of `PerformStep` after the two early `return false`, up to one of
its two `return true`: the new state and the step result, or `none` when an
assertion fails on the way. -/
def stepBody {W : Type} (env : Env) (passes : Passes W) (cache0 : Cache W)
    (inState : GameState) (stepData : StepData) (outState : GameState)
    (stepResult : StepResult) : Option (GameState × StepResult) :=
  (passes.Pass0_CacheDataForGame outState cache0).bind fun p0 =>
  (passes.Pass1_DAO p0.1 p0.2).bind fun p1 =>
  (destructOrders inState stepData.vMoves).bind fun destruct =>
  (p1.1.KillSpawnArea env.ForkInEffect stepResult).bind fun k1 =>
  (k1.1.KillRangedAttacks k1.2 p1.2 destruct).bind fun k2 =>
  (k2.1.DecrementLife k2.2.1).bind fun k3 =>
  (k3.1.FinaliseKills env.ForkInEffect k3.2).bind fun k4 =>
  (passes.Pass2_Melee (applyWaypointsAll stepData.vMoves k4.1) k2.2.2).bind fun p2 =>
  (pathfindAll passes p2.1 (RandomGenerator.seed env inState.hashBlock) p2.2).bind fun a1 =>
  (passes.Pass3_PaymentAndHitscan a1.1 a1.2.2).bind fun p3 =>
  (passes.Pass4_Refund p3.1 p3.2).bind fun p4 =>
  (bankAll p4.1.UpdateCrownState.1 k4.2).bind fun b1 =>
  if b1.1.hashBlock = 0 then some b1
  else stepRandomPart env p4.2 inState stepData p4.1.UpdateCrownState.2 b1.1 b1.2

/-- Function `PerformStep`.  The result is the returned flag with the values
of the reference arguments `outState` and `stepResult` after the call; `none`
when the step stops on a failed assertion. -/
def PerformStep {W : Type} (env : Env) (passes : Passes W) (cache0 : Cache W)
    (inState : GameState) (stepData : StepData) (outState : GameState)
    (stepResult : StepResult) : Option (Bool × GameState × StepResult) :=
  if stepData.vMoves.all (fun m => m.IsValid inState) = false then
    some (false, outState, stepResult)
  else
    let outState1 : GameState :=
      { inState with
        nHeight := inState.nHeight + 1
        nDisasterHeight := inState.nDisasterHeight
        hashBlock := stepData.newHash
        dead_players_chat := StdMap.empty }
    if outState1.nHeight > 100000 then some (false, outState1, {})
    else (stepBody env passes cache0 inState stepData outState1 {}).map (fun r => (true, r.1, r.2))

/-! ## Straight-line movement: `MoveTowardsWaypoint` -/

/-- Function `distLInf`. -/
def distLInf (c1 c2 : Coord) : Int := max |c1.x - c2.x| |c1.y - c2.y|

/-- Function `GetDirection`: the direction from `c1` to `c2` as a number
from 1 to 9 (as on the numeric keypad). -/
def GetDirection (c1 c2 : Coord) : Nat :=
  let dx := c2.x - c1.x
  let dy := c2.y - c1.y
  let dx := if dx < -1 then -1 else if dx > 1 then 1 else dx
  let dy := if dy < -1 then -1 else if dy > 1 then 1 else dy
  toUChar ((1 - dy) * 3 + dx + 2)

def AI_STATE_NORMAL_STEP : Nat := 128

/-- Local function `Helper::CoordStep`. -/
def CoordStep (x target : Int) : Int :=
  if x < target then x + 1
  else if x > target then x - 1
  else x

/-- Local function `Helper::CoordUpd`: the new `v` coordinate from the slope
of the line applied to the `u` coordinate; `none` for a division by zero. -/
def CoordUpd (u v du dv from_u from_v : Int) : Option Int :=
  if dv ≠ 0 then
    let tmp := (u - from_u) * dv
    if du = 0 then none
    else
      let res := Int.tdiv (|tmp| + Int.tdiv |du| 2) du
      let res := if tmp < 0 then -res else res
      some (res + from_v)
  else some v

/-- The loop `while (!waypoints.empty() && coord == waypoints.back())
waypoints.pop_back()`. -/
def popBackWhile (coord : Coord) (waypoints : List Coord) : List Coord :=
  (waypoints.reverse.dropWhile (fun w => decide (coord = w))).reverse

namespace CharacterState

/-- The tile `new_c` that the straight-line stepper computes for the target
`waypoints.back()`. -/
def nextTile (ch : CharacterState) (target : Coord) : Option Coord :=
  let dx := target.x - ch.from_.x
  let dy := target.y - ch.from_.y
  if |dx| > |dy| then
    (CoordUpd (CoordStep ch.coord.x target.x) ch.coord.y dx dy ch.from_.x ch.from_.y).map
      (fun y => ⟨CoordStep ch.coord.x target.x, y⟩)
  else
    (CoordUpd (CoordStep ch.coord.y target.y) ch.coord.x dy dx ch.from_.y ch.from_.x).map
      (fun x => ⟨x, CoordStep ch.coord.y target.y⟩)

/-- The straight-line stepper from `Coord new_c; Coord target =
waypoints.back();` to the end of `MoveTowardsWaypoint`; the extended
movement function ends with the same code and also sets
`AI_STATE_NORMAL_STEP` (`normalStep`).  The result is `none` when the
waypoint list is empty (`back()` of an empty vector). -/
def walkLine (env : Env) (normalStep : Bool) (ch : CharacterState) : Option CharacterState :=
  match ch.waypoints.getLast? with
  | none => none
  | some target =>
    (ch.nextTile target).bind fun new_c =>
      if IsWalkable env new_c.x new_c.y = false then some ch.StopMoving
      else
        let new_dir := GetDirection ch.coord new_c
        let ch1 : CharacterState :=
          if new_dir ≠ 5 then
            { ch with
              dir := new_dir
              ai_state := if normalStep = true then ch.ai_state ||| AI_STATE_NORMAL_STEP
                          else ch.ai_state }
          else ch
        let ch2 : CharacterState := { ch1 with coord := new_c }
        if new_c = target then
          some { ch2 with from_ := new_c, waypoints := popBackWhile new_c ch2.waypoints.dropLast }
        else some ch2

/-- The part of `MoveTowardsWaypoint` after the test for an empty waypoint
list, which is also the end of `MoveTowardsWaypointX_Pathfinder` (reached
there with a non-empty waypoint list): waypoints on which the character
stands are dropped, then the straight-line stepper runs. -/
def moveAlongLine (env : Env) (normalStep : Bool) (ch : CharacterState) :
    Option CharacterState :=
  match ch.waypoints.getLast? with
  | none => none
  | some back =>
    if ch.coord = back then
      let wp := popBackWhile ch.coord ch.waypoints.dropLast
      if wp = [] then some { ch with from_ := ch.coord, waypoints := [] }
      else walkLine env normalStep { ch with from_ := ch.coord, waypoints := wp }
    else walkLine env normalStep ch

/-- Method `MoveTowardsWaypoint`: simple straight-line motion. -/
def MoveTowardsWaypoint (env : Env) (ch : CharacterState) : Option CharacterState :=
  if ch.waypoints = [] then some { ch with from_ := ch.coord }
  else moveAlongLine env false ch

/-- Method `TimeToDestination`; `altWP = none` is the null pointer, for which
the stored waypoints are taken, whose last entry is the next waypoint. -/
def TimeToDestination (ch : CharacterState) (altWP : Option (List Coord)) : Int :=
  let wp := altWP.getD ch.waypoints
  match wp with
  | [] => 0
  | first :: rest =>
    let res := (rest.foldl (fun (acc : Int × Coord) w => (acc.1 + distLInf acc.2 w, w))
      (0, first)).1
    if altWP.isNone = true then res + distLInf ch.coord ((first :: rest).getLast?.getD first)
    else res + distLInf ch.coord first

end CharacterState

/-- Repeated application of `MoveTowardsWaypoint`. -/
def moveTimes (env : Env) : Nat → CharacterState → Option CharacterState
  | 0, ch => some ch
  | n + 1, ch => (ch.MoveTowardsWaypoint env).bind (moveTimes env n)

/-! ## JSON values and the parsing of moves -/

def MAX_WAYPOINTS : Nat := 100

/-- A `json_spirit::Value` with its seven types; an object is the vector of
its name-value pairs.  `int i` is a value of `int_type` whose `get_int()` is
`i`; the number in a value of `real_type` is never read. -/
inductive Value where
  | obj (o : List (String × Value))
  | array (a : List Value)
  | str (s : String)
  | bool (b : Bool)
  | int (i : Int)
  | real
  | null

/-- Function `ExtractField`: the value of the first pair named `field`, and
the object without that pair. -/
def ExtractField : List (String × Value) → String → Option (Value × List (String × Value))
  | [], _ => none
  | p :: t, field =>
    if p.1 = field then some (p.2, t)
    else (ExtractField t field).map (fun r => (r.1, p :: r.2))

/-- The point given by `arr[2 * i]` and `arr[2 * i + 1]` when both are of
`int_type`. -/
def pairAt (arr : List Value) (i : Nat) : Option Coord :=
  match arr[2 * i]?, arr[2 * i + 1]? with
  | some (Value.int x), some (Value.int y) => some ⟨x, y⟩
  | _, _ => none

/-- Body of the loop of `ParseWaypoints` for index `i`: `none` is
`return false`. -/
def parseWaypointAt (arr : List Value) (n : Nat) (result : List Coord) (i : Nat) :
    Option (List Coord) :=
  match pairAt arr i with
  | none => none
  | some c =>
    if IsInsideMap c.x c.y = false then none
    else
      let result1 := result.set (n - 1 - i) c
      if i ≠ 0 ∧ result1[n - 1 - i]? = result1[n - i]? then none
      else some result1

/-- Function `ParseWaypoints`: `none` is `return false`, otherwise the object
without its `wp` field, `result`, and `bWaypoints`. -/
def ParseWaypoints (obj : List (String × Value)) :
    Option (List (String × Value) × List Coord × Bool) :=
  match ExtractField obj "wp" with
  | none => some (obj, [], false)
  | some (Value.array arr, obj1) =>
    if arr.length % 2 ≠ 0 then none
    else if arr.length / 2 > MAX_WAYPOINTS then none
    else
      ((List.range (arr.length / 2)).foldlM (parseWaypointAt arr (arr.length / 2))
        (List.replicate (arr.length / 2) (⟨0, 0⟩ : Coord))).map
        (fun result => (obj1, result, true))
  | some (_, _) => none

/-- Function `ParseDestruct`: `none` is `return false`, otherwise the object
without its `destruct` field, and `result`. -/
def ParseDestruct (obj : List (String × Value)) : Option (List (String × Value) × Bool) :=
  match ExtractField obj "destruct" with
  | none => some (obj, false)
  | some (Value.bool b, obj1) => some (obj1, b)
  | some (_, _) => none

/-- The functions of other files that `Move::Parse` calls. -/
structure ParseEnv where
  IsValidPlayerName : PlayerID → Bool
  IsValidBitcoinAddress : String → Bool
  read_string : String → Option Value

/-- The C function `isspace` in the default locale: space, tab, line feed,
vertical tab, form feed and carriage return. -/
def isspace (c : Char) : Bool :=
  c = ' ' || c = Char.ofNat 9 || c = Char.ofNat 10 || c = Char.ofNat 11 || c = Char.ofNat 12
    || c = Char.ofNat 13

/-- The value to 32 bits, as a signed `int`. -/
def toInt32 (v : Int) : Int := (v + 2 ^ 31) % 2 ^ 32 - 2 ^ 31

/-- The function `atoi` on the characters of a `std::string` up to its first
NUL: optional white space, an optional sign, and the longest run of decimal
digits.  A number outside the range of `int`, for which the C standard leaves
the result open, is cut to 32 bits. -/
def atoi (s : String) : Int :=
  let cs := (s.data.takeWhile (fun c => c ≠ Char.ofNat 0)).dropWhile isspace
  let body : Bool × List Char :=
    match cs with
    | '-' :: t => (true, t)
    | '+' :: t => (false, t)
    | _ => (false, cs)
  let n : Nat := (body.2.takeWhile Char.isDigit).foldl (fun acc c => 10 * acc + (c.toNat - 48)) 0
  toInt32 (if body.1 = true then -(n : Int) else (n : Int))

/-- One of the blocks `if (ExtractField(obj, field, v)) ...` of `Move::Parse`
for a text field: `none` is `return false`, otherwise the text if the field is
present, and the object without the field. -/
def parseTextField (obj : List (String × Value)) (field : String) :
    Option (Option String × List (String × Value)) :=
  match ExtractField obj field with
  | none => some (none, obj)
  | some (Value.str s, obj1) => some (some s, obj1)
  | some (_, _) => none

/-- The block of `Move::Parse` for `address` and `addressLock`: a text field
whose value is empty or a valid address. -/
def parseAddressField (penv : ParseEnv) (obj : List (String × Value)) (field : String) :
    Option (Option String × List (String × Value)) :=
  match ExtractField obj field with
  | none => some (none, obj)
  | some (Value.str addr, obj1) =>
    if addr ≠ "" ∧ penv.IsValidBitcoinAddress addr = false then none
    else some (some addr, obj1)
  | some (_, _) => none

/-- What the loop over the character entries of `Move::Parse` has built:
`character_indices`, `waypoints` and `destruct`. -/
structure ParsedCharacters where
  character_indices : StdMap Int Unit := StdMap.empty
  waypoints : StdMap Int (List Coord) := StdMap.empty
  destruct : StdMap Int Unit := StdMap.empty

/-- Body of the loop of `Move::Parse` over the remaining pairs of the object:
`none` is `return false`. -/
def parseCharacter (acc : ParsedCharacters) (it : String × Value) : Option ParsedCharacters :=
  let i := atoi it.1
  if i < 0 ∨ toString i ≠ it.1 then none
  else if acc.character_indices.contains i = true then none
  else
    match it.2 with
    | Value.obj subobj =>
      (ParseWaypoints subobj).bind fun w =>
      (ParseDestruct w.1).bind fun d =>
        if d.2 = true then
          if w.2.2 = true then none
          else if d.1.isEmpty = false then none
          else some { acc with character_indices := acc.character_indices.insert i (),
                               destruct := acc.destruct.insert i () }
        else if d.1.isEmpty = false then none
        else
          some { acc with character_indices := acc.character_indices.insert i (),
                          waypoints := if w.2.2 = true then acc.waypoints.set i w.2.1
                                       else acc.waypoints }
    | _ => none

/-- The end of `Move::Parse`, from `if (ExtractField(obj, "color", v))` on,
for the move `m` filled so far and the rest `obj` of the object: a spawn move
with nothing but a colour left, or else the loop over the character entries;
`none` is `return false`. -/
def parseColorOrCharacters (m : Move) (obj : List (String × Value)) : Option Move :=
  match ExtractField obj "color" with
  | some (Value.int c, obj1) =>
    if (toUChar c : Int) ≥ NUM_TEAM_COLORS then none
    else if obj1.isEmpty = false then none
    else some { m with color := toUChar c }
  | some (_, _) => none
  | none =>
    (obj.foldlM parseCharacter {}).map
      (fun r => { m with waypoints := r.waypoints, destruct := r.destruct })

/-- The part of `Move::Parse` that works on the object `obj` read from the
text: the text fields in the order of the code, then
`parseColorOrCharacters`; `none` is `return false`. -/
def parseObject (penv : ParseEnv) (player : PlayerID) (obj : List (String × Value)) :
    Option Move :=
  (parseTextField obj "msg").bind fun message =>
  (parseAddressField penv message.2 "address").bind fun address =>
  (parseAddressField penv address.2 "addressLock").bind fun addressLock =>
  (parseTextField addressLock.2 "addr_token").bind fun addr_token =>
  (parseTextField addr_token.2 "msg_vote").bind fun msg_vote =>
  (parseTextField msg_vote.2 "msg_request").bind fun msg_request =>
  (parseTextField msg_request.2 "msg_fee").bind fun msg_fee =>
  (parseTextField msg_fee.2 "msg_comment").bind fun msg_comment =>
    parseColorOrCharacters
      { player := player, message := message.1, address := address.1,
        addressLock := addressLock.1, addr_token := addr_token.1,
        msg_vote := msg_vote.1, msg_request := msg_request.1, msg_fee := msg_fee.1,
        msg_comment := msg_comment.1 }
      msg_comment.2

/-- Method `Move::Parse` on an empty move: `none` is `return false`. -/
def Move.Parse (penv : ParseEnv) (player : PlayerID) (json : String) : Option Move :=
  if penv.IsValidPlayerName player = false then none
  else
    match penv.read_string json with
    | some (Value.obj obj) => parseObject penv player obj
    | _ => none

/-- Method `CharacterState::ToJsonValue`; `ValueFromAmount` is a function
of another file. -/
def CharacterState.ToJsonValue (ValueFromAmount : Int → Value) (ch : CharacterState)
    (has_crown : Bool) : Value :=
  Value.obj
    ([("x", Value.int ch.coord.x), ("y", Value.int ch.coord.y)]
      ++ (if ch.waypoints ≠ [] then
            [("fromX", Value.int ch.from_.x), ("fromY", Value.int ch.from_.y),
              ("wp", Value.array
                (ch.waypoints.reverse.flatMap (fun c => [Value.int c.x, Value.int c.y])))]
          else [])
      ++ [("dir", Value.int ch.dir), ("stay_in_spawn_area", Value.int ch.stay_in_spawn_area),
          ("loot", ValueFromAmount ch.loot.nAmount)]
      ++ (if has_crown = true then [("has_crown", Value.bool true)] else []))

/-! ## Vote count and bounty tally of `Pass1_DAO`

The statements of `GameState::Pass1_DAO` from the loop "count and reward the
votes" to the assignment of `Cache_actual_bounty`.  The constant `COIN` is
declared outside the given sources and is a parameter; the locals
`bountycycle_block` and `bountycycle_start`, computed before the loop, are
arguments. -/

/-- A loop `BOOST_FOREACH (PAIRTYPE(const K, V) &p, m)` whose body reads and
writes the entry `p` and an accumulator: `f a k v` is the new value of the
entry and the new accumulator. -/
def StdMap.foldEntries {K V A : Type} [LinearOrder K] (m : StdMap K V)
    (f : A → K → V → V × A) (a : A) : StdMap K V × A :=
  m.keys.foldl
    (fun acc k =>
      match acc.1.find k with
      | none => acc
      | some v => (acc.1.set k (f acc.2 k v).1, (f acc.2 k v).2))
    (m, a)

/-- The file-scope variables of the vote count of `Pass1_DAO`. -/
structure DaoCache where
  Cache_voteweight_total : Int := 0
  Cache_voteweight_full : Int := 0
  Cache_voteweight_part : Int := 0
  Cache_voteweight_zero : Int := 0
  Cache_vote_part : Int := 0
  Cache_actual_bounty : Int := 0
deriving DecidableEq

/-- Body of the loop of `Pass1_DAO` over the characters of a voter; the
accumulator is `tmp_weight` and `is_merchant`. -/
def daoVoteCharacter (bountycycle_block : Int) (acc : Int × Bool) (i : Int)
    (ch : CharacterState) : CharacterState × (Int × Bool) :=
  if NPCROLE_IS_MERCHANT ch.ai_npc_role = true then (ch, (acc.1 + ch.loot.nAmount, true))
  else if bountycycle_block = 0 then
    if i = 0 then
      ({ ch with rpg_rations := ch.rpg_rations + 3 }, (acc.1 + ch.loot.nAmount, acc.2))
    else ({ ch with rpg_rations := ch.rpg_rations + 2 }, (acc.1 + ch.loot.nAmount, acc.2))
  else (ch, (acc.1 + ch.loot.nAmount, acc.2))

/-- Body of the loop "count and reward the votes" of `Pass1_DAO`.  `COIN` is
a constant of a file outside the given sources and is a parameter, and
`request` is `dao_BestRequestFinal`. -/
def daoVotePlayer (COIN bountycycle_block bountycycle_start request : Int) (c : DaoCache)
    (_pid : PlayerID) (pl : PlayerState) : PlayerState × DaoCache :=
  if pl.msg_vote_block > bountycycle_start then
    let tmp_vote0 : Int := pl.coins_vote
    let tmp_vote1 : Int := if tmp_vote0 > request then request else tmp_vote0
    let tmp_vote : Int := if tmp_vote1 < 0 then 0 else tmp_vote1
    let r := pl.characters.foldEntries (daoVoteCharacter bountycycle_block) (0, false)
    let tmp_weight : Int := if r.2.2 = true then 0 else r.2.1
    let c1 : DaoCache :=
      { c with Cache_voteweight_total := c.Cache_voteweight_total + tmp_weight }
    ({ pl with characters := r.1 },
      if tmp_vote = 0 then
        { c1 with Cache_voteweight_zero := c1.Cache_voteweight_zero + tmp_weight }
      else if tmp_vote = request then
        { c1 with Cache_voteweight_full := c1.Cache_voteweight_full + tmp_weight }
      else
        { c1 with
          Cache_voteweight_part := c1.Cache_voteweight_part + tmp_weight
          Cache_vote_part :=
            c1.Cache_vote_part + Int.tdiv tmp_vote COIN * Int.tdiv tmp_weight COIN })
  else (pl, c)

/-- The loop "count and reward the votes" of `Pass1_DAO` (over all players),
for the values of the locals `bountycycle_block` and `bountycycle_start`. -/
def GameState.daoCountVotes (COIN : Int) (gs : GameState)
    (bountycycle_block bountycycle_start : Int) (c : DaoCache) : GameState × DaoCache :=
  let r := gs.players.foldEntries
    (daoVotePlayer COIN bountycycle_block bountycycle_start gs.dao_BestRequestFinal) c
  ({ gs with players := r.1 }, r.2)

/-- The statements of `Pass1_DAO` after the count that set
`Cache_actual_bounty`; `none` is a division by zero. -/
def daoTally (COIN request : Int) (c : DaoCache) : Option DaoCache :=
  if c.Cache_voteweight_zero > Int.tdiv c.Cache_voteweight_total 2 then
    some { c with Cache_actual_bounty := 0 }
  else if c.Cache_voteweight_full > Int.tdiv c.Cache_voteweight_total 2 then
    some { c with Cache_actual_bounty := request }
  else if c.Cache_voteweight_part > 0 then
    let tmp_weight : Int :=
      c.Cache_voteweight_part + c.Cache_voteweight_full + c.Cache_voteweight_zero
    let vote_part : Int :=
      c.Cache_vote_part + Int.tdiv request COIN * Int.tdiv c.Cache_voteweight_full COIN
    if Int.tdiv tmp_weight COIN = 0 then none
    else
      some { c with
        Cache_vote_part := vote_part
        Cache_actual_bounty := Int.tdiv vote_part (Int.tdiv tmp_weight COIN) * COIN }
  else some c

/-! ## Sample values and auxiliary definitions for the statements -/

/-- A character without loot and a pile of 7 coins, used to instantiate the
statements about `CollectLoot`. -/
def sampleCharacter : CharacterState := { coord := ⟨100, 100⟩ }

/-- A character that already carries 20 coins (collected at height 5). -/
def overloadedCharacter : CharacterState :=
  { coord := ⟨100, 100⟩
    loot := { nAmount := 20, firstBlock := 5, lastBlock := 5,
              collectedFirstBlock := 5, collectedLastBlock := 5 } }

/-- The refund record that `SetRefund` makes from a fresh `CollectedLootInfo`. -/
def refundRecord (amount nHeight : Int) : CollectedLootInfo :=
  { nAmount := amount, firstBlock := -1, lastBlock := -1,
    collectedFirstBlock := -1, collectedLastBlock := nHeight }

/-- A fork schedule in which no fork is in effect yet. -/
def noFork : Fork → Int → Bool := fun _ _ => false

/-- The general of the sample player: on the left spawn strip, carrying 50. -/
def sampleGeneral : CharacterState :=
  { coord := ⟨0, 5⟩
    loot := { nAmount := 50, firstBlock := 3, lastBlock := 3,
              collectedFirstBlock := 4, collectedLastBlock := 4 } }

/-- A player with a locked amount of 100 and one character, the general. -/
def samplePlayer : PlayerState :=
  { color := 0, coinAmount := 100, characters := StdMap.empty.set 0 sampleGeneral,
    next_character_index := 1 }

/-- A state at height 10 whose only player is `alice`. -/
def sampleState : GameState :=
  { players := StdMap.empty.set ⟨"alice"⟩ samplePlayer, nHeight := 10 }

/-- A stand-in environment for concrete evaluations: no fork in effect, the
identity in place of the hash, seventeen harvest weights of 50 and one of 25,
one tile per harvest area, and an obstacle-free map. -/
def sampleEnv : Env :=
  { ForkInEffect := noFork
    SerializeHash256 := fun h => h
    SerializeHashBig := fun s => s.toNat
    HarvestPortions := fun i => if i < 17 then 50 else 25
    HarvestAreaSizes := fun _ => 1
    HarvestAreas := fun i j => 100 + 10 * (i : Int) + j
    CrownSpawn := fun _ => 250
    ObstacleMap := fun _ _ => 0
    Distance_To_POI := fun _ _ _ => -1
    fTestNet := true }

/-- Hunter `a.1`: outside every safe zone, carrying 100 coins, with the death
flag `AI_STATE2_DEATH_DEATH` set by a hit of the previous block. -/
def flaggedHunter : CharacterState :=
  { coord := ⟨100, 101⟩, ai_state2 := AI_STATE2_DEATH_DEATH
    loot := { nAmount := 100, firstBlock := 3, lastBlock := 3,
              collectedFirstBlock := 4, collectedLastBlock := 4 } }

/-- A state with player `a` (yellow: a general and the flagged hunter) and
player `m` (red: one Reaper monster). -/
def rangedState : GameState :=
  { players :=
      (StdMap.empty.set ⟨"a"⟩
        { color := 0, coinAmount := 100, next_character_index := 2
          characters := (StdMap.empty.set 0 { coord := ⟨100, 100⟩ }).set 1 flaggedHunter }).set
        ⟨"m"⟩
        { color := 1, coinAmount := 100, next_character_index := 1
          characters := StdMap.empty.set 0
            { coord := ⟨300, 300⟩, ai_npc_role := MONSTER_REAPER,
              ai_slot_spell := AI_ATTACK_DEATH } }
    nHeight := 10 }

/-- The census that `Pass0_CacheDataForGame` computes for `rangedState`: two
hunters and one monster, yellow the strongest team and blue the weakest, the
first merchant of every colour missing. -/
def rangedCache : Cache Unit :=
  { Rpg_MissingMerchantPerColor := fun c => if 0 ≤ c ∧ c < 4 then c + 1 else 0
    Rpg_PopulationCount := fun n => if n = 0 then 2 else if n = MONSTER_REAPER then 1 else 0
    Rpg_StrongestTeam := 0
    Rpg_WeakestTeam := 3
    Rpg_less_monsters_than_players := true
    Rpg_need_monsters_badly := false
    Rpg_hearts_spawn := false
    Gamecache_devmode := 0
    other := () }

/-- A carrying capacity of 10 for every character but the crown holder, whose
capacity is unlimited (the shape of the rule behind the playground's early
`return`). -/
def capTenUnlessCrown (_nHeight : Int) (_isGeneral isCrownHolder : Bool) : Int :=
  if isCrownHolder then -1 else 10

/-- Two empty-handed generals, `alice` and `bob`, on tile (100, 100) with a
pile of 15; the crown holder (unlimited capacity) is the player named. -/
def splitState (crown : String) : GameState :=
  { players :=
      (StdMap.empty.set ⟨"alice"⟩
        { color := 0, coinAmount := 100, next_character_index := 1
          characters := StdMap.empty.set 0 { coord := ⟨100, 100⟩ } }).set ⟨"bob"⟩
        { color := 1, coinAmount := 100, next_character_index := 1
          characters := StdMap.empty.set 0 { coord := ⟨100, 100⟩ } }
    loot := StdMap.empty.set ⟨100, 100⟩ (LootInfo.ofAmount 15 9)
    crownHolder := { player := ⟨crown⟩, index := 0 }
    nHeight := 10 }

/-- What the two generals hold and what lies on the tile after the division. -/
def splitOutcome (gs : Option GameState) : Option (Option Int × Option Int × Option Int) :=
  gs.map (fun g =>
    ((g.findCharacter ⟨"alice"⟩ 0).map (fun c => c.loot.nAmount),
     (g.findCharacter ⟨"bob"⟩ 0).map (fun c => c.loot.nAmount),
     (g.loot.find ⟨100, 100⟩).map (fun l => l.nAmount)))

/-- The amount a character holds. -/
def GameState.heldBy (gs : GameState) (pid : PlayerID) (cid : Int) : Option Int :=
  (gs.findCharacter pid cid).map (fun c => c.loot.nAmount)

/-- The tile a character stands on. -/
def GameState.posOf (gs : GameState) (pid : PlayerID) (cid : Int) : Option Coord :=
  (gs.findCharacter pid cid).map (fun c => c.coord)

/-- The amount lying on a tile. -/
def GameState.lootAt (gs : GameState) (d : Coord) : Option Int :=
  (gs.loot.find d).map (fun l => l.nAmount)

/-- The shares of the claim: the claimant served when `n` claimants remain
collects `floor(R / n)` of what is still on the tile. -/
def lootShares : Int → Nat → List Int
  | _, 0 => []
  | R, n + 1 => R / ((n : Int) + 1) :: lootShares (R - R / ((n : Int) + 1)) n

/-- Whether collector `t` stands on tile `d`. -/
def standsOn (gs : GameState) (d : Coord) (t : CharacterOnLootTile) : Bool :=
  decide (gs.posOf t.pid t.cid = some d)

/-- The collectors of a list that stand on tile `d`, in list order. -/
def onTile (gs : GameState) (d : Coord) (L : List CharacterOnLootTile) :
    List CharacterOnLootTile :=
  L.filter (standsOn gs d)

/-- Collector `t` holds `s` more in `res` than in `gs`. -/
def gained (gs res : GameState) (t : CharacterOnLootTile) (s : Int) : Prop :=
  res.heldBy t.pid t.cid = (gs.heldBy t.pid t.cid).map (fun h => h + s)

/-- The ceiling of `P / k`, written with the floor division. -/
def ceilDiv (P k : Int) : Int := (P + k - 1) / k

/-- All characters of a state, in the order in which the nested loops over
`players` and `characters` visit them. -/
def allCharacters (gs : GameState) : List (PlayerID × Int × CharacterState) :=
  gs.players.entries.flatMap (fun p => p.2.characters.entries.map (fun pc => (p.1, pc.1, pc.2)))

/-- The claimants of tile `c`: the characters standing on it, in visiting
order. -/
def occupants (gs : GameState) (c : Coord) : List (PlayerID × Int) :=
  ((allCharacters gs).filter (fun x => decide (x.2.2.coord = c))).map (fun x => (x.1, x.2.1))

/-- The collector record that the first loop builds for a character. -/
def tileCharOf (capOf : Int → Bool → Bool → Int) (gs : GameState)
    (x : PlayerID × Int × CharacterState) : CharacterOnLootTile :=
  { pid := x.1, cid := x.2.1
    carryCap := capOf gs.nHeight (decide (x.2.1 = 0))
      (decide (x.1 = gs.crownHolder.player) && decide (x.2.1 = gs.crownHolder.index)) }

/-- Number of characters of `X` on tile `d`, when the tile holds loot. -/
def countOn (gs : GameState) (d : Coord) (X : List (PlayerID × Int × CharacterState)) : Nat :=
  (X.filter (fun x => gs.loot.contains x.2.2.coord && decide (x.2.2.coord = d))).length

/-- Three empty-handed generals on tile (100, 100) with a pile of 10. -/
def tripleState : GameState :=
  { players :=
      ((StdMap.empty.set ⟨"alice"⟩
        { color := 0, coinAmount := 100, next_character_index := 1
          characters := StdMap.empty.set 0 { coord := ⟨100, 100⟩ } }).set ⟨"bob"⟩
        { color := 1, coinAmount := 100, next_character_index := 1
          characters := StdMap.empty.set 0 { coord := ⟨100, 100⟩ } }).set ⟨"carol"⟩
        { color := 2, coinAmount := 100, next_character_index := 1
          characters := StdMap.empty.set 0 { coord := ⟨100, 100⟩ } }
    loot := StdMap.empty.set ⟨100, 100⟩ (LootInfo.ofAmount 10 9)
    nHeight := 10 }

/-- The update of `ApplyWaypoints` on the player's state. -/
def waypointUpdate (m : Move) (pl : PlayerState) : PlayerState :=
  { pl with
    characters := m.waypoints.entries.foldl
      (fun chars p =>
        chars.modify p.1 (fun ch =>
          let ch1 :=
            if ch.waypoints = [] ∨ p.2 = [] ∨ ch.waypoints.getLast? ≠ p.2.getLast? then
              { ch with from_ := ch.coord }
            else ch
          { ch1 with waypoints := p.2 }))
      pl.characters }

/-- The update of `dead_players_chat[player]` by `ApplyCommon`. -/
def deadChatUpdate (d : StdMap PlayerID PlayerState) (p : PlayerID) (msg : String)
    (nHeight : Int) : StdMap PlayerID PlayerState :=
  (d.insert p {}).modify p (fun pl => { pl with message := msg, message_block := nHeight })

/-- Names ordered for destruction by one move, in the order of the loop
`Apply attacks`, without the bound of the cache. -/
def moveDestructNames (inState : GameState) (m : Move) : Option (List String) :=
  if m.destruct.entries = [] then some []
  else
    match inState.players.find m.player with
    | none => none
    | some pl =>
      m.destruct.keys.foldlM
        (fun acc i =>
          if pl.characters.contains i = false then some acc
          else if i < 0 then none
          else some (acc ++ [CharacterID.ToString m.player i]))
        []

/-- Names ordered for destruction by a batch of moves, without the bound of
the cache. -/
def allDestructNames (inState : GameState) : List Move → Option (List String)
  | [] => some []
  | m :: ms =>
    (moveDestructNames inState m).bind fun a =>
      (allDestructNames inState ms).map (fun b => a ++ b)

/-- Two optional lists that are both absent, or both present and equal up to
order. -/
def optPerm : Option (List String) → Option (List String) → Prop
  | none, none => True
  | some a, some b => a.Perm b
  | _, _ => False

/-- Passes that leave the state, the generator and the scratch variables as
they are: what the unmodelled passes do to the state on a map without
characters. -/
def idPasses : Passes Unit :=
  { Pass0_CacheDataForGame := fun gs c => some (gs, c)
    Pass1_DAO := fun gs c => some (gs, c)
    Pass2_Melee := fun gs c => some (gs, c)
    MoveTowardsWaypointX_Merchants := fun ch r c _ _ => some (ch, r, c)
    MoveTowardsWaypointX_Pathfinder := fun ch r c _ _ => some (ch, r, c)
    Pass3_PaymentAndHitscan := fun gs c => some (gs, c)
    Pass4_Refund := fun gs c => some (gs, c) }

/-- A state at height 10 without players. -/
def emptyState : GameState := { nHeight := 10 }

/-- A state without players at the last height that the playground accepts. -/
def lastState : GameState := { nHeight := 100000 }

/-- Spawn move of `alice` for the yellow team. -/
def spawnAlice : Move := { player := ⟨"alice"⟩, color := 0, coinAmount := 100 }

/-- Spawn move of `bob` for the red team. -/
def spawnBob : Move := { player := ⟨"bob"⟩, color := 1, coinAmount := 100 }

/-- The coordinates of all characters of a step's output state. -/
def coordsOf (r : Option (Bool × GameState × StepResult)) :
    Option (Bool × List (String × Int × Int × Int)) :=
  r.map (fun x =>
    (x.1, (allCharacters x.2.1).map (fun c => (c.1.name, c.2.1, c.2.2.coord.x, c.2.2.coord.y))))

/-- A chat message of `alice`. -/
def chatAlice : Move := { player := ⟨"alice"⟩, message := some "hello" }

/-- The tile that the claimed stepping rule predicts after `k` steps from `A`
towards `B`: the major axis (the one with the larger absolute delta, `y` when
they tie) is `k` tiles from `A` towards `B`, the minor axis is `A`'s plus, in
the direction of `B`, `floor((k * |d_minor| + floor(|d_major| / 2)) / |d_major|)`. -/
def linePoint (A B : Coord) (k : Int) : Coord :=
  if |B.x - A.x| > |B.y - A.y| then
    ⟨A.x + Int.sign (B.x - A.x) * k,
      A.y + Int.sign (B.y - A.y) * ((k * |B.y - A.y| + |B.x - A.x| / 2) / |B.x - A.x|)⟩
  else
    ⟨A.x + Int.sign (B.x - A.x) * ((k * |B.x - A.x| + |B.y - A.y| / 2) / |B.y - A.y|),
      A.y + Int.sign (B.y - A.y) * k⟩

/-- A character on its way from `A` to the waypoint `B`, `k` steps after `A`,
with the waypoints `rest` behind `B`. -/
def onLine (A B : Coord) (rest : List Coord) (k : Int) (ch : CharacterState) : Prop :=
  ch.from_ = A ∧ ch.coord = linePoint A B k ∧ ch.waypoints = rest ++ [B]

/-- The sum of the L-infinity distances between consecutive entries of a
waypoint list. -/
def consecutiveDist : List Coord → Int
  | a :: b :: t => distLInf a b + consecutiveDist (b :: t)
  | _ => 0

/-- A character that starts a path with `from = coord = (0, 0)` and the single
waypoint `(5, 2)`. -/
def lineWalker : CharacterState := { waypoints := [⟨5, 2⟩] }

/-- A character at `(0, 0)` whose path leads over `(3, 0)` and `(3, 4)` to
`(1, 4)` (the next waypoint is stored last). -/
def pathWalker : CharacterState := { waypoints := [⟨1, 4⟩, ⟨3, 4⟩, ⟨3, 0⟩] }

/-- The stand-in environment with one obstacle, on tile `(1, 0)`. -/
def blockedEnv : Env :=
  { sampleEnv with ObstacleMap := fun y x => if x = 1 ∧ y = 0 then 1 else 0 }

/-- The character at the moment the straight-line stepper starts: the
waypoints on which it stands have been dropped. -/
def dropReached (ch : CharacterState) : CharacterState :=
  match ch.waypoints.getLast? with
  | none => ch
  | some back =>
    if ch.coord = back then
      { ch with from_ := ch.coord, waypoints := popBackWhile ch.coord ch.waypoints.dropLast }
    else ch

/-- A generator whose state is used up (below `MIN_STATE`). -/
def usedGenerator : RandomGenerator := { state := 5, state0 := 77 }

/-- A generator with a fresh state. -/
def freshGenerator : RandomGenerator := { state := MIN_STATE + 12345, state0 := 77 }

/-- The state from which `GetIntRnd` takes the remainder: the hash of the
seed when the state is below `MIN_STATE`, the state otherwise. -/
def consumedState (env : Env) (r : RandomGenerator) : Int :=
  if r.state < MIN_STATE then (env.SerializeHashBig r.state0 : Int) else r.state

/-- The `wp` array of the points `pts`: `[x0, y0, x1, y1, ...]`. -/
def encodeWp (pts : List Coord) : List Value :=
  pts.flatMap (fun c => [Value.int c.x, Value.int c.y])

/-- The vector `result` of `ParseWaypoints` after the points `pts` have been
stored into a vector of size `n`: they fill its end, the last one first. -/
def storedWp (n : Nat) (pts : List Coord) : List Coord :=
  List.replicate (n - pts.length) (⟨0, 0⟩ : Coord) ++ pts.reverse

/-- Stand-in for the functions of other files: every name and address is
valid, and every text is read as the value `v`. -/
def readAs (v : Value) : ParseEnv :=
  { IsValidPlayerName := fun _ => true
    IsValidBitcoinAddress := fun _ => true
    read_string := fun _ => some v }

/-- A character on `(2, 2)` with the stored waypoints `(9, 4)`, `(9, 2)`,
`(5, 2)`: the next waypoint is `(5, 2)`. -/
def storedWalker : CharacterState :=
  { coord := ⟨2, 2⟩, from_ := ⟨2, 2⟩, waypoints := [⟨9, 4⟩, ⟨9, 2⟩, ⟨5, 2⟩] }

/-! ## Auxiliary definitions for the parser, the spawn, the loot map, the
vote count and the kills -/

/-- The names of the top-level fields that `Move::Parse` extracts, in the
order of the code. -/
def topLevelFields : List String :=
  ["msg", "address", "addressLock", "addr_token", "msg_vote", "msg_request", "msg_fee",
    "msg_comment", "color"]

/-- The pair `it` of an object is the one at the end of `l1`, and when its
name is one of `fields` an earlier pair of the object has the same name: the
extraction of the first pair of each name in `fields` leaves `it` behind. -/
def leftOver (fields : List String) (it : String × Value) (obj : List (String × Value)) : Prop :=
  ∃ l1 l2, obj = l1 ++ it :: l2 ∧ (it.1 ∈ fields → ∃ q ∈ l1, q.1 = it.1)

/-- The text fields that `Move::Parse` extracts before it looks for a
colour, in the order of the code. -/
def textFields : List String :=
  ["msg", "address", "addressLock", "addr_token", "msg_vote", "msg_request", "msg_fee",
    "msg_comment"]

/-- The text is the decimal rendering of a non-negative value of the type
`int` (32 bits). -/
def isCanonicalIndex (s : String) : Prop := ∃ n : Int, 0 ≤ n ∧ n < 2 ^ 31 ∧ s = toString n

/-- The amount of the loot on a tile, taken as 0 when the tile has no
entry. -/
def GameState.lootAmount (gs : GameState) (c : Coord) : Int :=
  match gs.loot.find c with
  | some li => li.nAmount
  | none => 0

/-- A state at height 10 with 7 coins on `(3, 4)`, dropped at height 2 and
last changed at height 5. -/
def lootState : GameState :=
  { nHeight := 10,
    loot := (StdMap.empty).set ⟨3, 4⟩ { nAmount := 7, firstBlock := 2, lastBlock := 5 } }

/-- The corner strip of team `c`: the tile is on the edge row of the team's
corner within 15 tiles of the corner, or on its edge column within 15 tiles
of the corner (for `c = 1`: `y = 0` and `x >= MAP_WIDTH - 15`, or
`x = MAP_WIDTH - 1` and `y < 15`). -/
def inCornerStrip (c : Nat) (p : Coord) : Prop :=
  (p.y = (if c = 0 ∨ c = 1 then 0 else MAP_HEIGHT - 1)
      ∧ (if c = 0 ∨ c = 3 then 0 ≤ p.x ∧ p.x < SPAWN_AREA_LENGTH
         else MAP_WIDTH - SPAWN_AREA_LENGTH ≤ p.x ∧ p.x ≤ MAP_WIDTH - 1))
    ∨ (p.x = (if c = 0 ∨ c = 3 then 0 else MAP_WIDTH - 1)
      ∧ (if c = 0 ∨ c = 1 then 0 ≤ p.y ∧ p.y < SPAWN_AREA_LENGTH
         else MAP_HEIGHT - SPAWN_AREA_LENGTH ≤ p.y ∧ p.y ≤ MAP_HEIGHT - 1))

/-- The direction of a character is the one fixed by the edge of the map it
stands on: 3, 1, 9, 7 on the top-left, top-right, bottom-left and bottom-right
corner tile, otherwise 6 on the left edge, 4 on the right edge, 2 on the top
edge and 8 on the bottom edge. -/
def facesFromEdge (ch : CharacterState) : Prop :=
  (ch.coord.x = 0 ∧ ch.coord.y = 0 → ch.dir = 3)
    ∧ (ch.coord.x = MAP_WIDTH - 1 ∧ ch.coord.y = 0 → ch.dir = 1)
    ∧ (ch.coord.x = 0 ∧ ch.coord.y = MAP_HEIGHT - 1 → ch.dir = 9)
    ∧ (ch.coord.x = MAP_WIDTH - 1 ∧ ch.coord.y = MAP_HEIGHT - 1 → ch.dir = 7)
    ∧ (ch.coord.x = 0 ∧ ch.coord.y ≠ 0 ∧ ch.coord.y ≠ MAP_HEIGHT - 1 → ch.dir = 6)
    ∧ (ch.coord.x = MAP_WIDTH - 1 ∧ ch.coord.y ≠ 0 ∧ ch.coord.y ≠ MAP_HEIGHT - 1 → ch.dir = 4)
    ∧ (ch.coord.y = 0 ∧ ch.coord.x ≠ 0 ∧ ch.coord.x ≠ MAP_WIDTH - 1 → ch.dir = 2)
    ∧ (ch.coord.y = MAP_HEIGHT - 1 ∧ ch.coord.x ≠ 0 ∧ ch.coord.x ≠ MAP_WIDTH - 1 → ch.dir = 8)

/-- What `Spawn` leaves behind for a character of team `c`. -/
def spawnedFor (c : Nat) (ch : CharacterState) : Prop :=
  IsInSpawnArea ch.coord.x ch.coord.y = true ∧ inCornerStrip c ch.coord
    ∧ ch.waypoints = [] ∧ ch.from_ = ch.coord ∧ facesFromEdge ch

/-- The vote of a player as the count takes it: `coins_vote` cut to the
range from 0 to the request. -/
def daoVote (request : Int) (pl : PlayerState) : Int :=
  if (if pl.coins_vote > request then request else pl.coins_vote) < 0 then 0
  else if pl.coins_vote > request then request else pl.coins_vote

/-- The vote weight of a player: the loot of all its characters, or 0 when
one of them is a merchant. -/
def daoWeight (pl : PlayerState) : Int :=
  if pl.characters.entries.any (fun e => NPCROLE_IS_MERCHANT e.2.ai_npc_role) = true then 0
  else (pl.characters.entries.map (fun e => e.2.loot.nAmount)).sum

/-- The voters of a state: the players whose vote is younger than
`bountycycle_start`, in the order of the player map. -/
def GameState.daoVoters (gs : GameState) (bountycycle_start : Int) : List PlayerState :=
  (gs.players.entries.map Prod.snd).filter (fun pl => decide (pl.msg_vote_block > bountycycle_start))

/-- The voters that decline: their vote is 0. -/
def daoDeclining (request : Int) (voters : List PlayerState) : List PlayerState :=
  voters.filter (fun pl => decide (daoVote request pl = 0))

/-- The voters that accept in full: their vote is the request (and not 0). -/
def daoAccepting (request : Int) (voters : List PlayerState) : List PlayerState :=
  voters.filter (fun pl => decide (daoVote request pl ≠ 0 ∧ daoVote request pl = request))

/-- The partial voters: their vote is neither 0 nor the request. -/
def daoPartial (request : Int) (voters : List PlayerState) : List PlayerState :=
  voters.filter (fun pl => decide (daoVote request pl ≠ 0 ∧ daoVote request pl ≠ request))

/-- The vote weight of a list of voters. -/
def daoWeightOf (voters : List PlayerState) : Int := (voters.map daoWeight).sum

/-- The sum over the voters of `(vote / COIN) * (weight / COIN)`. -/
def daoVoteSum (COIN request : Int) (voters : List PlayerState) : Int :=
  (voters.map (fun pl => Int.tdiv (daoVote request pl) COIN * Int.tdiv (daoWeight pl) COIN)).sum

/-- A hunter with one character that carries `loot` coins, and a vote of
`vote` coins cast at height 5. -/
def voterOf (loot vote : Int) : PlayerState :=
  { color := 0, coinAmount := 100, next_character_index := 1,
    characters := StdMap.empty.set 0 { loot := { nAmount := loot } },
    coins_vote := vote, msg_vote_block := 5 }

/-- A state at height 10 with a final request of 40 coins of 100000000 units
and four voters: `ann` declines with a weight of 2 coins, `bob` accepts in
full with 3 coins, `cat` votes 10 coins with a weight of 4 coins and `dan`
votes 25 coins with a weight of 1 coin. -/
def voteState : GameState :=
  { nHeight := 10, dao_BestRequestFinal := 4000000000,
    players :=
      (((StdMap.empty.set ⟨"ann"⟩ (voterOf 200000000 0)).set ⟨"bob"⟩
          (voterOf 300000000 9000000000)).set ⟨"cat"⟩
          (voterOf 400000000 1000000000)).set ⟨"dan"⟩ (voterOf 100000000 2500000000) }

/-- A player is recorded as killed for the reason `r`. -/
def StepResult.records (step : StepResult) (pid : PlayerID) (r : Reason) : Prop :=
  step.killedPlayers.contains pid = true ∧ (pid, ({ reason := r } : KilledByInfo)) ∈ step.killedBy

/-- Every character has a non-negative index and carries a non-negative
amount, and the locked amount of a player with a general is non-negative: the
assertions of `HandleKilledLoot` and the constructor of `CharacterID` rest on
this. -/
def GameState.lootWellFormed (gs : GameState) : Prop :=
  ∀ pid pl, gs.players.find pid = some pl → ∀ i ch, pl.characters.find i = some ch →
    0 ≤ i ∧ 0 ≤ ch.loot.nAmount ∧ (i = 0 → 0 ≤ pl.coinAmount)

/-- A state at height 10 whose only player `alice` has one character, the
general `ch`. -/
def stateOfGeneral (ch : CharacterState) : GameState :=
  { nHeight := 10,
    players := StdMap.empty.set ⟨"alice"⟩
      { samplePlayer with characters := StdMap.empty.set 0 ch } }

/-- The general of `alice` on the left spawn strip with a stay of 30
steps. -/
def overstayGeneral : CharacterState := { sampleGeneral with stay_in_spawn_area := 30 }

/-- A fork schedule between the two forks: `FORK_CARRYINGCAP` is in effect,
`FORK_LESSHEARTS` is not. -/
def betweenForks : Fork → Int → Bool := fun f _ => decide (f = Fork.FORK_CARRYINGCAP)

/-- Body of the loop of `DecrementLife`. -/
def decrementLifeBody (acc : GameState × StepResult) (pid : PlayerID) :
    Option (GameState × StepResult) :=
  match acc.1.players.find pid with
  | none => none
  | some pl =>
    if pl.remainingLife = -1 then some acc
    else if ¬ (pl.remainingLife > 0) then none
    else
      some
        ({ acc.1 with
            players := acc.1.players.modify pid
              (fun p => { p with remainingLife := p.remainingLife - 1 }) },
          if pl.remainingLife - 1 = 0 then
            acc.2.KillPlayer pid { reason := Reason.KILLED_POISON }
          else acc.2)

/-- The player after its round of `DecrementLife`. -/
def decrementedLife (pl : PlayerState) : PlayerState :=
  if pl.remainingLife = -1 then pl else { pl with remainingLife := pl.remainingLife - 1 }

/-- The killed players of a step are players of the state, and each has an
entry in `killedBy`: `FinaliseKills` dereferences both. -/
def StepResult.consistentWith (step : StepResult) (gs : GameState) : Prop :=
  ∀ v, step.killedPlayers.contains v = true →
    (gs.players.find v).isSome = true ∧ (rawFind v step.killedBy).isSome = true

/-- Body of the first loop of `FinaliseKills`: the loot of all characters of
one killed player. -/
def finaliseVictim (ForkInEffect : Fork → Int → Bool) (step : StepResult)
    (acc : GameState × StepResult) (victim : PlayerID) : Option (GameState × StepResult) :=
  match acc.1.players.find victim, rawFind victim step.killedBy with
  | some victimState, some killer =>
    victimState.characters.keys.foldlM
      (fun (a : GameState × StepResult) i =>
        a.1.HandleKilledLoot ForkInEffect victim i killer.HasDeathTax false a.2)
      acc
  | _, _ => none

/-- A state at height 10 with three players: `ann` is not poisoned, `bob`
has two steps left and `cat` has one step left. -/
def poisonState : GameState :=
  { nHeight := 10,
    players :=
      ((StdMap.empty.set ⟨"ann"⟩ { samplePlayer with remainingLife := -1 }).set ⟨"bob"⟩
          { samplePlayer with remainingLife := 2 }).set ⟨"cat"⟩
          { samplePlayer with remainingLife := 1 } }

/-- The statements of `KillRangedAttacks` for a character that the game
keeps (`idie` with `ilive` not 0): `StopMoving`, the flags cleared, and the
escape flag when `ilive >= 2`. -/
def revived (ch : CharacterState) (ilive : Int) : CharacterState :=
  let c3 := ch.StopMoving
  let c4 :=
    { c3 with
      ai_state := clearBits c3.ai_state (AI_STATE_SURVIVAL ||| AI_STATE_RESTING)
      ai_state2 := clearBits c3.ai_state2
        (AI_STATE2_DEATH_POISON ||| AI_STATE2_DEATH_FIRE ||| AI_STATE2_DEATH_DEATH
          ||| AI_STATE2_DEATH_LIGHTNING) }
  if ilive ≥ 2 then { c4 with ai_state2 := c4.ai_state2 ||| AI_STATE2_ESCAPE } else c4

/-- Every character has a non-negative index, and the locked amount of a
player with a general is non-negative: the constructor of `CharacterID` and
the assertion of `KillRangedAttacks` rest on this. -/
def GameState.indexWellFormed (gs : GameState) : Prop :=
  ∀ pid pl, gs.players.find pid = some pl → ∀ i, (pl.characters.find i).isSome = true →
    0 ≤ i ∧ (i = 0 → 0 ≤ pl.coinAmount)

/-- The monster roles in the order in which `KillRangedAttacks` compares
their population counts. -/
def monsterRoles : List Nat := [MONSTER_REAPER, MONSTER_SPITTER, MONSTER_REDHEAD]

/-- The monster role with the smallest population count, the first of
`monsterRoles` on ties. -/
def leastPopulatedMonster (pop : Nat → Int) : Nat :=
  (monsterRoles.find? (fun r => monsterRoles.all (fun r1 => decide (pop r ≤ pop r1)))).getD
    MONSTER_REAPER

/-- The character is saved from a death flag: it is inside a safe zone,
flagged essential, or carries a Life-Saving amulet. -/
def CharacterState.isSaved (ch : CharacterState) : Prop :=
  AI_IS_SAFEZONE ch.coord.x ch.coord.y = true ∨ ch.ai_state2 &&& AI_STATE2_ESSENTIAL ≠ 0
    ∨ ch.ai_slot_amulet = AI_ITEM_LIFE_SAVING

/-- A hunter general on `(100, 101)` with the poison flag, a Life-Saving
amulet and a waypoint. -/
def amuletGeneral : CharacterState :=
  { coord := ⟨100, 101⟩, from_ := ⟨100, 100⟩, waypoints := [⟨120, 101⟩],
    ai_state2 := AI_STATE2_DEATH_POISON, ai_slot_amulet := AI_ITEM_LIFE_SAVING }

/-- A merchant general on `(100, 101)` that carries the poison flag. -/
def merchantGeneral : CharacterState :=
  { coord := ⟨100, 101⟩, ai_npc_role := 5, ai_state2 := AI_STATE2_DEATH_POISON }

/-- A hunter general on `(100, 101)` that carries the poison flag. -/
def poisonedGeneral : CharacterState :=
  { coord := ⟨100, 101⟩, ai_state2 := AI_STATE2_DEATH_POISON }

/-- The loop state of `KillRangedAttacks` at the first character of the
first player, with the census `rangedCache`. -/
def firstRound (gs : GameState) : RangedAcc Unit :=
  { gs := gs, step := {}, cache := rangedCache, general_is_merchant := false, toErase := [] }

/-! ## Backward step of the hit scan, character levels and scores -/

/-- The tile on which `Pass3_PaymentAndHitscan` looks up the damage flags for
a character (`int x = ch.coord.x; int y = ch.coord.y;` followed by the block
"numpad dirs, backwards"): after a normal step the tile one step against the
direction `dir`. -/
def hitscanTile (ch : CharacterState) : Coord :=
  let x := ch.coord.x
  let y := ch.coord.y
  if ch.ai_state &&& AI_STATE_NORMAL_STEP ≠ 0 then
    let y1 := if ch.dir ≤ 3 then y - 1 else if ch.dir ≥ 7 then y + 1 else y
    let x1 := if ch.dir % 3 = 1 then x + 1 else if ch.dir % 3 = 0 then x - 1 else x
    ⟨x1, y1⟩
  else ⟨x, y⟩

def SATS_FOR_CLVL2 : Int := 10000000000

def SATS_FOR_CLVL3 : Int := 20000000000

def SATS_FOR_CLVL4 : Int := 40000000000

def SATS_FOR_CLVL5 : Int := 80000000000

def SATS_FOR_CLVL6 : Int := 160000000000

def SATS_FOR_CLVL7 : Int := 320000000000

def SATS_FOR_CLVL8 : Int := 640000000000

def SATS_FOR_CLVL9 : Int := 1280000000000

def SCORE_FOR_CLVL2 : Int := 10

def SCORE_FOR_CLVL3 : Int := 100

def SCORE_FOR_CLVL4 : Int := 1000

def SCORE_FOR_CLVL5 : Int := 10000

def SCORE_FOR_CLVL6 : Int := 100000

def SCORE_FOR_CLVL7 : Int := 1000000

def SCORE_FOR_CLVL8 : Int := 10000000

def SCORE_FOR_CLVL9 : Int := 100000000

/-- Function `RPG_CLEVEL_FROM_LOOT` of `gamemap.h` (`ALLOW_CLEVEL9` is
defined). -/
def RPG_CLEVEL_FROM_LOOT (L : Int) : Int :=
  if L ≥ SATS_FOR_CLVL9 then 9
  else if L ≥ SATS_FOR_CLVL8 then 8
  else if L ≥ SATS_FOR_CLVL7 then 7
  else if L ≥ SATS_FOR_CLVL6 then 6
  else if L ≥ SATS_FOR_CLVL5 then 5
  else if L ≥ SATS_FOR_CLVL4 then 4
  else if L ≥ SATS_FOR_CLVL3 then 3
  else if L ≥ SATS_FOR_CLVL2 then 2
  else 1

/-- Function `RPG_SCORE_FROM_CLEVEL` of `gamemap.h`. -/
def RPG_SCORE_FROM_CLEVEL (CL : Int) : Int :=
  if CL ≥ 9 then SCORE_FOR_CLVL9
  else if CL ≥ 8 then SCORE_FOR_CLVL8
  else if CL ≥ 7 then SCORE_FOR_CLVL7
  else if CL ≥ 6 then SCORE_FOR_CLVL6
  else if CL ≥ 5 then SCORE_FOR_CLVL5
  else if CL ≥ 4 then SCORE_FOR_CLVL4
  else if CL ≥ 3 then SCORE_FOR_CLVL3
  else if CL ≥ 2 then SCORE_FOR_CLVL2
  else 1

/-- Function `RPG_MAX_CLEVEL_FROM_PLAYERMAP_SCORE` of `gamemap.h`. -/
def RPG_MAX_CLEVEL_FROM_PLAYERMAP_SCORE (S : Int) : Int :=
  if S ≥ SCORE_FOR_CLVL9 then 9
  else if S ≥ SCORE_FOR_CLVL8 then 8
  else if S ≥ SCORE_FOR_CLVL7 then 7
  else if S ≥ SCORE_FOR_CLVL6 then 6
  else if S ≥ SCORE_FOR_CLVL5 then 5
  else if S ≥ SCORE_FOR_CLVL4 then 4
  else if S ≥ SCORE_FOR_CLVL3 then 3
  else if S ≥ SCORE_FOR_CLVL2 then 2
  else if S ≥ 1 then 1
  else 0

/-- The level `tmp_clevel` with which the cache pass of `PerformStep` counts
a character (`ch.ai_slot_spell > 0 ? RPG_CLEVEL_FROM_LOOT(ch.loot.nAmount) : 1`). -/
def cacheLevel (ch : CharacterState) : Int :=
  if ch.ai_slot_spell > 0 then RPG_CLEVEL_FROM_LOOT ch.loot.nAmount else 1

/-- The statement `AI_playermap[y][x][tmp_color] += tmp_score` of the cache
pass for one character, on the `int` cell `cell`. -/
def countOnPlayermap (cell : Int) (ch : CharacterState) : Int :=
  toInt32 (cell + RPG_SCORE_FROM_CLEVEL (cacheLevel ch))

/-- The cell of `AI_playermap` for a tile and a team after the cache pass
has cleared it and counted the characters `chs` on it, in their order. -/
def playermapCell (chs : List CharacterState) : Int := chs.foldl countOnPlayermap 0

/-- The highest level among the counted characters, `0` for none. -/
def highestLevel (chs : List CharacterState) : Int := (chs.map cacheLevel).foldr max 0

/-- A character of level 3 (20 000 000 000 units of loot and a spell). -/
def levelThree : CharacterState := { ai_slot_spell := 1, loot := { nAmount := 20000000000 } }

/-! ## The prorated bounty of `Pass1_DAO` -/

/-- A state at height 10 with a final request of 40 coins of 100000000 units
and a single voter, `eve`, who votes 10 coins with a weight of 5 units. -/
def smallVoteState : GameState :=
  { nHeight := 10, dao_BestRequestFinal := 4000000000,
    players := StdMap.empty.set ⟨"eve"⟩ (voterOf 5 1000000000) }

/-! ## The loop of `DumpPath` -/

/-- The loop `do { ret.push_back(tmp.coord); tmp.MoveTowardsWaypoint(); }
while (!tmp.waypoints.empty());` of `DumpPath`, run for at most `fuel`
rounds: `none` when the loop has not ended by then. -/
def dumpLoop (env : Env) : Nat → CharacterState → List Coord →
    Option (List Coord × CharacterState)
  | 0, _, _ => none
  | fuel + 1, tmp, ret =>
    match tmp.MoveTowardsWaypoint env with
    | none => none
    | some tmp1 =>
      if tmp1.waypoints ≠ [] then dumpLoop env fuel tmp1 (ret ++ [tmp.coord])
      else some (ret ++ [tmp.coord], tmp1)

/-- Method `DumpPath`; `alternative_waypoints = none` is the null pointer.
The loop runs for at most `fuel` rounds. -/
def CharacterState.DumpPath (env : Env) (fuel : Nat) (ch : CharacterState)
    (alternative_waypoints : Option (List Coord)) : Option (List Coord) :=
  let tmp : CharacterState :=
    match alternative_waypoints with
    | some wp => { ch.StopMoving with waypoints := wp }
    | none => ch
  if tmp.waypoints ≠ [] then
    (dumpLoop env fuel tmp []).map fun r =>
      if r.1 = [] ∨ r.1.getLast? ≠ some r.2.coord then r.1 ++ [r.2.coord] else r.1
  else some []

/-- A character on `(5, 5)` whose `from` is its only waypoint `(7, 5)`. -/
def stuckWalker : CharacterState :=
  { coord := ⟨5, 5⟩, from_ := ⟨7, 5⟩, waypoints := [⟨7, 5⟩] }

/-- The character is on the line that the stepper follows: it stands on the
tile where the line started (`from = coord`), on its next waypoint, or `k`
steps after `from` on the line to the next waypoint. -/
def onTrack (ch : CharacterState) : Prop :=
  ch.from_ = ch.coord
    ∨ ∃ B, ch.waypoints.getLast? = some B
        ∧ (ch.coord = B
            ∨ ∃ k : Int, 0 ≤ k ∧ k < distLInf ch.from_ B ∧ ch.coord = linePoint ch.from_ B k)

/-! ## Termination of the walk -/

/-- The walk of the character ends: after some number of steps the waypoint
list is empty. -/
def walkEnds (env : Env) (ch : CharacterState) : Prop :=
  ∃ n ch1, moveTimes env n ch = some ch1 ∧ ch1.waypoints = []

/-! ## The banking phase of `PerformStep` -/

/-- The character banks in the banking phase: it is not flagged essential,
holds loot, and stands in the spawn area. -/
def inBank (ch : CharacterState) : Bool :=
  decide (ch.ai_state2 &&& AI_STATE2_ESSENTIAL = 0) && decide (ch.loot.nAmount > 0)
    && IsInSpawnArea ch.coord.x ch.coord.y

/-- The bounty of the banking phase for the character `id` of the state, if
it banks: its loot record with the amount less the tax of a tenth (rounded
down), and the address of its player. -/
def bankBounty (gs : GameState) (id : PlayerID × Int) : Option CollectedBounty :=
  match gs.players.find id.1 with
  | none => none
  | some pl =>
    match pl.characters.find id.2 with
    | none => none
    | some ch =>
      if inBank ch = true then
        some ⟨{ player := id.1, index := id.2 },
          { ch.loot with nAmount := ch.loot.nAmount - ch.loot.nAmount / 10 }, pl.address⟩
      else none

/-- The tax of the banking phase on the character `id` of the state: a tenth
of its loot, rounded down, if it banks. -/
def bankTax (gs : GameState) (id : PlayerID × Int) : Int :=
  match gs.findCharacter id.1 id.2 with
  | none => 0
  | some ch => if inBank ch = true then ch.loot.nAmount / 10 else 0

/-- The general of `alice` on the spawn strip with 105 coins of loot. -/
def bankingGeneral : CharacterState :=
  { coord := ⟨0, 5⟩, loot := { nAmount := 105, collectedFirstBlock := 3, collectedLastBlock := 7 } }

/-- The state of the banking loop after the characters `pre`. -/
def bankInv (gs : GameState) (step : StepResult) (pre : List (PlayerID × Int))
    (acc : GameState × StepResult) : Prop :=
  acc.2.bounties = step.bounties ++ pre.filterMap (bankBounty gs)
    ∧ acc.2.nTaxAmount = step.nTaxAmount + (pre.map (bankTax gs)).sum
    ∧ acc.2.killedPlayers = step.killedPlayers ∧ acc.2.killedBy = step.killedBy
    ∧ (∀ q pl1, acc.1.players.find q = some pl1 →
        ∃ pl, gs.players.find q = some pl ∧ pl1.address = pl.address)
    ∧ ∀ q j, acc.1.findCharacter q j
        = (gs.findCharacter q j).map
            (fun ch => if (q, j) ∈ pre ∧ inBank ch = true then { ch with loot := {} } else ch)

/-! ## The request phase of `Pass1_DAO`

The first loop of `GameState::Pass1_DAO` ("parse the requests", "parse the
votes").  `COIN` and `ParseMoney` are declared outside the given sources and
are parameters: `ParseMoney text old` is the value of the output argument
after the call when it held `old` before.  `AI_PRICE_RATION` is a
floating-point expression, so that `ch.rpg_rations += coins_fee /
AI_PRICE_RATION` is computed in floating point; `addRations rations fee` is
the value of `rpg_rations` after that statement. -/

def MERCH_INFO_DEVMODE : Nat := 10

/-- Global `AI_dbg_allow_payments`, which is never assigned. -/
def AI_dbg_allow_payments : Bool := true

/-- Macro `INTERVAL_BOUNTYCYCLE`. -/
def INTERVAL_BOUNTYCYCLE (Gamecache_devmode : Int) : Int :=
  if Gamecache_devmode = 8 then 1000 else 10000

/-- The variables that record the best bid (`dao_BestFee`, `dao_BestRequest`
and `dao_BestName` of the state) and the entry `MERCH_INFO_DEVMODE` of the
global `Merchant_sats_received`. -/
structure DaoBid where
  dao_BestFee : Int := 0
  dao_BestRequest : Int := 0
  dao_BestName : String := ""
  Merchant_sats_received : Int := 0
deriving DecidableEq

/-- The statements of the request phase that parse the request and the fee of
a player: the fee is parsed only for a request of at least `COIN` and is then
at least a hundredth of the request. -/
def daoParseRequest (COIN : Int) (ParseMoney : String → Int → Int) (pl : PlayerState) :
    PlayerState :=
  let p1 : PlayerState := { pl with coins_request := ParseMoney pl.msg_request pl.coins_request }
  if p1.coins_request ≥ COIN then
    let p2 : PlayerState := { p1 with coins_fee := ParseMoney p1.msg_fee p1.coins_fee }
    if p2.coins_fee < Int.tdiv p2.coins_request 100 then
      { p2 with coins_fee := Int.tdiv p2.coins_request 100 }
    else p2
  else p1

/-- The statement `if (p.second.coins_fee > dao_BestFee) ...` of the request
phase.  The loop over the characters acts on the character with index 0 only
and leaves at that character. -/
def daoBid (addRations : Int → Int → Int) (b : DaoBid) (pid : PlayerID) (pl : PlayerState) :
    PlayerState × DaoBid :=
  if pl.coins_fee > b.dao_BestFee then
    match pl.characters.find 0 with
    | none => (pl, b)
    | some ch =>
      if ch.loot.nAmount ≥ pl.coins_fee then
        let ch1 : CharacterState :=
          if AI_dbg_allow_payments = true then
            { ch with loot := { ch.loot with nAmount := ch.loot.nAmount - pl.coins_fee } }
          else ch
        let sats : Int :=
          if AI_dbg_allow_payments = true then b.Merchant_sats_received + pl.coins_fee
          else b.Merchant_sats_received
        ({ pl with
            characters := pl.characters.set 0
              { ch1 with rpg_rations := addRations ch1.rpg_rations pl.coins_fee } },
          { dao_BestFee := pl.coins_fee, dao_BestRequest := pl.coins_request,
            dao_BestName := pid.name, Merchant_sats_received := sats })
      else (pl, b)
  else (pl, b)

/-- Body of the first loop of `Pass1_DAO` for one player. -/
def daoRequestPlayer (COIN : Int) (ParseMoney : String → Int → Int)
    (addRations : Int → Int → Int) (nHeight : Int) (b : DaoBid) (pid : PlayerID)
    (pl : PlayerState) : PlayerState × DaoBid :=
  let r : PlayerState × DaoBid :=
    if pl.msg_request_block = nHeight - 1 then
      daoBid addRations b pid (daoParseRequest COIN ParseMoney pl)
    else (pl, b)
  (if r.1.msg_vote_block = nHeight - 1 then
      { r.1 with coins_vote := ParseMoney r.1.msg_vote r.1.coins_vote }
    else r.1,
    r.2)

/-- The request phase of `Pass1_DAO`: the first loop over the players with
its two guards; `devmodeMerchant` is `Merchant_exists[MERCH_INFO_DEVMODE]` and
`sats` is `Merchant_sats_received[MERCH_INFO_DEVMODE]`, which is returned with
the state. -/
def GameState.daoRequestPhase (COIN : Int) (ParseMoney : String → Int → Int)
    (addRations : Int → Int → Int) (devmodeMerchant : Bool) (Gamecache_devmode : Int)
    (gs : GameState) (sats : Int) : GameState × Int :=
  if devmodeMerchant = true then
    let bountycycle_block := Int.tmod gs.nHeight (INTERVAL_BOUNTYCYCLE Gamecache_devmode)
    if bountycycle_block > 0 then
      let r := gs.players.foldEntries (daoRequestPlayer COIN ParseMoney addRations gs.nHeight)
        { dao_BestFee := gs.dao_BestFee, dao_BestRequest := gs.dao_BestRequest,
          dao_BestName := gs.dao_BestName, Merchant_sats_received := sats }
      ({ gs with
          players := r.1
          dao_BestFee := r.2.dao_BestFee
          dao_BestRequest := r.2.dao_BestRequest
          dao_BestName := r.2.dao_BestName },
        r.2.Merchant_sats_received)
    else (gs, sats)
  else (gs, sats)

/-! ## Auxiliary definitions for the request phase -/

/-- The record of the best bid after the players of `l` had their turn. -/
def daoBidAfter (COIN : Int) (ParseMoney : String → Int → Int) (addRations : Int → Int → Int)
    (nHeight : Int) (l : List (PlayerID × PlayerState)) (b : DaoBid) : DaoBid :=
  l.foldl (fun b e => (daoRequestPlayer COIN ParseMoney addRations nHeight b e.1 e.2).2) b

/-- The player is charged at its turn: its request is one block old, its fee
is above the best fee recorded so far, and its general holds at least the
fee. -/
def daoCharged (COIN : Int) (ParseMoney : String → Int → Int) (nHeight : Int) (b : DaoBid)
    (pl : PlayerState) : Prop :=
  pl.msg_request_block = nHeight - 1
    ∧ (daoParseRequest COIN ParseMoney pl).coins_fee > b.dao_BestFee
    ∧ ∃ ch, pl.characters.find 0 = some ch
        ∧ ch.loot.nAmount ≥ (daoParseRequest COIN ParseMoney pl).coins_fee

/-- A stand-in for `ParseMoney`: the text is a whole number of coins of
100000000 units. -/
def sampleParseMoney (text : String) (_old : Int) : Int := atoi text * 100000000

/-- A stand-in for the conversion of a fee into rations: one ration for
200000000 units. -/
def sampleRations (rations fee : Int) : Int := rations + fee / 200000000

/-- A player with a request of 100 coins made at height 9, a fee of `fee`
coins, and a general that holds 20 coins. -/
def bidderOf (fee : String) : PlayerState :=
  { color := 0, coinAmount := 100, next_character_index := 1,
    characters := StdMap.empty.set 0 { loot := { nAmount := 2000000000 } },
    msg_request := "100", msg_request_block := 9, msg_fee := fee }

/-- A state at height 10 in which `ann` bids a fee of 5 coins and `bob` a fee
of 10 coins. -/
def bidState : GameState :=
  { nHeight := 10,
    players := (StdMap.empty.set ⟨"ann"⟩ (bidderOf "5")).set ⟨"bob"⟩ (bidderOf "10") }

/-! ## Scan geometry of `MoveTowardsWaypointX_Pathfinder`

The loops of the ranged-attack scan and of the neighbourhood scan with their
error branches, and the choice among the candidate moves.  The cache tables
(`Distance_To_Tile`, `AI_merchantbasemap`) are arguments.  Coordinates are
mathematical integers. -/

def AI_NAV_SIZE : Int := 21

def AI_NAV_CENTER : Int := 10

def AI_NUM_MOVES : Int := 10

def RPG_SPELL_RANGE_MAX : Int := 7

def RPG_ARMOR_RING : Nat := 2

def RPG_ARMOR_CHAIN : Nat := 3

def RPG_ARMOR_SPLINT : Nat := 5

def RPG_ARMOR_PLATE : Nat := 6

def AI_ATTACK_XBOW : Nat := 4

def AI_ATTACK_XBOW3 : Nat := 8

def AI_MBASEMAP_AVOID_MIN : Int := 1004

/-- Character code of `AI_REASON_RUN` (the letter r). -/
def AI_REASON_RUN : Nat := 114

/-- The error branches of the scans and of the choice of a move. -/
inductive ScanError where
  | ERROR_1
  | ERROR_1a
  | ERROR_2a
  | ERROR_4a
deriving DecidableEq

/-- Local `clevel` of `MoveTowardsWaypointX_Pathfinder`. -/
def CharacterState.clevel (ch : CharacterState) : Int :=
  if ch.ai_slot_spell > 0 then RPG_CLEVEL_FROM_LOOT ch.loot.nAmount else 1

/-- Local `base_range` of `MoveTowardsWaypointX_Pathfinder` when the scan for
ranged attacks starts. -/
def CharacterState.base_range (ch : CharacterState) : Int :=
  let b0 : Int := ch.clevel
  let b1 : Int :=
    if ch.rpg_slot_armor > 0 then
      let b : Int :=
        if ch.rpg_slot_armor = RPG_ARMOR_RING then b0 - 1
        else if ch.rpg_slot_armor = RPG_ARMOR_CHAIN then b0 - 1
        else if ch.rpg_slot_armor = RPG_ARMOR_SPLINT then b0 - 2
        else if ch.rpg_slot_armor = RPG_ARMOR_PLATE then b0 - 2
        else b0
      if b < 1 then 1 else b
    else b0
  if b1 > RPG_SPELL_RANGE_MAX then RPG_SPELL_RANGE_MAX else b1

/-- Local `max_range` of `MoveTowardsWaypointX_Pathfinder` when it is stored
in `rpg_range_for_display`. -/
def CharacterState.max_range (ch : CharacterState) : Int :=
  if NPCROLE_IS_MERCHANT ch.ai_npc_role = false ∧ ch.ai_slot_spell ≠ 0 then
    if ch.ai_slot_spell = AI_ATTACK_XBOW then 2
    else if ch.clevel > 1 then
      if ch.ai_slot_spell = AI_ATTACK_XBOW3 then 3 else ch.base_range
    else 0
  else 0

/-- The values that the variable of a loop `for (int u = start; u != end;
u += step)` takes, for at most `fuel` rounds: `none` when the loop has not
ended by then. -/
def forUntil : Nat → Int → Int → Int → Option (List Int)
  | 0, u, uend, _ => if u = uend then some [] else none
  | fuel + 1, u, uend, step =>
    if u = uend then some [] else (forUntil fuel (u + step) uend step).map (fun l => u :: l)

/-- The values that the variable of a loop `for (int u = lo; u <= hi; u++)`
takes. -/
def forUpTo (lo hi : Int) : List Int :=
  (List.range (hi + 1 - lo).toNat).map (fun (n : Nat) => lo + (n : Int))

/-- The tiles `(u, v)` that the scan for ranged attacks visits, in the order
of its two loops, when no round returns: none outside the guard
`!AI_IS_SAFEZONE(coord) && max_range > 0`; `mr` is `max_range` before the
guard.  The loops run for at most `fuel` rounds each. -/
def rangedScanTiles (fuel : Nat) (ch : CharacterState) (mr : Int) : Option (List (Int × Int)) :=
  if AI_IS_SAFEZONE ch.coord.x ch.coord.y = false ∧ mr > 0 then
    let x := ch.coord.x
    let y := ch.coord.y
    let max_range := if mr > AI_NAV_CENTER then AI_NAV_CENTER else mr
    let backwards : Bool := decide (ch.dir ≤ 3 ∨ ch.dir = 6)
    let ustart := if backwards = true then x + max_range else x - max_range
    let vstart := if backwards = true then y + max_range else y - max_range
    let uend := if backwards = true then x - max_range - 1 else x + max_range + 1
    let vend := if backwards = true then y - max_range - 1 else y + max_range + 1
    let ustep : Int := if backwards = true then -1 else 1
    let vstep : Int := if backwards = true then -1 else 1
    (forUntil fuel ustart uend ustep).bind fun us =>
      (forUntil fuel vstart vend vstep).map fun vs =>
        us.flatMap (fun u => vs.map (fun v => (u, v)))
  else some []

/-- The error branch, if any, that a round of the scan for ranged attacks
takes on the tile `(u, v)`; `max_range` is the range after it was cut to
`AI_NAV_CENTER`.  The part of the round after the test of `ERROR 2a` has no
error branch. -/
def rangedScanError (env : Env) (Distance_To_Tile : Int → Int → Int → Int → Int) (x y : Int)
    (max_range u v : Int) : Option ScanError :=
  let i := u - x
  let j := v - y
  if AI_NAV_CENTER + i < 0 ∨ AI_NAV_CENTER + i ≥ AI_NAV_SIZE ∨ AI_NAV_CENTER + j < 0
      ∨ AI_NAV_CENTER + j ≥ AI_NAV_SIZE then some ScanError.ERROR_1
  else if u < x - max_range ∨ u > x + max_range ∨ v < y - max_range ∨ v > y + max_range then
    some ScanError.ERROR_1a
  else
    let dist := Distance_To_Tile y x (AI_NAV_CENTER + j) (AI_NAV_CENTER + i)
    if dist < 0 then none
    else if IsInsideMap u v = false then none
    else if IsWalkable env u v = false then none
    else if u = x ∧ v = y then none
    else if dist = 0 then none
    else if AI_IS_SAFEZONE u v = false then
      if IsInsideMap (x + i) (y + j) = false then some ScanError.ERROR_2a else none
    else none

/-- The tiles `(u, v)` that the scan of the neighbourhood visits, in the
order of its two loops, when no round returns. -/
def neighbourScanTiles (x y : Int) : List (Int × Int) :=
  (forUpTo (x - AI_NAV_CENTER) (x + AI_NAV_CENTER)).flatMap fun u =>
    (forUpTo (y - AI_NAV_CENTER) (y + AI_NAV_CENTER)).map fun v => (u, v)

/-- The error branch `ERROR 1` or `ERROR 2a`, if any, that a round of the
scan of the neighbourhood takes on the tile `(u, v)`. -/
def neighbourScanError (env : Env) (Distance_To_Tile : Int → Int → Int → Int → Int) (x y : Int)
    (u v : Int) : Option ScanError :=
  let i := u - x
  let j := v - y
  if AI_NAV_CENTER + i < 0 ∨ AI_NAV_CENTER + i ≥ AI_NAV_SIZE ∨ AI_NAV_CENTER + j < 0
      ∨ AI_NAV_CENTER + j ≥ AI_NAV_SIZE then some ScanError.ERROR_1
  else
    let dist := Distance_To_Tile y x (AI_NAV_CENTER + j) (AI_NAV_CENTER + i)
    if dist < 0 then none
    else if IsInsideMap u v = false then none
    else if IsWalkable env u v = false then none
    else if u = x ∧ v = y then none
    else if dist = 0 then none
    else if dist ≥ AI_NAV_CENTER then none
    else if AI_IS_SAFEZONE x y = false then
      if IsInsideMap (x + i) (y + j) = false then some ScanError.ERROR_2a else none
    else none

/-- The locals that the loop "step towards nearby target (or run away)"
writes; the arrays `ai_new_x` and `ai_new_y` are functions of the index. -/
structure MoveChoice where
  d_best : Int
  success2 : Bool
  ai_moves : Int
  ai_new_x : Int → Int
  ai_new_y : Int → Int
  success_c : Coord
  reason : Nat

/-- A round of the loop "step towards nearby target (or run away)" for the
entry `(i2, j2)` of the navigation table of the target `(best_u, best_v)`;
`none` is the return of the branch `ERROR 4`. -/
def chooseMoveStep (Distance_To_Tile : Int → Int → Int → Int → Int)
    (AI_merchantbasemap : Int → Int → Int) (x y best_u best_v i j panic : Int)
    (st : MoveChoice) (ij : Int × Int) : Option MoveChoice :=
  let i2 := ij.1
  let j2 := ij.2
  if i2 < 0 ∨ i2 ≥ AI_NAV_SIZE ∨ j2 < 0 ∨ j2 ≥ AI_NAV_SIZE then some st
  else if IsInsideMap best_u best_v = false then none
  else
    let d := Distance_To_Tile best_v best_u j2 i2
    if d < 0 then some st
    else if d < st.d_best ∨ (panic ≠ 0 ∧ d > st.d_best) then
      let xn := x + i2 - i
      let yn := y + j2 - j
      if IsInsideMap xn yn = true ∧ (AI_merchantbasemap yn xn < AI_MBASEMAP_AVOID_MIN ∨ d = 0) then
        some
          { st with
            d_best := d
            success_c := ⟨xn, yn⟩
            ai_new_x := fun n => if n = 0 then xn else st.ai_new_x n
            ai_new_y := fun n => if n = 0 then yn else st.ai_new_y n
            success2 := true
            ai_moves := 1
            reason := if panic ≠ 0 then AI_REASON_RUN else st.reason }
      else some st
    else if st.success2 = true ∧ d = st.d_best ∧ st.ai_moves < AI_NUM_MOVES then
      let xn := x + i2 - i
      let yn := y + j2 - j
      if IsInsideMap xn yn = true ∧ (AI_merchantbasemap yn xn < AI_MBASEMAP_AVOID_MIN ∨ d = 0) then
        some
          { st with
            ai_new_x := fun n => if n = st.ai_moves then xn else st.ai_new_x n
            ai_new_y := fun n => if n = st.ai_moves then yn else st.ai_new_y n
            ai_moves := st.ai_moves + 1 }
      else some st
    else some st

/-- The loop "step towards nearby target (or run away)" from `bool success2
= false; int d_best = current_dist;` to the end of its two `for` loops; `st`
holds the values of the other locals before the loop. -/
def chooseMove (Distance_To_Tile : Int → Int → Int → Int → Int)
    (AI_merchantbasemap : Int → Int → Int) (x y best_u best_v panic current_dist : Int)
    (st : MoveChoice) : Option MoveChoice :=
  let i := AI_NAV_CENTER + x - best_u
  let j := AI_NAV_CENTER + y - best_v
  ((forUpTo (i - 1) (i + 1)).flatMap fun i2 =>
      (forUpTo (j - 1) (j + 1)).map fun j2 => (i2, j2)).foldlM
    (chooseMoveStep Distance_To_Tile AI_merchantbasemap x y best_u best_v i j panic)
    { st with success2 := false, d_best := current_dist }

/-- The draw among the candidate moves after the loop (`if (success2) ...`):
the error branch `ERROR 4a`, or the chosen move and the generator. -/
def drawMove (env : Env) (rnd : RandomGenerator) (st : MoveChoice) :
    Except ScanError (Coord × RandomGenerator) :=
  if st.success2 = true then
    if st.ai_moves > 1 then
      let idx := rnd.GetIntRnd env st.ai_moves
      if idx.1 < 0 ∨ idx.1 ≥ AI_NUM_MOVES then Except.error ScanError.ERROR_4a
      else Except.ok (⟨st.ai_new_x idx.1, st.ai_new_y idx.1⟩, idx.2)
    else Except.ok (st.success_c, rnd)
  else Except.ok (st.success_c, rnd)

/-- A hunter of level 1 with a crossbow on `(100, 100)`, facing east. -/
def crossbowHunter : CharacterState :=
  { coord := ⟨100, 100⟩, dir := 6, ai_slot_spell := AI_ATTACK_XBOW }

/-! ## Distances to the points of interest (`init.cpp`)

`Calculate_distance_to_POI` with the positions `POI_pos_xa`, `POI_pos_ya` of
the points of interest.  The table `Distance_To_POI[k][y][x]` of `short`
entries is a function of `k`, `y` and `x`; the work queue `qx`, `qy` is the
list of the entries written so far, so that `inext` is its length. -/

def AI_NUM_POI : Nat := 98

def POI_pos_xa : List Int :=
  [8, 245, 497, 256, 493, 256, 15, 245, 250, 254, 140, 162, 223, 229, 276, 273, 341, 362, 341,
    361, 272, 277, 228, 227, 141, 160, 101, 103, 181, 405, 400, 321, 399, 397, 320, 100, 178,
    103, 74, 132, 69, 105, 11, 155, 225, 192, 12, 10, 67, 427, 369, 432, 396, 490, 277, 348,
    313, 491, 493, 432, 428, 433, 369, 490, 396, 493, 490, 434, 278, 347, 312, 74, 68, 133, 11,
    105, 9, 11, 68, 153, 223, 189, 102, 102, 226, 276, 400, 399, 277, 224, 8, 250, 495, 250, 5,
    494, 493, 6]

def POI_pos_ya : List Int :=
  [6, 243, 4, 244, 494, 254, 490, 254, 250, 260, 223, 227, 136, 155, 138, 156, 226, 224, 274,
    278, 345, 365, 345, 366, 278, 275, 94, 174, 98, 92, 176, 98, 405, 322, 401, 405, 402, 323,
    67, 62, 131, 10, 106, 11, 9, 63, 150, 225, 188, 68, 62, 130, 11, 105, 9, 10, 64, 155, 224,
    188, 431, 369, 438, 393, 489, 277, 344, 313, 492, 489, 437, 432, 369, 439, 394, 491, 279,
    345, 311, 489, 492, 437, 224, 277, 94, 94, 225, 275, 406, 406, 248, 6, 250, 496, 9, 9, 498,
    492]

/-- Conversion of an `int` to `short`. -/
def toShort (v : Int) : Int := (v + 2 ^ 15) % 2 ^ 16 - 2 ^ 15

/-- The assignment `Distance_To_POI[k][y][x] = v`. -/
def setDistance (table : Nat → Int → Int → Int) (k : Nat) (y x v : Int) :
    Nat → Int → Int → Int :=
  fun k1 y1 x1 => if k1 = k ∧ y1 = y ∧ x1 = x then v else table k1 y1 x1

/-- How far `Calculate_distance_to_POI` has come: it runs, it has returned
from an error branch, or it has read an entry of the work queue that was
never written. -/
inductive ScanStatus where
  | running
  | returned
  | undefined
deriving DecidableEq

/-- The table and the locals of the loop over `l` of
`Calculate_distance_to_POI` for one point of interest. -/
structure PoiScan where
  table : Nat → Int → Int → Int
  queue : List Coord
  idone : Nat
  status : ScanStatus

/-- A round of the two loops over `u` and `v` of `Calculate_distance_to_POI`
for the tile `(u, v) = uv`; `dist` is the distance of the tile that is
worked on. -/
def visitTile (env : Env) (k : Nat) (dist : Int) (st : PoiScan) (uv : Int × Int) : PoiScan :=
  if st.status ≠ ScanStatus.running then st
  else if IsInsideMap uv.1 uv.2 = false then st
  else if st.table k uv.2 uv.1 > -1 then st
  else if IsWalkable env uv.1 uv.2 = false then st
  else
    let st1 : PoiScan := { st with table := setDistance st.table k uv.2 uv.1 (toShort (dist + 1)) }
    if (st1.queue.length : Int) ≥ MAP_HEIGHT * MAP_WIDTH then
      { st1 with status := ScanStatus.returned }
    else { st1 with queue := st1.queue ++ [⟨uv.1, uv.2⟩] }

/-- The tiles `(u, v)` of the loops `for (int u = x - 1; u <= x + 1; u++) for
(int v = y - 1; v <= y + 1; v++)`, in their order. -/
def tilesAround (x y : Int) : List (Int × Int) :=
  (forUpTo (x - 1) (x + 1)).flatMap fun u => (forUpTo (y - 1) (y + 1)).map fun v => (u, v)

/-- The loop `for (int l = 0; l < MAP_HEIGHT * MAP_WIDTH; l++)` of
`Calculate_distance_to_POI` from the round `l` on; `fuel` is the number of
rounds that are left, `MAP_HEIGHT * MAP_WIDTH - l`. -/
def poiLoop (env : Env) (k : Nat) : Nat → Int → PoiScan → PoiScan
  | 0, _, st => st
  | fuel + 1, l, st =>
    match st.queue[st.idone]? with
    | none => { st with status := ScanStatus.undefined }
    | some c =>
      if IsInsideMap c.x c.y = false then { st with status := ScanStatus.returned }
      else
        let dist := st.table k c.y c.x
        let st1 := (tilesAround c.x c.y).foldl (visitTile env k dist) st
        if st1.status ≠ ScanStatus.running then st1
        else if l ≥ MAP_HEIGHT * MAP_WIDTH - 1 then st1
        else
          let st2 : PoiScan := { st1 with idone := st1.idone + 1 }
          if st2.queue.length ≤ st2.idone then st2 else poiLoop env k fuel (l + 1) st2

/-- The body of the loop over the points of interest of
`Calculate_distance_to_POI` for the point `k`. -/
def poiDistances (env : Env) (table : Nat → Int → Int → Int) (k : Nat) : PoiScan :=
  let xa := POI_pos_xa.getD k 0
  let ya := POI_pos_ya.getD k 0
  poiLoop env k (MAP_HEIGHT * MAP_WIDTH).toNat 0
    { table := setDistance table k ya xa 0, queue := [⟨xa, ya⟩], idone := 0,
      status := ScanStatus.running }

/-- Function `Calculate_distance_to_POI`: the table `Distance_To_POI` that it
leaves, and whether it has run to its end. -/
def Calculate_distance_to_POI (env : Env) : (Nat → Int → Int → Int) × ScanStatus :=
  (List.range AI_NUM_POI).foldl
    (fun (acc : (Nat → Int → Int → Int) × ScanStatus) k =>
      if acc.2 ≠ ScanStatus.running then acc
      else ((poiDistances env acc.1 k).table, (poiDistances env acc.1 k).status))
    (fun _ _ _ => -1, ScanStatus.running)

/-! ## Paths between tiles -/

/-- The anchor tile of the point of interest `k`. -/
def poiAnchor (k : Nat) : Coord := ⟨POI_pos_xa.getD k 0, POI_pos_ya.getD k 0⟩

/-- The tile `t` is reached from `a` by a path of `n` moves between
8-neighbouring tiles that enters only walkable tiles inside the map. -/
def reach (env : Env) (a : Coord) : Nat → Coord → Prop
  | 0, t => t = a
  | n + 1, t =>
    ∃ p, reach env a n p ∧ distLInf p t = 1 ∧ IsInsideMap t.x t.y = true
      ∧ IsWalkable env t.x t.y = true

/-- The number `n` is the length of a shortest path from `a` to `t`. -/
def isShortest (env : Env) (a : Coord) (n : Nat) (t : Coord) : Prop :=
  reach env a n t ∧ ∀ m, reach env a m t → n ≤ m

/-! ## Distances to the points of interest -/

/-- What holds of the table and the queue of `Calculate_distance_to_POI`
while it works on the point of interest `k` with the anchor `a`: the first
`j` tiles of the queue are worked off, and `D` is the distance of the tile
that is worked on. -/
structure BfsInv (env : Env) (k : Nat) (a : Coord) (T0 : Nat → Int → Int → Int)
    (st : PoiScan) (j : Nat) (D : Int) : Prop where
  running : st.status = ScanStatus.running
  nodup : st.queue.Nodup
  inside : ∀ p ∈ st.queue, IsInsideMap p.x p.y = true
  anchor : a ∈ st.queue
  short : ∀ p ∈ st.queue, ∃ n : Nat, st.table k p.y p.x = n ∧ isShortest env a n p
  unseen : ∀ p : Coord, p ∉ st.queue → st.table k p.y p.x = -1
  sorted : st.queue.Pairwise (fun p q => st.table k p.y p.x ≤ st.table k q.y q.x)
  bound : ∀ p ∈ st.queue, st.table k p.y p.x ≤ D + 1
  processed : ∀ m p, m < j → st.queue[m]? = some p →
    ∀ t : Coord, (t.x, t.y) ∈ tilesAround p.x p.y → IsInsideMap t.x t.y = true →
      IsWalkable env t.x t.y = true → t ∈ st.queue
  complete : ∀ (n : Nat) (t : Coord), reach env a n t → (n : Int) ≤ D → t ∈ st.queue
  frame : ∀ k1 y x, k1 ≠ k → st.table k1 y x = T0 k1 y x

/-- What holds while the tiles around the tile `c` are visited, after the
tiles `pre`. -/
def InnerInv (env : Env) (k : Nat) (a : Coord) (T0 : Nat → Int → Int → Int) (i : Nat)
    (c : Coord) (D : Int) (pre : List (Int × Int)) (st : PoiScan) : Prop :=
  BfsInv env k a T0 st i D ∧ st.queue[i]? = some c ∧ st.table k c.y c.x = D ∧ st.idone = i
    ∧ ∀ uv ∈ pre, IsInsideMap uv.1 uv.2 = true → IsWalkable env uv.1 uv.2 = true →
        (⟨uv.1, uv.2⟩ : Coord) ∈ st.queue

/-- What holds of the table when the work on the point of interest `k` is
done. -/
def PoiFinal (env : Env) (k : Nat) (a : Coord) (T0 : Nat → Int → Int → Int) (r : PoiScan) :
    Prop :=
  r.status = ScanStatus.running
    ∧ (∀ t : Coord, r.table k t.y t.x = -1 ↔ ∀ n, ¬ reach env a n t)
    ∧ (∀ (n : Nat) (t : Coord), isShortest env a n t → r.table k t.y t.x = n)
    ∧ ∀ k1 y x, k1 ≠ k → r.table k1 y x = T0 k1 y x

/-- The entries of the table for the point of interest `k` are the lengths
of the shortest paths from its anchor, and `-1` for the tiles without a
path. -/
def poiTableRight (env : Env) (k : Nat) (table : Nat → Int → Int → Int) : Prop :=
  (∀ t : Coord, table k t.y t.x = -1 ↔ ∀ n, ¬ reach env (poiAnchor k) n t)
    ∧ ∀ (n : Nat) (t : Coord), isShortest env (poiAnchor k) n t → table k t.y t.x = n

/-- The obstacle-free map with distances that fit the table: a stand-in for
the obstacle table. -/
def freeEnv : Env := sampleEnv

/-- A tile three moves away from the anchor of the first point of interest. -/
def farTile : Coord := ⟨10, 9⟩

/-! ## Lookup after the map operations -/

theorem rawFind_rawSet {K V : Type} [LinearOrder K] (k k1 : K) (v : V) (l : List (K × V)) :
    rawFind k1 (rawSet k v l) = if k1 = k then some v else rawFind k1 l := by
  induction l with
  | nil =>
    simp only [rawSet, rawFind]
    by_cases h : k = k1
    · simp [h]
    · simp [h, Ne.symm h]
  | cons e t ih =>
    simp only [rawSet]
    by_cases h1 : k < e.1
    · rw [if_pos h1]
      simp only [rawFind]
      by_cases h2 : k1 = k
      · simp [h2]
      · rw [if_neg (fun h => h2 h.symm), if_neg h2]
    · rw [if_neg h1]
      by_cases h2 : k = e.1
      · rw [if_pos h2]
        simp only [rawFind]
        by_cases h3 : k1 = k
        · simp [h3]
        · rw [if_neg (fun h => h3 h.symm), if_neg h3, if_neg (fun h => h3 (h.symm.trans h2.symm))]
      · rw [if_neg h2]
        simp only [rawFind, ih]
        by_cases h3 : e.1 = k1
        · rw [if_pos h3, if_pos h3, if_neg (fun h => h2 (h.symm.trans h3.symm))]
        · rw [if_neg h3, if_neg h3]

theorem StdMap.find_set {K V : Type} [LinearOrder K] (m : StdMap K V) (k k1 : K) (v : V) :
    (m.set k v).find k1 = if k1 = k then some v else m.find k1 :=
  rawFind_rawSet k k1 v m.entries

theorem StdMap.find_erase {K V : Type} [LinearOrder K] (m : StdMap K V) (k k1 : K) :
    (m.erase k).find k1 = if k1 = k then none else m.find k1 := by
  unfold StdMap.find StdMap.erase
  simp only
  induction m.entries with
  | nil => simp [rawFind]
  | cons e t ih =>
    by_cases h1 : e.1 = k
    · rw [List.filter_cons_of_neg (by simp [h1]), ih]
      by_cases h2 : k1 = k
      · simp [h2]
      · simp only [if_neg h2, rawFind]
        rw [if_neg (fun h => h2 (h.symm.trans h1))]
    · rw [List.filter_cons_of_pos (by simp [h1])]
      simp only [rawFind, ih]
      by_cases h2 : e.1 = k1
      · have h3 : k1 ≠ k := fun h => h1 (h2.trans h)
        simp [h2, h3]
      · simp [h2]

theorem StdMap.find_modify {K V : Type} [LinearOrder K] (m : StdMap K V) (k k1 : K)
    (f : V → V) :
    (m.modify k f).find k1 = if k1 = k then (m.find k).map f else m.find k1 := by
  unfold StdMap.find StdMap.modify
  simp only
  induction m.entries with
  | nil => simp [rawFind]
  | cons e t ih =>
    simp only [List.map_cons, rawFind]
    by_cases h1 : e.1 = k
    · simp only [h1, if_true]
      by_cases h2 : k = k1
      · simp [h2]
      · rw [if_neg h2, ih, if_neg (fun h => h2 h.symm), if_neg (fun h => h2 h.symm), if_neg h2]
    · simp only [if_neg h1]
      by_cases h2 : e.1 = k1
      · have h3 : k1 ≠ k := fun h => h1 (h2.trans h)
        simp [h2, h3]
      · rw [if_neg h2, ih]
        by_cases h3 : k1 = k
        · simp [h3, h1]
        · simp [h3, h2]

theorem StdMap.find_insert {K V : Type} [LinearOrder K] (m : StdMap K V) (k k1 : K) (v : V) :
    (m.insert k v).find k1
      = if k1 = k then (match m.find k with | some w => some w | none => some v)
        else m.find k1 := by
  unfold StdMap.insert StdMap.contains
  cases h : m.find k with
  | none =>
    simp only [Option.isSome_none, Bool.false_eq_true, if_false, StdMap.find_set]
  | some w =>
    simp only [Option.isSome_some, if_true]
    by_cases h1 : k1 = k
    · simp [h1, h]
    · simp [h1]

/-- An entry of a map is what `find` returns for its key. -/
theorem rawFind_of_mem {K V : Type} [LinearOrder K] (l : List (K × V))
    (hl : l.Pairwise (fun a b => a.1 < b.1)) (e : K × V) (he : e ∈ l) :
    rawFind e.1 l = some e.2 := by
  induction l with
  | nil => cases he
  | cons a t ih =>
    have hat := List.pairwise_cons.mp hl
    rcases List.mem_cons.mp he with h | h
    · subst h; simp [rawFind]
    · have hlt := hat.1 e h
      simp only [rawFind]
      rw [if_neg (ne_of_lt hlt), ih hat.2 h]

theorem rawFind_mem {K V : Type} [DecidableEq K] (l : List (K × V)) (k : K) (v : V)
    (h : rawFind k l = some v) : (k, v) ∈ l := by
  induction l with
  | nil => simp [rawFind] at h
  | cons a t ih =>
    simp only [rawFind] at h
    split_ifs at h with h1
    · simp only [Option.some.injEq] at h
      rw [← h1, ← h]; exact List.mem_cons_self _ _
    · exact List.mem_cons_of_mem _ (ih h)

/-! ## Carrying capacity and `CollectLoot` -/

/-- The amount held after `Collect` is the old amount plus the non-negative
amount collected. -/
theorem Collect_amount (l : CollectedLootInfo) (loot : LootInfo) (nHeight : Int)
    (hr : l.IsRefund = false) (hn : 0 ≤ loot.nAmount) :
    ∃ l1, l.Collect loot nHeight = some l1 ∧ l1.nAmount = l.nAmount + loot.nAmount := by
  unfold CollectedLootInfo.Collect
  rw [hr]
  by_cases h0 : loot.nAmount ≤ 0
  · refine ⟨l, by simp [h0], ?_⟩
    omega
  · simp only [h0, if_false, Bool.false_eq_true]
    exact ⟨_, rfl, rfl⟩

/-- The result of `CollectLoot` on a record that is not a refund: it returns,
and the amounts are those of the source's assertions. -/
theorem CollectLoot_spec (ch : CharacterState) (newLoot : LootInfo) (nHeight carryCap : Int)
    (hr : ch.loot.IsRefund = false) (hn : 0 ≤ newLoot.nAmount) :
    ∃ ch1 remaining, ch.CollectLoot newLoot nHeight carryCap = some (ch1, remaining)
      ∧ 0 ≤ remaining ∧ remaining ≤ newLoot.nAmount
      ∧ ch1.loot.nAmount + remaining = ch.loot.nAmount + newLoot.nAmount
      ∧ (carryCap = -1 → remaining = 0)
      ∧ (carryCap ≠ -1 → ch1.loot.nAmount ≤ max carryCap ch.loot.nAmount)
      ∧ ch1 = { ch with loot := ch1.loot } := by
  unfold CharacterState.CollectLoot
  dsimp only
  generalize hfree : (if carryCap - ch.loot.nAmount < 0 then (0 : Int)
    else carryCap - ch.loot.nAmount) = freeCap
  generalize hrem : (if carryCap = -1 ∨ newLoot.nAmount ≤ freeCap then (0 : Int)
    else newLoot.nAmount - freeCap) = remaining
  generalize hnl : (if remaining > 0 then
    ({ newLoot with nAmount := newLoot.nAmount - remaining } : LootInfo) else newLoot) = newLoot1
  have hfree0 : 0 ≤ freeCap := by rw [← hfree]; split_ifs <;> omega
  have hfree1 : freeCap = 0 ∨ freeCap = carryCap - ch.loot.nAmount := by
    rw [← hfree]; split_ifs <;> simp
  have hrem0 : 0 ≤ remaining ∧ remaining ≤ newLoot.nAmount := by
    rw [← hrem]; split_ifs <;> omega
  have hrem1 : (carryCap = -1 ∨ newLoot.nAmount ≤ freeCap) ∧ remaining = 0
      ∨ (carryCap ≠ -1 ∧ freeCap < newLoot.nAmount ∧ remaining = newLoot.nAmount - freeCap) := by
    rw [← hrem]; split_ifs with h
    · left; exact ⟨h, rfl⟩
    · right; push_neg at h; exact ⟨h.1, h.2, rfl⟩
  have hnl1 : newLoot1.nAmount = newLoot.nAmount - remaining := by
    rw [← hnl]; split_ifs with h
    · rfl
    · have h0 : remaining = 0 := by omega
      rw [h0, sub_zero]
  obtain ⟨l1, hl1, hl1a⟩ := Collect_amount ch.loot newLoot1 nHeight hr (by omega)
  rw [hl1]
  simp only []
  have hcond : remaining ≥ 0 ∧ newLoot1.nAmount ≥ 0
      ∧ ch.loot.nAmount + newLoot.nAmount = l1.nAmount + remaining
      ∧ (carryCap = -1 ∨ newLoot1.nAmount ≤ freeCap)
      ∧ (newLoot1.nAmount = 0 ∨ carryCap = -1 ∨ l1.nAmount ≤ carryCap) := by
    refine ⟨by omega, by omega, by omega, ?_, ?_⟩
    · rcases hrem1 with ⟨h | h, h2⟩ | ⟨h1, h2, h3⟩
      · left; exact h
      · right; omega
      · right; omega
    · rcases hrem1 with ⟨h | h, h2⟩ | ⟨h1, h2, h3⟩
      · right; left; exact h
      · by_cases hc : carryCap = -1
        · right; left; exact hc
        · rcases hfree1 with h4 | h4
          · left; omega
          · right; right; omega
      · rcases hfree1 with h4 | h4
        · left; omega
        · right; right; omega
  rw [if_pos hcond]
  refine ⟨_, _, rfl, by omega, by omega, by simp only []; omega, ?_, ?_, rfl⟩
  · intro hc
    rcases hrem1 with ⟨_, h2⟩ | ⟨h1, _, _⟩
    · exact h2
    · exact absurd hc h1
  · intro hc
    simp only []
    rcases hrem1 with ⟨h | h, h2⟩ | ⟨h1, h2, h3⟩
    · exact absurd h hc
    · rcases hfree1 with h4 | h4
      · have : l1.nAmount = ch.loot.nAmount := by omega
        rw [this]; exact le_max_right _ _
      · have : l1.nAmount ≤ carryCap := by omega
        exact le_trans this (le_max_left _ _)
    · rcases hfree1 with h4 | h4
      · have : l1.nAmount = ch.loot.nAmount := by omega
        rw [this]; exact le_max_right _ _
      · have : l1.nAmount ≤ carryCap := by omega
        exact le_trans this (le_max_left _ _)

/-- Collecting into a refund record stops on the assertion of `Collect`. -/
theorem CollectLoot_refund (ch : CharacterState) (newLoot : LootInfo) (nHeight carryCap : Int)
    (hr : ch.loot.IsRefund = true) : ch.CollectLoot newLoot nHeight carryCap = none := by
  unfold CharacterState.CollectLoot
  dsimp only
  have h : ∀ l : LootInfo, ch.loot.Collect l nHeight = none := by
    intro l
    unfold CollectedLootInfo.Collect
    rw [hr]; rfl
  rw [h]

/-- C4: for a character whose loot record is not a refund, a `newLoot` with a
non-negative amount and a carrying capacity of at least -1, `CollectLoot`
returns an amount `remaining` with `0 <= remaining <= newLoot.nAmount`, and the
growth of the character's loot plus `remaining` is exactly `newLoot.nAmount`. -/
theorem C4_CollectLoot_conserves (ch : CharacterState) (newLoot : LootInfo)
    (nHeight carryCap : Int) (hr : ch.loot.IsRefund = false) (hn : 0 ≤ newLoot.nAmount)
    (_hc : -1 ≤ carryCap) :
    ∃ ch1 remaining, ch.CollectLoot newLoot nHeight carryCap = some (ch1, remaining)
      ∧ 0 ≤ remaining ∧ remaining ≤ newLoot.nAmount
      ∧ (ch1.loot.nAmount - ch.loot.nAmount) + remaining = newLoot.nAmount := by
  obtain ⟨ch1, remaining, h1, h2, h3, h4, _⟩ :=
    CollectLoot_spec ch newLoot nHeight carryCap hr hn
  exact ⟨ch1, remaining, h1, h2, h3, by omega⟩

/-- Witness for C4: an empty-handed character with capacity 5 meets 7 coins. -/
theorem C4_CollectLoot_conserves_witness :
    sampleCharacter.loot.IsRefund = false ∧ (0 : Int) ≤ (LootInfo.ofAmount 7 3).nAmount
      ∧ (-1 : Int) ≤ 5
      ∧ ∃ ch1 remaining, sampleCharacter.CollectLoot (LootInfo.ofAmount 7 3) 3 5
            = some (ch1, remaining)
          ∧ 0 ≤ remaining ∧ remaining ≤ (LootInfo.ofAmount 7 3).nAmount
          ∧ (ch1.loot.nAmount - sampleCharacter.loot.nAmount) + remaining
              = (LootInfo.ofAmount 7 3).nAmount :=
  ⟨by decide, by decide, by decide,
    C4_CollectLoot_conserves sampleCharacter (LootInfo.ofAmount 7 3) 3 5
      (by decide) (by decide) (by decide)⟩

/-- C5, as stated, fails: a character that already carries 20 coins and meets 5
more under a carrying capacity of 10 keeps its 20 coins, above the capacity. -/
theorem C5_counterexample :
    ∃ ch1, overloadedCharacter.CollectLoot (LootInfo.ofAmount 5 7) 7 10 = some (ch1, 5)
      ∧ ch1.loot.nAmount = 20 ∧ ¬ (ch1.loot.nAmount ≤ 10) :=
  ⟨overloadedCharacter, by decide, by decide, by decide⟩

/-- C5 (amended): for every character state, every `newLoot` with a non-negative
amount and every carrying capacity other than -1, `CollectLoot` returns whenever
the loot record is not a refund, and whenever it returns the character holds at
most the larger of the capacity and what it held before the call; so a
character that was within the capacity stays within it. -/
theorem C5_CollectLoot_capacity (ch : CharacterState) (newLoot : LootInfo)
    (nHeight carryCap : Int) (hn : 0 ≤ newLoot.nAmount) (hc : carryCap ≠ -1) :
    (ch.loot.IsRefund = false →
        ∃ ch1 remaining, ch.CollectLoot newLoot nHeight carryCap = some (ch1, remaining))
      ∧ (∀ ch1 remaining, ch.CollectLoot newLoot nHeight carryCap = some (ch1, remaining) →
          ch1.loot.nAmount ≤ max carryCap ch.loot.nAmount
            ∧ (ch.loot.nAmount ≤ carryCap → ch1.loot.nAmount ≤ carryCap)) := by
  constructor
  · intro hr
    obtain ⟨ch1, remaining, h1, _⟩ := CollectLoot_spec ch newLoot nHeight carryCap hr hn
    exact ⟨ch1, remaining, h1⟩
  · intro ch1 remaining h
    cases hr : ch.loot.IsRefund with
    | true => rw [CollectLoot_refund ch newLoot nHeight carryCap hr] at h; cases h
    | false =>
      obtain ⟨ch2, r2, h1, _, _, _, _, h5, _⟩ :=
        CollectLoot_spec ch newLoot nHeight carryCap hr hn
      rw [h1] at h
      simp only [Option.some.injEq, Prod.mk.injEq] at h
      rw [← h.1]
      refine ⟨h5 hc, fun hle => ?_⟩
      have := h5 hc
      rwa [max_eq_left hle] at this

/-- Witness for C5 (amended): the overloaded character under capacity 10. -/
theorem C5_CollectLoot_capacity_witness :
    (0 : Int) ≤ (LootInfo.ofAmount 5 7).nAmount ∧ (10 : Int) ≠ -1
      ∧ ((overloadedCharacter.loot.IsRefund = false →
          ∃ ch1 remaining, overloadedCharacter.CollectLoot (LootInfo.ofAmount 5 7) 7 10
            = some (ch1, remaining))
        ∧ (∀ ch1 remaining, overloadedCharacter.CollectLoot (LootInfo.ofAmount 5 7) 7 10
            = some (ch1, remaining) →
          ch1.loot.nAmount ≤ max 10 overloadedCharacter.loot.nAmount
            ∧ (overloadedCharacter.loot.nAmount ≤ 10 → ch1.loot.nAmount ≤ 10))) :=
  ⟨by decide, by decide,
    C5_CollectLoot_capacity overloadedCharacter (LootInfo.ofAmount 5 7) 7 10
      (by decide) (by decide)⟩

/-! ## Loot of a killed character: `HandleKilledLoot` -/

/-- Truncating division by 25 is the floor on non-negative amounts. -/
theorem tdiv25_eq_floor (a : Int) (h : 0 ≤ a) : Int.tdiv a 25 = a / 25 :=
  Int.tdiv_eq_ediv h (by decide)

/-- The tax of 4% never exceeds a non-negative amount. -/
theorem floor25_le (a : Int) (h : 0 ≤ a) : 0 ≤ a / 25 ∧ a / 25 ≤ a := by
  constructor <;> omega

/-- C9: `HandleKilledLoot` on a character with amount `A` (its loot, plus the
player's locked `coinAmount` when its index is 0): the step tax grows by
`floor(A/25)` if `hasTax` and by 0 otherwise; the remainder `A - tax`, when
non-zero, goes to exactly one destination: the game fund if the player is
poisoned and `FORK_LESSHEARTS` is in effect, otherwise a refund bounty if
`canRefund` and the fork is in effect, otherwise the loot pile at
`PushCoordOutOfSpawnArea(coord)`; tax plus destination amount is `A`. -/
theorem C9_HandleKilledLoot (ForkInEffect : Fork → Int → Bool) (gs : GameState)
    (pId : PlayerID) (chInd : Int) (hasTax canRefund : Bool) (step : StepResult)
    (pc : PlayerState) (ch : CharacterState) (A : Int)
    (hp : gs.players.find pId = some pc) (hc : pc.characters.find chInd = some ch)
    (hidx : 0 ≤ chInd) (hcoin : chInd = 0 → 0 ≤ pc.coinAmount)
    (hA : A = ch.loot.nAmount + (if chInd = 0 then pc.coinAmount else 0)) (hA0 : 0 ≤ A) :
    ∃ gs1 step1 tax,
      gs.HandleKilledLoot ForkInEffect pId chInd hasTax canRefund step = some (gs1, step1)
      ∧ tax = (if hasTax = true then A / 25 else 0)
      ∧ step1.nTaxAmount = step.nTaxAmount + tax
      ∧ step1.killedPlayers = step.killedPlayers ∧ step1.killedBy = step.killedBy
      ∧ (A - tax = 0 → gs1 = gs ∧ step1.bounties = step.bounties)
      ∧ (A - tax ≠ 0 →
          if pc.remainingLife ≥ 0 ∧ ForkInEffect Fork.FORK_LESSHEARTS gs.nHeight = true then
            gs1 = { gs with gameFund := gs.gameFund + (A - tax) }
              ∧ step1.bounties = step.bounties
          else if canRefund = true ∧ ForkInEffect Fork.FORK_LESSHEARTS gs.nHeight = true then
            gs1 = gs
              ∧ step1.bounties = step.bounties ++
                  [⟨{ player := pId, index := chInd }, refundRecord (A - tax) gs.nHeight,
                    pc.address⟩]
              ∧ (refundRecord (A - tax) gs.nHeight).IsRefund = true
          else
            gs1 = gs.AddLoot (PushCoordOutOfSpawnArea ch.coord) (A - tax)
              ∧ step1.bounties = step.bounties)
      ∧ tax + (A - tax) = A := by
  have hA1 : (if chInd = 0 then ch.loot.nAmount + pc.coinAmount else ch.loot.nAmount) = A := by
    rw [hA]; split_ifs <;> simp
  have hcoin1 : ¬ (chInd = 0 ∧ ¬ (pc.coinAmount ≥ 0)) := by
    rintro ⟨h1, h2⟩; exact h2 (hcoin h1)
  have htax := floor25_le A hA0
  unfold GameState.HandleKilledLoot
  rw [hp]; dsimp only
  rw [hc]; dsimp only
  rw [if_neg hcoin1, hA1, tdiv25_eq_floor A hA0]
  cases hasTax with
  | false =>
    simp only [Bool.false_eq_true, if_false, sub_zero, add_zero]
    by_cases hz : A = 0
    · rw [if_pos hz]
      exact ⟨gs, step, 0, rfl, rfl, by simp, rfl, rfl, fun _ => ⟨rfl, rfl⟩,
        fun h => absurd (by simpa using hz) h, by simp⟩
    · rw [if_neg hz, if_neg (by omega : ¬ ¬ (A > 0))]
      by_cases h1 : pc.remainingLife ≥ 0 ∧ ForkInEffect Fork.FORK_LESSHEARTS gs.nHeight = true
      · rw [if_pos h1]
        refine ⟨_, _, 0, rfl, rfl, by simp, rfl, rfl, fun h => absurd (by simpa using h) hz,
          fun _ => ?_, by simp⟩
        rw [if_pos h1]; simp
      · rw [if_neg h1]
        by_cases h2 : canRefund = true ∧ ForkInEffect Fork.FORK_LESSHEARTS gs.nHeight = true
        · rw [if_pos h2]
          have hs : CollectedLootInfo.SetRefund {} A gs.nHeight
              = some (refundRecord A gs.nHeight) := by
            simp [CollectedLootInfo.SetRefund, refundRecord]
          have hm : CharacterID.make pId chInd = some { player := pId, index := chInd } := by
            simp [CharacterID.make, not_lt.mpr hidx]
          rw [hs, hm]
          refine ⟨_, _, 0, rfl, rfl, by simp, rfl, rfl, fun h => absurd (by simpa using h) hz,
            fun _ => ?_, by simp⟩
          rw [if_neg h1, if_pos h2]
          refine ⟨rfl, by simp, ?_⟩
          simp only [CollectedLootInfo.IsRefund, refundRecord, sub_zero]
          simp; omega
        · rw [if_neg h2]
          refine ⟨_, _, 0, rfl, rfl, by simp, rfl, rfl, fun h => absurd (by simpa using h) hz,
            fun _ => ?_, by simp⟩
          rw [if_neg h1, if_neg h2]; simp
  | true =>
    simp only [if_true]
    by_cases hz : A - A / 25 = 0
    · rw [if_pos hz]
      exact ⟨gs, _, A / 25, rfl, rfl, rfl, rfl, rfl, fun _ => ⟨rfl, rfl⟩,
        fun h => absurd hz h, by omega⟩
    · rw [if_neg hz, if_neg (by omega : ¬ ¬ (A - A / 25 > 0))]
      by_cases h1 : pc.remainingLife ≥ 0 ∧ ForkInEffect Fork.FORK_LESSHEARTS gs.nHeight = true
      · rw [if_pos h1]
        refine ⟨_, _, A / 25, rfl, rfl, rfl, rfl, rfl, fun h => absurd h hz,
          fun _ => ?_, by omega⟩
        rw [if_pos h1]; exact ⟨rfl, rfl⟩
      · rw [if_neg h1]
        by_cases h2 : canRefund = true ∧ ForkInEffect Fork.FORK_LESSHEARTS gs.nHeight = true
        · rw [if_pos h2]
          have hs : CollectedLootInfo.SetRefund {} (A - A / 25) gs.nHeight
              = some (refundRecord (A - A / 25) gs.nHeight) := by
            simp [CollectedLootInfo.SetRefund, refundRecord]
          have hm : CharacterID.make pId chInd = some { player := pId, index := chInd } := by
            simp [CharacterID.make, not_lt.mpr hidx]
          rw [hs, hm]
          refine ⟨_, _, A / 25, rfl, rfl, rfl, rfl, rfl, fun h => absurd h hz,
            fun _ => ?_, by omega⟩
          rw [if_neg h1, if_pos h2]
          refine ⟨rfl, rfl, ?_⟩
          simp only [CollectedLootInfo.IsRefund, refundRecord]
          simp; omega
        · rw [if_neg h2]
          refine ⟨_, _, A / 25, rfl, rfl, rfl, rfl, rfl, fun h => absurd h hz,
            fun _ => ?_, by omega⟩
          rw [if_neg h1, if_neg h2]; exact ⟨rfl, rfl⟩

/-- Witness for C9: the general of `alice` (loot 50, locked 100) is killed with
tax and without refund before the forks: tax 6, and 144 dropped next to the
spawn strip. -/
theorem C9_HandleKilledLoot_witness :
    sampleState.players.find ⟨"alice"⟩ = some samplePlayer
      ∧ samplePlayer.characters.find 0 = some sampleGeneral
      ∧ (0 : Int) ≤ 0 ∧ ((0 : Int) = 0 → 0 ≤ samplePlayer.coinAmount)
      ∧ (150 : Int) = sampleGeneral.loot.nAmount
          + (if (0 : Int) = 0 then samplePlayer.coinAmount else 0)
      ∧ (0 : Int) ≤ 150
      ∧ ∃ gs1 step1 tax,
          sampleState.HandleKilledLoot noFork ⟨"alice"⟩ 0 true false {} = some (gs1, step1)
          ∧ tax = (if true = true then (150 : Int) / 25 else 0)
          ∧ step1.nTaxAmount = ({} : StepResult).nTaxAmount + tax
          ∧ step1.killedPlayers = ({} : StepResult).killedPlayers
          ∧ step1.killedBy = ({} : StepResult).killedBy
          ∧ (150 - tax = 0 → gs1 = sampleState ∧ step1.bounties = ({} : StepResult).bounties)
          ∧ (150 - tax ≠ 0 →
              if samplePlayer.remainingLife ≥ 0
                  ∧ noFork Fork.FORK_LESSHEARTS sampleState.nHeight = true then
                gs1 = { sampleState with gameFund := sampleState.gameFund + (150 - tax) }
                  ∧ step1.bounties = ({} : StepResult).bounties
              else if false = true ∧ noFork Fork.FORK_LESSHEARTS sampleState.nHeight = true then
                gs1 = sampleState
                  ∧ step1.bounties = ({} : StepResult).bounties ++
                      [⟨{ player := ⟨"alice"⟩, index := 0 },
                        refundRecord (150 - tax) sampleState.nHeight, samplePlayer.address⟩]
                  ∧ (refundRecord (150 - tax) sampleState.nHeight).IsRefund = true
              else
                gs1 = sampleState.AddLoot (PushCoordOutOfSpawnArea sampleGeneral.coord) (150 - tax)
                  ∧ step1.bounties = ({} : StepResult).bounties)
          ∧ tax + (150 - tax) = 150 :=
  ⟨by decide, by decide, by decide, by decide, by decide, by decide,
    C9_HandleKilledLoot noFork sampleState ⟨"alice"⟩ 0 true false {} samplePlayer sampleGeneral
      150 (by decide) (by decide) (by decide) (by decide) (by decide) (by decide)⟩

/-! ## Treasure injection -/

/-- The total that the drop loop accumulates over a list of areas. -/
theorem dropTreasure_fold_total (env : Env) (T : Int) (l : List Nat)
    (acc : GameState × RandomGenerator × Int) :
    (l.foldl (dropTreasureStep env T) acc).2.2
      = acc.2.2 + (l.map (fun i => Int.tdiv (env.HarvestPortions i * T) TOTAL_HARVEST)).sum := by
  induction l generalizing acc with
  | nil => simp
  | cons a t ih =>
    rw [List.foldl_cons, ih]
    simp only [dropTreasureStep, List.map_cons, List.sum_cons]
    ring

/-- The value of `nTotalTreasure` after the drop loop. -/
theorem dropTreasure_total (env : Env) (T : Int) (gs : GameState) (rnd : RandomGenerator) :
    (dropTreasure env T gs rnd).2.2
      = ((List.range NUM_HARVEST_AREAS).map
          (fun i => Int.tdiv (env.HarvestPortions i * T) TOTAL_HARVEST)).sum := by
  unfold dropTreasure
  rw [dropTreasure_fold_total]
  simp

/-- Truncated shares never add up to more than the exact shares. -/
theorem shares_sum_le (w : Nat → Int) (T : Int) (hT : 0 ≤ T) (l : List Nat)
    (hw : ∀ i ∈ l, 0 ≤ w i) :
    900 * (l.map (fun i => Int.tdiv (w i * T) TOTAL_HARVEST)).sum ≤ (l.map w).sum * T := by
  induction l with
  | nil => simp
  | cons a t ih =>
    have h1 := ih (fun i hi => hw i (List.mem_cons_of_mem _ hi))
    have h2 : 0 ≤ w a * T := mul_nonneg (hw a (List.mem_cons_self _ _)) hT
    have h3 : Int.tdiv (w a * T) TOTAL_HARVEST = (w a * T) / 900 :=
      Int.tdiv_eq_ediv h2 (by decide)
    simp only [List.map_cons, List.sum_cons]
    rw [h3, add_mul]
    have h4 : 900 * ((w a * T) / 900) ≤ w a * T := by omega
    linarith

/-- Exact shares: when 900 divides the treasure every division is exact. -/
theorem shares_sum_exact (w : Nat → Int) (q : Int) (l : List Nat) :
    (l.map (fun i => Int.tdiv (w i * (900 * q)) TOTAL_HARVEST)).sum = (l.map w).sum * q := by
  induction l with
  | nil => simp
  | cons a t ih =>
    simp only [List.map_cons, List.sum_cons]
    rw [ih, add_mul]
    congr 1
    have h : w a * (900 * q) = (w a * q) * 900 := by ring
    rw [h, TOTAL_HARVEST]
    exact Int.mul_tdiv_cancel _ (by decide)

/-- For a treasure that is a multiple of 900 the assertion
`nTotalTreasure + nCrownBonus == nTreasureAmount` of `PerformStep` holds. -/
theorem treasure_assertion_of_multiple (env : Env) (gs : GameState) (rnd : RandomGenerator)
    (q : Int)
    (hsum : ((List.range NUM_HARVEST_AREAS).map env.HarvestPortions).sum
      = TOTAL_HARVEST - CROWN_BONUS) :
    (dropTreasure env (900 * q) gs rnd).2.2 + crownBonusOf (900 * q) = 900 * q := by
  rw [dropTreasure_total, shares_sum_exact, hsum]
  have h : CROWN_BONUS * (900 * q) = (25 * q) * 900 := by rw [CROWN_BONUS]; ring
  rw [crownBonusOf, h, TOTAL_HARVEST, Int.mul_tdiv_cancel _ (by decide), CROWN_BONUS]
  ring

/-- A sequence of two steps whose second always fails, fails. -/
theorem bind_none_of_forall {α β : Type} (o : Option α) (f : α → Option β)
    (h : ∀ a, f a = none) : o.bind f = none := by
  cases o with
  | none => rfl
  | some a => exact h a

/-- The integer divisions of the treasure lose coins when 36 does not divide
the amount. -/
theorem treasure_sum_lt (env : Env) (T : Int) (hT : 0 ≤ T)
    (hw : ∀ i ∈ List.range NUM_HARVEST_AREAS, 0 ≤ env.HarvestPortions i)
    (hsum : ((List.range NUM_HARVEST_AREAS).map env.HarvestPortions).sum
      = TOTAL_HARVEST - CROWN_BONUS)
    (h36 : ¬ (36 ∣ T)) (gs : GameState) (rnd : RandomGenerator) :
    (dropTreasure env T gs rnd).2.2 + crownBonusOf T < T := by
  have h1 := shares_sum_le env.HarvestPortions T hT (List.range NUM_HARVEST_AREAS) hw
  rw [hsum] at h1
  rw [dropTreasure_total]
  have h2 : crownBonusOf T = (25 * T) / 900 := by
    rw [crownBonusOf, CROWN_BONUS, TOTAL_HARVEST]
    exact Int.tdiv_eq_ediv (by omega) (by decide)
  rw [h2]
  have h3 : 900 * ((25 * T) / 900) < 25 * T := by
    have h4 : (25 * T) % 900 ≠ 0 := by
      intro h5
      apply h36
      omega
    omega
  simp only [TOTAL_HARVEST, CROWN_BONUS] at h1 ⊢
  linarith

/-- C8 (the code at the failing inputs): for a treasure amount `T >= 0` that
is not a multiple of 36, and any non-negative harvest weights summing to
`TOTAL_HARVEST - CROWN_BONUS`, the integer divisions lose coins: the amounts
dropped by the loop of `PerformStep` plus the crown bonus stay below `T`, so
the assertion `nTotalTreasure + nCrownBonus == nTreasureAmount` fails and the
part of `PerformStep` that runs for a non-zero block hash never completes. -/
theorem C8_treasure_assertion_fails (env : Env) (T : Int) (hT : 0 ≤ T)
    (hw : ∀ i ∈ List.range NUM_HARVEST_AREAS, 0 ≤ env.HarvestPortions i)
    (hsum : ((List.range NUM_HARVEST_AREAS).map env.HarvestPortions).sum
      = TOTAL_HARVEST - CROWN_BONUS)
    (h36 : ¬ (36 ∣ T)) :
    (∀ (gs : GameState) (rnd : RandomGenerator),
        (dropTreasure env T gs rnd).2.2 + crownBonusOf T < T)
      ∧ (∀ (W : Type) (cache : Cache W) (inState : GameState) (newHash : Nat)
          (vMoves : List Move) (respawn_crown : Bool) (gs : GameState) (step : StepResult),
          stepRandomPart env cache inState ⟨T, newHash, vMoves⟩ respawn_crown gs step
            = none) := by
  have key := treasure_sum_lt env T hT hw hsum h36
  refine ⟨key, ?_⟩
  intro W cache inState newHash vMoves respawn_crown gs step
  unfold stepRandomPart
  apply bind_none_of_forall
  intro d1
  apply bind_none_of_forall
  intro sp
  apply bind_none_of_forall
  intro c2
  exact if_pos (ne_of_lt (key _ _))

/-- Witness for C8: the treasure after seven halvings of 9 coins,
`900000000 >> 7 = 7031250`, with the stand-in weights; a step with that
treasure and a non-zero block hash stops on the assertion. -/
theorem C8_treasure_assertion_fails_witness :
    (0 : Int) ≤ 7031250
      ∧ (∀ i ∈ List.range NUM_HARVEST_AREAS, 0 ≤ sampleEnv.HarvestPortions i)
      ∧ ((List.range NUM_HARVEST_AREAS).map sampleEnv.HarvestPortions).sum
          = TOTAL_HARVEST - CROWN_BONUS
      ∧ ¬ ((36 : Int) ∣ 7031250)
      ∧ (dropTreasure sampleEnv 7031250 sampleState (RandomGenerator.seed sampleEnv 1)).2.2
            + crownBonusOf 7031250 < 7031250
      ∧ PerformStep sampleEnv idPasses rangedCache emptyState ⟨7031250, 1, []⟩ emptyState {}
          = none
      ∧ PerformStep sampleEnv idPasses rangedCache emptyState ⟨7031700, 1, []⟩ emptyState {}
          ≠ none :=
  ⟨by decide, by decide, by decide, by decide,
    (C8_treasure_assertion_fails sampleEnv 7031250 (by decide) (by decide) (by decide)
      (by decide)).1 sampleState (RandomGenerator.seed sampleEnv 1), by rfl, by decide⟩

/-! ## Ranged kills: `KillRangedAttacks` -/

/-- C10 (the code at the failing input): `KillRangedAttacks` removes the
flagged hunter `a.1`, who carries 100 coins, for real; the step's tax stays 0
(the claim says it grows by `floor(100/25) = 4`) and all 100 coins (not 96)
are dropped on the hunter's tile. -/
theorem C10_KillRangedAttacks_untaxed :
    (rangedState.KillRangedAttacks {} rangedCache []).map
        (fun r =>
          (r.2.1.nTaxAmount,
            (r.1.loot.find ⟨100, 101⟩).map (fun l => l.nAmount),
            (r.1.players.find ⟨"a"⟩).map (fun p => p.characters.keys)))
      = some (0, some 100, some [0]) := by
  decide

/-! ## Loot division -/

/-- C7, as stated, fails: with `alice` capped at 10 and `bob` unlimited on a
pile of 15, the capped character collects 7, not 10, and the unlimited one 8,
not 5. -/
theorem C7_counterexample :
    splitOutcome ((splitState "bob").DivideLootAmongPlayersWith capTenUnlessCrown)
        = some (some 7, some 8, none)
      ∧ splitOutcome ((splitState "bob").DivideLootAmongPlayersWith capTenUnlessCrown)
        ≠ some (some 10, some 5, none) := by
  decide

/-- C7 (amended): two characters holding no loot stand on one tile with a
15-coin pile, one with carrying capacity 10 and one with unlimited capacity;
the capacity sort and share loop give the capacity-10 character
`floor(15/2) = 7` coins and the unlimited character the remaining 8, whichever
of the two comes first in the player map, and the pile is gone. -/
theorem C7_loot_split_scenario :
    splitOutcome ((splitState "bob").DivideLootAmongPlayersWith capTenUnlessCrown)
        = some (some 7, some 8, none)
      ∧ splitOutcome ((splitState "alice").DivideLootAmongPlayersWith capTenUnlessCrown)
        = some (some 8, some 7, none) := by
  decide

theorem findCharacter_setCharacter (gs : GameState) (pid p : PlayerID) (cid c : Int)
    (ch : CharacterState) :
    (gs.setCharacter pid cid ch).findCharacter p c
      = if p = pid ∧ c = cid then (gs.findCharacter pid cid).map (fun _ => ch)
        else gs.findCharacter p c := by
  unfold GameState.findCharacter GameState.setCharacter
  simp only [StdMap.find_modify]
  by_cases hp : p = pid
  · subst hp
    cases h : gs.players.find p with
    | none => simp
    | some pl =>
      simp only [if_true, Option.map_some', Option.some_bind, StdMap.find_modify, true_and]
  · simp [hp]

theorem AddLoot_players (gs : GameState) (d : Coord) (a : Int) :
    (gs.AddLoot d a).players = gs.players := by
  unfold GameState.AddLoot
  split_ifs
  · rfl
  · cases gs.loot.find d with
    | none => rfl
    | some li => simp only; split_ifs <;> rfl

theorem AddLoot_nHeight (gs : GameState) (d : Coord) (a : Int) :
    (gs.AddLoot d a).nHeight = gs.nHeight := by
  unfold GameState.AddLoot
  split_ifs
  · rfl
  · cases gs.loot.find d with
    | none => rfl
    | some li => simp only; split_ifs <;> rfl

theorem findCharacter_AddLoot (gs : GameState) (d : Coord) (a : Int) (p : PlayerID) (c : Int) :
    (gs.AddLoot d a).findCharacter p c = gs.findCharacter p c := by
  unfold GameState.findCharacter
  rw [AddLoot_players]

theorem loot_find_AddLoot_ne (gs : GameState) (d d1 : Coord) (a : Int) (h : d1 ≠ d) :
    (gs.AddLoot d a).loot.find d1 = gs.loot.find d1 := by
  unfold GameState.AddLoot
  split_ifs
  · rfl
  · cases hf : gs.loot.find d with
    | none => simp only [StdMap.find_insert, if_neg h]
    | some li =>
      simp only
      split_ifs
      · simp only [StdMap.find_erase, if_neg h]
      · simp only [StdMap.find_modify, if_neg h]

theorem lootAt_AddLoot_same (gs : GameState) (d : Coord) (a A : Int)
    (h : gs.lootAt d = some A) (ha : a ≠ 0) :
    (gs.AddLoot d a).lootAt d = if A + a = 0 then none else some (A + a) := by
  unfold GameState.lootAt at h ⊢
  cases hf : gs.loot.find d with
  | none => rw [hf] at h; simp at h
  | some li =>
    rw [hf] at h
    simp only [Option.map_some', Option.some.injEq] at h
    unfold GameState.AddLoot
    · rw [if_neg ha, hf]
      simp only
      rw [h]
      by_cases h0 : A + a = 0
      · simp only [if_pos h0, StdMap.find_erase, if_true, Option.map_none']
      · simp only [if_neg h0, StdMap.find_modify, if_true, hf, Option.map_some', h]

/-- Truncating division of a positive pile by a positive head count is the
floor. -/
theorem share_floor (A n : Int) (hA : 0 < A) (hn : 0 < n) :
    Int.tdiv A n = A / n ∧ 0 ≤ A / n ∧ A / n ≤ A := by
  have h1 : Int.tdiv A n = A / n := Int.tdiv_eq_ediv (le_of_lt hA) (le_of_lt hn)
  have h2 : 0 ≤ A / n := Int.ediv_nonneg (le_of_lt hA) (le_of_lt hn)
  have h3 : A / n ≤ A := Int.ediv_le_self n (le_of_lt hA)
  exact ⟨h1, h2, h3⟩

/-- One round of the share loop for a collector with unlimited capacity. -/
theorem divideLootStep_spec (gs : GameState) (counts : StdMap Coord Int)
    (t : CharacterOnLootTile) (ch : CharacterState) (n : Int)
    (hch : gs.findCharacter t.pid t.cid = some ch) (hr : ch.loot.IsRefund = false)
    (hcap : t.carryCap = -1) (hn : counts.find ch.coord = some n) (hn0 : 0 < n) :
    ∃ gs1, divideLootStep (gs, counts) t = some (gs1, counts.modify ch.coord (fun m => m - 1))
      ∧ (∀ p c, ¬ (p = t.pid ∧ c = t.cid) → gs1.findCharacter p c = gs.findCharacter p c)
      ∧ (∃ ch1, gs1.findCharacter t.pid t.cid = some ch1 ∧ ch1.coord = ch.coord
          ∧ ∀ A, gs.lootAt ch.coord = some A → 0 < A →
              ch1.loot.nAmount = ch.loot.nAmount + A / n)
      ∧ (∀ d, d ≠ ch.coord → gs1.loot.find d = gs.loot.find d)
      ∧ (∀ A, gs.lootAt ch.coord = some A → 0 < A →
          gs1.lootAt ch.coord = if A - A / n = 0 then none else some (A - A / n)) := by
  unfold divideLootStep
  simp only [hch, hn]
  rw [if_neg (by omega : ¬ ¬ (n > 0))]
  cases hcont : gs.loot.contains ch.coord with
  | false =>
    have hnone : gs.loot.find ch.coord = none := by
      unfold StdMap.contains at hcont
      cases h : gs.loot.find ch.coord with
      | none => rfl
      | some l => rw [h] at hcont; simp at hcont
    simp only [Bool.false_eq_true, if_false, StdMap.find_insert, if_true, hnone,
      Option.getD_some]
    have h0 : ¬ (Int.tdiv ({} : LootInfo).nAmount n > 0) := by
      show ¬ (Int.tdiv 0 n > 0)
      simp
    rw [if_neg h0]
    refine ⟨_, rfl, fun p c _ => rfl, ⟨ch, hch, rfl, ?_⟩, ?_, ?_⟩
    · intro A hA; simp [GameState.lootAt, hnone] at hA
    · intro d hd
      simp only [StdMap.find_insert, if_neg hd]
    · intro A hA; simp [GameState.lootAt, hnone] at hA
  | true =>
    obtain ⟨li, hli⟩ : ∃ li, gs.loot.find ch.coord = some li := by
      unfold StdMap.contains at hcont
      cases h : gs.loot.find ch.coord with
      | none => rw [h] at hcont; simp at hcont
      | some l => exact ⟨l, rfl⟩
    simp only [if_true, hli, Option.getD_some]
    by_cases hs : Int.tdiv li.nAmount n > 0
    · rw [if_pos hs]
      obtain ⟨ch1, rem, hcl, _, _, hsum, hrem0, _, hch1⟩ :=
        CollectLoot_spec ch { li with nAmount := Int.tdiv li.nAmount n } gs.nHeight t.carryCap
          hr (le_of_lt hs)
      have hrem : rem = 0 := hrem0 hcap
      subst hrem
      rw [hcl]
      simp only [zero_sub]
      simp only [add_zero] at hsum
      refine ⟨_, rfl, ?_, ⟨ch1, ?_, ?_, ?_⟩, ?_, ?_⟩
      · intro p c hpc
        rw [findCharacter_AddLoot, findCharacter_setCharacter, if_neg hpc]
      · rw [findCharacter_AddLoot, findCharacter_setCharacter, if_pos ⟨rfl, rfl⟩, hch]
        rfl
      · rw [hch1]
      · intro A hA hA0
        have hAe : li.nAmount = A := by
          simpa [GameState.lootAt, hli] using hA
        rw [hsum, hAe, (share_floor A n hA0 hn0).1]
      · intro d hd
        rw [loot_find_AddLoot_ne _ _ _ _ hd]
        rfl
      · intro A hA hA0
        have hAe : li.nAmount = A := by
          simpa [GameState.lootAt, hli] using hA
        have hfl := share_floor A n hA0 hn0
        rw [hAe, hfl.1] at hs ⊢
        have hla : (gs.setCharacter t.pid t.cid ch1).lootAt ch.coord = some A := by
          simpa [GameState.lootAt, GameState.setCharacter] using hA
        rw [lootAt_AddLoot_same _ _ _ A hla (by omega)]
        have e : A + -(A / n) = A - A / n := by ring
        rw [e]
    · rw [if_neg hs]
      refine ⟨_, rfl, fun p c _ => rfl, ⟨ch, hch, rfl, ?_⟩, fun d _ => rfl, ?_⟩
      · intro A hA hA0
        have hAe : li.nAmount = A := by
          simpa [GameState.lootAt, hli] using hA
        have hfl := share_floor A n hA0 hn0
        rw [hAe, hfl.1] at hs
        have : A / n = 0 := by omega
        rw [this, add_zero]
      · intro A hA hA0
        have hAe : li.nAmount = A := by
          simpa [GameState.lootAt, hli] using hA
        have hfl := share_floor A n hA0 hn0
        rw [hAe, hfl.1] at hs
        have : A / n = 0 := by omega
        rw [this, sub_zero, if_neg (by omega), hA]

theorem forall₂_of_mem {α β : Type} {R S : α → β → Prop} {l1 : List α} {l2 : List β}
    (h : List.Forall₂ R l1 l2) (hi : ∀ a ∈ l1, ∀ b, R a b → S a b) : List.Forall₂ S l1 l2 := by
  induction h with
  | nil => exact List.Forall₂.nil
  | cons hab _ ih =>
    exact List.Forall₂.cons (hi _ (List.mem_cons_self _ _) _ hab)
      (ih (fun a ha b hr => hi a (List.mem_cons_of_mem _ ha) b hr))

theorem share_lt (R n : Int) (hR : 0 < R) (hn : 2 ≤ n) : 0 < R - R / n := by
  have h1 : n * (R / n) ≤ R := Int.mul_ediv_self_le (by omega)
  have h2 : 0 ≤ R / n := Int.ediv_nonneg (by omega) (by omega)
  nlinarith

theorem onTile_posOf_congr (gs gs1 : GameState) (h : ∀ p c, gs1.posOf p c = gs.posOf p c)
    (d : Coord) (L : List CharacterOnLootTile) : onTile gs1 d L = onTile gs d L := by
  unfold onTile
  congr 1
  funext t
  unfold standsOn
  rw [h]

/-- The share loop over a list of distinct collectors with unlimited capacity
whose tile counts are exact. -/
theorem divideLoop_spec (L : List CharacterOnLootTile) :
    ∀ (gs : GameState) (counts : StdMap Coord Int),
      (∀ t ∈ L, t.carryCap = -1
        ∧ ∃ ch, gs.findCharacter t.pid t.cid = some ch ∧ ch.loot.IsRefund = false) →
      L.Pairwise (fun a b => ¬ (a.pid = b.pid ∧ a.cid = b.cid)) →
      (∀ d, onTile gs d L ≠ [] → counts.find d = some ((onTile gs d L).length : Int)) →
      ∃ res, L.foldlM divideLootStep (gs, counts) = some res
        ∧ (∀ p c, (∀ t ∈ L, ¬ (p = t.pid ∧ c = t.cid)) →
            res.1.findCharacter p c = gs.findCharacter p c)
        ∧ (∀ p c, res.1.posOf p c = gs.posOf p c)
        ∧ (∀ d, onTile gs d L = [] → res.1.loot.find d = gs.loot.find d)
        ∧ (∀ d R, gs.lootAt d = some R → 0 < R → onTile gs d L ≠ [] →
            res.1.lootAt d = none
              ∧ List.Forall₂ (gained gs res.1) (onTile gs d L)
                  (lootShares R (onTile gs d L).length)) := by
  induction L with
  | nil =>
    intro gs counts _ _ _
    refine ⟨(gs, counts), rfl, fun _ _ _ => rfl, fun _ _ => rfl, fun _ _ => rfl, ?_⟩
    intro d R _ _ h
    exact absurd rfl h
  | cons t L ih =>
    intro gs counts hwf hnd hcnt
    obtain ⟨hcap, ch, hch, hr⟩ := hwf t (List.mem_cons_self _ _)
    have hpos_t : gs.posOf t.pid t.cid = some ch.coord := by
      simp [GameState.posOf, hch]
    have hst : standsOn gs ch.coord t = true := by
      simp [standsOn, hpos_t]
    have hon0 : onTile gs ch.coord (t :: L) = t :: onTile gs ch.coord L := by
      simp [onTile, List.filter_cons, hst]
    have hn := hcnt ch.coord (by rw [hon0]; simp)
    rw [hon0] at hn
    have hn0 : (0 : Int) < ((t :: onTile gs ch.coord L).length : Int) := by
      simp only [List.length_cons]; omega
    obtain ⟨gs1, hstep, hfr, ⟨ch1, hch1, hcoord1, hheld1⟩, hlfr, hltile⟩ :=
      divideLootStep_spec gs counts t ch _ hch hr hcap hn hn0
    have hpd := List.pairwise_cons.mp hnd
    -- positions are unchanged by the step
    have hpos1 : ∀ p c, gs1.posOf p c = gs.posOf p c := by
      intro p c
      by_cases hpc : p = t.pid ∧ c = t.cid
      · rw [hpc.1, hpc.2]
        simp [GameState.posOf, hch1, hch, hcoord1]
      · simp only [GameState.posOf, hfr p c hpc]
    have hon1 : ∀ d, onTile gs1 d L = onTile gs d L :=
      fun d => onTile_posOf_congr gs gs1 hpos1 d L
    have hne : ∀ t1 ∈ L, ¬ (t1.pid = t.pid ∧ t1.cid = t.cid) := by
      intro t1 ht1 h
      exact hpd.1 t1 ht1 ⟨h.1.symm, h.2.symm⟩
    have hwf1 : ∀ t1 ∈ L, t1.carryCap = -1
        ∧ ∃ ch, gs1.findCharacter t1.pid t1.cid = some ch ∧ ch.loot.IsRefund = false := by
      intro t1 ht1
      obtain ⟨h1, c1, h2, h3⟩ := hwf t1 (List.mem_cons_of_mem _ ht1)
      exact ⟨h1, c1, by rw [hfr _ _ (hne t1 ht1)]; exact h2, h3⟩
    have hon_ne : ∀ d, d ≠ ch.coord → onTile gs d (t :: L) = onTile gs d L := by
      intro d hd
      have : standsOn gs d t = false := by
        simp only [standsOn, hpos_t, Option.some.injEq, decide_eq_false_iff_not]
        exact fun h => hd h.symm
      simp [onTile, List.filter_cons, this]
    have hcnt1 : ∀ d, onTile gs1 d L ≠ [] →
        (counts.modify ch.coord (fun m => m - 1)).find d
          = some ((onTile gs1 d L).length : Int) := by
      intro d hd
      rw [hon1] at hd ⊢
      rw [StdMap.find_modify]
      by_cases hdc : d = ch.coord
      · rw [if_pos hdc, hn, hdc]
        simp only [Option.map_some', List.length_cons, Option.some.injEq]
        push_cast; ring
      · rw [if_neg hdc]
        have := hcnt d (by rw [hon_ne d hdc]; exact hd)
        rw [hon_ne d hdc] at this
        exact this
    obtain ⟨res, hres, hA, hB, hC, hD⟩ := ih gs1 _ hwf1 hpd.2 hcnt1
    refine ⟨res, ?_, ?_, ?_, ?_, ?_⟩
    · rw [List.foldlM_cons, hstep]
      exact hres
    · intro p c hpc
      rw [hA p c (fun t1 ht1 => hpc t1 (List.mem_cons_of_mem _ ht1)),
        hfr p c (hpc t (List.mem_cons_self _ _))]
    · intro p c
      rw [hB, hpos1]
    · intro d hd
      have hdc : d ≠ ch.coord := by
        intro h; rw [h, hon0] at hd; simp at hd
      rw [hon_ne d hdc] at hd
      rw [hC d (by rw [hon1]; exact hd), hlfr d hdc]
    · intro d R hR hR0 hd
      -- collectors of the tail keep what they held through the first round
      have hkeep : ∀ t1 ∈ L, gs1.heldBy t1.pid t1.cid = gs.heldBy t1.pid t1.cid := by
        intro t1 ht1
        simp only [GameState.heldBy, hfr _ _ (hne t1 ht1)]
      have hconv : ∀ (T : List CharacterOnLootTile) (S : List Int), (∀ x ∈ T, x ∈ L) →
          List.Forall₂ (gained gs1 res.1) T S → List.Forall₂ (gained gs res.1) T S := by
        intro T S hT h
        refine forall₂_of_mem h ?_
        intro a ha b hab
        unfold gained at hab ⊢
        rw [hab, hkeep a (hT a ha)]
      have hsubL : ∀ d1, ∀ x ∈ onTile gs d1 L, x ∈ L := by
        intro d1 x hx
        exact (List.mem_filter.mp hx).1
      by_cases hdc : d = ch.coord
      · subst hdc
        rw [hon0]
        simp only [List.length_cons, lootShares]
        have hcast : (((onTile gs ch.coord L).length : Nat) : Int) + 1
            = ((t :: onTile gs ch.coord L).length : Int) := by
          simp only [List.length_cons]; push_cast; ring
        rw [hcast]
        have hloot1 := hltile R hR hR0
        have hheld := hheld1 R hR hR0
        have hgain_t : gained gs res.1 t (R / ((t :: onTile gs ch.coord L).length : Int)) := by
          unfold gained
          have h1 : res.1.heldBy t.pid t.cid = gs1.heldBy t.pid t.cid := by
            simp only [GameState.heldBy]
            rw [hA t.pid t.cid (fun t1 ht1 h => hne t1 ht1 ⟨h.1.symm, h.2.symm⟩)]
          rw [h1]
          simp [GameState.heldBy, hch1, hch, hheld]
        by_cases hT : onTile gs ch.coord L = []
        · -- the last claimant takes what is left
          have hlen : ((t :: onTile gs ch.coord L).length : Int) = 1 := by
            rw [hT]; simp
          rw [hlen] at hloot1 hgain_t ⊢
          simp only [Int.ediv_one, sub_self, if_true] at hloot1 hgain_t ⊢
          constructor
          · have := hC ch.coord (by rw [hon1]; exact hT)
            simp only [GameState.lootAt] at hloot1 ⊢
            rw [this]; exact hloot1
          · rw [hT]
            simp only [List.length_nil, lootShares]
            exact List.Forall₂.cons hgain_t List.Forall₂.nil
        · have hlen2 : (2 : Int) ≤ ((t :: onTile gs ch.coord L).length : Int) := by
            have : 0 < (onTile gs ch.coord L).length := List.length_pos.mpr hT
            simp only [List.length_cons]; omega
          have hpos := share_lt R _ hR0 hlen2
          rw [if_neg (by omega)] at hloot1
          have := hD ch.coord _ hloot1 hpos (by rw [hon1]; exact hT)
          rw [hon1] at this
          exact ⟨this.1, List.Forall₂.cons hgain_t (hconv _ _ (hsubL _) this.2)⟩
      · rw [hon_ne d hdc] at hd ⊢
        have hR1 : gs1.lootAt d = some R := by
          simp only [GameState.lootAt, hlfr d hdc]
          exact hR
        have := hD d R hR1 hR0 (by rw [hon1]; exact hd)
        rw [hon1] at this
        exact ⟨this.1, hconv _ _ (hsubL _) this.2⟩

theorem lootShares_length (n : Nat) : ∀ R : Int, (lootShares R n).length = n := by
  induction n with
  | zero => intro R; rfl
  | succ n ih => intro R; simp [lootShares, ih]

/-- The shares of a tile with at least one claimant add up to the pile. -/
theorem lootShares_sum (n : Nat) : ∀ R : Int, (lootShares R (n + 1)).sum = R := by
  induction n with
  | zero => intro R; simp [lootShares]
  | succ n ih =>
    intro R
    rw [lootShares, List.sum_cons, ih]
    ring

/-- Every share is the floor of the equal split, or one more when the split
is not exact. -/
theorem lootShares_mem (n : Nat) :
    ∀ R : Int, 0 ≤ R → ∀ s ∈ lootShares R n,
      s = R / (n : Int) ∨ (s = R / (n : Int) + 1 ∧ R % (n : Int) ≠ 0) := by
  induction n with
  | zero => intro R _ s hs; simp [lootShares] at hs
  | succ n ih =>
    intro R hR s hs
    simp only [lootShares, List.mem_cons] at hs
    have hpos : (0 : Int) < (n : Int) + 1 := by omega
    have hq0 : 0 ≤ R / ((n : Int) + 1) := Int.ediv_nonneg hR (le_of_lt hpos)
    have hdecomp : ((n : Int) + 1) * (R / ((n : Int) + 1)) + R % ((n : Int) + 1) = R :=
      Int.ediv_add_emod R _
    have hr0 : 0 ≤ R % ((n : Int) + 1) := Int.emod_nonneg _ (by omega)
    have hr1 : R % ((n : Int) + 1) < (n : Int) + 1 := Int.emod_lt_of_pos _ hpos
    push_cast
    rcases hs with hs | hs
    · left; exact hs
    · rcases Nat.eq_zero_or_pos n with hn | hn
      · subst hn; simp [lootShares] at hs
      · have hnI : (0 : Int) < (n : Int) := by exact_mod_cast hn
        generalize hq : R / ((n : Int) + 1) = q at *
        generalize hr : R % ((n : Int) + 1) = r at *
        have hR' : R - q = (n : Int) * q + r := by linarith
        have hle : q ≤ R := by nlinarith
        rcases ih (R - q) (by omega) s hs with h | ⟨h, h2⟩
        · by_cases hrn : r < (n : Int)
          · have := (Int.ediv_emod_unique (a := R - q) (q := q) (r := r) hnI).mpr
              ⟨by linarith, hr0, hrn⟩
            left; rw [h, this.1]
          · have hrn' : r = (n : Int) := by omega
            have := (Int.ediv_emod_unique (a := R - q) (q := q + 1) (r := 0) hnI).mpr
              ⟨by rw [hR', hrn']; ring, le_refl _, hnI⟩
            right; rw [h, this.1]
            exact ⟨rfl, by omega⟩
        · by_cases hrn : r < (n : Int)
          · have := (Int.ediv_emod_unique (a := R - q) (q := q) (r := r) hnI).mpr
              ⟨by linarith, hr0, hrn⟩
            right; rw [h, this.1]
            refine ⟨rfl, ?_⟩
            rw [this.2] at h2
            exact h2
          · have hrn' : r = (n : Int) := by omega
            have := (Int.ediv_emod_unique (a := R - q) (q := q + 1) (r := 0) hnI).mpr
              ⟨by rw [hR', hrn']; ring, le_refl _, hnI⟩
            exact absurd this.2 h2

theorem ceilDiv_of_inexact (P k : Int) (hk : 0 < k) (h : P % k ≠ 0) :
    ceilDiv P k = P / k + 1 := by
  unfold ceilDiv
  have hdecomp : k * (P / k) + P % k = P := Int.ediv_add_emod P k
  have hr0 : 0 ≤ P % k := Int.emod_nonneg _ (by omega)
  have hr1 : P % k < k := Int.emod_lt_of_pos _ hk
  have := (Int.ediv_emod_unique (a := P + k - 1) (q := P / k + 1) (r := P % k - 1) hk).mpr
    ⟨by linarith, by omega, by omega⟩
  exact this.1

theorem collectOnTiles_eq_foldl (capOf : Int → Bool → Bool → Int) (gs : GameState) :
    collectOnTiles capOf gs
      = (allCharacters gs).foldl
          (fun acc x => collectOnTile capOf gs acc x.1 (x.2.1, x.2.2)) (StdMap.empty, []) := by
  unfold collectOnTiles allCharacters
  generalize ((StdMap.empty, []) : StdMap Coord Int × List CharacterOnLootTile) = acc
  induction gs.players.entries generalizing acc with
  | nil => rfl
  | cons p t ih =>
    rw [List.foldl_cons, List.flatMap_cons, List.foldl_append, ← ih]
    congr 1
    rw [List.foldl_map]

theorem collect_foldl_spec (capOf : Int → Bool → Bool → Int) (gs : GameState)
    (X : List (PlayerID × Int × CharacterState)) :
    ∀ acc : StdMap Coord Int × List CharacterOnLootTile,
      (X.foldl (fun acc x => collectOnTile capOf gs acc x.1 (x.2.1, x.2.2)) acc).2
          = acc.2 ++ (X.filter (fun x => gs.loot.contains x.2.2.coord)).map (tileCharOf capOf gs)
        ∧ ∀ d, (X.foldl (fun acc x => collectOnTile capOf gs acc x.1 (x.2.1, x.2.2)) acc).1.find d
            = if countOn gs d X = 0 then acc.1.find d
              else some ((acc.1.find d).getD 0 + (countOn gs d X : Int)) := by
  induction X with
  | nil => intro acc; simp [countOn]
  | cons x t ih =>
    intro acc
    rw [List.foldl_cons]
    obtain ⟨h1, h2⟩ := ih (collectOnTile capOf gs acc x.1 (x.2.1, x.2.2))
    rw [h1]
    cases hc : gs.loot.contains x.2.2.coord with
    | false =>
      have hacc : collectOnTile capOf gs acc x.1 (x.2.1, x.2.2) = acc := by
        simp [collectOnTile, hc]
      rw [hacc] at h2 ⊢
      refine ⟨by simp [List.filter_cons, hc], ?_⟩
      intro d
      have hcnt : countOn gs d (x :: t) = countOn gs d t := by
        simp [countOn, List.filter_cons, hc]
      rw [h2 d, hcnt]
    | true =>
      have hacc2 : (collectOnTile capOf gs acc x.1 (x.2.1, x.2.2)).2
          = acc.2 ++ [tileCharOf capOf gs x] := by
        simp [collectOnTile, hc, tileCharOf]
      have hacc1 : ∀ d, (collectOnTile capOf gs acc x.1 (x.2.1, x.2.2)).1.find d
          = if d = x.2.2.coord then some ((acc.1.find d).getD 0 + 1) else acc.1.find d := by
        intro d
        simp only [collectOnTile, hc, if_true]
        cases hf : acc.1.find x.2.2.coord with
        | none =>
          simp only [StdMap.find_insert, hf]
          by_cases hd : d = x.2.2.coord
          · simp [hd, hf]
          · simp [hd]
        | some n =>
          simp only [StdMap.find_modify, hf]
          by_cases hd : d = x.2.2.coord
          · simp [hd, hf]
          · simp [hd]
      refine ⟨by rw [hacc2]; simp [List.filter_cons, hc], ?_⟩
      intro d
      rw [h2 d, hacc1 d]
      by_cases hd : d = x.2.2.coord
      · subst hd
        have hcnt : countOn gs x.2.2.coord (x :: t) = countOn gs x.2.2.coord t + 1 := by
          simp [countOn, List.filter_cons, hc]
        rw [hcnt]
        simp only [if_true, Option.getD_some, Nat.add_one_ne_zero, if_false]
        by_cases h0 : countOn gs x.2.2.coord t = 0
        · simp [h0]
        · simp only [if_neg h0, Option.some.injEq]
          push_cast; ring
      · have hcnt : countOn gs d (x :: t) = countOn gs d t := by
          simp [countOn, List.filter_cons, hc, Ne.symm hd]
        rw [hcnt, if_neg hd]

theorem allCharacters_find (gs : GameState) (x : PlayerID × Int × CharacterState)
    (hx : x ∈ allCharacters gs) : gs.findCharacter x.1 x.2.1 = some x.2.2 := by
  unfold allCharacters at hx
  obtain ⟨p, hp, hx2⟩ := List.mem_flatMap.mp hx
  obtain ⟨pc, hpc, rfl⟩ := List.mem_map.mp hx2
  unfold GameState.findCharacter StdMap.find
  rw [rawFind_of_mem _ gs.players.sorted p hp]
  simp only [Option.some_bind]
  exact rawFind_of_mem _ p.2.characters.sorted pc hpc

theorem allCharacters_sorted (gs : GameState) :
    (allCharacters gs).Pairwise (fun x y => x.1 < y.1 ∨ (x.1 = y.1 ∧ x.2.1 < y.2.1)) := by
  unfold allCharacters
  rw [List.pairwise_flatMap]
  constructor
  · intro p _
    rw [List.pairwise_map]
    exact p.2.characters.sorted.imp (fun h => Or.inr ⟨rfl, h⟩)
  · refine gs.players.sorted.imp ?_
    intro p1 p2 h x hx y hy
    obtain ⟨a, _, rfl⟩ := List.mem_map.mp hx
    obtain ⟨b, _, rfl⟩ := List.mem_map.mp hy
    exact Or.inl h

theorem onTile_collectors (capOf : Int → Bool → Bool → Int) (gs : GameState) (d : Coord) :
    onTile gs d (((allCharacters gs).filter (fun x => gs.loot.contains x.2.2.coord)).map
        (tileCharOf capOf gs))
      = ((allCharacters gs).filter
          (fun x => gs.loot.contains x.2.2.coord && decide (x.2.2.coord = d))).map
          (tileCharOf capOf gs) := by
  unfold onTile
  rw [List.filter_map, List.filter_filter]
  congr 1
  apply List.filter_congr
  intro x hx
  have hf := allCharacters_find gs x hx
  have : (standsOn gs d ∘ tileCharOf capOf gs) x = decide (x.2.2.coord = d) := by
    simp [standsOn, tileCharOf, GameState.posOf, hf]
  rw [this, Bool.and_comm]

theorem tileCharOf_unlimited (gs : GameState) (x : PlayerID × Int × CharacterState) :
    (tileCharOf GetCarryingCapacity gs x).carryCap = -1 := rfl

theorem lt_unlimited (gs : GameState) (x y : PlayerID × Int × CharacterState)
    (h : x.1 < y.1 ∨ (x.1 = y.1 ∧ x.2.1 < y.2.1)) :
    CharacterOnLootTile.lt gs (tileCharOf GetCarryingCapacity gs y)
      (tileCharOf GetCarryingCapacity gs x) = false := by
  have hx : (tileCharOf GetCarryingCapacity gs x).GetRemainingCapacity gs = -1 := by
    simp [CharacterOnLootTile.GetRemainingCapacity, tileCharOf_unlimited]
  have hy : (tileCharOf GetCarryingCapacity gs y).GetRemainingCapacity gs = -1 := by
    simp [CharacterOnLootTile.GetRemainingCapacity, tileCharOf_unlimited]
  unfold CharacterOnLootTile.lt
  rw [hx, hy, if_pos rfl]
  simp only [tileCharOf]
  rcases h with h | ⟨h1, h2⟩
  · rw [if_pos (ne_of_gt h)]
    exact decide_eq_false (not_lt.mpr (le_of_lt h))
  · rw [if_neg (by simp [h1])]
    exact decide_eq_false (not_lt.mpr (le_of_lt h2))

/-- Loot division on a tile with a positive pile when every capacity is
unlimited: the function returns, the pile is erased, and the claimants gain
the shares of `lootShares` in visiting order. -/
theorem DivideLoot_unlimited_spec (gs : GameState) (c : Coord) (P : Int)
    (hP : gs.lootAt c = some P) (hP0 : 0 < P) (hk : occupants gs c ≠ [])
    (hrefund : ∀ x ∈ allCharacters gs, x.2.2.loot.IsRefund = false) :
    ∃ gs1, gs.DivideLootAmongPlayers = some gs1
      ∧ gs1.loot.find c = none
      ∧ List.Forall₂
          (fun (id : PlayerID × Int) s =>
            ∃ h, gs.heldBy id.1 id.2 = some h ∧ gs1.heldBy id.1 id.2 = some (h + s))
          (occupants gs c) (lootShares P (occupants gs c).length) := by
  have hcont : gs.loot.contains c = true := by
    unfold GameState.lootAt at hP
    unfold StdMap.contains
    cases h : gs.loot.find c with
    | none => rw [h] at hP; simp at hP
    | some l => rfl
  obtain ⟨hcoll, hcounts⟩ :=
    collect_foldl_spec GetCarryingCapacity gs (allCharacters gs) (StdMap.empty, [])
  rw [← collectOnTiles_eq_foldl] at hcoll hcounts
  simp only [List.nil_append] at hcoll
  have hfind_empty : ∀ d : Coord, (StdMap.empty : StdMap Coord Int).find d = none :=
    fun _ => rfl
  -- the collectors are already in the order of `operator<`
  have hsorted : List.Sorted (fun a b => CharacterOnLootTile.lt gs b a = false)
      (collectOnTiles GetCarryingCapacity gs).2 := by
    rw [hcoll]
    unfold List.Sorted
    rw [List.pairwise_map]
    exact ((allCharacters_sorted gs).filter _).imp (fun h => lt_unlimited gs _ _ h)
  have hwf : ∀ t ∈ (collectOnTiles GetCarryingCapacity gs).2, t.carryCap = -1
      ∧ ∃ ch, gs.findCharacter t.pid t.cid = some ch ∧ ch.loot.IsRefund = false := by
    intro t ht
    rw [hcoll] at ht
    obtain ⟨x, hx, rfl⟩ := List.mem_map.mp ht
    have hxX := (List.mem_filter.mp hx).1
    exact ⟨rfl, x.2.2, allCharacters_find gs x hxX, hrefund x hxX⟩
  have hnd : (collectOnTiles GetCarryingCapacity gs).2.Pairwise
      (fun a b => ¬ (a.pid = b.pid ∧ a.cid = b.cid)) := by
    rw [hcoll, List.pairwise_map]
    refine ((allCharacters_sorted gs).filter _).imp ?_
    intro x y h hxy
    simp only [tileCharOf] at hxy
    rcases h with h | ⟨_, h⟩
    · exact absurd hxy.1 (ne_of_lt h)
    · exact absurd hxy.2 (ne_of_lt h)
  have hlen : ∀ d, (onTile gs d (collectOnTiles GetCarryingCapacity gs).2).length
      = countOn gs d (allCharacters gs) := by
    intro d
    rw [hcoll, onTile_collectors, List.length_map]
    rfl
  have hcnt : ∀ d, onTile gs d (collectOnTiles GetCarryingCapacity gs).2 ≠ [] →
      (collectOnTiles GetCarryingCapacity gs).1.find d
        = some ((onTile gs d (collectOnTiles GetCarryingCapacity gs).2).length : Int) := by
    intro d hd
    have h0 : countOn gs d (allCharacters gs) ≠ 0 := by
      rw [← hlen d]
      exact fun h => hd (List.length_eq_zero.mp h)
    rw [hcounts d, if_neg h0, hfind_empty, hlen d]
    simp
  obtain ⟨res, hres, _, _, _, hD⟩ :=
    divideLoop_spec (collectOnTiles GetCarryingCapacity gs).2 gs
      (collectOnTiles GetCarryingCapacity gs).1 hwf hnd hcnt
  -- the claimants of `c` among the collectors
  have hon : onTile gs c (collectOnTiles GetCarryingCapacity gs).2
      = ((allCharacters gs).filter (fun x => decide (x.2.2.coord = c))).map
          (tileCharOf GetCarryingCapacity gs) := by
    rw [hcoll, onTile_collectors]
    congr 1
    apply List.filter_congr
    intro x _
    by_cases hx : x.2.2.coord = c
    · simp [hx, hcont]
    · simp [hx]
  have hocc : occupants gs c
      = (onTile gs c (collectOnTiles GetCarryingCapacity gs).2).map (fun t => (t.pid, t.cid)) := by
    rw [hon, List.map_map]
    rfl
  have hne : onTile gs c (collectOnTiles GetCarryingCapacity gs).2 ≠ [] := by
    intro h
    rw [hocc, h] at hk
    exact hk rfl
  obtain ⟨hgone, hshares⟩ := hD c P hP hP0 hne
  refine ⟨res.1, ?_, ?_, ?_⟩
  · unfold GameState.DivideLootAmongPlayers GameState.DivideLootAmongPlayersWith
    simp only [hsorted.insertionSort_eq, hres, Option.map_some']
  · unfold GameState.lootAt at hgone
    cases h : res.1.loot.find c with
    | none => rfl
    | some l => rw [h] at hgone; simp at hgone
  · rw [hocc, List.length_map, List.forall₂_map_left_iff]
    refine forall₂_of_mem hshares ?_
    intro t ht s hg
    obtain ⟨_, ch, hch, _⟩ := hwf t (List.mem_filter.mp ht).1
    unfold gained at hg
    refine ⟨ch.loot.nAmount, ?_, ?_⟩
    · simp [GameState.heldBy, hch]
    · rw [hg]
      simp [GameState.heldBy, hch]

theorem occupants_sorted (gs : GameState) (c : Coord) :
    (occupants gs c).Pairwise (fun a b => a.1 < b.1 ∨ (a.1 = b.1 ∧ a.2 < b.2)) := by
  unfold occupants
  rw [List.pairwise_map]
  exact (allCharacters_sorted gs).filter _

/-- Every share of a pile `P >= 0` among `k >= 1` claimants is the floor or
the ceiling of `P / k`. -/
theorem lootShares_floor_or_ceil (P : Int) (k : Nat) (hP : 0 ≤ P) (hk : 0 < k) :
    ∀ s ∈ lootShares P k, s = P / (k : Int) ∨ s = ceilDiv P k := by
  intro s hs
  rcases lootShares_mem k P hP s hs with h | ⟨h, h2⟩
  · left; exact h
  · right
    rw [ceilDiv_of_inexact P k (by exact_mod_cast hk) h2]
    exact h

/-- C6: loot division with unlimited carrying capacity (the value that
`GetCarryingCapacity` returns).  For a tile `c` holding `P > 0` coins and
occupied by `k >= 1` characters, `DivideLootAmongPlayers` returns; the
claimants, listed in ascending (player id, character index) order, gain the
shares of `lootShares P k`, whose i-th entry is `floor(R_i / (k - i))` of what
is still on the tile; every share is `floor(P/k)` or `ceil(P/k)`; the shares
sum to `P`; and the loot entry of the tile is erased. -/
theorem C6_DivideLoot_unlimited (gs : GameState) (c : Coord) (P : Int)
    (hP : gs.lootAt c = some P) (hP0 : 0 < P) (hk : occupants gs c ≠ [])
    (hrefund : ∀ x ∈ allCharacters gs, x.2.2.loot.IsRefund = false) :
    (∀ h g cr, GetCarryingCapacity h g cr = -1)
      ∧ (occupants gs c).Pairwise (fun a b => a.1 < b.1 ∨ (a.1 = b.1 ∧ a.2 < b.2))
      ∧ (∀ R n, lootShares R (n + 1)
            = R / ((n : Int) + 1) :: lootShares (R - R / ((n : Int) + 1)) n)
      ∧ (∃ gs1, gs.DivideLootAmongPlayers = some gs1
          ∧ List.Forall₂
              (fun (id : PlayerID × Int) s =>
                ∃ h, gs.heldBy id.1 id.2 = some h ∧ gs1.heldBy id.1 id.2 = some (h + s))
              (occupants gs c) (lootShares P (occupants gs c).length)
          ∧ gs1.loot.find c = none)
      ∧ (∀ s ∈ lootShares P (occupants gs c).length,
            s = P / ((occupants gs c).length : Int) ∨ s = ceilDiv P (occupants gs c).length)
      ∧ (lootShares P (occupants gs c).length).sum = P := by
  have hlen : 0 < (occupants gs c).length := List.length_pos.mpr hk
  obtain ⟨gs1, h1, h2, h3⟩ := DivideLoot_unlimited_spec gs c P hP hP0 hk hrefund
  refine ⟨fun _ _ _ => rfl, occupants_sorted gs c, fun _ _ => rfl, ⟨gs1, h1, h3, h2⟩,
    lootShares_floor_or_ceil P _ (le_of_lt hP0) hlen, ?_⟩
  obtain ⟨n, hn⟩ := Nat.exists_eq_succ_of_ne_zero (Nat.pos_iff_ne_zero.mp hlen)
  rw [hn]
  exact lootShares_sum n P

/-- Witness for C6: three generals on a pile of 10 gain 3, 3 and 4. -/
theorem C6_DivideLoot_unlimited_witness :
    tripleState.lootAt ⟨100, 100⟩ = some 10 ∧ (0 : Int) < 10
      ∧ occupants tripleState ⟨100, 100⟩ ≠ []
      ∧ (∀ x ∈ allCharacters tripleState, x.2.2.loot.IsRefund = false)
      ∧ lootShares 10 (occupants tripleState ⟨100, 100⟩).length = [3, 3, 4]
      ∧ (∃ gs1, tripleState.DivideLootAmongPlayers = some gs1
          ∧ List.Forall₂
              (fun (id : PlayerID × Int) s =>
                ∃ h, tripleState.heldBy id.1 id.2 = some h
                  ∧ gs1.heldBy id.1 id.2 = some (h + s))
              (occupants tripleState ⟨100, 100⟩)
              (lootShares 10 (occupants tripleState ⟨100, 100⟩).length)
          ∧ gs1.loot.find ⟨100, 100⟩ = none) :=
  ⟨by decide, by decide, by decide, by decide, by decide,
    (C6_DivideLoot_unlimited tripleState ⟨100, 100⟩ 10 (by decide) (by decide) (by decide)
      (by decide)).2.2.2.1⟩

/-! ## Extensionality and commutation of map updates -/

theorem rawFind_none_of_lt {K V : Type} [LinearOrder K] (k : K) (l : List (K × V))
    (h : ∀ e ∈ l, k < e.1) : rawFind k l = none := by
  induction l with
  | nil => rfl
  | cons a t ih =>
    simp only [rawFind]
    rw [if_neg (ne_of_gt (h a (List.mem_cons_self _ _)))]
    exact ih (fun e he => h e (List.mem_cons_of_mem _ he))

/-- Two ascending entry lists with the same lookups are equal. -/
theorem rawFind_ext {K V : Type} [LinearOrder K] :
    ∀ (l1 l2 : List (K × V)), l1.Pairwise (fun a b => a.1 < b.1) →
      l2.Pairwise (fun a b => a.1 < b.1) → (∀ k, rawFind k l1 = rawFind k l2) → l1 = l2 := by
  intro l1
  induction l1 with
  | nil =>
    intro l2 _ _ h
    cases l2 with
    | nil => rfl
    | cons b t =>
      have := h b.1
      simp [rawFind] at this
  | cons a t1 ih =>
    intro l2 h1 h2 h
    cases l2 with
    | nil =>
      have := h a.1
      simp [rawFind] at this
    | cons b t2 =>
      have ha := List.pairwise_cons.mp h1
      have hb := List.pairwise_cons.mp h2
      have hkey : a.1 = b.1 := by
        rcases lt_trichotomy a.1 b.1 with hlt | heq | hgt
        · exfalso
          have h3 := h a.1
          simp only [rawFind, if_true] at h3
          rw [if_neg (ne_of_gt hlt)] at h3
          rw [rawFind_none_of_lt a.1 t2 (fun e he => lt_trans hlt (hb.1 e he))] at h3
          cases h3
        · exact heq
        · exfalso
          have h3 := h b.1
          simp only [rawFind, if_true] at h3
          rw [if_neg (ne_of_gt hgt)] at h3
          rw [rawFind_none_of_lt b.1 t1 (fun e he => lt_trans hgt (ha.1 e he))] at h3
          cases h3
      have hval : a.2 = b.2 := by
        have h3 := h a.1
        simp only [rawFind, if_true] at h3
        rw [if_pos hkey.symm] at h3
        exact Option.some.inj h3
      have hab : a = b := Prod.ext hkey hval
      subst hab
      congr 1
      apply ih t2 ha.2 hb.2
      intro k
      by_cases hk : a.1 = k
      · subst hk
        rw [rawFind_none_of_lt a.1 t1 ha.1, rawFind_none_of_lt a.1 t2 hb.1]
      · have h3 := h k
        simp only [rawFind, if_neg hk] at h3
        exact h3

theorem StdMap.ext {K V : Type} [LinearOrder K] (m1 m2 : StdMap K V)
    (h : ∀ k, m1.find k = m2.find k) : m1 = m2 := by
  have := rawFind_ext m1.entries m2.entries m1.sorted m2.sorted h
  cases m1; cases m2
  simp only at this
  subst this
  rfl

theorem StdMap.modify_comm {K V : Type} [LinearOrder K] (m : StdMap K V) (k1 k2 : K)
    (f g : V → V) (h : k1 ≠ k2) :
    (m.modify k1 f).modify k2 g = (m.modify k2 g).modify k1 f := by
  apply StdMap.ext
  intro k
  simp only [StdMap.find_modify]
  by_cases h1 : k = k1
  · subst h1
    simp [h]
  · by_cases h2 : k = k2
    · subst h2
      simp [h1]
    · simp [h1, h2]

/-! ## The loops of `PerformStep` over the moves under reordering -/

theorem ApplyWaypoints_eq (m : Move) (s : GameState) :
    m.ApplyWaypoints s = { s with players := s.players.modify m.player (waypointUpdate m) } :=
  rfl

theorem ApplyWaypoints_comm (x y : Move) (h : x.player ≠ y.player) (s : GameState) :
    y.ApplyWaypoints (x.ApplyWaypoints s) = x.ApplyWaypoints (y.ApplyWaypoints s) := by
  simp only [ApplyWaypoints_eq]
  rw [StdMap.modify_comm _ _ _ _ _ h]

/-- Moves of a batch with one move per player are equal when their players
are. -/
theorem move_eq_of_player_eq (moves : List Move) (hnd : (moves.map (fun m => m.player)).Nodup)
    (x y : Move) (hx : x ∈ moves) (hy : y ∈ moves) (h : x.player = y.player) : x = y :=
  List.inj_on_of_nodup_map hnd hx hy h

theorem applyWaypointsAll_perm (M1 M2 : List Move) (hperm : M1.Perm M2)
    (hnd : (M1.map (fun m => m.player)).Nodup) :
    applyWaypointsAll M1 = applyWaypointsAll M2 := by
  funext s
  unfold applyWaypointsAll
  apply List.Perm.foldl_eq' hperm
  intro x hx y hy z
  by_cases hxy : x.player = y.player
  · rw [move_eq_of_player_eq M1 hnd x y hx hy hxy]
  · cases hsx : x.IsSpawn <;> cases hsy : y.IsSpawn <;> simp only [if_true, if_false,
      Bool.false_eq_true]
    exact ApplyWaypoints_comm x y hxy z

theorem applySpawnAll_filter (env : Env) (M : List Move) :
    ∀ (s : GameState) (rnd : RandomGenerator),
      applySpawnAll env M s rnd
        = (M.filter (fun m => m.IsSpawn)).foldlM
            (fun (acc : GameState × RandomGenerator) m => m.ApplySpawn env acc.1 acc.2)
            (s, rnd) := by
  induction M with
  | nil => intro s rnd; rfl
  | cons m t ih =>
    intro s rnd
    unfold applySpawnAll at ih ⊢
    rw [List.foldlM_cons]
    cases hs : m.IsSpawn with
    | false =>
      rw [List.filter_cons_of_neg (by simp [hs])]
      simp only [Bool.false_eq_true, if_false]
      exact ih s rnd
    | true =>
      rw [List.filter_cons_of_pos (by simp [hs]), List.foldlM_cons]
      simp only [if_true]
      cases h : m.ApplySpawn env s rnd with
      | none => rfl
      | some r => exact ih r.1 r.2

theorem applySpawnAll_congr (env : Env) (M1 M2 : List Move)
    (h : M1.filter (fun m => m.IsSpawn) = M2.filter (fun m => m.IsSpawn)) :
    applySpawnAll env M1 = applySpawnAll env M2 := by
  funext s rnd
  rw [applySpawnAll_filter, applySpawnAll_filter, h]

theorem find_deadChatUpdate (d : StdMap PlayerID PlayerState) (p k : PlayerID) (msg : String)
    (nHeight : Int) :
    (deadChatUpdate d p msg nHeight).find k
      = if k = p then
          some { (d.find p).getD {} with message := msg, message_block := nHeight }
        else d.find k := by
  unfold deadChatUpdate
  simp only [StdMap.find_modify, StdMap.find_insert]
  by_cases h : k = p
  · simp only [h, if_true]
    cases d.find p <;> rfl
  · simp only [if_neg h]

theorem deadChatUpdate_comm (d : StdMap PlayerID PlayerState) (p q : PlayerID)
    (m1 m2 : String) (n1 n2 : Int) (h : p ≠ q) :
    deadChatUpdate (deadChatUpdate d p m1 n1) q m2 n2
      = deadChatUpdate (deadChatUpdate d q m2 n2) p m1 n1 := by
  apply StdMap.ext
  intro k
  simp only [find_deadChatUpdate]
  by_cases h1 : k = p
  · subst h1
    simp [h, Ne.symm h]
  · by_cases h2 : k = q
    · subst h2
      simp [h, Ne.symm h, h1]
    · simp [h1, h2]

/-- The method `ApplyCommon` in terms of its two updates. -/
theorem ApplyCommon_eq (m : Move) (s : GameState) :
    m.ApplyCommon s
      = if s.players.contains m.player = true then
          { s with players := s.players.modify m.player (m.commonUpdate s.nHeight) }
        else
          match m.message with
          | some msg =>
            { s with dead_players_chat :=
                deadChatUpdate s.dead_players_chat m.player msg s.nHeight }
          | none => s := by
  unfold Move.ApplyCommon StdMap.contains
  cases s.players.find m.player with
  | none => simp only [Option.isSome_none, Bool.false_eq_true, if_false]; rfl
  | some pl => simp only [Option.isSome_some, if_true]

theorem contains_modify {K V : Type} [LinearOrder K] (m : StdMap K V) (k k1 : K) (f : V → V) :
    (m.modify k f).contains k1 = m.contains k1 := by
  unfold StdMap.contains
  rw [StdMap.find_modify]
  by_cases h : k1 = k
  · subst h
    simp only [if_true]
    cases m.find k1 <;> rfl
  · simp only [if_neg h]

theorem ApplyCommon_comm (x y : Move) (h : x.player ≠ y.player) (s : GameState) :
    y.ApplyCommon (x.ApplyCommon s) = x.ApplyCommon (y.ApplyCommon s) := by
  simp only [ApplyCommon_eq]
  cases hx : s.players.contains x.player <;> cases hy : s.players.contains y.player
  · -- both players are gone
    simp only [Bool.false_eq_true, if_false]
    cases hmx : x.message <;> cases hmy : y.message <;>
      simp only [hx, hy, hmx, hmy, Bool.false_eq_true, if_false]
    rw [deadChatUpdate_comm _ _ _ _ _ _ _ h]
  · simp only [Bool.false_eq_true, if_false, if_true]
    cases hmx : x.message <;>
      simp only [hx, hy, hmx, contains_modify, Bool.false_eq_true, if_false, if_true]
  · simp only [Bool.false_eq_true, if_false, if_true]
    cases hmy : y.message <;>
      simp only [hx, hy, hmy, contains_modify, Bool.false_eq_true, if_false, if_true]
  · simp only [if_true, contains_modify, hx, hy]
    rw [StdMap.modify_comm _ _ _ _ _ h]

theorem applyCommonAll_perm (M1 M2 : List Move) (hperm : M1.Perm M2)
    (hnd : (M1.map (fun m => m.player)).Nodup) :
    applyCommonAll M1 = applyCommonAll M2 := by
  funext s
  unfold applyCommonAll
  apply List.Perm.foldl_eq' hperm
  intro x hx y hy z
  by_cases hxy : x.player = y.player
  · rw [move_eq_of_player_eq M1 hnd x y hx hy hxy]
  · exact ApplyCommon_comm x y hxy z

theorem pushDestruct_take (full : List String) (name : String) :
    pushDestruct (full.take (HUNTERMSG_CACHE_MAX - 1)) name
      = (full ++ [name]).take (HUNTERMSG_CACHE_MAX - 1) := by
  unfold pushDestruct
  by_cases h : full.length < HUNTERMSG_CACHE_MAX - 1
  · have h1 : full.take (HUNTERMSG_CACHE_MAX - 1) = full := List.take_of_length_le (by omega)
    rw [h1, if_pos h]
    rw [List.take_of_length_le]
    simp only [List.length_append, List.length_singleton]
    omega
  · have h1 : ¬ (full.take (HUNTERMSG_CACHE_MAX - 1)).length < HUNTERMSG_CACHE_MAX - 1 := by
      rw [List.length_take]
      omega
    rw [if_neg h1]
    rw [List.take_append_of_le_length (by omega)]

theorem destructKeys_take (player : PlayerID) (pl : PlayerState) (ks : List Int) :
    ∀ full : List String,
      ks.foldlM
          (fun acc i =>
            if pl.characters.contains i = false then some acc
            else if i < 0 then none
            else some (pushDestruct acc (CharacterID.ToString player i)))
          (full.take (HUNTERMSG_CACHE_MAX - 1))
        = (ks.foldlM
            (fun acc i =>
              if pl.characters.contains i = false then some acc
              else if i < 0 then none
              else some (acc ++ [CharacterID.ToString player i]))
            full).map (fun l => l.take (HUNTERMSG_CACHE_MAX - 1)) := by
  induction ks with
  | nil => intro full; rfl
  | cons i ks ih =>
    intro full
    simp only [List.foldlM_cons]
    by_cases h1 : pl.characters.contains i = false
    · simp only [h1, if_true, Option.bind_eq_bind, Option.some_bind]
      exact ih full
    · have h1t : pl.characters.contains i = true := by simpa using h1
      by_cases h2 : i < 0
      · simp only [h1t, Bool.true_eq_false, h2, if_true, if_false, Option.bind_eq_bind,
          Option.none_bind, Option.map_none']
      · simp only [h1t, Bool.true_eq_false, h2, if_false, Option.bind_eq_bind,
          Option.some_bind]
        rw [pushDestruct_take]
        exact ih _

theorem destructKeys_append (player : PlayerID) (pl : PlayerState) (ks : List Int) :
    ∀ a b : List String,
      ks.foldlM
          (fun acc i =>
            if pl.characters.contains i = false then some acc
            else if i < 0 then none
            else some (acc ++ [CharacterID.ToString player i]))
          (a ++ b)
        = (ks.foldlM
            (fun acc i =>
              if pl.characters.contains i = false then some acc
              else if i < 0 then none
              else some (acc ++ [CharacterID.ToString player i]))
            b).map (fun l => a ++ l) := by
  induction ks with
  | nil => intro a b; rfl
  | cons i ks ih =>
    intro a b
    simp only [List.foldlM_cons]
    by_cases h1 : pl.characters.contains i = false
    · simp only [h1, if_true, Option.bind_eq_bind, Option.some_bind]
      exact ih a b
    · have h1t : pl.characters.contains i = true := by simpa using h1
      by_cases h2 : i < 0
      · simp only [h1t, Bool.true_eq_false, h2, if_true, if_false, Option.bind_eq_bind,
          Option.none_bind, Option.map_none']
      · simp only [h1t, Bool.true_eq_false, h2, if_false, Option.bind_eq_bind,
          Option.some_bind]
        rw [List.append_assoc]
        exact ih _ _

theorem destructOrdersOfMove_take (inState : GameState) (m : Move) (full : List String) :
    destructOrdersOfMove inState (full.take (HUNTERMSG_CACHE_MAX - 1)) m
      = (moveDestructNames inState m).map
          (fun a => (full ++ a).take (HUNTERMSG_CACHE_MAX - 1)) := by
  unfold destructOrdersOfMove moveDestructNames
  by_cases h : m.destruct.entries = []
  · simp only [h, if_true, Option.map_some', List.append_nil]
  · simp only [h, if_false]
    cases inState.players.find m.player with
    | none => rfl
    | some pl =>
      simp only
      rw [destructKeys_take]
      have h2 := destructKeys_append m.player pl m.destruct.keys full []
      rw [List.append_nil] at h2
      rw [h2, Option.map_map]
      rfl

theorem destructOrders_fold_take (inState : GameState) (M : List Move) :
    ∀ full : List String,
      M.foldlM (destructOrdersOfMove inState) (full.take (HUNTERMSG_CACHE_MAX - 1))
        = (allDestructNames inState M).map
            (fun a => (full ++ a).take (HUNTERMSG_CACHE_MAX - 1)) := by
  induction M with
  | nil =>
    intro full
    simp only [List.foldlM_nil, allDestructNames, Option.map_some', List.append_nil]
    rfl
  | cons m ms ih =>
    intro full
    simp only [List.foldlM_cons, allDestructNames, Option.bind_eq_bind]
    rw [destructOrdersOfMove_take]
    cases moveDestructNames inState m with
    | none => rfl
    | some a =>
      simp only [Option.map_some', Option.some_bind]
      rw [ih]
      cases allDestructNames inState ms with
      | none => rfl
      | some b => simp only [Option.map_some', List.append_assoc]

/-- The cached destruct orders are the first `HUNTERMSG_CACHE_MAX - 1` of the
names ordered by the batch. -/
theorem destructOrders_eq (inState : GameState) (M : List Move) :
    destructOrders inState M
      = (allDestructNames inState M).map (fun a => a.take (HUNTERMSG_CACHE_MAX - 1)) := by
  have h := destructOrders_fold_take inState M []
  simpa [destructOrders] using h

theorem optPerm_refl (a : Option (List String)) : optPerm a a := by
  cases a with
  | none => trivial
  | some a => exact List.Perm.refl a

theorem optPerm_trans {a b c : Option (List String)} (h1 : optPerm a b) (h2 : optPerm b c) :
    optPerm a c := by
  cases a <;> cases b <;> cases c <;> simp only [optPerm] at h1 h2 ⊢
  exact h1.trans h2

theorem allDestructNames_perm (inState : GameState) (M1 M2 : List Move) (hperm : M1.Perm M2) :
    optPerm (allDestructNames inState M1) (allDestructNames inState M2) := by
  induction hperm with
  | nil => exact optPerm_refl _
  | @cons x l1 l2 _ ih =>
    simp only [allDestructNames]
    cases moveDestructNames inState x with
    | none => trivial
    | some a =>
      simp only [Option.some_bind]
      cases h1 : allDestructNames inState l1 <;> cases h2 : allDestructNames inState l2 <;>
        rw [h1, h2] at ih <;> simp only [optPerm, Option.map_none', Option.map_some'] at ih ⊢
      exact List.Perm.append_left a ih
  | swap x y l =>
    simp only [allDestructNames]
    cases moveDestructNames inState x <;> cases moveDestructNames inState y <;>
      cases allDestructNames inState l <;>
      simp only [optPerm, Option.some_bind, Option.none_bind, Option.map_none',
        Option.map_some']
    rename_i a b c
    rw [← List.append_assoc, ← List.append_assoc]
    exact List.Perm.append_right c List.perm_append_comm
  | trans _ _ ih1 ih2 => exact optPerm_trans ih1 ih2

/-- With the cache not filled by the first batch, the cached destruct orders
of two batches with the same moves are both absent, or equal up to order. -/
theorem destructOrders_perm (inState : GameState) (M1 M2 : List Move) (hperm : M1.Perm M2)
    (hcap : ∀ l, destructOrders inState M1 = some l → l.length < HUNTERMSG_CACHE_MAX - 1) :
    optPerm (destructOrders inState M1) (destructOrders inState M2) := by
  have h := allDestructNames_perm inState M1 M2 hperm
  rw [destructOrders_eq] at hcap
  rw [destructOrders_eq, destructOrders_eq]
  cases h1 : allDestructNames inState M1 <;> cases h2 : allDestructNames inState M2 <;>
    rw [h1, h2] at h <;> simp only [optPerm, Option.map_none', Option.map_some'] at h ⊢
  rename_i a b
  rw [h1] at hcap
  have hlen := hcap _ rfl
  rw [List.length_take] at hlen
  have ha : a.length < HUNTERMSG_CACHE_MAX - 1 := by omega
  have hb : b.length < HUNTERMSG_CACHE_MAX - 1 := by rw [← h.length_eq]; exact ha
  rw [List.take_of_length_le (by omega), List.take_of_length_le (by omega)]
  exact h

theorem applyDestructOrders_perm (d1 d2 : List String) (h : d1.Perm d2) :
    applyDestructOrders d1 = applyDestructOrders d2 := by
  funext name ch
  unfold applyDestructOrders
  apply List.Perm.foldl_eq' h
  intro x _ y _ z
  by_cases hxy : x = y
  · subst hxy
    rfl
  · by_cases hx : name = x
    · have hy : ¬ name = y := fun h => hxy (hx.symm.trans h)
      simp only [if_neg hy]
    · simp only [if_neg hx]

theorem KillRangedAttacks_perm {W : Type} (d1 d2 : List String) (h : d1.Perm d2)
    (gs : GameState) (step : StepResult) (cache : Cache W) :
    gs.KillRangedAttacks step cache d1 = gs.KillRangedAttacks step cache d2 := by
  have hk : killRangedCharacter (W := W) d1 = killRangedCharacter d2 := by
    funext pid acc i
    unfold killRangedCharacter
    rw [applyDestructOrders_perm d1 d2 h]
  unfold GameState.KillRangedAttacks
  have hp : killRangedPlayer (W := W) d1 = killRangedPlayer d2 := by
    funext acc pid
    unfold killRangedPlayer
    rw [hk]
  rw [hp]

/-- An invalid move: there is a move, spawn for an existing player or
non-spawn for a missing one. -/
theorem all_valid_false_of_invalid (inState : GameState) (moves : List Move) (m : Move)
    (hm : m ∈ moves)
    (hinv : (m.IsSpawn = true ∧ inState.players.contains m.player = true)
      ∨ (m.IsSpawn = false ∧ inState.players.contains m.player = false)) :
    moves.all (fun m => m.IsValid inState) = false := by
  have h : m.IsValid inState = false := by
    unfold Move.IsValid
    rcases hinv with ⟨h1, h2⟩ | ⟨h1, h2⟩
    · simp [h1, h2]
    · simp [h1, h2]
  rw [Bool.eq_false_iff]
  intro hall
  rw [List.all_eq_true] at hall
  have := hall m hm
  rw [h] at this
  exact Bool.false_ne_true this

/-- C1: if some move of the batch is invalid against `inState` (a spawn move
whose player already exists, or a non-spawn move whose player does not exist),
`PerformStep` returns false and leaves `outState` and `stepResult` exactly as
they were before the call. -/
theorem C1_invalid_batch_rejected {W : Type} (env : Env) (passes : Passes W) (cache0 : Cache W)
    (inState : GameState) (stepData : StepData) (outState : GameState)
    (stepResult : StepResult) (m : Move) (hm : m ∈ stepData.vMoves)
    (hinv : (m.IsSpawn = true ∧ inState.players.contains m.player = true)
      ∨ (m.IsSpawn = false ∧ inState.players.contains m.player = false)) :
    PerformStep env passes cache0 inState stepData outState stepResult
      = some (false, outState, stepResult) := by
  unfold PerformStep
  rw [if_pos (all_valid_false_of_invalid inState stepData.vMoves m hm hinv)]

/-- Witness for C1: `alice` exists in `sampleState` and sends a spawn move. -/
theorem C1_invalid_batch_rejected_witness :
    spawnAlice ∈ [spawnBob, spawnAlice]
      ∧ ((spawnAlice.IsSpawn = true ∧ sampleState.players.contains spawnAlice.player = true)
        ∨ (spawnAlice.IsSpawn = false
          ∧ sampleState.players.contains spawnAlice.player = false))
      ∧ PerformStep sampleEnv idPasses rangedCache sampleState ⟨0, 1, [spawnBob, spawnAlice]⟩
          emptyState {} = some (false, emptyState, {}) :=
  ⟨List.mem_cons_of_mem _ (List.mem_cons_self _ _), Or.inl ⟨by decide, by decide⟩,
    C1_invalid_batch_rejected sampleEnv idPasses rangedCache sampleState
      ⟨0, 1, [spawnBob, spawnAlice]⟩ emptyState {} spawnAlice
      (List.mem_cons_of_mem _ (List.mem_cons_self _ _)) (Or.inl ⟨by decide, by decide⟩)⟩

/-- C2, as stated, fails: at input height 100000 a batch without any invalid
move (here the empty batch) makes `PerformStep` return false. -/
theorem C2_counterexample :
    ([] : List Move).all (fun m => m.IsValid lastState) = true
      ∧ (PerformStep sampleEnv idPasses rangedCache lastState ⟨0, 1, []⟩ emptyState {}).map
          (fun r => r.1) = some false := by
  decide

/-- C2 (amended): `PerformStep` returns false exactly when some move of the
batch is invalid against `inState` or the new height `inState.nHeight + 1`
exceeds 100000; so for a batch of valid moves below that height it never
returns false: whenever it returns, it returns true. -/
theorem C2_returns_false_iff {W : Type} (env : Env) (passes : Passes W) (cache0 : Cache W)
    (inState : GameState) (stepData : StepData) (outState : GameState)
    (stepResult : StepResult) :
    ((∃ o r, PerformStep env passes cache0 inState stepData outState stepResult
          = some (false, o, r))
        ↔ ((∃ m ∈ stepData.vMoves, m.IsValid inState = false) ∨ inState.nHeight + 1 > 100000))
      ∧ (∀ b o r, PerformStep env passes cache0 inState stepData outState stepResult
            = some (b, o, r) →
          (∀ m ∈ stepData.vMoves, m.IsValid inState = true) → inState.nHeight + 1 ≤ 100000 →
          b = true) := by
  have hkey : ∀ b o r, PerformStep env passes cache0 inState stepData outState stepResult
      = some (b, o, r) → b = false →
      ((∃ m ∈ stepData.vMoves, m.IsValid inState = false) ∨ inState.nHeight + 1 > 100000) := by
    intro b o r h hb
    unfold PerformStep at h
    by_cases hall : stepData.vMoves.all (fun m => m.IsValid inState) = false
    · left
      by_contra hne
      push_neg at hne
      have : stepData.vMoves.all (fun m => m.IsValid inState) = true := by
        rw [List.all_eq_true]
        intro m hm
        simpa using hne m hm
      rw [this] at hall
      exact Bool.noConfusion hall
    · rw [if_neg hall] at h
      dsimp only at h
      by_cases hh : inState.nHeight + 1 > 100000
      · right; exact hh
      · rw [if_neg hh] at h
        cases hs : stepBody env passes cache0 inState stepData
            { inState with
              nHeight := inState.nHeight + 1
              nDisasterHeight := inState.nDisasterHeight
              hashBlock := stepData.newHash
              dead_players_chat := StdMap.empty } {} with
        | none => rw [hs] at h; simp at h
        | some x =>
          rw [hs] at h
          simp only [Option.map_some', Option.some.injEq, Prod.mk.injEq] at h
          rw [hb] at h
          exact absurd h.1 (by decide)
  constructor
  · constructor
    · rintro ⟨o, r, h⟩
      exact hkey false o r h rfl
    · intro h
      unfold PerformStep
      by_cases hall : stepData.vMoves.all (fun m => m.IsValid inState) = false
      · exact ⟨outState, stepResult, by rw [if_pos hall]⟩
      · rw [if_neg hall]
        rcases h with ⟨m, hm, hv⟩ | h
        · exfalso
          apply hall
          rw [Bool.eq_false_iff]
          intro hall2
          rw [List.all_eq_true] at hall2
          have := hall2 m hm
          rw [hv] at this
          exact Bool.false_ne_true this
        · dsimp only
          rw [if_pos h]
          exact ⟨_, _, rfl⟩
  · intro b o r h hvalid hheight
    cases hb : b with
    | true => rfl
    | false =>
      exfalso
      rcases hkey b o r h hb with ⟨m, hm, hv⟩ | hh
      · rw [hvalid m hm] at hv
        exact Bool.noConfusion hv
      · omega

/-- C3, as stated, fails: two batches with the same treasure and the same
non-zero hash whose moves are the two spawn moves of `alice` and `bob` in
either order (a permutation, one move per player) both return true, with
different output states: the spawn tiles depend on the order of the moves. -/
theorem C3_counterexample :
    [spawnAlice, spawnBob].Perm [spawnBob, spawnAlice]
    ∧ ([spawnAlice, spawnBob].map (fun m => m.player)).Nodup
    ∧ coordsOf (PerformStep sampleEnv idPasses rangedCache emptyState
        ⟨0, 10 ^ 30 + 12345, [spawnAlice, spawnBob]⟩ emptyState {})
      = some (true, [("alice", 0, 4, 0), ("alice", 1, 0, 3), ("alice", 2, 7, 0),
          ("bob", 0, 489, 0), ("bob", 1, 501, 9), ("bob", 2, 501, 13)])
    ∧ coordsOf (PerformStep sampleEnv idPasses rangedCache emptyState
        ⟨0, 10 ^ 30 + 12345, [spawnBob, spawnAlice]⟩ emptyState {})
      = some (true, [("alice", 0, 12, 0), ("alice", 1, 0, 9), ("alice", 2, 0, 13),
          ("bob", 0, 497, 0), ("bob", 1, 501, 3), ("bob", 2, 494, 0)])
    ∧ PerformStep sampleEnv idPasses rangedCache emptyState
        ⟨0, 10 ^ 30 + 12345, [spawnAlice, spawnBob]⟩ emptyState {}
      ≠ PerformStep sampleEnv idPasses rangedCache emptyState
        ⟨0, 10 ^ 30 + 12345, [spawnBob, spawnAlice]⟩ emptyState {} := by
  have hA : coordsOf (PerformStep sampleEnv idPasses rangedCache emptyState
        ⟨0, 10 ^ 30 + 12345, [spawnAlice, spawnBob]⟩ emptyState {})
      = some (true, [("alice", 0, 4, 0), ("alice", 1, 0, 3), ("alice", 2, 7, 0),
          ("bob", 0, 489, 0), ("bob", 1, 501, 9), ("bob", 2, 501, 13)]) := by rfl
  have hB : coordsOf (PerformStep sampleEnv idPasses rangedCache emptyState
        ⟨0, 10 ^ 30 + 12345, [spawnBob, spawnAlice]⟩ emptyState {})
      = some (true, [("alice", 0, 12, 0), ("alice", 1, 0, 9), ("alice", 2, 0, 13),
          ("bob", 0, 497, 0), ("bob", 1, 501, 3), ("bob", 2, 494, 0)]) := by rfl
  refine ⟨List.Perm.swap _ _ _, by decide, hA, hB, ?_⟩
  intro h
  have h2 := congrArg coordsOf h
  rw [hA, hB] at h2
  simp at h2

theorem all_valid_perm (inState : GameState) (M1 M2 : List Move) (hperm : M1.Perm M2) :
    M1.all (fun m => m.IsValid inState) = M2.all (fun m => m.IsValid inState) := by
  rw [Bool.eq_iff_iff, List.all_eq_true, List.all_eq_true]
  constructor
  · intro h x hx
    exact h x (hperm.mem_iff.mpr hx)
  · intro h x hx
    exact h x (hperm.mem_iff.mp hx)

theorem stepRandomPart_congr {W : Type} (env : Env) (inState : GameState) (sd1 sd2 : StepData)
    (hT : sd1.nTreasureAmount = sd2.nTreasureAmount)
    (hperm : sd1.vMoves.Perm sd2.vMoves)
    (hnd : (sd1.vMoves.map (fun m => m.player)).Nodup)
    (hspawn : sd1.vMoves.filter (fun m => m.IsSpawn) = sd2.vMoves.filter (fun m => m.IsSpawn))
    (cache : Cache W) (respawn_crown : Bool) (gs : GameState) (step : StepResult) :
    stepRandomPart env cache inState sd1 respawn_crown gs step
      = stepRandomPart env cache inState sd2 respawn_crown gs step := by
  unfold stepRandomPart
  rw [applySpawnAll_congr env _ _ hspawn, applyCommonAll_perm _ _ hperm hnd, hT]

theorem stepBody_congr {W : Type} (env : Env) (passes : Passes W) (cache0 : Cache W)
    (inState : GameState) (sd1 sd2 : StepData) (outState : GameState) (stepResult : StepResult)
    (hT : sd1.nTreasureAmount = sd2.nTreasureAmount)
    (hperm : sd1.vMoves.Perm sd2.vMoves)
    (hnd : (sd1.vMoves.map (fun m => m.player)).Nodup)
    (hspawn : sd1.vMoves.filter (fun m => m.IsSpawn) = sd2.vMoves.filter (fun m => m.IsSpawn))
    (hcap : ∀ l, destructOrders inState sd1.vMoves = some l →
      l.length < HUNTERMSG_CACHE_MAX - 1) :
    stepBody env passes cache0 inState sd1 outState stepResult
      = stepBody env passes cache0 inState sd2 outState stepResult := by
  have hd := destructOrders_perm inState _ _ hperm hcap
  unfold stepBody
  simp only [stepRandomPart_congr env inState sd1 sd2 hT hperm hnd hspawn]
  rw [applyWaypointsAll_perm _ _ hperm hnd]
  cases h1 : destructOrders inState sd1.vMoves <;>
    cases h2 : destructOrders inState sd2.vMoves <;>
    rw [h1, h2] at hd <;> simp only [optPerm] at hd
  rename_i d1 d2
  simp only [Option.some_bind, KillRangedAttacks_perm d1 d2 hd]

/-- C3 (amended): two batches with the same treasure amount and the same block
hash, whose move lists are permutations of each other with one move per
player, list their spawn moves in the same order, and cache fewer than
`HUNTERMSG_CACHE_MAX - 1` destruct orders, make `PerformStep` give the same
return value, the same `outState` and the same `StepResult`. -/
theorem C3_PerformStep_move_order {W : Type} (env : Env) (passes : Passes W) (cache0 : Cache W)
    (inState : GameState) (sd1 sd2 : StepData) (outState : GameState) (stepResult : StepResult)
    (hT : sd1.nTreasureAmount = sd2.nTreasureAmount)
    (hH : sd1.newHash = sd2.newHash)
    (hperm : sd1.vMoves.Perm sd2.vMoves)
    (hnd : (sd1.vMoves.map (fun m => m.player)).Nodup)
    (hspawn : sd1.vMoves.filter (fun m => m.IsSpawn) = sd2.vMoves.filter (fun m => m.IsSpawn))
    (hcap : ∀ l, destructOrders inState sd1.vMoves = some l →
      l.length < HUNTERMSG_CACHE_MAX - 1) :
    PerformStep env passes cache0 inState sd1 outState stepResult
      = PerformStep env passes cache0 inState sd2 outState stepResult := by
  unfold PerformStep
  rw [all_valid_perm inState _ _ hperm, hH]
  simp only [stepBody_congr env passes cache0 inState sd1 sd2 _ _ hT hperm hnd hspawn hcap]

/-- Witness for C3: `bob` spawns and `alice`, who is in the game, sends a chat
message, in either order; the step returns true. -/
theorem C3_PerformStep_move_order_witness :
    (PerformStep sampleEnv idPasses rangedCache sampleState
        ⟨0, 10 ^ 30 + 12345, [spawnBob, chatAlice]⟩ emptyState {}).map (fun r => r.1)
      = some true
    ∧ PerformStep sampleEnv idPasses rangedCache sampleState
        ⟨0, 10 ^ 30 + 12345, [spawnBob, chatAlice]⟩ emptyState {}
      = PerformStep sampleEnv idPasses rangedCache sampleState
        ⟨0, 10 ^ 30 + 12345, [chatAlice, spawnBob]⟩ emptyState {} := by
  refine ⟨by rfl, ?_⟩
  refine C3_PerformStep_move_order sampleEnv idPasses rangedCache sampleState
    ⟨0, 10 ^ 30 + 12345, [spawnBob, chatAlice]⟩ ⟨0, 10 ^ 30 + 12345, [chatAlice, spawnBob]⟩
    emptyState {} rfl rfl (List.Perm.swap _ _ _) (by decide) (by rfl) ?_
  intro l h
  have h3 : destructOrders sampleState [spawnBob, chatAlice] = some [] := by rfl
  have h2 : l = [] := (Option.some.inj (h3.symm.trans h)).symm
  rw [h2]
  decide

theorem sign_mul_abs_self (a : Int) : Int.sign a * |a| = a := by
  rcases lt_trichotomy a 0 with h | h | h
  · rw [Int.sign_eq_neg_one_of_neg h, abs_of_neg h]; ring
  · subst h; rfl
  · rw [Int.sign_eq_one_of_pos h, abs_of_pos h]; ring

theorem CoordStep_towards (a b k : Int) (hk0 : 0 ≤ k) (hk : k < |b - a|) :
    CoordStep (a + Int.sign (b - a) * k) b = a + Int.sign (b - a) * (k + 1) := by
  unfold CoordStep
  rcases lt_trichotomy (b - a) 0 with h | h | h
  · rw [Int.sign_eq_neg_one_of_neg h]
    rw [abs_of_neg h] at hk
    rw [if_neg (by omega), if_pos (by omega)]
    ring
  · rw [h] at hk; simp at hk; omega
  · rw [Int.sign_eq_one_of_pos h]
    rw [abs_of_pos h] at hk
    rw [if_pos (by omega)]
    ring

theorem tdiv_sign (a du : Int) (ha : 0 ≤ a) (hdu : du ≠ 0) :
    Int.tdiv a du = Int.sign du * (a / |du|) := by
  rcases lt_trichotomy du 0 with h | h | h
  · rw [Int.sign_eq_neg_one_of_neg h, abs_of_neg h]
    have h1 : du = -(-du) := by ring
    rw [h1, Int.tdiv_neg, Int.tdiv_eq_ediv ha (by omega)]
    simp
  · exact absurd h hdu
  · rw [Int.sign_eq_one_of_pos h, abs_of_pos h, Int.tdiv_eq_ediv ha (by omega)]
    simp

theorem half_div_self (d : Int) (hd : 0 < d) : (d / 2) / d = 0 :=
  Int.ediv_eq_zero_of_lt (by omega) (by omega)

/-- The slope rule of `CoordUpd` after `j` major steps from the start of the
line. -/
theorem CoordUpd_line (du dv from_u from_v v j : Int) (hdu : du ≠ 0) (hj : 0 ≤ j)
    (hv : dv = 0 → v = from_v) :
    CoordUpd (from_u + Int.sign du * j) v du dv from_u from_v
      = some (from_v + Int.sign dv * ((j * |dv| + |du| / 2) / |du|)) := by
  unfold CoordUpd
  by_cases hdv : dv = 0
  · subst hdv
    simp [hv rfl]
  · rw [if_pos hdv]
    simp only [if_neg hdu]
    have habs : 0 < |du| := abs_pos.mpr hdu
    have htmp : from_u + Int.sign du * j - from_u = Int.sign du * j := by ring
    rw [htmp]
    have habs2 : |Int.sign du * j * dv| = j * |dv| := by
      rw [abs_mul, abs_mul, abs_of_nonneg hj]
      have : |Int.sign du| = 1 := by
        rcases lt_trichotomy du 0 with h | h | h
        · rw [Int.sign_eq_neg_one_of_neg h]; rfl
        · exact absurd h hdu
        · rw [Int.sign_eq_one_of_pos h]; rfl
      rw [this]; ring
    rw [habs2]
    have hhalf : Int.tdiv |du| 2 = |du| / 2 := Int.tdiv_eq_ediv (abs_nonneg _) (by decide)
    rw [hhalf]
    have hnum : 0 ≤ j * |dv| + |du| / 2 := by
      have := mul_nonneg hj (abs_nonneg dv)
      omega
    rw [tdiv_sign _ du hnum hdu]
    have hF : 0 ≤ (j * |dv| + |du| / 2) / |du| := Int.ediv_nonneg hnum (le_of_lt habs)
    generalize hFdef : (j * |dv| + |du| / 2) / |du| = F at hF
    by_cases hj0 : j = 0
    · subst hj0
      have hF0 : F = 0 := by
        rw [← hFdef]
        simp only [zero_mul, zero_add]
        exact half_div_self _ habs
      simp [hF0]
    · have hjpos : 0 < j := by omega
      rcases lt_trichotomy du 0 with h | h | h
      · rw [Int.sign_eq_neg_one_of_neg h]
        rcases lt_trichotomy dv 0 with h2 | h2 | h2
        · have : ¬ (-1 * j * dv < 0) := by
            have := mul_pos_of_neg_of_neg (by omega : -j < 0) h2
            nlinarith
          rw [if_neg this, Int.sign_eq_neg_one_of_neg h2]
          congr 1; ring
        · exact absurd h2 hdv
        · have : (-1 * j * dv < 0) := by
            have := mul_pos hjpos h2
            nlinarith
          rw [if_pos this, Int.sign_eq_one_of_pos h2]
          congr 1; ring
      · exact absurd h hdu
      · rw [Int.sign_eq_one_of_pos h]
        rcases lt_trichotomy dv 0 with h2 | h2 | h2
        · have : (1 * j * dv < 0) := by
            have := mul_pos hjpos (by omega : 0 < -dv)
            nlinarith
          rw [if_pos this, Int.sign_eq_neg_one_of_neg h2]
          congr 1; ring
        · exact absurd h2 hdv
        · have : ¬ (1 * j * dv < 0) := by
            have := mul_pos hjpos h2
            nlinarith
          rw [if_neg this, Int.sign_eq_one_of_pos h2]
          congr 1; ring

theorem distLInf_eq (A B : Coord) : distLInf A B = max |B.x - A.x| |B.y - A.y| := by
  unfold distLInf
  rw [abs_sub_comm A.x B.x, abs_sub_comm A.y B.y]

theorem distLInf_nonneg (A B : Coord) : 0 ≤ distLInf A B := by
  unfold distLInf
  exact le_max_of_le_left (abs_nonneg _)

theorem distLInf_comm (A B : Coord) : distLInf A B = distLInf B A := by
  rw [distLInf_eq A B]
  rfl

theorem distLInf_pos (A B : Coord) (h : B ≠ A) : 0 < distLInf A B := by
  rw [distLInf_eq]
  by_contra hn
  have h1 : |B.x - A.x| ≤ 0 := le_trans (le_max_left _ _) (not_lt.mp hn)
  have h2 : |B.y - A.y| ≤ 0 := le_trans (le_max_right _ _) (not_lt.mp hn)
  have h3 : B.x - A.x = 0 := abs_eq_zero.mp (le_antisymm h1 (abs_nonneg _))
  have h4 : B.y - A.y = 0 := abs_eq_zero.mp (le_antisymm h2 (abs_nonneg _))
  apply h
  cases A; cases B
  simp only [Coord.mk.injEq]
  simp only at h3 h4
  omega

theorem linePoint_zero (A B : Coord) (h : B ≠ A) : linePoint A B 0 = A := by
  have hpos := distLInf_pos A B h
  rw [distLInf_eq] at hpos
  unfold linePoint
  by_cases hc : |B.x - A.x| > |B.y - A.y|
  · rw [if_pos hc]
    have hx : 0 < |B.x - A.x| := lt_of_le_of_lt (abs_nonneg _) hc
    simp [half_div_self _ hx]
  · rw [if_neg hc]
    have hy : 0 < |B.y - A.y| := by
      rcases lt_max_iff.mp hpos with h1 | h1
      · exact lt_of_lt_of_le h1 (not_lt.mp hc)
      · exact h1
    simp [half_div_self _ hy]

theorem linePoint_dist (A B : Coord) (h : B ≠ A) : linePoint A B (distLInf A B) = B := by
  have hpos := distLInf_pos A B h
  rw [distLInf_eq] at hpos ⊢
  unfold linePoint
  by_cases hc : |B.x - A.x| > |B.y - A.y|
  · rw [if_pos hc, max_eq_left (le_of_lt hc)]
    have hx : 0 < |B.x - A.x| := lt_of_le_of_lt (abs_nonneg _) hc
    have h1 : (|B.x - A.x| * |B.y - A.y| + |B.x - A.x| / 2) / |B.x - A.x| = |B.y - A.y| := by
      rw [Int.add_ediv_of_dvd_left (Dvd.intro _ rfl), Int.mul_ediv_cancel_left _ (ne_of_gt hx),
        half_div_self _ hx]
      ring
    rw [h1, sign_mul_abs_self, sign_mul_abs_self]
    cases B; simp
  · rw [if_neg hc, max_eq_right (not_lt.mp hc)]
    have hy : 0 < |B.y - A.y| := by
      rcases lt_max_iff.mp hpos with h1 | h1
      · exact lt_of_lt_of_le h1 (not_lt.mp hc)
      · exact h1
    have h1 : (|B.y - A.y| * |B.x - A.x| + |B.y - A.y| / 2) / |B.y - A.y| = |B.x - A.x| := by
      rw [Int.add_ediv_of_dvd_left (Dvd.intro _ rfl), Int.mul_ediv_cancel_left _ (ne_of_gt hy),
        half_div_self _ hy]
      ring
    rw [h1, sign_mul_abs_self, sign_mul_abs_self]
    cases B; simp

theorem linePoint_ne (A B : Coord) (k : Int) (hk0 : 0 ≤ k) (hk : k < distLInf A B) :
    linePoint A B k ≠ B := by
  rw [distLInf_eq] at hk
  unfold linePoint
  by_cases hc : |B.x - A.x| > |B.y - A.y|
  · rw [if_pos hc]
    rw [max_eq_left (le_of_lt hc)] at hk
    intro h
    have hx := congrArg Coord.x h
    simp only at hx
    have h2 : Int.sign (B.x - A.x) * k = Int.sign (B.x - A.x) * |B.x - A.x| := by
      rw [sign_mul_abs_self]; omega
    rcases lt_trichotomy (B.x - A.x) 0 with h3 | h3 | h3
    · rw [Int.sign_eq_neg_one_of_neg h3] at h2; omega
    · rw [h3] at hk; simp at hk; omega
    · rw [Int.sign_eq_one_of_pos h3] at h2; omega
  · rw [if_neg hc]
    rw [max_eq_right (not_lt.mp hc)] at hk
    intro h
    have hy := congrArg Coord.y h
    simp only at hy
    have h2 : Int.sign (B.y - A.y) * k = Int.sign (B.y - A.y) * |B.y - A.y| := by
      rw [sign_mul_abs_self]; omega
    rcases lt_trichotomy (B.y - A.y) 0 with h3 | h3 | h3
    · rw [Int.sign_eq_neg_one_of_neg h3] at h2; omega
    · rw [h3] at hk; simp at hk; omega
    · rw [Int.sign_eq_one_of_pos h3] at h2; omega

/-- The stepper computes the next point of the line. -/
theorem nextTile_linePoint (ch : CharacterState) (A B : Coord) (k : Int) (hk0 : 0 ≤ k)
    (hk : k < distLInf A B) (hfrom : ch.from_ = A) (hc : ch.coord = linePoint A B k) :
    ch.nextTile B = some (linePoint A B (k + 1)) := by
  rw [distLInf_eq] at hk
  unfold CharacterState.nextTile
  rw [hfrom, hc]
  unfold linePoint
  by_cases hcase : |B.x - A.x| > |B.y - A.y|
  · simp only [if_pos hcase]
    rw [max_eq_left (le_of_lt hcase)] at hk
    have hx : B.x - A.x ≠ 0 := by
      intro h0; rw [h0] at hk; simp at hk; omega
    rw [CoordStep_towards A.x B.x k hk0 hk]
    rw [CoordUpd_line (B.x - A.x) (B.y - A.y) A.x A.y _ (k + 1) hx (by omega)
      (by intro h0; simp [h0])]
    rfl
  · simp only [if_neg hcase]
    rw [max_eq_right (not_lt.mp hcase)] at hk
    have hy : B.y - A.y ≠ 0 := by
      intro h0; rw [h0] at hk; simp at hk; omega
    rw [CoordStep_towards A.y B.y k hk0 hk]
    rw [CoordUpd_line (B.y - A.y) (B.x - A.x) A.y A.x _ (k + 1) hy (by omega)
      (by intro h0; simp [h0])]
    rfl

theorem popBackWhile_nil (c : Coord) : popBackWhile c [] = [] := rfl

theorem popBackWhile_of_ne (c : Coord) (l : List Coord) (w : Coord) (h : c ≠ w) :
    popBackWhile c (l ++ [w]) = l ++ [w] := by
  unfold popBackWhile
  rw [List.reverse_append, List.reverse_singleton, List.singleton_append,
    List.dropWhile_cons_of_neg (by simpa using h)]
  simp

theorem popBackWhile_same (c : Coord) (l : List Coord) :
    popBackWhile c (l ++ [c]) = popBackWhile c l := by
  unfold popBackWhile
  rw [List.reverse_append, List.reverse_singleton, List.singleton_append,
    List.dropWhile_cons_of_pos (by simp)]

theorem moveTimes_add (env : Env) (m n : Nat) (ch : CharacterState) :
    moveTimes env (m + n) ch = (moveTimes env m ch).bind (moveTimes env n) := by
  induction m generalizing ch with
  | zero => simp [moveTimes]
  | succ m ih =>
    rw [Nat.succ_add]
    simp only [moveTimes]
    cases h : ch.MoveTowardsWaypoint env with
    | none => rfl
    | some c => simp only [Option.some_bind]; exact ih c

/-- One step of the straight-line stepper on the line from `A` to `B`. -/
theorem moveAlongLine_onLine (env : Env) (hwalk : ∀ x y, IsWalkable env x y = true)
    (normalStep : Bool) (A B : Coord) (rest : List Coord) (k : Int) (ch : CharacterState)
    (hk0 : 0 ≤ k) (hk : k < distLInf A B) (h : onLine A B rest k ch) :
    ∃ ch1, ch.moveAlongLine env normalStep = some ch1
      ∧ ch1.coord = linePoint A B (k + 1)
      ∧ (k + 1 < distLInf A B → onLine A B rest (k + 1) ch1)
      ∧ (k + 1 = distLInf A B → ch1.from_ = B ∧ ch1.waypoints = popBackWhile B rest) := by
  obtain ⟨hfrom, hcoord, hwp⟩ := h
  have hlast : ch.waypoints.getLast? = some B := by rw [hwp]; simp
  have hne : ch.coord ≠ B := by rw [hcoord]; exact linePoint_ne A B k hk0 hk
  have hnext := nextTile_linePoint ch A B k hk0 hk hfrom hcoord
  unfold CharacterState.moveAlongLine
  rw [hlast]
  simp only [if_neg hne]
  unfold CharacterState.walkLine
  rw [hlast]
  simp only [hnext, Option.some_bind, hwalk, Bool.true_eq_false, if_false]
  by_cases hend : linePoint A B (k + 1) = B
  · rw [if_pos hend]
    refine ⟨_, rfl, ?_, ?_, ?_⟩
    · split_ifs <;> rfl
    · intro hlt
      exact absurd hend (linePoint_ne A B (k + 1) (by omega) hlt)
    · intro _
      constructor
      · split_ifs <;> exact hend
      · have : ch.waypoints.dropLast = rest := by rw [hwp]; simp
        split_ifs <;> simp only [this, hend]
  · rw [if_neg hend]
    refine ⟨_, rfl, ?_, ?_, ?_⟩
    · split_ifs <;> rfl
    · intro _
      refine ⟨?_, ?_, ?_⟩
      · split_ifs <;> exact hfrom
      · split_ifs <;> rfl
      · split_ifs <;> exact hwp
    · intro heq
      exfalso
      apply hend
      rw [heq]
      apply linePoint_dist
      intro hAB
      rw [hAB] at hk
      have : distLInf A A = 0 := by simp [distLInf]
      omega

theorem MoveTowardsWaypoint_onLine (env : Env) (hwalk : ∀ x y, IsWalkable env x y = true)
    (A B : Coord) (rest : List Coord) (k : Int) (ch : CharacterState)
    (hk0 : 0 ≤ k) (hk : k < distLInf A B) (h : onLine A B rest k ch) :
    ∃ ch1, ch.MoveTowardsWaypoint env = some ch1
      ∧ ch1.coord = linePoint A B (k + 1)
      ∧ (k + 1 < distLInf A B → onLine A B rest (k + 1) ch1)
      ∧ (k + 1 = distLInf A B → ch1.from_ = B ∧ ch1.waypoints = popBackWhile B rest) := by
  unfold CharacterState.MoveTowardsWaypoint
  have hne : ch.waypoints ≠ [] := by rw [h.2.2]; simp
  rw [if_neg hne]
  exact moveAlongLine_onLine env hwalk false A B rest k ch hk0 hk h

/-- The first `n` steps on a line that is longer than `k + n`. -/
theorem moveTimes_onLine (env : Env) (hwalk : ∀ x y, IsWalkable env x y = true)
    (A B : Coord) (rest : List Coord) (n : Nat) :
    ∀ (k : Int) (ch : CharacterState), 0 ≤ k → k + n < distLInf A B → onLine A B rest k ch →
      ∃ ch1, moveTimes env n ch = some ch1 ∧ onLine A B rest (k + n) ch1 := by
  induction n with
  | zero =>
    intro k ch _ _ h
    exact ⟨ch, rfl, by simpa using h⟩
  | succ n ih =>
    intro k ch hk0 hk h
    push_cast at hk
    obtain ⟨ch1, h1, _, h3, _⟩ :=
      MoveTowardsWaypoint_onLine env hwalk A B rest k ch hk0 (by omega) h
    obtain ⟨ch2, h5, h6⟩ := ih (k + 1) ch1 (by omega) (by omega) (h3 (by omega))
    refine ⟨ch2, ?_, ?_⟩
    · simp only [moveTimes, h1, Option.some_bind, h5]
    · push_cast
      rw [show k + ((n : Int) + 1) = k + 1 + n by ring]
      exact h6

/-- A whole segment: from `A` the character reaches the waypoint `B` after
exactly `distLInf A B` steps and drops it. -/
theorem moveTimes_segment (env : Env) (hwalk : ∀ x y, IsWalkable env x y = true)
    (A B : Coord) (rest : List Coord) (ch : CharacterState) (hAB : B ≠ A)
    (hfrom : ch.from_ = A) (hcoord : ch.coord = A) (hwp : ch.waypoints = rest ++ [B]) :
    ∃ ch1, moveTimes env (distLInf A B).toNat ch = some ch1
      ∧ ch1.coord = B ∧ ch1.from_ = B ∧ ch1.waypoints = popBackWhile B rest := by
  have hpos := distLInf_pos A B hAB
  have h0 : onLine A B rest 0 ch := ⟨hfrom, by rw [hcoord, linePoint_zero A B hAB], hwp⟩
  obtain ⟨m, hm⟩ : ∃ m : Nat, distLInf A B = (m : Int) + 1 :=
    ⟨(distLInf A B - 1).toNat, by rw [Int.toNat_of_nonneg (by omega)]; ring⟩
  obtain ⟨ch1, h1, h2⟩ := moveTimes_onLine env hwalk A B rest m 0 ch le_rfl (by omega) h0
  obtain ⟨ch2, h3, h4, _, h6⟩ :=
    MoveTowardsWaypoint_onLine env hwalk A B rest (0 + m) ch1 (by omega) (by omega) h2
  have hD : 0 + (m : Int) + 1 = distLInf A B := by omega
  refine ⟨ch2, ?_, ?_, (h6 hD).1, (h6 hD).2⟩
  · have : (distLInf A B).toNat = m + 1 := by omega
    rw [this, moveTimes_add, h1]
    simp only [Option.some_bind, moveTimes, h3]
  · rw [h4, hD, linePoint_dist A B hAB]

theorem consecutiveDist_nonneg : ∀ l : List Coord, 0 ≤ consecutiveDist l
  | [] => le_rfl
  | [_] => le_rfl
  | a :: b :: t => by
    have h1 := distLInf_nonneg a b
    have h2 := consecutiveDist_nonneg (b :: t)
    simp only [consecutiveDist]
    omega

theorem consecutiveDist_append_singleton (l : List Coord) (a b : Coord) :
    consecutiveDist (l ++ [a, b]) = consecutiveDist (l ++ [a]) + distLInf a b := by
  induction l with
  | nil => simp [consecutiveDist]
  | cons x t ih =>
    cases t with
    | nil => simp [consecutiveDist]
    | cons y t2 =>
      show distLInf x y + consecutiveDist ((y :: t2) ++ [a, b])
        = distLInf x y + consecutiveDist ((y :: t2) ++ [a]) + distLInf a b
      rw [ih]; ring

theorem consecutiveDist_reverse : ∀ l : List Coord,
    consecutiveDist l.reverse = consecutiveDist l
  | [] => rfl
  | [_] => rfl
  | a :: b :: t => by
    have ih := consecutiveDist_reverse (b :: t)
    simp only [List.reverse_cons, List.append_assoc, List.singleton_append] at ih ⊢
    rw [consecutiveDist_append_singleton, ih, consecutiveDist, distLInf_comm b a]
    ring

/-- The loop of `TimeToDestination` adds up the distances between consecutive
waypoints. -/
theorem timeLoop_eq (rest : List Coord) :
    ∀ (acc : Int) (first : Coord),
      (rest.foldl (fun (acc : Int × Coord) w => (acc.1 + distLInf acc.2 w, w)) (acc, first)).1
        = acc + consecutiveDist (first :: rest) := by
  induction rest with
  | nil => intro acc first; simp [consecutiveDist]
  | cons w t ih =>
    intro acc first
    simp only [List.foldl_cons, consecutiveDist]
    rw [ih]
    ring

theorem TimeToDestination_eq (ch : CharacterState) (next : Coord)
    (hnext : ch.waypoints.getLast? = some next) :
    ch.TimeToDestination none = distLInf ch.coord next + consecutiveDist ch.waypoints := by
  unfold CharacterState.TimeToDestination
  simp only [Option.getD_none, Option.isNone_none, if_true]
  cases hw : ch.waypoints with
  | nil => rw [hw] at hnext; simp at hnext
  | cons first rest =>
    simp only
    rw [timeLoop_eq, ← hw, hnext]
    simp only [Option.getD_some]
    ring

/-- A step from a waypoint on which the character stands is the step of the
character without that waypoint. -/
theorem MoveTowardsWaypoint_drop (env : Env) (ch : CharacterState) (l : List Coord)
    (w1 w2 : Coord) (hne : w1 ≠ w2) (hfrom : ch.from_ = ch.coord) (hcoord : ch.coord = w1)
    (hwp : ch.waypoints = l ++ [w2] ++ [w1]) :
    ch.MoveTowardsWaypoint env
      = CharacterState.MoveTowardsWaypoint env { ch with waypoints := l ++ [w2] } := by
  unfold CharacterState.MoveTowardsWaypoint
  have h1 : ch.waypoints ≠ [] := by rw [hwp]; simp
  rw [if_neg h1]
  simp only [show l ++ [w2] ≠ [] by simp, if_false]
  unfold CharacterState.moveAlongLine
  have hl1 : ch.waypoints.getLast? = some w1 := by rw [hwp]; simp
  have hl2 : (l ++ [w2]).getLast? = some w2 := by simp
  rw [hl1]
  simp only [hl2, hcoord, if_true, if_neg hne]
  have hd : ch.waypoints.dropLast = l ++ [w2] := by rw [hwp]; simp
  rw [hd, popBackWhile_of_ne w1 l w2 hne]
  simp only [show l ++ [w2] ≠ [] by simp, if_false]
  rw [← hcoord, ← hfrom]

theorem toNat_add_of_nonneg (a b : Int) (ha : 0 ≤ a) (hb : 0 ≤ b) :
    (a + b).toNat = a.toNat + b.toNat := by omega

/-- Along a whole path (in travel order) the character needs the distance to
the first waypoint plus the distances between the waypoints, and ends on the
last one. -/
theorem moveTimes_path (env : Env) (hwalk : ∀ x y, IsWalkable env x y = true) :
    ∀ (P : List Coord) (w1 : Coord) (ch : CharacterState),
      (w1 :: P).Chain' (fun a b => a ≠ b) → ch.from_ = ch.coord →
      ch.waypoints = (w1 :: P).reverse →
      ∃ ch1, moveTimes env (distLInf ch.coord w1 + consecutiveDist (w1 :: P)).toNat ch
            = some ch1
        ∧ some ch1.coord = (w1 :: P).getLast? ∧ ch1.from_ = ch1.coord := by
  intro P
  induction P with
  | nil =>
    intro w1 ch _ hfrom hwp
    simp only [consecutiveDist, add_zero, List.getLast?_singleton]
    by_cases hc : w1 = ch.coord
    · refine ⟨ch, ?_, by rw [hc], hfrom⟩
      rw [hc]
      simp [distLInf, moveTimes]
    · obtain ⟨ch1, h1, h2, h3, _⟩ :=
        moveTimes_segment env hwalk ch.coord w1 [] ch hc hfrom rfl (by simpa using hwp)
      exact ⟨ch1, h1, by rw [h2], by rw [h2, h3]⟩
  | cons w2 t ih =>
    intro w1 ch hchain hfrom hwp
    have hne : w1 ≠ w2 := (List.chain'_cons.mp hchain).1
    have hchain2 : (w2 :: t).Chain' (fun a b => a ≠ b) := (List.chain'_cons.mp hchain).2
    have hwp2 : ch.waypoints = t.reverse ++ [w2] ++ [w1] := by
      rw [hwp]; simp
    have hlast : (w1 :: w2 :: t).getLast? = (w2 :: t).getLast? := by simp [List.getLast?]
    rw [hlast]
    simp only [consecutiveDist]
    have hd12 : 0 < distLInf w1 w2 := distLInf_pos w1 w2 (Ne.symm hne)
    have hrest := consecutiveDist_nonneg (w2 :: t)
    by_cases hc : w1 = ch.coord
    · -- the character stands on the first waypoint
      have hzero : distLInf ch.coord w1 = 0 := by rw [hc]; simp [distLInf]
      rw [hzero, zero_add]
      obtain ⟨ch1, h1, h2, h3⟩ := ih w2 { ch with waypoints := t.reverse ++ [w2] } hchain2
        hfrom (by simp)
      simp only at h1
      rw [show distLInf ch.coord w2 = distLInf w1 w2 by rw [hc]] at h1
      refine ⟨ch1, ?_, h2, h3⟩
      rw [← h1]
      obtain ⟨n, hn⟩ : ∃ n : Nat, (distLInf w1 w2 + consecutiveDist (w2 :: t)).toNat = n + 1 :=
        ⟨(distLInf w1 w2 + consecutiveDist (w2 :: t)).toNat - 1, by omega⟩
      rw [hn]
      simp only [moveTimes]
      rw [MoveTowardsWaypoint_drop env ch t.reverse w1 w2 hne hfrom hc.symm hwp2]
    · -- the character first walks to the first waypoint
      obtain ⟨ch1, h1, h2, h3, h4⟩ :=
        moveTimes_segment env hwalk ch.coord w1 (t.reverse ++ [w2]) ch hc hfrom rfl hwp2
      rw [popBackWhile_of_ne w1 t.reverse w2 hne] at h4
      obtain ⟨ch2, h5, h6, h7⟩ := ih w2 ch1 hchain2 (by rw [h2, h3]) (by rw [h4]; simp)
      rw [h2] at h5
      refine ⟨ch2, ?_, h6, h7⟩
      have hd := distLInf_nonneg ch.coord w1
      rw [toNat_add_of_nonneg _ _ hd (by omega), moveTimes_add, h1]
      exact h5

theorem moveAlongLine_dropReached (env : Env) (normalStep : Bool) (ch : CharacterState)
    (target : Coord) (hlast : (dropReached ch).waypoints.getLast? = some target) :
    ch.moveAlongLine env normalStep = (dropReached ch).walkLine env normalStep := by
  unfold CharacterState.moveAlongLine
  unfold dropReached at hlast ⊢
  cases hb : ch.waypoints.getLast? with
  | none => rw [hb] at hlast; simp only at hlast; rw [hb] at hlast; simp at hlast
  | some back =>
    rw [hb] at hlast
    simp only at hlast ⊢
    by_cases hc : ch.coord = back
    · simp only [if_pos hc] at hlast ⊢
      have : popBackWhile ch.coord ch.waypoints.dropLast ≠ [] := by
        intro h0; rw [h0] at hlast; simp at hlast
      rw [if_neg this]
    · simp only [if_neg hc]

/-- C11: straight-line stepper.  A character with `from = coord = A` and the
single waypoint `B` different from `A`, on a map where every tile is walkable,
stands after `k` applications of `MoveTowardsWaypoint`
(`1 <= k <= distLInf(A, B)`) on `linePoint A B k`: the major axis `k` tiles
from `A` towards `B`, the minor axis at `A`'s plus, towards `B`,
`floor((k * |d_minor| + floor(|d_major| / 2)) / |d_major|)`; after exactly
`distLInf(A, B)` applications `coord = B` and the waypoint list is empty. -/
theorem C11_straight_line_stepper (env : Env) (hwalk : ∀ x y, IsWalkable env x y = true)
    (ch : CharacterState) (A B : Coord) (hfrom : ch.from_ = A) (hcoord : ch.coord = A)
    (hwp : ch.waypoints = [B]) (hAB : B ≠ A) (k : Nat) (hk1 : 1 ≤ k)
    (hk : (k : Int) ≤ distLInf A B) :
    ∃ ch1, moveTimes env k ch = some ch1
      ∧ (|B.x - A.x| > |B.y - A.y| →
          ch1.coord.x = A.x + Int.sign (B.x - A.x) * k
          ∧ ch1.coord.y = A.y + Int.sign (B.y - A.y)
              * ((k * |B.y - A.y| + |B.x - A.x| / 2) / |B.x - A.x|))
      ∧ (¬ |B.x - A.x| > |B.y - A.y| →
          ch1.coord.y = A.y + Int.sign (B.y - A.y) * k
          ∧ ch1.coord.x = A.x + Int.sign (B.x - A.x)
              * ((k * |B.x - A.x| + |B.y - A.y| / 2) / |B.y - A.y|))
      ∧ ((k : Int) = distLInf A B → ch1.coord = B ∧ ch1.waypoints = []) := by
  have h0 : onLine A B [] 0 ch := ⟨hfrom, by rw [hcoord, linePoint_zero A B hAB], by simpa using hwp⟩
  obtain ⟨m, hm⟩ : ∃ m : Nat, k = m + 1 := ⟨k - 1, by omega⟩
  subst hm
  push_cast at hk
  obtain ⟨ch1, h1, h2⟩ := moveTimes_onLine env hwalk A B [] m 0 ch le_rfl (by omega) h0
  obtain ⟨ch2, h3, h4, _, h6⟩ :=
    MoveTowardsWaypoint_onLine env hwalk A B [] (0 + m) ch1 (by omega) (by omega) h2
  have hcoord2 : ch2.coord = linePoint A B ((m + 1 : Nat) : Int) := by
    rw [h4]; push_cast; rw [zero_add]
  refine ⟨ch2, ?_, ?_, ?_, ?_⟩
  · rw [moveTimes_add, h1]
    simp only [Option.some_bind, moveTimes, h3]
  · intro hc
    rw [hcoord2]
    unfold linePoint
    rw [if_pos hc]
    exact ⟨rfl, rfl⟩
  · intro hc
    rw [hcoord2]
    unfold linePoint
    rw [if_neg hc]
    exact ⟨rfl, rfl⟩
  · intro hD
    push_cast at hD
    constructor
    · rw [hcoord2]; push_cast; rw [hD, linePoint_dist A B hAB]
    · rw [(h6 (by omega)).2, popBackWhile_nil]

/-- Witness for C11: from `(0, 0)` to `(5, 2)` over `(1, 0)`, `(2, 1)`,
`(3, 1)`, `(4, 2)`. -/
theorem C11_straight_line_stepper_witness :
    (∀ x y, IsWalkable sampleEnv x y = true)
      ∧ (List.range 5).map (fun k => (moveTimes sampleEnv (k + 1) lineWalker).map
            (fun c => (c.coord.x, c.coord.y)))
          = [some (1, 0), some (2, 1), some (3, 1), some (4, 2), some (5, 2)]
      ∧ ∃ ch1, moveTimes sampleEnv 5 lineWalker = some ch1
          ∧ ch1.coord = ⟨5, 2⟩ ∧ ch1.waypoints = [] := by
  refine ⟨fun _ _ => rfl, by decide, ?_⟩
  obtain ⟨ch1, h1, _, _, h4⟩ :=
    C11_straight_line_stepper sampleEnv (fun _ _ => rfl) lineWalker ⟨0, 0⟩ ⟨5, 2⟩ rfl rfl rfl
      (by decide) 5 (by decide) (by decide)
  exact ⟨ch1, h1, h4 (by decide)⟩

/-- C12: for a character with `from = coord`, a non-empty waypoint list
without equal adjacent entries, and every tile walkable, `TimeToDestination()`
is the distance from `coord` to the next waypoint (the last of the stored
list) plus the sum of the distances between consecutive waypoints, and after
exactly that many applications of `MoveTowardsWaypoint` the character stands
on the final waypoint (the front of the stored list). -/
theorem C12_TimeToDestination_walk (env : Env) (hwalk : ∀ x y, IsWalkable env x y = true)
    (ch : CharacterState) (hfrom : ch.from_ = ch.coord) (hne : ch.waypoints ≠ [])
    (hchain : ch.waypoints.Chain' (fun a b => a ≠ b)) :
    ∃ next final ch1, ch.waypoints.getLast? = some next ∧ ch.waypoints.head? = some final
      ∧ ch.TimeToDestination none = distLInf ch.coord next + consecutiveDist ch.waypoints
      ∧ moveTimes env (ch.TimeToDestination none).toNat ch = some ch1
      ∧ ch1.coord = final := by
  obtain ⟨w1, P, hP⟩ : ∃ w1 P, ch.waypoints.reverse = w1 :: P := by
    cases h : ch.waypoints.reverse with
    | nil => exact absurd (List.reverse_eq_nil_iff.mp h) hne
    | cons a t => exact ⟨a, t, rfl⟩
  have hwp : ch.waypoints = (w1 :: P).reverse := by rw [← hP, List.reverse_reverse]
  have hnext : ch.waypoints.getLast? = some w1 := by
    rw [hwp, List.getLast?_reverse]; rfl
  have hchainP : (w1 :: P).Chain' (fun a b => a ≠ b) := by
    rw [← hP, List.chain'_reverse]
    exact hchain.imp (fun _ _ h => Ne.symm h)
  obtain ⟨ch1, h1, h2, _⟩ := moveTimes_path env hwalk P w1 ch hchainP hfrom hwp
  have hT := TimeToDestination_eq ch w1 hnext
  have hsum : consecutiveDist ch.waypoints = consecutiveDist (w1 :: P) := by
    rw [hwp, consecutiveDist_reverse]
  obtain ⟨final, hfinal⟩ : ∃ final, ch.waypoints.head? = some final := by
    cases h : ch.waypoints with
    | nil => exact absurd h hne
    | cons a t => exact ⟨a, rfl⟩
  refine ⟨w1, final, ch1, hnext, hfinal, hT, ?_, ?_⟩
  · rw [hT, hsum]; exact h1
  · have : (w1 :: P).getLast? = ch.waypoints.head? := by
      rw [hwp, List.head?_reverse]
    rw [this, hfinal] at h2
    exact Option.some.inj h2

/-- Witness for C12: the path `(3, 0)`, `(3, 4)`, `(1, 4)` from `(0, 0)` takes
`3 + 4 + 2 = 9` steps. -/
theorem C12_TimeToDestination_walk_witness :
    pathWalker.TimeToDestination none = 9
      ∧ (moveTimes sampleEnv 9 pathWalker).map (fun c => (c.coord.x, c.coord.y, c.waypoints))
          = some (1, 4, [])
      ∧ ∃ next final ch1, pathWalker.waypoints.getLast? = some next
          ∧ pathWalker.waypoints.head? = some final
          ∧ pathWalker.TimeToDestination none
              = distLInf pathWalker.coord next + consecutiveDist pathWalker.waypoints
          ∧ moveTimes sampleEnv (pathWalker.TimeToDestination none).toNat pathWalker = some ch1
          ∧ ch1.coord = final :=
  ⟨by decide, by decide,
    C12_TimeToDestination_walk sampleEnv (fun _ _ => rfl) pathWalker rfl (by decide)
      (by simp [pathWalker])⟩

/-- C13, as stated, fails: the first tile `(1, 0)` of the line from `(0, 0)`
to `(5, 2)` is an obstacle; the character stays on `(0, 0)`, but its waypoint
list `[(5, 2)]` is cleared, not left as it was. -/
theorem C13_counterexample :
    lineWalker.nextTile ⟨5, 2⟩ = some ⟨1, 0⟩
      ∧ IsWalkable blockedEnv 1 0 = false
      ∧ lineWalker.waypoints = [⟨5, 2⟩]
      ∧ (lineWalker.MoveTowardsWaypoint blockedEnv).map (fun c => (c.coord, c.waypoints))
          = some (⟨0, 0⟩, [])
      ∧ (lineWalker.moveAlongLine blockedEnv true).map (fun c => (c.coord, c.waypoints))
          = some (⟨0, 0⟩, []) := by
  decide

/-- C13 (amended): when the next tile computed by the straight-line stepper
is not walkable, `MoveTowardsWaypoint` and the end of
`MoveTowardsWaypointX_Pathfinder` stop the movement: `coord` is unchanged,
`from` becomes `coord` and the waypoint list is cleared; nothing else
changes. -/
theorem C13_blocked_step_stops (env : Env) (normalStep : Bool) (ch : CharacterState)
    (target new_c : Coord)
    (hlast : (dropReached ch).waypoints.getLast? = some target)
    (hnext : (dropReached ch).nextTile target = some new_c)
    (hblocked : IsWalkable env new_c.x new_c.y = false) :
    ch.MoveTowardsWaypoint env = some { ch with from_ := ch.coord, waypoints := [] }
      ∧ ch.moveAlongLine env normalStep = some { ch with from_ := ch.coord, waypoints := [] }
      := by
  have hkey : ∀ flag, ch.moveAlongLine env flag
      = some { ch with from_ := ch.coord, waypoints := [] } := by
    intro flag
    rw [moveAlongLine_dropReached env flag ch target hlast]
    unfold CharacterState.walkLine
    rw [hlast]
    simp only [hnext, Option.some_bind, hblocked, if_true]
    unfold dropReached CharacterState.StopMoving
    cases hb : ch.waypoints.getLast? with
    | none => rfl
    | some back =>
      simp only
      by_cases hc : ch.coord = back
      · rw [if_pos hc]
      · rw [if_neg hc]
  refine ⟨?_, hkey normalStep⟩
  unfold CharacterState.MoveTowardsWaypoint
  have hne : ch.waypoints ≠ [] := by
    intro h0
    unfold dropReached at hlast
    rw [h0] at hlast
    simp at hlast
    rw [h0] at hlast
    simp at hlast
  rw [if_neg hne]
  exact hkey false

/-- Witness for C13: the character of the counterexample. -/
theorem C13_blocked_step_stops_witness :
    (dropReached lineWalker).waypoints.getLast? = some ⟨5, 2⟩
      ∧ (dropReached lineWalker).nextTile ⟨5, 2⟩ = some ⟨1, 0⟩
      ∧ IsWalkable blockedEnv 1 0 = false
      ∧ lineWalker.MoveTowardsWaypoint blockedEnv
          = some { lineWalker with from_ := lineWalker.coord, waypoints := [] } :=
  ⟨by decide, by decide, by decide,
    (C13_blocked_step_stops blockedEnv true lineWalker ⟨5, 2⟩ ⟨1, 0⟩ (by decide) (by decide)
      (by decide)).1⟩

theorem consumedState_nonneg (env : Env) (r : RandomGenerator) : 0 ≤ consumedState env r := by
  unfold consumedState
  split_ifs with h
  · exact Int.ofNat_nonneg _
  · have : (0 : Int) ≤ MIN_STATE := by decide
    omega

theorem GetIntRnd_fst (env : Env) (r : RandomGenerator) (modulo : Int) :
    (r.GetIntRnd env modulo).1 = Int.tmod (consumedState env r) modulo := by
  unfold RandomGenerator.GetIntRnd consumedState
  split_ifs <;> rfl

theorem GetIntRnd_state (env : Env) (r : RandomGenerator) (modulo : Int) :
    (r.GetIntRnd env modulo).2.state = Int.tdiv (consumedState env r) modulo := by
  unfold RandomGenerator.GetIntRnd consumedState
  split_ifs <;> rfl

theorem GetIntRnd_range (env : Env) (r : RandomGenerator) (modulo : Int) (hm : 0 < modulo) :
    0 ≤ (r.GetIntRnd env modulo).1 ∧ (r.GetIntRnd env modulo).1 < modulo := by
  rw [GetIntRnd_fst, Int.tmod_eq_emod (consumedState_nonneg env r) (le_of_lt hm)]
  exact ⟨Int.emod_nonneg _ (ne_of_gt hm), Int.emod_lt_of_pos _ hm⟩

/-- C14: for every generator state, `GetIntRnd(modulo)` with `modulo > 0`
returns `r` with `0 <= r < modulo`, and `GetIntRnd(a, b)` with `a <= b` and
`b - a + 1` a positive `int` returns (neither assertion fails) a value `res`
with `a <= res <= b`. -/
theorem C14_GetIntRnd_range (env : Env) (r : RandomGenerator) :
    (∀ modulo : Int, 0 < modulo →
        0 ≤ (r.GetIntRnd env modulo).1 ∧ (r.GetIntRnd env modulo).1 < modulo)
      ∧ (∀ a b : Int, a ≤ b → b - a + 1 ≤ 2147483647 →
          ∃ res r1, r.GetIntRndRange env a b = some (res, r1) ∧ a ≤ res ∧ res ≤ b) := by
  refine ⟨fun modulo hm => GetIntRnd_range env r modulo hm, ?_⟩
  intro a b hab _
  have h := GetIntRnd_range env r (b - a + 1) (by omega)
  unfold RandomGenerator.GetIntRndRange
  rw [if_neg (by omega)]
  simp only
  rw [if_pos (by constructor <;> omega)]
  exact ⟨_, _, rfl, by omega, by omega⟩

/-- Witness for C14: draws from a used-up generator with the stand-in hash. -/
theorem C14_GetIntRnd_range_witness :
    (0 : Int) < 7
      ∧ (0 ≤ (usedGenerator.GetIntRnd sampleEnv 7).1 ∧ (usedGenerator.GetIntRnd sampleEnv 7).1 < 7)
      ∧ (usedGenerator.GetIntRndRange sampleEnv 10 12).map (fun x => x.1) = some 12
      ∧ ∃ res r1, usedGenerator.GetIntRndRange sampleEnv 10 12 = some (res, r1)
          ∧ 10 ≤ res ∧ res ≤ 12 :=
  ⟨by decide, (C14_GetIntRnd_range sampleEnv usedGenerator).1 7 (by decide), by decide,
    (C14_GetIntRnd_range sampleEnv usedGenerator).2 10 12 (by decide) (by decide)⟩

/-- C15: `GetIntRnd(modulo)`.  If the state is below `MIN_STATE`
(`0x7FFFFF * 256^6`), the hash of the seed `state0` replaces it, and becomes
the new `state0`, before anything is consumed; otherwise nothing is rehashed.
The value returned is then the state modulo `modulo` and the state becomes
the quotient, so that `old_state = new_state * modulo + result`. -/
theorem C15_GetIntRnd_rehash (env : Env) (r : RandomGenerator) (modulo : Int)
    (hm : 0 < modulo) :
    MIN_STATE = 0x7FFFFF * 256 ^ 6
      ∧ (r.state < MIN_STATE →
          consumedState env r = env.SerializeHashBig r.state0
          ∧ (r.GetIntRnd env modulo).2.state0 = env.SerializeHashBig r.state0)
      ∧ (MIN_STATE ≤ r.state →
          consumedState env r = r.state ∧ (r.GetIntRnd env modulo).2.state0 = r.state0)
      ∧ (r.GetIntRnd env modulo).1 = consumedState env r % modulo
      ∧ (r.GetIntRnd env modulo).2.state = consumedState env r / modulo
      ∧ consumedState env r
          = (r.GetIntRnd env modulo).2.state * modulo + (r.GetIntRnd env modulo).1 := by
  have hnn := consumedState_nonneg env r
  have h1 : (r.GetIntRnd env modulo).1 = consumedState env r % modulo := by
    rw [GetIntRnd_fst, Int.tmod_eq_emod hnn (le_of_lt hm)]
  have h2 : (r.GetIntRnd env modulo).2.state = consumedState env r / modulo := by
    rw [GetIntRnd_state, Int.tdiv_eq_ediv hnn (le_of_lt hm)]
  refine ⟨rfl, ?_, ?_, h1, h2, ?_⟩
  · intro hlt
    unfold consumedState RandomGenerator.GetIntRnd
    simp only [if_pos hlt, and_self]
  · intro hge
    unfold consumedState RandomGenerator.GetIntRnd
    simp only [if_neg (not_lt.mpr hge), and_self]
  · rw [h1, h2]
    have := Int.emod_add_ediv (consumedState env r) modulo
    rw [mul_comm]
    omega

/-- Witness for C15: a used-up generator is rehashed (the stand-in hash of
the seed 77 is 77), a fresh one is not. -/
theorem C15_GetIntRnd_rehash_witness :
    (usedGenerator.state < MIN_STATE ∧ MIN_STATE ≤ freshGenerator.state)
      ∧ usedGenerator.GetIntRnd sampleEnv 10 = (7, { state := 7, state0 := 77 })
      ∧ (freshGenerator.GetIntRnd sampleEnv 10).2.state0 = 77
      ∧ (freshGenerator.GetIntRnd sampleEnv 10).1 = consumedState sampleEnv freshGenerator % 10
      ∧ consumedState sampleEnv usedGenerator
          = (usedGenerator.GetIntRnd sampleEnv 10).2.state * 10
            + (usedGenerator.GetIntRnd sampleEnv 10).1 :=
  ⟨by decide, by decide, by decide,
    (C15_GetIntRnd_rehash sampleEnv freshGenerator 10 (by decide)).2.2.2.1,
    (C15_GetIntRnd_rehash sampleEnv usedGenerator 10 (by decide)).2.2.2.2.2⟩

theorem set_replicate_append (m : Nat) (z c : Coord) (L : List Coord) :
    (List.replicate (m + 1) z ++ L).set m c = List.replicate m z ++ c :: L := by
  induction m with
  | zero => rfl
  | succ m ih =>
    show z :: (List.replicate (m + 1) z ++ L).set m c = z :: (List.replicate m z ++ c :: L)
    rw [ih]

theorem getElem_replicate_append_at (m : Nat) (z c : Coord) (L : List Coord) :
    (List.replicate m z ++ c :: L)[m]? = some c := by
  rw [List.getElem?_append_right (by simp)]
  simp

theorem getElem_replicate_append_succ (m : Nat) (z c : Coord) (L : List Coord) :
    (List.replicate m z ++ c :: L)[m + 1]? = L.head? := by
  rw [List.getElem?_append_right (by simp)]
  simp only [List.length_replicate, Nat.add_sub_cancel_left, List.getElem?_cons_succ]
  cases L <;> simp

/-- One round of the loop of `ParseWaypoints` after `pts` have been stored. -/
theorem parseWaypointAt_iff (arr : List Value) (n : Nat) (pts : List Coord)
    (hk : pts.length < n) (res : List Coord) :
    parseWaypointAt arr n (storedWp n pts) pts.length = some res
      ↔ ∃ c, pairAt arr pts.length = some c ∧ IsInsideMap c.x c.y = true
          ∧ (∀ x ∈ pts.getLast?, x ≠ c) ∧ res = storedWp n (pts ++ [c]) := by
  unfold parseWaypointAt
  cases hp : pairAt arr pts.length with
  | none => simp
  | some c =>
    simp only [Option.some.injEq, exists_eq_left']
    cases hv : IsInsideMap c.x c.y with
    | false => simp
    | true =>
      simp only [Bool.true_eq_false, if_false, true_and]
      obtain ⟨m, hm⟩ : ∃ m, n - pts.length = m + 1 := ⟨n - pts.length - 1, by omega⟩
      have hidx : n - 1 - pts.length = m := by omega
      have hset : (storedWp n pts).set (n - 1 - pts.length) c = storedWp n (pts ++ [c]) := by
        unfold storedWp
        rw [hidx, hm, set_replicate_append]
        simp only [List.length_append, List.length_singleton, List.reverse_append,
          List.reverse_singleton, List.singleton_append]
        rw [show n - (pts.length + 1) = m by omega]
      rw [hset]
      have hform : storedWp n (pts ++ [c]) = List.replicate m ⟨0, 0⟩ ++ c :: pts.reverse := by
        unfold storedWp
        simp only [List.length_append, List.length_singleton, List.reverse_append,
          List.reverse_singleton, List.singleton_append]
        rw [show n - (pts.length + 1) = m by omega]
      have h1 : (storedWp n (pts ++ [c]))[n - 1 - pts.length]? = some c := by
        rw [hform, hidx, getElem_replicate_append_at]
      have h2 : (storedWp n (pts ++ [c]))[n - pts.length]? = pts.getLast? := by
        rw [hform, hm, getElem_replicate_append_succ, List.head?_reverse]
      rw [h1, h2]
      by_cases hdup : pts.length ≠ 0 ∧ some c = pts.getLast?
      · rw [if_pos hdup]
        constructor
        · intro h
          exact absurd h (by simp)
        · rintro ⟨hne, _⟩
          exact absurd rfl (hne c (by rw [Option.mem_def]; exact hdup.2.symm))
      · rw [if_neg hdup]
        constructor
        · intro h
          refine ⟨?_, (Option.some.inj h).symm⟩
          intro x hx heq
          apply hdup
          constructor
          · intro h0
            have : pts = [] := List.length_eq_zero.mp h0
            rw [this] at hx
            simp at hx
          · rw [Option.mem_def] at hx
            rw [hx, heq]
        · rintro ⟨_, hres⟩
          rw [hres]

theorem foldlM_range_succ {α : Type} (f : α → Nat → Option α) (k : Nat) (init : α) :
    (List.range (k + 1)).foldlM f init = ((List.range k).foldlM f init).bind (fun r => f r k) := by
  rw [List.range_succ, List.foldlM_append]
  cases (List.range k).foldlM f init with
  | none => rfl
  | some r =>
    simp only [Option.bind_eq_bind, Option.some_bind, List.foldlM_cons, List.foldlM_nil]
    cases f r k <;> rfl

/-- The loop of `ParseWaypoints` up to index `k`. -/
theorem parseLoop_iff (arr : List Value) (n : Nat) :
    ∀ (k : Nat), k ≤ n → ∀ res : List Coord,
      (List.range k).foldlM (parseWaypointAt arr n) (List.replicate n (⟨0, 0⟩ : Coord))
          = some res
        ↔ ∃ pts : List Coord, pts.length = k ∧ (∀ j, j < k → pairAt arr j = pts[j]?)
            ∧ (∀ c ∈ pts, IsInsideMap c.x c.y = true) ∧ pts.Chain' (fun a b => a ≠ b)
            ∧ res = storedWp n pts := by
  intro k
  induction k with
  | zero =>
    intro _ res
    simp only [List.range_zero, List.foldlM_nil]
    constructor
    · intro h
      refine ⟨[], rfl, by intro j hj; omega, by simp, List.chain'_nil, ?_⟩
      have := Option.some.inj h
      rw [← this]
      simp [storedWp]
    · rintro ⟨pts, hlen, _, _, _, hres⟩
      have : pts = [] := List.length_eq_zero.mp hlen
      rw [hres, this]
      simp [storedWp]
  | succ k ih =>
    intro hk res
    rw [foldlM_range_succ]
    constructor
    · intro h
      cases hr : (List.range k).foldlM (parseWaypointAt arr n)
          (List.replicate n (⟨0, 0⟩ : Coord)) with
      | none => rw [hr] at h; simp at h
      | some r =>
        rw [hr] at h
        simp only [Option.some_bind] at h
        obtain ⟨pts, hlen, hpair, hin, hchain, hres⟩ := (ih (by omega) r).mp hr
        rw [hres, ← hlen] at h
        obtain ⟨c, hc1, hc2, hc3, hc4⟩ :=
          (parseWaypointAt_iff arr n pts (by omega) res).mp h
        refine ⟨pts ++ [c], by simp [hlen], ?_, ?_, ?_, hc4⟩
        · intro j hj
          by_cases hjk : j < k
          · rw [hpair j hjk, List.getElem?_append_left (by omega)]
          · have : j = pts.length := by omega
            rw [this, hc1]
            simp
        · intro x hx
          rcases List.mem_append.mp hx with h1 | h1
          · exact hin x h1
          · rw [List.mem_singleton.mp h1]; exact hc2
        · rw [List.chain'_append]
          refine ⟨hchain, List.chain'_singleton c, ?_⟩
          intro x hx y hy
          simp only [List.head?_cons, Option.mem_def, Option.some.injEq] at hy
          rw [← hy]
          exact hc3 x hx
    · rintro ⟨pts, hlen, hpair, hin, hchain, hres⟩
      obtain ⟨c, pts0, hsplit⟩ : ∃ c pts0, pts = pts0 ++ [c] := by
        have hne : pts ≠ [] := by intro h0; rw [h0] at hlen; simp at hlen
        exact ⟨pts.getLast hne, pts.dropLast, (List.dropLast_append_getLast hne).symm⟩
      subst hsplit
      have hlen0 : pts0.length = k := by simpa using hlen
      rw [List.chain'_append] at hchain
      have h0 : (List.range k).foldlM (parseWaypointAt arr n)
          (List.replicate n (⟨0, 0⟩ : Coord)) = some (storedWp n pts0) := by
        apply (ih (by omega) _).mpr
        refine ⟨pts0, hlen0, ?_, ?_, hchain.1, rfl⟩
        · intro j hj
          rw [hpair j (by omega), List.getElem?_append_left (by omega)]
        · intro x hx
          exact hin x (List.mem_append_left _ hx)
      rw [h0]
      simp only [Option.some_bind]
      rw [← hlen0]
      apply (parseWaypointAt_iff arr n pts0 (by omega) res).mpr
      refine ⟨c, ?_, hin c (by simp), ?_, hres⟩
      · rw [hlen0, hpair k (by omega), ← hlen0]
        simp
      · intro x hx
        exact hchain.2.2 x hx c (by simp)

theorem encodeWp_length (pts : List Coord) : (encodeWp pts).length = 2 * pts.length := by
  induction pts with
  | nil => rfl
  | cons c t ih =>
    simp only [encodeWp, List.flatMap_cons, List.length_append, List.length_cons,
      List.length_nil] at ih ⊢
    rw [ih]; ring

theorem pairAt_cons_cons (a b : Value) (t : List Value) (j : Nat) :
    pairAt (a :: b :: t) (j + 1) = pairAt t j := by
  unfold pairAt
  rw [show 2 * (j + 1) = 2 * j + 1 + 1 by ring]
  simp only [List.getElem?_cons_succ]

theorem pairAt_encodeWp : ∀ (pts : List Coord) (j : Nat), pairAt (encodeWp pts) j = pts[j]?
  | [], j => by simp [encodeWp, pairAt]
  | c :: t, 0 => by simp [encodeWp, pairAt]
  | c :: t, j + 1 => by
    have ih := pairAt_encodeWp t j
    have : encodeWp (c :: t) = Value.int c.x :: Value.int c.y :: encodeWp t := rfl
    rw [this, pairAt_cons_cons, ih]
    simp

/-- An array whose pairs are the points `pts` is their `wp` array. -/
theorem eq_encodeWp_of_pairAt : ∀ (pts : List Coord) (arr : List Value),
    arr.length = 2 * pts.length → (∀ j, j < pts.length → pairAt arr j = pts[j]?) →
    arr = encodeWp pts
  | [], arr, hlen, _ => by
    have : arr = [] := List.length_eq_zero.mp (by simpa using hlen)
    rw [this]; rfl
  | c :: t, arr, hlen, hp => by
    match arr, hlen, hp with
    | [], hlen, _ => simp at hlen
    | [_], hlen, _ => simp at hlen; omega
    | a :: b :: rest, hlen, hp =>
      have h0 := hp 0 (by simp)
      have hrest : rest = encodeWp t := by
        apply eq_encodeWp_of_pairAt t rest
        · simp only [List.length_cons] at hlen; omega
        · intro j hj
          have := hp (j + 1) (by simp; omega)
          rw [pairAt_cons_cons] at this
          rw [this]; simp
      have hab : a = Value.int c.x ∧ b = Value.int c.y := by
        unfold pairAt at h0
        simp only [Nat.mul_zero, List.getElem?_cons_zero, Nat.zero_add,
          List.getElem?_cons_succ] at h0
        cases a <;> cases b <;> simp at h0
        rename_i x y
        cases c
        simp only [Coord.mk.injEq] at h0
        simp [h0.1, h0.2]
      rw [hab.1, hab.2, hrest]
      rfl

theorem storedWp_full (pts : List Coord) : storedWp pts.length pts = pts.reverse := by
  simp [storedWp]

/-- What `ParseWaypoints` does with the value of a `wp` field. -/
theorem ParseWaypoints_wp_iff (obj obj1 : List (String × Value)) (v : Value)
    (hwp : ExtractField obj "wp" = some (v, obj1))
    (r : List (String × Value) × List Coord × Bool) :
    ParseWaypoints obj = some r
      ↔ ∃ pts : List Coord, v = Value.array (encodeWp pts) ∧ pts.length ≤ MAX_WAYPOINTS
          ∧ (∀ c ∈ pts, IsInsideMap c.x c.y = true) ∧ pts.Chain' (fun a b => a ≠ b)
          ∧ r = (obj1, pts.reverse, true) := by
  unfold ParseWaypoints
  rw [hwp]
  cases v with
  | array arr =>
    simp only
    constructor
    · intro h
      by_cases hodd : arr.length % 2 ≠ 0
      · rw [if_pos hodd] at h; exact absurd h (by simp)
      rw [if_neg hodd] at h
      by_cases hmax : arr.length / 2 > MAX_WAYPOINTS
      · rw [if_pos hmax] at h; exact absurd h (by simp)
      rw [if_neg hmax] at h
      · cases hl : (List.range (arr.length / 2)).foldlM (parseWaypointAt arr (arr.length / 2))
            (List.replicate (arr.length / 2) (⟨0, 0⟩ : Coord)) with
        | none => rw [hl] at h; simp at h
        | some res =>
          rw [hl] at h
          simp only [Option.map_some', Option.some.injEq] at h
          obtain ⟨pts, hlen, hpair, hin, hchain, hres⟩ :=
            (parseLoop_iff arr (arr.length / 2) (arr.length / 2) le_rfl res).mp hl
          have harr : arr = encodeWp pts := by
            apply eq_encodeWp_of_pairAt pts arr
            · rw [hlen]; omega
            · intro j hj; exact hpair j (by omega)
          refine ⟨pts, by rw [harr], by omega, hin, hchain, ?_⟩
          rw [← h, hres, ← hlen, storedWp_full]
    · rintro ⟨pts, hv, hmax, hin, hchain, hr⟩
      have harr : arr = encodeWp pts := by injection hv
      have hlen : arr.length = 2 * pts.length := by rw [harr, encodeWp_length]
      have hn : arr.length / 2 = pts.length := by omega
      rw [if_neg (by omega), if_neg (by omega), hn]
      have hl : (List.range pts.length).foldlM (parseWaypointAt arr pts.length)
          (List.replicate pts.length (⟨0, 0⟩ : Coord)) = some (storedWp pts.length pts) := by
        apply (parseLoop_iff arr pts.length pts.length le_rfl _).mpr
        refine ⟨pts, rfl, ?_, hin, hchain, rfl⟩
        intro j _
        rw [harr, pairAt_encodeWp]
      rw [hl, hr, storedWp_full]
      rfl
  | obj o => simp
  | str s => simp
  | bool b => simp
  | int i => simp
  | real => simp
  | null => simp

theorem IsInsideMap_iff (x y : Int) :
    IsInsideMap x y = true ↔ 0 ≤ x ∧ x < 502 ∧ 0 ≤ y ∧ y < 502 := by
  simp [IsInsideMap, MAP_WIDTH, MAP_HEIGHT, and_assoc]

theorem encodeWp_injective (p q : List Coord) (h : encodeWp p = encodeWp q) : p = q := by
  apply List.ext_getElem?
  intro j
  rw [← pairAt_encodeWp p j, ← pairAt_encodeWp q j, h]

theorem ExtractField_none_iff (obj : List (String × Value)) (field : String) :
    ExtractField obj field = none ↔ ∀ q ∈ obj, q.1 ≠ field := by
  induction obj with
  | nil => simp [ExtractField]
  | cons p t ih =>
    simp only [ExtractField]
    by_cases h : p.1 = field
    · simp [h]
    · simp [h, ih]

/-- The function `ExtractField` removes the first pair with the name and
nothing else. -/
theorem ExtractField_split (obj : List (String × Value)) (field : String) (v : Value)
    (obj1 : List (String × Value)) (h : ExtractField obj field = some (v, obj1)) :
    ∃ l1 l2, obj = l1 ++ (field, v) :: l2 ∧ obj1 = l1 ++ l2 ∧ ∀ q ∈ l1, q.1 ≠ field := by
  induction obj generalizing obj1 with
  | nil => simp [ExtractField] at h
  | cons p t ih =>
    simp only [ExtractField] at h
    by_cases hp : p.1 = field
    · rw [if_pos hp] at h
      simp only [Option.some.injEq, Prod.mk.injEq] at h
      refine ⟨[], t, ?_, by simp [h.2], by simp⟩
      rw [← h.1, ← hp]
      rfl
    · rw [if_neg hp] at h
      cases ht : ExtractField t field with
      | none => rw [ht] at h; simp at h
      | some r =>
        rw [ht] at h
        simp only [Option.map_some', Option.some.injEq, Prod.mk.injEq] at h
        obtain ⟨l1, l2, h1, h2, h3⟩ := ih r.2 (by rw [ht, ← h.1])
        refine ⟨p :: l1, l2, by rw [h1]; rfl, by rw [← h.2, h2]; rfl, ?_⟩
        intro q hq
        rcases List.mem_cons.mp hq with h4 | h4
        · rw [h4]; exact hp
        · exact h3 q h4

theorem mem_after_ExtractField (obj : List (String × Value)) (field : String) (v : Value)
    (obj1 : List (String × Value)) (h : ExtractField obj field = some (v, obj1))
    (p : String × Value) (hp : p ∈ obj) : p ∈ obj1 ∨ p = (field, v) := by
  obtain ⟨l1, l2, h1, h2, _⟩ := ExtractField_split obj field v obj1 h
  rw [h1] at hp
  rw [h2]
  rcases List.mem_append.mp hp with h3 | h3
  · left; exact List.mem_append_left _ h3
  · rcases List.mem_cons.mp h3 with h4 | h4
    · right; exact h4
    · left; exact List.mem_append_right _ h4

theorem isEmpty_of_mem {α : Type} (l : List α) (a : α) (h : a ∈ l) : l.isEmpty = false := by
  cases l with
  | nil => simp at h
  | cons _ _ => rfl

/-- A pair whose value is an object survives the extraction of a text
field. -/
theorem mem_after_parseTextField (obj : List (String × Value)) (field : String)
    (r : Option String × List (String × Value)) (h : parseTextField obj field = some r)
    (p : String × Value) (sub : List (String × Value)) (hsub : p.2 = Value.obj sub)
    (hp : p ∈ obj) : p ∈ r.2 := by
  unfold parseTextField at h
  cases he : ExtractField obj field with
  | none =>
    rw [he] at h
    simp only [Option.some.injEq] at h
    rw [← h]; exact hp
  | some x =>
    obtain ⟨v, obj1⟩ := x
    rw [he] at h
    cases v with
    | str s =>
      simp only [Option.some.injEq] at h
      rw [← h]
      rcases mem_after_ExtractField obj field _ obj1 he p hp with h1 | h1
      · exact h1
      · rw [h1] at hsub; simp at hsub
    | obj o => simp at h
    | array a => simp at h
    | bool b => simp at h
    | int i => simp at h
    | real => simp at h
    | null => simp at h

theorem mem_after_parseAddressField (penv : ParseEnv) (obj : List (String × Value))
    (field : String) (r : Option String × List (String × Value))
    (h : parseAddressField penv obj field = some r)
    (p : String × Value) (sub : List (String × Value)) (hsub : p.2 = Value.obj sub)
    (hp : p ∈ obj) : p ∈ r.2 := by
  unfold parseAddressField at h
  cases he : ExtractField obj field with
  | none =>
    rw [he] at h
    simp only [Option.some.injEq] at h
    rw [← h]; exact hp
  | some x =>
    obtain ⟨v, obj1⟩ := x
    rw [he] at h
    cases v with
    | str s =>
      simp only at h
      by_cases hv : s ≠ "" ∧ penv.IsValidBitcoinAddress s = false
      · rw [if_pos hv] at h; simp at h
      · rw [if_neg hv] at h
        simp only [Option.some.injEq] at h
        rw [← h]
        rcases mem_after_ExtractField obj field _ obj1 he p hp with h1 | h1
        · exact h1
        · rw [h1] at hsub; simp at hsub
    | obj o => simp at h
    | array a => simp at h
    | bool b => simp at h
    | int i => simp at h
    | real => simp at h
    | null => simp at h

theorem foldlM_none_of_mem {α β : Type} (f : β → α → Option β) (l : List α) (a : α)
    (ha : a ∈ l) (hf : ∀ b, f b a = none) : ∀ init, l.foldlM f init = none := by
  induction l with
  | nil => simp at ha
  | cons x t ih =>
    intro init
    simp only [List.foldlM_cons, Option.bind_eq_bind]
    rcases List.mem_cons.mp ha with h | h
    · rw [← h, hf]; rfl
    · cases f init x with
      | none => rfl
      | some b => exact ih h b

/-- The function `ParseWaypoints` on an object with a `wp` field fails or sets
`bWaypoints`, and takes only that field away. -/
theorem ParseWaypoints_of_wp (sub : List (String × Value)) (hwp : ∃ q ∈ sub, q.1 = "wp")
    (w : List (String × Value) × List Coord × Bool) (h : ParseWaypoints sub = some w) :
    w.2.2 = true ∧ ∀ p ∈ sub, p.1 ≠ "wp" → p ∈ w.1 := by
  cases he : ExtractField sub "wp" with
  | none =>
    obtain ⟨q, hq1, hq2⟩ := hwp
    exact absurd hq2 ((ExtractField_none_iff sub "wp").mp he q hq1)
  | some x =>
    obtain ⟨v, obj1⟩ := x
    obtain ⟨pts, _, _, _, _, hr⟩ := (ParseWaypoints_wp_iff sub obj1 v he w).mp h
    rw [hr]
    refine ⟨rfl, ?_⟩
    intro p hp hne
    rcases mem_after_ExtractField sub "wp" v obj1 he p hp with h1 | h1
    · exact h1
    · rw [h1] at hne; exact absurd rfl hne

/-- The loop body of `Move::Parse` fails on a character entry with a `wp`
field and a `destruct` field of value `true`. -/
theorem parseCharacter_wp_destruct (acc : ParsedCharacters) (it : String × Value)
    (sub : List (String × Value)) (hsub : it.2 = Value.obj sub)
    (hwp : ∃ q ∈ sub, q.1 = "wp") (hd : ("destruct", Value.bool true) ∈ sub) :
    parseCharacter acc it = none := by
  unfold parseCharacter
  simp only
  split_ifs with h1 h2
  · rfl
  · rfl
  · rw [hsub]
    simp only
    cases hw : ParseWaypoints sub with
    | none => rfl
    | some w =>
      simp only [Option.some_bind]
      obtain ⟨hw1, hw2⟩ := ParseWaypoints_of_wp sub hwp w hw
      have hd1 : ("destruct", Value.bool true) ∈ w.1 := hw2 _ hd (by decide)
      unfold ParseDestruct
      cases he : ExtractField w.1 "destruct" with
      | none =>
        exact absurd rfl ((ExtractField_none_iff w.1 "destruct").mp he _ hd1)
      | some x =>
        obtain ⟨v, obj2⟩ := x
        cases v with
        | bool b =>
          simp only [Option.some_bind]
          cases b with
          | true => simp [hw1]
          | false =>
            have hd2 : ("destruct", Value.bool true) ∈ obj2 := by
              rcases mem_after_ExtractField w.1 "destruct" _ obj2 he _ hd1 with h3 | h3
              · exact h3
              · simp at h3
            simp [isEmpty_of_mem obj2 _ hd2]
        | obj o => rfl
        | array a => rfl
        | str s => rfl
        | int i => rfl
        | real => rfl
        | null => rfl

/-- C16: `ParseWaypoints` on an object that has a `wp` field succeeds if and
only if the value of the field is an array of integers of even length `2n`
(the array `encodeWp pts` of `n` points) with `n <= 100`, every pair inside
the map and no two consecutive pairs equal; when `wp` is absent it succeeds
with `bWaypoints = false` and an empty result. -/
theorem C16_ParseWaypoints_accepts (obj : List (String × Value)) :
    (∀ v obj1, ExtractField obj "wp" = some (v, obj1) →
        ((ParseWaypoints obj).isSome = true
          ↔ ∃ pts : List Coord, v = Value.array (encodeWp pts) ∧ pts.length ≤ 100
              ∧ (∀ c ∈ pts, 0 ≤ c.x ∧ c.x < 502 ∧ 0 ≤ c.y ∧ c.y < 502)
              ∧ pts.Chain' (fun a b => a ≠ b)))
      ∧ (ExtractField obj "wp" = none → ParseWaypoints obj = some (obj, [], false)) := by
  constructor
  · intro v obj1 hwp
    constructor
    · intro h
      obtain ⟨r, hr⟩ := Option.isSome_iff_exists.mp h
      obtain ⟨pts, h1, h2, h3, h4, _⟩ := (ParseWaypoints_wp_iff obj obj1 v hwp r).mp hr
      exact ⟨pts, h1, h2, fun c hc => (IsInsideMap_iff c.x c.y).mp (h3 c hc), h4⟩
    · rintro ⟨pts, h1, h2, h3, h4⟩
      have := (ParseWaypoints_wp_iff obj obj1 v hwp (obj1, pts.reverse, true)).mpr
        ⟨pts, h1, h2, fun c hc => (IsInsideMap_iff c.x c.y).mpr (h3 c hc), h4, rfl⟩
      rw [this]
      rfl
  · intro h
    unfold ParseWaypoints
    rw [h]

/-- Witness for C16: a sub-object with two points is accepted, one with an
odd array, a pair outside the map, or a repeated pair is refused, and one
without `wp` gives no waypoints. -/
theorem C16_ParseWaypoints_accepts_witness :
    ((ParseWaypoints [("wp", Value.array (encodeWp [⟨1, 2⟩, ⟨3, 4⟩]))]).isSome = true
        ↔ ∃ pts : List Coord, Value.array (encodeWp [⟨1, 2⟩, ⟨3, 4⟩]) = Value.array (encodeWp pts)
            ∧ pts.length ≤ 100
            ∧ (∀ c ∈ pts, 0 ≤ c.x ∧ c.x < 502 ∧ 0 ≤ c.y ∧ c.y < 502)
            ∧ pts.Chain' (fun a b => a ≠ b))
      ∧ (ParseWaypoints [("wp", Value.array (encodeWp [⟨1, 2⟩, ⟨3, 4⟩]))]).isSome = true
      ∧ (ParseWaypoints [("wp", Value.array [Value.int 1])]).isSome = false
      ∧ (ParseWaypoints [("wp", Value.array [Value.int 1, Value.int 502])]).isSome = false
      ∧ (ParseWaypoints [("wp", Value.array (encodeWp [⟨1, 2⟩, ⟨1, 2⟩]))]).isSome = false
      ∧ (ParseWaypoints [("destruct", Value.bool true)]).map (fun r => (r.2.1, r.2.2))
          = some ([], false) :=
  ⟨(C16_ParseWaypoints_accepts [("wp", Value.array (encodeWp [⟨1, 2⟩, ⟨3, 4⟩]))]).1 _ [] rfl,
    by decide, by decide, by decide, by decide, by decide⟩

/-- C17: for an accepted `wp` array `[x0, y0, ..., x(n-1), y(n-1)]` the stored
waypoint vector has length `n` and its element at index `n - 1 - i` is
`(xi, yi)`: the first point given is the last element (`waypoints.back()`)
and the last point given is the first element. -/
theorem C17_waypoints_stored_reversed (obj obj1 obj2 : List (String × Value))
    (pts result : List Coord) (bWaypoints : Bool)
    (hwp : ExtractField obj "wp" = some (Value.array (encodeWp pts), obj1))
    (hacc : ParseWaypoints obj = some (obj2, result, bWaypoints)) :
    result.length = pts.length
      ∧ (∀ i, i < pts.length → result[pts.length - 1 - i]? = pts[i]?)
      ∧ result.getLast? = pts.head? ∧ result.head? = pts.getLast?
      ∧ bWaypoints = true := by
  obtain ⟨pts1, h1, _, _, _, h5⟩ := (ParseWaypoints_wp_iff obj obj1 _ hwp _).mp hacc
  have hpts : pts = pts1 := encodeWp_injective pts pts1 (by injection h1)
  subst hpts
  simp only [Prod.mk.injEq] at h5
  obtain ⟨_, hres, hb⟩ := h5
  subst hres
  refine ⟨List.length_reverse pts, ?_, List.getLast?_reverse pts, List.head?_reverse pts, hb⟩
  intro i hi
  rw [List.getElem?_reverse (by omega)]
  congr 1
  omega

/-- Witness for C17: the points `(1, 2)`, `(3, 4)`, `(5, 6)` are stored as
`(5, 6)`, `(3, 4)`, `(1, 2)`. -/
theorem C17_waypoints_stored_reversed_witness :
    ParseWaypoints [("wp", Value.array (encodeWp [⟨1, 2⟩, ⟨3, 4⟩, ⟨5, 6⟩]))]
        = some ([], [⟨5, 6⟩, ⟨3, 4⟩, ⟨1, 2⟩], true)
      ∧ ([⟨5, 6⟩, ⟨3, 4⟩, ⟨1, 2⟩] : List Coord).length
          = ([⟨1, 2⟩, ⟨3, 4⟩, ⟨5, 6⟩] : List Coord).length
      ∧ (∀ i, i < ([⟨1, 2⟩, ⟨3, 4⟩, ⟨5, 6⟩] : List Coord).length →
          ([⟨5, 6⟩, ⟨3, 4⟩, ⟨1, 2⟩] : List Coord)[
              ([⟨1, 2⟩, ⟨3, 4⟩, ⟨5, 6⟩] : List Coord).length - 1 - i]?
            = ([⟨1, 2⟩, ⟨3, 4⟩, ⟨5, 6⟩] : List Coord)[i]?) := by
  have h : ParseWaypoints [("wp", Value.array (encodeWp [⟨1, 2⟩, ⟨3, 4⟩, ⟨5, 6⟩]))]
      = some ([], [⟨5, 6⟩, ⟨3, 4⟩, ⟨1, 2⟩], true) := by rfl
  have h2 := C17_waypoints_stored_reversed
    [("wp", Value.array (encodeWp [⟨1, 2⟩, ⟨3, 4⟩, ⟨5, 6⟩]))] [] []
    [⟨1, 2⟩, ⟨3, 4⟩, ⟨5, 6⟩] [⟨5, 6⟩, ⟨3, 4⟩, ⟨1, 2⟩] true rfl h
  exact ⟨h, h2.1, h2.2.1⟩

/-- C18: waypoint round trip.  For a character whose waypoint list is
non-empty, has at most 100 entries, all inside the map, and no two adjacent
entries equal, the object that `CharacterState::ToJsonValue` emits has a `wp`
array that `ParseWaypoints` accepts and parses back to exactly the stored
waypoint vector. -/
theorem C18_waypoint_round_trip (ValueFromAmount : Int → Value) (ch : CharacterState)
    (has_crown : Bool) (hne : ch.waypoints ≠ []) (hlen : ch.waypoints.length ≤ 100)
    (hin : ∀ c ∈ ch.waypoints, IsInsideMap c.x c.y = true)
    (hchain : ch.waypoints.Chain' (fun a b => a ≠ b)) :
    ∃ obj obj1, ch.ToJsonValue ValueFromAmount has_crown = Value.obj obj
      ∧ ExtractField obj "wp"
          = some (Value.array (ch.waypoints.reverse.flatMap
              (fun c => [Value.int c.x, Value.int c.y])), obj1)
      ∧ ParseWaypoints obj = some (obj1, ch.waypoints, true) := by
  unfold CharacterState.ToJsonValue
  rw [if_pos hne]
  have e1 : ¬ ("x" : String) = "wp" := by decide
  have e2 : ¬ ("y" : String) = "wp" := by decide
  have e3 : ¬ ("fromX" : String) = "wp" := by decide
  have e4 : ¬ ("fromY" : String) = "wp" := by decide
  have hext : ExtractField
      ([("x", Value.int ch.coord.x), ("y", Value.int ch.coord.y)]
        ++ [("fromX", Value.int ch.from_.x), ("fromY", Value.int ch.from_.y),
            ("wp", Value.array
              (ch.waypoints.reverse.flatMap (fun c => [Value.int c.x, Value.int c.y])))]
        ++ [("dir", Value.int ch.dir), ("stay_in_spawn_area", Value.int ch.stay_in_spawn_area),
            ("loot", ValueFromAmount ch.loot.nAmount)]
        ++ (if has_crown = true then [("has_crown", Value.bool true)] else [])) "wp"
      = some (Value.array (encodeWp ch.waypoints.reverse),
          ("x", Value.int ch.coord.x) :: ("y", Value.int ch.coord.y)
            :: ("fromX", Value.int ch.from_.x) :: ("fromY", Value.int ch.from_.y)
            :: ("dir", Value.int ch.dir)
            :: ("stay_in_spawn_area", Value.int ch.stay_in_spawn_area)
            :: ("loot", ValueFromAmount ch.loot.nAmount)
            :: (if has_crown = true then [("has_crown", Value.bool true)] else [])) := by
    simp only [List.cons_append, List.nil_append, ExtractField, e1, e2, e3, e4, if_false,
      if_true, Option.map_some']
    rfl
  refine ⟨_, _, rfl, hext, ?_⟩
  apply (ParseWaypoints_wp_iff _ _ _ hext _).mpr
  refine ⟨ch.waypoints.reverse, rfl, by simpa [MAX_WAYPOINTS] using hlen, ?_, ?_, ?_⟩
  · intro c hc
    exact hin c (List.mem_reverse.mp hc)
  · rw [List.chain'_reverse]
    exact hchain.imp (fun _ _ h => Ne.symm h)
  · rw [List.reverse_reverse]

/-- Witness for C18: the stored waypoints `(9, 4)`, `(9, 2)`, `(5, 2)` are
emitted as `[5, 2, 9, 2, 9, 4]` and parsed back. -/
theorem C18_waypoint_round_trip_witness :
    ∃ obj obj1, storedWalker.ToJsonValue (fun _ => Value.real) false = Value.obj obj
      ∧ ExtractField obj "wp"
          = some (Value.array [Value.int 5, Value.int 2, Value.int 9, Value.int 2,
              Value.int 9, Value.int 4], obj1)
      ∧ ParseWaypoints obj = some (obj1, [⟨9, 4⟩, ⟨9, 2⟩, ⟨5, 2⟩], true) :=
  C18_waypoint_round_trip (fun _ => Value.real) storedWalker false (by decide) (by decide)
    (by decide) (by simp [storedWalker])

theorem bind_none_of_some {α β : Type} (o : Option α) (f : α → Option β)
    (h : ∀ a, o = some a → f a = none) : o.bind f = none := by
  cases o with
  | none => rfl
  | some a => exact h a rfl

/-- The end of `Move::Parse` fails when a pair of the rest of the object is a
sub-object with a `wp` field and a `destruct` field of value `true`. -/
theorem parseColorOrCharacters_wp_destruct (m : Move) (obj : List (String × Value))
    (it : String × Value) (hit : it ∈ obj) (sub : List (String × Value))
    (hsub : it.2 = Value.obj sub) (hwp : ∃ q ∈ sub, q.1 = "wp")
    (hd : ("destruct", Value.bool true) ∈ sub) :
    parseColorOrCharacters m obj = none := by
  unfold parseColorOrCharacters
  cases hc : ExtractField obj "color" with
  | none =>
    simp only
    rw [foldlM_none_of_mem parseCharacter obj it hit
      (fun acc => parseCharacter_wp_destruct acc it sub hsub hwp hd)]
    rfl
  | some x =>
    obtain ⟨v, obj1⟩ := x
    cases v with
    | int c =>
      simp only
      have hmem : it ∈ obj1 := by
        rcases mem_after_ExtractField obj "color" _ obj1 hc it hit with h9 | h9
        · exact h9
        · rw [h9] at hsub; simp at hsub
      rw [isEmpty_of_mem obj1 it hmem]
      by_cases hcol : (toUChar c : Int) ≥ NUM_TEAM_COLORS
      · rw [if_pos hcol]
      · rw [if_neg hcol, if_pos rfl]
    | obj o => rfl
    | array a => rfl
    | str s => rfl
    | bool b => rfl
    | real => rfl
    | null => rfl

/-- C19, as stated, fails: the move whose character 0 has a `wp` field and a
`destruct` field of value `false` is accepted, with the waypoint stored and
nothing to destruct. -/
theorem C19_counterexample :
    (Move.Parse (readAs (Value.obj
        [("0", Value.obj [("wp", Value.array [Value.int 1, Value.int 1]),
          ("destruct", Value.bool false)])])) ⟨"alice"⟩ "").map
      (fun m => (m.waypoints.entries, m.destruct.entries))
      = some ([(0, [⟨1, 1⟩])], []) := by
  decide

/-- C19 (amended): `Move::Parse` fails for every move in which the value of
some pair of the object is a sub-object that contains both a `wp` field and a
`destruct` field of value `true`. -/
theorem C19_wp_with_destruct_rejected (penv : ParseEnv) (player : PlayerID) (json : String)
    (obj : List (String × Value)) (hread : penv.read_string json = some (Value.obj obj))
    (it : String × Value) (hit : it ∈ obj) (sub : List (String × Value))
    (hsub : it.2 = Value.obj sub) (hwp : ∃ q ∈ sub, q.1 = "wp")
    (hd : ("destruct", Value.bool true) ∈ sub) :
    Move.Parse penv player json = none := by
  have hobj : parseObject penv player obj = none := by
    unfold parseObject
    apply bind_none_of_some
    intro r1 h1
    have m1 := mem_after_parseTextField obj _ r1 h1 it sub hsub hit
    apply bind_none_of_some
    intro r2 h2
    have m2 := mem_after_parseAddressField penv r1.2 _ r2 h2 it sub hsub m1
    apply bind_none_of_some
    intro r3 h3
    have m3 := mem_after_parseAddressField penv r2.2 _ r3 h3 it sub hsub m2
    apply bind_none_of_some
    intro r4 h4
    have m4 := mem_after_parseTextField r3.2 _ r4 h4 it sub hsub m3
    apply bind_none_of_some
    intro r5 h5
    have m5 := mem_after_parseTextField r4.2 _ r5 h5 it sub hsub m4
    apply bind_none_of_some
    intro r6 h6
    have m6 := mem_after_parseTextField r5.2 _ r6 h6 it sub hsub m5
    apply bind_none_of_some
    intro r7 h7
    have m7 := mem_after_parseTextField r6.2 _ r7 h7 it sub hsub m6
    apply bind_none_of_some
    intro r8 h8
    have m8 := mem_after_parseTextField r7.2 _ r8 h8 it sub hsub m7
    exact parseColorOrCharacters_wp_destruct _ r8.2 it m8 sub hsub hwp hd
  unfold Move.Parse
  by_cases hname : penv.IsValidPlayerName player = false
  · rw [if_pos hname]
  · rw [if_neg hname, hread]
    exact hobj

/-- Witness for C19: character 0 with a waypoint and `destruct` set. -/
theorem C19_wp_with_destruct_rejected_witness :
    Move.Parse (readAs (Value.obj
        [("0", Value.obj [("wp", Value.array [Value.int 1, Value.int 1]),
          ("destruct", Value.bool true)])])) ⟨"alice"⟩ "" = none :=
  C19_wp_with_destruct_rejected _ ⟨"alice"⟩ "" _ rfl
    ("0", Value.obj [("wp", Value.array [Value.int 1, Value.int 1]),
      ("destruct", Value.bool true)])
    (List.mem_singleton.mpr rfl) _ rfl ⟨_, List.mem_cons_self _ _, rfl⟩
    (List.mem_cons_of_mem _ (List.mem_cons_self _ _))

/-- C20 (the code at the failing inputs): a `color` field whose integer
leaves a remainder below 4 modulo 256 is accepted, also when the integer is
outside `0..3` (256 or -256, for instance): the number is stored into the
`unsigned char color` before it is compared with `NUM_TEAM_COLORS`, and the
move spawns with that remainder as its colour. -/
theorem C20_color_cut_to_byte (penv : ParseEnv) (player : PlayerID) (json : String) (c : Int)
    (hname : penv.IsValidPlayerName player = true)
    (hread : penv.read_string json = some (Value.obj [("color", Value.int c)]))
    (hc : c % 256 < 4) :
    Move.Parse penv player json = some { player := player, color := (c % 256).toNat } := by
  unfold Move.Parse
  rw [if_neg (by simp [hname]), hread]
  show parseObject penv player [("color", Value.int c)] = _
  unfold parseObject
  have e : ∀ f : String, f ≠ "color" → parseTextField [("color", Value.int c)] f
      = some (none, [("color", Value.int c)]) := by
    intro f hf
    unfold parseTextField
    simp [ExtractField, Ne.symm hf]
  have e2 : ∀ f : String, f ≠ "color" → parseAddressField penv [("color", Value.int c)] f
      = some (none, [("color", Value.int c)]) := by
    intro f hf
    unfold parseAddressField
    simp [ExtractField, Ne.symm hf]
  simp only [e "msg" (by decide), e2 "address" (by decide), e2 "addressLock" (by decide),
    e "addr_token" (by decide), e "msg_vote" (by decide), e "msg_request" (by decide),
    e "msg_fee" (by decide), e "msg_comment" (by decide), Option.some_bind]
  unfold parseColorOrCharacters
  have hcol : ExtractField [("color", Value.int c)] "color" = some (Value.int c, []) := by
    simp [ExtractField]
  rw [hcol]
  simp only
  have hu : toUChar c = (c % 256).toNat := rfl
  have hnn : 0 ≤ c % 256 := Int.emod_nonneg _ (by decide)
  rw [if_neg (by rw [hu, NUM_TEAM_COLORS]; omega)]
  simp [hu]

/-- Witness for C20: the colour 256 spawns a yellow player. -/
theorem C20_color_cut_to_byte_witness :
    Move.Parse (readAs (Value.obj [("color", Value.int 256)])) ⟨"alice"⟩ ""
      = some { player := ⟨"alice"⟩, color := 0 } :=
  C20_color_cut_to_byte (readAs (Value.obj [("color", Value.int 256)])) ⟨"alice"⟩ "" 256 rfl
    rfl (by decide)

/-! ## Left-over fields in `Move::Parse` -/

theorem ExtractField_append (a b : List (String × Value)) (field : String) :
    ExtractField (a ++ b) field
      = match ExtractField a field with
        | some x => some (x.1, x.2 ++ b)
        | none => (ExtractField b field).map (fun x => (x.1, a ++ x.2)) := by
  induction a with
  | nil =>
    simp only [List.nil_append, ExtractField]
    cases ExtractField b field <;> rfl
  | cons p t ih =>
    show ExtractField (p :: (t ++ b)) field = _
    simp only [ExtractField]
    by_cases hp : p.1 = field
    · simp only [if_pos hp]
    · simp only [if_neg hp]
      rw [ih]
      cases ExtractField t field with
      | none =>
        simp only [Option.map_none']
        cases ExtractField b field <;> rfl
      | some x => rfl

theorem mem_after_ExtractField_ne (obj : List (String × Value)) (field : String) (v : Value)
    (obj1 : List (String × Value)) (h : ExtractField obj field = some (v, obj1))
    (p : String × Value) (hp : p ∈ obj) (hne : p.1 ≠ field) : p ∈ obj1 := by
  rcases mem_after_ExtractField obj field v obj1 h p hp with h1 | h1
  · exact h1
  · rw [h1] at hne; exact absurd rfl hne

/-- The extraction of the first field of a list of names keeps a left-over
pair left over for the rest of the names. -/
theorem leftOver_after_ExtractField (field : String) (fields : List String)
    (hnot : field ∉ fields) (it : String × Value) (obj obj1 : List (String × Value))
    (v : Value) (h : leftOver (field :: fields) it obj)
    (he : ExtractField obj field = some (v, obj1)) : leftOver fields it obj1 := by
  obtain ⟨l1, l2, hobj, hdup⟩ := h
  rw [hobj, ExtractField_append] at he
  cases h1 : ExtractField l1 field with
  | some x =>
    rw [h1] at he
    simp only [Option.some.injEq, Prod.mk.injEq] at he
    refine ⟨x.2, l2, he.2.symm, ?_⟩
    intro hmem
    obtain ⟨q, hq1, hq2⟩ := hdup (List.mem_cons_of_mem _ hmem)
    refine ⟨q, ?_, hq2⟩
    apply mem_after_ExtractField_ne l1 field x.1 x.2 h1 q hq1
    rw [hq2]
    intro heq
    exact hnot (heq ▸ hmem)
  | none =>
    rw [h1] at he
    simp only at he
    have hne : it.1 ≠ field := by
      intro heq
      obtain ⟨q, hq1, hq2⟩ := hdup (by rw [heq]; exact List.mem_cons_self _ _)
      exact (ExtractField_none_iff l1 field).mp h1 q hq1 (by rw [hq2, heq])
    have h2 : ExtractField (it :: l2) field
        = (ExtractField l2 field).map (fun r => (r.1, it :: r.2)) := by
      simp only [ExtractField, if_neg hne]
    rw [h2] at he
    cases h3 : ExtractField l2 field with
    | none => rw [h3] at he; simp at he
    | some y =>
      rw [h3] at he
      simp only [Option.map_some', Option.some.injEq, Prod.mk.injEq] at he
      refine ⟨l1, y.2, he.2.symm, ?_⟩
      intro hmem
      exact hdup (List.mem_cons_of_mem _ hmem)

theorem leftOver_tail (field : String) (fields : List String) (it : String × Value)
    (obj : List (String × Value)) (h : leftOver (field :: fields) it obj) :
    leftOver fields it obj := by
  obtain ⟨l1, l2, hobj, hdup⟩ := h
  exact ⟨l1, l2, hobj, fun hmem => hdup (List.mem_cons_of_mem _ hmem)⟩

theorem leftOver_mem (fields : List String) (it : String × Value)
    (obj : List (String × Value)) (h : leftOver fields it obj) : it ∈ obj := by
  obtain ⟨l1, l2, hobj, _⟩ := h
  rw [hobj]
  simp

theorem leftOver_after_parseTextField (field : String) (fields : List String)
    (hnot : field ∉ fields) (it : String × Value) (obj : List (String × Value))
    (r : Option String × List (String × Value))
    (h : leftOver (field :: fields) it obj) (hr : parseTextField obj field = some r) :
    leftOver fields it r.2 := by
  unfold parseTextField at hr
  cases he : ExtractField obj field with
  | none =>
    rw [he] at hr
    simp only [Option.some.injEq] at hr
    rw [← hr]
    exact leftOver_tail field fields it obj h
  | some x =>
    obtain ⟨v, obj1⟩ := x
    rw [he] at hr
    have hl := leftOver_after_ExtractField field fields hnot it obj obj1 v h he
    cases v with
    | str s =>
      simp only [Option.some.injEq] at hr
      rw [← hr]
      exact hl
    | obj o => simp at hr
    | array a => simp at hr
    | bool b => simp at hr
    | int i => simp at hr
    | real => simp at hr
    | null => simp at hr

theorem leftOver_after_parseAddressField (penv : ParseEnv) (field : String)
    (fields : List String) (hnot : field ∉ fields) (it : String × Value)
    (obj : List (String × Value)) (r : Option String × List (String × Value))
    (h : leftOver (field :: fields) it obj) (hr : parseAddressField penv obj field = some r) :
    leftOver fields it r.2 := by
  unfold parseAddressField at hr
  cases he : ExtractField obj field with
  | none =>
    rw [he] at hr
    simp only [Option.some.injEq] at hr
    rw [← hr]
    exact leftOver_tail field fields it obj h
  | some x =>
    obtain ⟨v, obj1⟩ := x
    rw [he] at hr
    have hl := leftOver_after_ExtractField field fields hnot it obj obj1 v h he
    cases v with
    | str s =>
      simp only at hr
      by_cases hv : s ≠ "" ∧ penv.IsValidBitcoinAddress s = false
      · rw [if_pos hv] at hr; simp at hr
      · rw [if_neg hv] at hr
        simp only [Option.some.injEq] at hr
        rw [← hr]
        exact hl
    | obj o => simp at hr
    | array a => simp at hr
    | bool b => simp at hr
    | int i => simp at hr
    | real => simp at hr
    | null => simp at hr

/-- A pair of another name survives the extraction of a text field. -/
theorem mem_after_parseTextField_ne (obj : List (String × Value)) (field : String)
    (r : Option String × List (String × Value)) (h : parseTextField obj field = some r)
    (p : String × Value) (hne : p.1 ≠ field) (hp : p ∈ obj) : p ∈ r.2 := by
  unfold parseTextField at h
  cases he : ExtractField obj field with
  | none =>
    rw [he] at h
    simp only [Option.some.injEq] at h
    rw [← h]; exact hp
  | some x =>
    obtain ⟨v, obj1⟩ := x
    rw [he] at h
    have hm := mem_after_ExtractField_ne obj field v obj1 he p hp hne
    cases v with
    | str s =>
      simp only [Option.some.injEq] at h
      rw [← h]; exact hm
    | obj o => simp at h
    | array a => simp at h
    | bool b => simp at h
    | int i => simp at h
    | real => simp at h
    | null => simp at h

theorem mem_after_parseAddressField_ne (penv : ParseEnv) (obj : List (String × Value))
    (field : String) (r : Option String × List (String × Value))
    (h : parseAddressField penv obj field = some r)
    (p : String × Value) (hne : p.1 ≠ field) (hp : p ∈ obj) : p ∈ r.2 := by
  unfold parseAddressField at h
  cases he : ExtractField obj field with
  | none =>
    rw [he] at h
    simp only [Option.some.injEq] at h
    rw [← h]; exact hp
  | some x =>
    obtain ⟨v, obj1⟩ := x
    rw [he] at h
    have hm := mem_after_ExtractField_ne obj field v obj1 he p hp hne
    cases v with
    | str s =>
      simp only at h
      by_cases hv : s ≠ "" ∧ penv.IsValidBitcoinAddress s = false
      · rw [if_pos hv] at h; simp at h
      · rw [if_neg hv] at h
        simp only [Option.some.injEq] at h
        rw [← h]; exact hm
    | obj o => simp at h
    | array a => simp at h
    | bool b => simp at h
    | int i => simp at h
    | real => simp at h
    | null => simp at h

/-- The end of `Move::Parse` fails on a colour field with a pair left
over. -/
theorem parseColorOrCharacters_leftOver (m : Move) (obj : List (String × Value))
    (it : String × Value) (hcolor : ∃ q ∈ obj, q.1 = "color")
    (hleft : leftOver ["color"] it obj) : parseColorOrCharacters m obj = none := by
  unfold parseColorOrCharacters
  cases hc : ExtractField obj "color" with
  | none =>
    obtain ⟨q, hq1, hq2⟩ := hcolor
    exact absurd hq2 ((ExtractField_none_iff obj "color").mp hc q hq1)
  | some x =>
    obtain ⟨v, obj1⟩ := x
    have hl := leftOver_after_ExtractField "color" [] (by simp) it obj obj1 v hleft hc
    have hmem := leftOver_mem [] it obj1 hl
    cases v with
    | int c =>
      simp only
      rw [isEmpty_of_mem obj1 it hmem]
      by_cases hcol : (toUChar c : Int) ≥ NUM_TEAM_COLORS
      · rw [if_pos hcol]
      · rw [if_neg hcol, if_pos rfl]
    | obj o => rfl
    | array a => rfl
    | str s => rfl
    | bool b => rfl
    | real => rfl
    | null => rfl

/-- C21, as stated, fails: a `color` field together with a `msg` field (and
likewise with `address`, `addressLock` and the governance fields) is accepted:
these fields are extracted before the test that nothing is left. -/
theorem C21_counterexample :
    Move.Parse (readAs (Value.obj [("color", Value.int 0), ("msg", Value.str "hi")]))
        ⟨"alice"⟩ ""
      = some { player := ⟨"alice"⟩, color := 0, message := some "hi" }
    ∧ Move.Parse (readAs (Value.obj
        [("msg_vote", Value.str "1"), ("address", Value.str ""), ("color", Value.int 3)]))
        ⟨"alice"⟩ ""
      = some { player := ⟨"alice"⟩, color := 3, msg_vote := some "1", address := some "" } := by
  constructor <;> rfl

/-- C21 (amended): `Move::Parse` fails for every JSON object that contains a
`color` field together with a field that is left over: a field whose name is
none of `msg`, `address`, `addressLock`, `addr_token`, `msg_vote`,
`msg_request`, `msg_fee`, `msg_comment` and `color`, or a second field of one
of these names. -/
theorem C21_color_with_left_over_field_rejected (penv : ParseEnv) (player : PlayerID)
    (json : String) (obj : List (String × Value))
    (hread : penv.read_string json = some (Value.obj obj))
    (hcolor : ∃ q ∈ obj, q.1 = "color") (it : String × Value)
    (hleft : leftOver topLevelFields it obj) :
    Move.Parse penv player json = none := by
  obtain ⟨qc, hqc1, hqc2⟩ := hcolor
  have hobj : parseObject penv player obj = none := by
    unfold parseObject
    unfold topLevelFields at hleft
    apply bind_none_of_some
    intro r1 h1
    have l1 := leftOver_after_parseTextField _ _ (by decide) it obj r1 hleft h1
    have c1 := mem_after_parseTextField_ne obj _ r1 h1 qc (by rw [hqc2]; decide) hqc1
    apply bind_none_of_some
    intro r2 h2
    have l2 := leftOver_after_parseAddressField penv _ _ (by decide) it r1.2 r2 l1 h2
    have c2 := mem_after_parseAddressField_ne penv r1.2 _ r2 h2 qc (by rw [hqc2]; decide) c1
    apply bind_none_of_some
    intro r3 h3
    have l3 := leftOver_after_parseAddressField penv _ _ (by decide) it r2.2 r3 l2 h3
    have c3 := mem_after_parseAddressField_ne penv r2.2 _ r3 h3 qc (by rw [hqc2]; decide) c2
    apply bind_none_of_some
    intro r4 h4
    have l4 := leftOver_after_parseTextField _ _ (by decide) it r3.2 r4 l3 h4
    have c4 := mem_after_parseTextField_ne r3.2 _ r4 h4 qc (by rw [hqc2]; decide) c3
    apply bind_none_of_some
    intro r5 h5
    have l5 := leftOver_after_parseTextField _ _ (by decide) it r4.2 r5 l4 h5
    have c5 := mem_after_parseTextField_ne r4.2 _ r5 h5 qc (by rw [hqc2]; decide) c4
    apply bind_none_of_some
    intro r6 h6
    have l6 := leftOver_after_parseTextField _ _ (by decide) it r5.2 r6 l5 h6
    have c6 := mem_after_parseTextField_ne r5.2 _ r6 h6 qc (by rw [hqc2]; decide) c5
    apply bind_none_of_some
    intro r7 h7
    have l7 := leftOver_after_parseTextField _ _ (by decide) it r6.2 r7 l6 h7
    have c7 := mem_after_parseTextField_ne r6.2 _ r7 h7 qc (by rw [hqc2]; decide) c6
    apply bind_none_of_some
    intro r8 h8
    have l8 := leftOver_after_parseTextField _ _ (by decide) it r7.2 r8 l7 h8
    have c8 := mem_after_parseTextField_ne r7.2 _ r8 h8 qc (by rw [hqc2]; decide) c7
    exact parseColorOrCharacters_leftOver _ r8.2 it ⟨qc, c8, hqc2⟩ l8
  unfold Move.Parse
  by_cases hname : penv.IsValidPlayerName player = false
  · rw [if_pos hname]
  · rw [if_neg hname, hread]
    exact hobj

/-- Witness for C21: a colour with a character entry, and a colour with two
`msg` fields. -/
theorem C21_color_with_left_over_field_rejected_witness :
    Move.Parse (readAs (Value.obj [("color", Value.int 0), ("0", Value.obj [])])) ⟨"alice"⟩ ""
        = none
      ∧ Move.Parse (readAs (Value.obj
          [("msg", Value.str "a"), ("color", Value.int 0), ("msg", Value.str "b")]))
          ⟨"alice"⟩ "" = none :=
  ⟨C21_color_with_left_over_field_rejected _ ⟨"alice"⟩ "" _ rfl
      ⟨_, List.mem_cons_self _ _, rfl⟩ ("0", Value.obj [])
      ⟨[("color", Value.int 0)], [], rfl, fun h => absurd h (by decide)⟩,
    C21_color_with_left_over_field_rejected _ ⟨"alice"⟩ "" _ rfl
      ⟨_, List.mem_cons_of_mem _ (List.mem_cons_self _ _), rfl⟩ ("msg", Value.str "b")
      ⟨[("msg", Value.str "a"), ("color", Value.int 0)], [], rfl,
        fun _ => ⟨_, List.mem_cons_self _ _, rfl⟩⟩⟩

theorem toInt32_lt (v : Int) : toInt32 v < 2 ^ 31 := by
  unfold toInt32
  have h := Int.emod_lt_of_pos (v + 2 ^ 31) (show (0 : Int) < 2 ^ 32 by norm_num)
  omega

theorem atoi_lt (s : String) : atoi s < 2 ^ 31 := by
  unfold atoi
  exact toInt32_lt _

theorem mem_of_mem_after_ExtractField (obj : List (String × Value)) (field : String)
    (v : Value) (obj1 : List (String × Value)) (h : ExtractField obj field = some (v, obj1))
    (p : String × Value) (hp : p ∈ obj1) : p ∈ obj := by
  obtain ⟨l1, l2, h1, h2, _⟩ := ExtractField_split obj field v obj1 h
  rw [h2] at hp
  rw [h1]
  rcases List.mem_append.mp hp with h3 | h3
  · exact List.mem_append_left _ h3
  · exact List.mem_append_right _ (List.mem_cons_of_mem _ h3)

theorem mem_of_mem_after_parseTextField (obj : List (String × Value)) (field : String)
    (r : Option String × List (String × Value)) (h : parseTextField obj field = some r)
    (p : String × Value) (hp : p ∈ r.2) : p ∈ obj := by
  unfold parseTextField at h
  cases he : ExtractField obj field with
  | none =>
    rw [he] at h
    simp only [Option.some.injEq] at h
    rw [← h] at hp; exact hp
  | some x =>
    obtain ⟨v, obj1⟩ := x
    rw [he] at h
    cases v with
    | str s =>
      simp only [Option.some.injEq] at h
      rw [← h] at hp
      exact mem_of_mem_after_ExtractField obj field _ obj1 he p hp
    | obj o => simp at h
    | array a => simp at h
    | bool b => simp at h
    | int i => simp at h
    | real => simp at h
    | null => simp at h

theorem mem_of_mem_after_parseAddressField (penv : ParseEnv) (obj : List (String × Value))
    (field : String) (r : Option String × List (String × Value))
    (h : parseAddressField penv obj field = some r)
    (p : String × Value) (hp : p ∈ r.2) : p ∈ obj := by
  unfold parseAddressField at h
  cases he : ExtractField obj field with
  | none =>
    rw [he] at h
    simp only [Option.some.injEq] at h
    rw [← h] at hp; exact hp
  | some x =>
    obtain ⟨v, obj1⟩ := x
    rw [he] at h
    cases v with
    | str s =>
      simp only at h
      by_cases hv : s ≠ "" ∧ penv.IsValidBitcoinAddress s = false
      · rw [if_pos hv] at h; simp at h
      · rw [if_neg hv] at h
        simp only [Option.some.injEq] at h
        rw [← h] at hp
        exact mem_of_mem_after_ExtractField obj field _ obj1 he p hp
    | obj o => simp at h
    | array a => simp at h
    | bool b => simp at h
    | int i => simp at h
    | real => simp at h
    | null => simp at h

/-- A pair of another name is still there after `ParseWaypoints`. -/
theorem mem_after_ParseWaypoints (sub : List (String × Value))
    (w : List (String × Value) × List Coord × Bool) (h : ParseWaypoints sub = some w)
    (q : String × Value) (hq : q ∈ sub) (hne : q.1 ≠ "wp") : q ∈ w.1 := by
  unfold ParseWaypoints at h
  cases he : ExtractField sub "wp" with
  | none =>
    rw [he] at h
    simp only [Option.some.injEq] at h
    rw [← h]; exact hq
  | some x =>
    obtain ⟨v, obj1⟩ := x
    rw [he] at h
    have hm := mem_after_ExtractField_ne sub "wp" v obj1 he q hq hne
    cases v with
    | array arr =>
      simp only at h
      by_cases h1 : arr.length % 2 ≠ 0
      · rw [if_pos h1] at h; simp at h
      · rw [if_neg h1] at h
        by_cases h2 : arr.length / 2 > MAX_WAYPOINTS
        · rw [if_pos h2] at h; simp at h
        · rw [if_neg h2] at h
          cases hf : (List.range (arr.length / 2)).foldlM (parseWaypointAt arr (arr.length / 2))
              (List.replicate (arr.length / 2) (⟨0, 0⟩ : Coord)) with
          | none => rw [hf] at h; simp at h
          | some result =>
            rw [hf] at h
            simp only [Option.map_some', Option.some.injEq] at h
            rw [← h]; exact hm
    | obj o => simp at h
    | str s => simp at h
    | bool b => simp at h
    | int i => simp at h
    | real => simp at h
    | null => simp at h

/-- A pair of another name is still there after `ParseDestruct`. -/
theorem mem_after_ParseDestruct (sub : List (String × Value))
    (d : List (String × Value) × Bool) (h : ParseDestruct sub = some d)
    (q : String × Value) (hq : q ∈ sub) (hne : q.1 ≠ "destruct") : q ∈ d.1 := by
  unfold ParseDestruct at h
  cases he : ExtractField sub "destruct" with
  | none =>
    rw [he] at h
    simp only [Option.some.injEq] at h
    rw [← h]; exact hq
  | some x =>
    obtain ⟨v, obj1⟩ := x
    rw [he] at h
    have hm := mem_after_ExtractField_ne sub "destruct" v obj1 he q hq hne
    cases v with
    | bool b =>
      simp only [Option.some.injEq] at h
      rw [← h]; exact hm
    | obj o => simp at h
    | str s => simp at h
    | array a => simp at h
    | int i => simp at h
    | real => simp at h
    | null => simp at h

/-- The loop body of `Move::Parse` fails on a key that is not the rendering
of a non-negative `int`. -/
theorem parseCharacter_not_canonical (acc : ParsedCharacters) (it : String × Value)
    (h : ¬ isCanonicalIndex it.1) : parseCharacter acc it = none := by
  unfold parseCharacter
  simp only
  by_cases h1 : atoi it.1 < 0 ∨ toString (atoi it.1) ≠ it.1
  · rw [if_pos h1]
  · exfalso
    apply h
    have h2 := not_or.mp h1
    exact ⟨atoi it.1, not_lt.mp h2.1, atoi_lt it.1, (not_not.mp h2.2).symm⟩

/-- The loop body of `Move::Parse` fails on a character entry with a key
other than `wp` and `destruct`. -/
theorem parseCharacter_extra_key (acc : ParsedCharacters) (it : String × Value)
    (sub : List (String × Value)) (hsub : it.2 = Value.obj sub) (q : String × Value)
    (hq : q ∈ sub) (hwp : q.1 ≠ "wp") (hd : q.1 ≠ "destruct") :
    parseCharacter acc it = none := by
  unfold parseCharacter
  simp only
  by_cases h1 : atoi it.1 < 0 ∨ toString (atoi it.1) ≠ it.1
  · rw [if_pos h1]
  · rw [if_neg h1]
    by_cases h2 : acc.character_indices.contains (atoi it.1) = true
    · rw [if_pos h2]
    · rw [if_neg h2, hsub]
      simp only
      apply bind_none_of_some
      intro w hw
      apply bind_none_of_some
      intro d hdd
      have hm := mem_after_ParseDestruct w.1 d hdd q
        (mem_after_ParseWaypoints sub w hw q hq hwp) hd
      have he := isEmpty_of_mem d.1 q hm
      by_cases h3 : d.2 = true
      · rw [if_pos h3]
        by_cases h4 : w.2.2 = true
        · rw [if_pos h4]
        · rw [if_neg h4, if_pos he]
      · rw [if_neg h3, if_pos he]

/-- The digits that `Nat.repr` writes are decimal digits. -/
theorem isDigit_digitChar (k : Nat) (h : k < 10) : (Nat.digitChar k).isDigit = true := by
  interval_cases k <;> rfl

theorem isDigit_toDigitsCore (fuel : Nat) : ∀ (n : Nat) (ds : List Char),
    (∀ c ∈ ds, c.isDigit = true) → ∀ c ∈ Nat.toDigitsCore 10 fuel n ds, c.isDigit = true := by
  induction fuel with
  | zero =>
    intro n ds hds c hc
    simp only [Nat.toDigitsCore] at hc
    exact hds c hc
  | succ f ih =>
    intro n ds hds c hc
    simp only [Nat.toDigitsCore] at hc
    have hd : ∀ c ∈ Nat.digitChar (n % 10) :: ds, c.isDigit = true := by
      intro c hc
      rcases List.mem_cons.mp hc with h | h
      · rw [h]; exact isDigit_digitChar _ (Nat.mod_lt _ (by decide))
      · exact hds c h
    by_cases h0 : n / 10 = 0
    · rw [if_pos h0] at hc
      exact hd c hc
    · rw [if_neg h0] at hc
      exact ih _ _ hd c hc

/-- A canonical index consists of decimal digits. -/
theorem isDigit_of_isCanonicalIndex (s : String) (h : isCanonicalIndex s) :
    ∀ c ∈ s.data, c.isDigit = true := by
  obtain ⟨n, hn, _, hs⟩ := h
  obtain ⟨k, hk⟩ := Int.eq_ofNat_of_zero_le hn
  rw [hs, hk]
  intro c hc
  exact isDigit_toDigitsCore _ k [] (by simp) c hc

/-- C22: `Move::Parse` fails whenever an object without a `color` field
still has, after the recognised fields are extracted, a key that is not the
decimal rendering of a non-negative `int`, or an entry whose sub-object has a
key other than `wp` and `destruct`. -/
theorem C22_strict_schema (penv : ParseEnv) (player : PlayerID) (json : String)
    (obj : List (String × Value))
    (hread : penv.read_string json = some (Value.obj obj))
    (hnospawn : ∀ q ∈ obj, q.1 ≠ "color") (it : String × Value)
    (hleft : leftOver textFields it obj)
    (hbad : ¬ isCanonicalIndex it.1
      ∨ ∃ sub q, it.2 = Value.obj sub ∧ q ∈ sub ∧ q.1 ≠ "wp" ∧ q.1 ≠ "destruct") :
    Move.Parse penv player json = none := by
  have hbody : ∀ acc, parseCharacter acc it = none := by
    intro acc
    rcases hbad with h | ⟨sub, q, h1, h2, h3, h4⟩
    · exact parseCharacter_not_canonical acc it h
    · exact parseCharacter_extra_key acc it sub h1 q h2 h3 h4
  have hend : ∀ m o, (∀ q ∈ o, q ∈ obj) → it ∈ o → parseColorOrCharacters m o = none := by
    intro m o hsub hmem
    unfold parseColorOrCharacters
    cases hc : ExtractField o "color" with
    | some x =>
      obtain ⟨v, o1⟩ := x
      obtain ⟨l1, l2, h1, _, _⟩ := ExtractField_split o "color" v o1 hc
      exact absurd rfl (hnospawn ("color", v) (hsub _ (by rw [h1]; simp)))
    | none =>
      simp only
      rw [foldlM_none_of_mem parseCharacter o it hmem hbody]
      rfl
  have hobj : parseObject penv player obj = none := by
    unfold parseObject
    unfold textFields at hleft
    apply bind_none_of_some
    intro r1 h1
    have l1 := leftOver_after_parseTextField _ _ (by decide) it obj r1 hleft h1
    have s1 := mem_of_mem_after_parseTextField obj _ r1 h1
    apply bind_none_of_some
    intro r2 h2
    have l2 := leftOver_after_parseAddressField penv _ _ (by decide) it r1.2 r2 l1 h2
    have s2 := mem_of_mem_after_parseAddressField penv r1.2 _ r2 h2
    apply bind_none_of_some
    intro r3 h3
    have l3 := leftOver_after_parseAddressField penv _ _ (by decide) it r2.2 r3 l2 h3
    have s3 := mem_of_mem_after_parseAddressField penv r2.2 _ r3 h3
    apply bind_none_of_some
    intro r4 h4
    have l4 := leftOver_after_parseTextField _ _ (by decide) it r3.2 r4 l3 h4
    have s4 := mem_of_mem_after_parseTextField r3.2 _ r4 h4
    apply bind_none_of_some
    intro r5 h5
    have l5 := leftOver_after_parseTextField _ _ (by decide) it r4.2 r5 l4 h5
    have s5 := mem_of_mem_after_parseTextField r4.2 _ r5 h5
    apply bind_none_of_some
    intro r6 h6
    have l6 := leftOver_after_parseTextField _ _ (by decide) it r5.2 r6 l5 h6
    have s6 := mem_of_mem_after_parseTextField r5.2 _ r6 h6
    apply bind_none_of_some
    intro r7 h7
    have l7 := leftOver_after_parseTextField _ _ (by decide) it r6.2 r7 l6 h7
    have s7 := mem_of_mem_after_parseTextField r6.2 _ r7 h7
    apply bind_none_of_some
    intro r8 h8
    have l8 := leftOver_after_parseTextField _ _ (by decide) it r7.2 r8 l7 h8
    have s8 := mem_of_mem_after_parseTextField r7.2 _ r8 h8
    apply hend _ r8.2
    · intro q hq
      exact s1 q (s2 q (s3 q (s4 q (s5 q (s6 q (s7 q (s8 q hq)))))))
    · exact leftOver_mem [] it r8.2 l8
  unfold Move.Parse
  by_cases hname : penv.IsValidPlayerName player = false
  · rw [if_pos hname]
  · rw [if_neg hname, hread]
    exact hobj

/-- Witness for C22: a key with a sign, a key with a letter after the
digits, and a character entry with a key `speed`. -/
theorem C22_strict_schema_witness :
    Move.Parse (readAs (Value.obj [("+1", Value.obj [])])) ⟨"alice"⟩ "" = none
      ∧ Move.Parse (readAs (Value.obj [("msg", Value.str "hi"), ("1a", Value.obj [])]))
          ⟨"alice"⟩ "" = none
      ∧ Move.Parse (readAs (Value.obj
          [("0", Value.obj [("wp", Value.array []), ("speed", Value.int 2)])]))
          ⟨"alice"⟩ "" = none := by
  refine ⟨?_, ?_, ?_⟩
  · refine C22_strict_schema _ ⟨"alice"⟩ "" _ rfl (by decide) ("+1", Value.obj [])
      ⟨[], [], rfl, fun h => absurd h (by decide)⟩ (Or.inl ?_)
    intro h
    exact absurd (isDigit_of_isCanonicalIndex _ h '+' (by decide)) (by decide)
  · refine C22_strict_schema _ ⟨"alice"⟩ "" _ rfl (by decide) ("1a", Value.obj [])
      ⟨[("msg", Value.str "hi")], [], rfl, fun h => absurd h (by decide)⟩ (Or.inl ?_)
    intro h
    exact absurd (isDigit_of_isCanonicalIndex _ h 'a' (by decide)) (by decide)
  · exact C22_strict_schema _ ⟨"alice"⟩ "" _ rfl (by decide)
      ("0", Value.obj [("wp", Value.array []), ("speed", Value.int 2)])
      ⟨[], [], rfl, fun h => absurd h (by decide)⟩
      (Or.inr ⟨_, ("speed", Value.int 2), rfl, by simp, by decide, by decide⟩)

/-- The keys `01`, ` 1`, `-0` and the empty key are rejected, and the key `1`
is accepted. -/
theorem Parse_index_examples :
    Move.Parse (readAs (Value.obj [("01", Value.obj [])])) ⟨"alice"⟩ "" = none
      ∧ Move.Parse (readAs (Value.obj [(" 1", Value.obj [])])) ⟨"alice"⟩ "" = none
      ∧ Move.Parse (readAs (Value.obj [("-0", Value.obj [])])) ⟨"alice"⟩ "" = none
      ∧ Move.Parse (readAs (Value.obj [("", Value.obj [])])) ⟨"alice"⟩ "" = none
      ∧ (Move.Parse (readAs (Value.obj [("1", Value.obj [])])) ⟨"alice"⟩ "").isSome = true := by
  refine ⟨?_, ?_, ?_, ?_, ?_⟩ <;> rfl

/-! ## Crown state and loot map -/

/-- C26: after `UpdateCrownState` either there is no crown holder, or the
holder's player and character exist, the character is outside the spawn area
and `crownPos` is its coordinate; `respawn_crown` is true exactly when there
was a holder whose character existed and stood in the spawn area; and
`crownPos` is unchanged when there is no holder afterwards. -/
theorem C26_UpdateCrownState (gs : GameState) :
    (gs.UpdateCrownState.1.crownHolder.player.name = ""
      ∨ ∃ pl ch, gs.UpdateCrownState.1.players.find gs.UpdateCrownState.1.crownHolder.player
            = some pl
          ∧ pl.characters.find gs.UpdateCrownState.1.crownHolder.index = some ch
          ∧ IsInSpawnArea ch.coord.x ch.coord.y = false
          ∧ gs.UpdateCrownState.1.crownPos = ch.coord)
    ∧ (gs.UpdateCrownState.2 = true
        ↔ gs.crownHolder.player.name ≠ ""
          ∧ ∃ ch, gs.findCharacter gs.crownHolder.player gs.crownHolder.index = some ch
            ∧ IsInSpawnArea ch.coord.x ch.coord.y = true)
    ∧ (gs.UpdateCrownState.1.crownHolder.player.name = ""
        → gs.UpdateCrownState.1.crownPos = gs.crownPos)
    ∧ (gs.UpdateCrownState.1.crownHolder = gs.crownHolder
        ∨ gs.UpdateCrownState.1.crownHolder = {})
    ∧ gs.UpdateCrownState.1.players = gs.players := by
  unfold GameState.UpdateCrownState GameState.findCharacter
  by_cases h0 : gs.crownHolder.player.name = ""
  · rw [if_pos h0]
    refine ⟨Or.inl h0, ?_, fun _ => rfl, Or.inl rfl, rfl⟩
    simp [h0]
  · rw [if_neg h0]
    cases hp : gs.players.find gs.crownHolder.player with
    | none =>
      refine ⟨Or.inl rfl, ?_, fun _ => rfl, Or.inr rfl, rfl⟩
      simp
    | some pl =>
      simp only [Option.some_bind]
      cases hc : pl.characters.find gs.crownHolder.index with
      | none =>
        refine ⟨Or.inl rfl, ?_, fun _ => rfl, Or.inr rfl, rfl⟩
        simp
      | some ch =>
        simp only
        by_cases hs : IsInSpawnArea ch.coord.x ch.coord.y = true
        · rw [if_pos hs]
          refine ⟨Or.inl rfl, ?_, fun _ => rfl, Or.inr rfl, rfl⟩
          simp [h0, hs]
        · rw [if_neg hs]
          refine ⟨Or.inr ⟨pl, ch, hp, hc, by simpa using hs, rfl⟩, ?_,
            fun h => absurd h h0, Or.inl rfl, rfl⟩
          simp [hs]

theorem lootState_no_zero :
    ∀ d li, lootState.loot.find d = some li → li.nAmount ≠ 0 := by
  intro d li h
  unfold lootState at h
  rw [StdMap.find_set] at h
  by_cases hd : d = ⟨3, 4⟩
  · rw [if_pos hd] at h
    simp only [Option.some.injEq] at h
    rw [← h]
    decide
  · rw [if_neg hd] at h
    exact absurd h (by simp [StdMap.find, StdMap.empty, rawFind])

/-- C27, as stated, fails: for an amount of 0 `AddLoot` returns at once, and
the entry of the tile keeps its `lastBlock` (5 here, at height 10). -/
theorem C27_counterexample :
    (∀ d li, lootState.loot.find d = some li → li.nAmount ≠ 0)
      ∧ lootState.nHeight = 10
      ∧ lootState.loot.find ⟨3, 4⟩ = some { nAmount := 7, firstBlock := 2, lastBlock := 5 }
      ∧ (lootState.AddLoot ⟨3, 4⟩ 0).loot.find ⟨3, 4⟩
          = some { nAmount := 7, firstBlock := 2, lastBlock := 5 } :=
  ⟨lootState_no_zero, rfl, by decide, by decide⟩

/-- C27 (amended): for `AddLoot(c, n)` on a loot map without an entry of
amount 0, the amount on `c` (0 when absent) becomes old + n, an entry exists
on `c` exactly when old + n is not 0, no entry has the amount 0, every other
tile is unchanged, an entry that was there and still is keeps its `firstBlock`
and, when n is not 0, gets `lastBlock = nHeight` (for n = 0 it is unchanged),
and a new entry gets `firstBlock = lastBlock = nHeight`. -/
theorem C27_AddLoot (gs : GameState) (c : Coord) (n : Int)
    (hz : ∀ d li, gs.loot.find d = some li → li.nAmount ≠ 0) :
    (gs.AddLoot c n).lootAmount c = gs.lootAmount c + n
    ∧ (((gs.AddLoot c n).loot.find c).isSome = true ↔ gs.lootAmount c + n ≠ 0)
    ∧ (∀ d li, (gs.AddLoot c n).loot.find d = some li → li.nAmount ≠ 0)
    ∧ (∀ d, d ≠ c → (gs.AddLoot c n).loot.find d = gs.loot.find d)
    ∧ (∀ li li1, gs.loot.find c = some li → (gs.AddLoot c n).loot.find c = some li1 →
        li1.firstBlock = li.firstBlock
          ∧ (n ≠ 0 → li1.lastBlock = gs.nHeight) ∧ (n = 0 → li1 = li))
    ∧ (∀ li1, gs.loot.find c = none → (gs.AddLoot c n).loot.find c = some li1 →
        li1.firstBlock = gs.nHeight ∧ li1.lastBlock = gs.nHeight) := by
  have hother : ∀ d, d ≠ c → (gs.AddLoot c n).loot.find d = gs.loot.find d :=
    fun d hd => loot_find_AddLoot_ne gs c d n hd
  have hsame : (gs.AddLoot c n).loot.find c
      = if n = 0 then gs.loot.find c
        else match gs.loot.find c with
          | some li =>
            if li.nAmount + n = 0 then none
            else some { li with nAmount := li.nAmount + n, lastBlock := gs.nHeight }
          | none => some (LootInfo.ofAmount n gs.nHeight) := by
    unfold GameState.AddLoot
    by_cases hn : n = 0
    · rw [if_pos hn, if_pos hn]
    · rw [if_neg hn, if_neg hn]
      cases hf : gs.loot.find c with
      | none => simp only [StdMap.find_insert, if_pos, hf]
      | some li =>
        simp only
        by_cases hs : li.nAmount + n = 0
        · rw [if_pos hs, if_pos hs]
          simp only [StdMap.find_erase, if_pos]
        · rw [if_neg hs, if_neg hs]
          simp only [StdMap.find_modify, if_pos, hf, Option.map_some']
  have hzero : ∀ li1, (gs.AddLoot c n).loot.find c = some li1 → li1.nAmount ≠ 0 := by
    intro li1 h1
    rw [hsame] at h1
    by_cases hn : n = 0
    · rw [if_pos hn] at h1
      exact hz c li1 h1
    · rw [if_neg hn] at h1
      cases hf : gs.loot.find c with
      | none =>
        rw [hf] at h1
        simp only [Option.some.injEq] at h1
        rw [← h1]
        exact hn
      | some li =>
        rw [hf] at h1
        simp only at h1
        by_cases hs : li.nAmount + n = 0
        · rw [if_pos hs] at h1; simp at h1
        · rw [if_neg hs] at h1
          simp only [Option.some.injEq] at h1
          rw [← h1]
          exact hs
  refine ⟨?_, ?_, ?_, hother, ?_, ?_⟩
  · unfold GameState.lootAmount
    rw [hsame]
    by_cases hn : n = 0
    · rw [if_pos hn, hn, add_zero]
    · rw [if_neg hn]
      cases hf : gs.loot.find c with
      | none => simp [LootInfo.ofAmount]
      | some li =>
        simp only
        by_cases hs : li.nAmount + n = 0
        · rw [if_pos hs, hs]
        · rw [if_neg hs]
  · unfold GameState.lootAmount
    rw [hsame]
    by_cases hn : n = 0
    · rw [if_pos hn, hn, add_zero]
      cases hf : gs.loot.find c with
      | none => simp
      | some li => simpa using hz c li hf
    · rw [if_neg hn]
      cases hf : gs.loot.find c with
      | none => simpa using hn
      | some li =>
        simp only
        by_cases hs : li.nAmount + n = 0
        · rw [if_pos hs]; simp [hs]
        · rw [if_neg hs]; simpa using hs
  · intro d li h
    by_cases hd : d = c
    · rw [hd] at h
      exact hzero li h
    · rw [hother d hd] at h
      exact hz d li h
  · intro li li1 hf h1
    rw [hsame, hf] at h1
    by_cases hn : n = 0
    · rw [if_pos hn] at h1
      simp only [Option.some.injEq] at h1
      rw [← h1]
      exact ⟨rfl, fun h => absurd hn h, fun _ => rfl⟩
    · rw [if_neg hn] at h1
      simp only at h1
      by_cases hs : li.nAmount + n = 0
      · rw [if_pos hs] at h1; simp at h1
      · rw [if_neg hs] at h1
        simp only [Option.some.injEq] at h1
        rw [← h1]
        exact ⟨rfl, fun _ => rfl, fun h => absurd h hn⟩
  · intro li1 hf h1
    rw [hsame, hf] at h1
    by_cases hn : n = 0
    · rw [if_pos hn] at h1; simp at h1
    · rw [if_neg hn] at h1
      simp only [Option.some.injEq] at h1
      rw [← h1]
      exact ⟨rfl, rfl⟩

/-- Witness for C27: two more coins on the tile of `lootState`. -/
theorem C27_AddLoot_witness :
    (lootState.AddLoot ⟨3, 4⟩ 2).lootAmount ⟨3, 4⟩ = lootState.lootAmount ⟨3, 4⟩ + 2
      ∧ (lootState.AddLoot ⟨3, 4⟩ 2).loot.find ⟨3, 4⟩
          = some { nAmount := 9, firstBlock := 2, lastBlock := 10 } :=
  ⟨(C27_AddLoot lootState ⟨3, 4⟩ 2 lootState_no_zero).1, by decide⟩

/-! ## Spawn -/

/-- The direction that `Spawn` sets is the one of the edge. -/
theorem facesFromEdge_Spawn (ch : CharacterState) (coord : Coord) :
    facesFromEdge
      ({ ch with
          coord := coord,
          dir :=
            if coord.x = 0 then
              if coord.y = 0 then 3 else if coord.y = MAP_HEIGHT - 1 then 9 else 6
            else if coord.x = MAP_WIDTH - 1 then
              if coord.y = 0 then 1 else if coord.y = MAP_HEIGHT - 1 then 7 else 4
            else if coord.y = 0 then 2
            else if coord.y = MAP_HEIGHT - 1 then 8
            else ch.dir } : CharacterState).StopMoving := by
  unfold facesFromEdge CharacterState.StopMoving
  simp only [MAP_WIDTH, MAP_HEIGHT, show (502 : Int) - 1 = 501 by norm_num]
  refine ⟨?_, ?_, ?_, ?_, ?_, ?_, ?_, ?_⟩
  · rintro ⟨h1, h2⟩; simp [h1, h2]
  · rintro ⟨h1, h2⟩; simp [h1, h2]
  · rintro ⟨h1, h2⟩; simp [h1, h2]
  · rintro ⟨h1, h2⟩; simp [h1, h2]
  · rintro ⟨h1, h2, h3⟩; simp [h1, h2, h3]
  · rintro ⟨h1, h2, h3⟩; simp [h1, h2, h3]
  · rintro ⟨h1, h2, h3⟩; simp [h1, h2, h3]
  · rintro ⟨h1, h2, h3⟩; simp [h1, h2, h3]

/-- The tile that `Spawn` picks for the draw `pos` lies in the spawn area
and in the corner strip of the team. -/
theorem spawn_tile (c : Nat) (hc : c < 4) (pos : Int) (h0 : 0 ≤ pos)
    (h1 : pos < 2 * SPAWN_AREA_LENGTH - 1) :
    ∃ coord : Coord,
      (if (c : Int) = 0 then
          some (⟨if pos < SPAWN_AREA_LENGTH then pos else 0,
                 if pos < SPAWN_AREA_LENGTH then 0 else pos - SPAWN_AREA_LENGTH⟩ : Coord)
        else if (c : Int) = 1 then
          some ⟨MAP_WIDTH - 1 - (if pos < SPAWN_AREA_LENGTH then pos else 0),
                if pos < SPAWN_AREA_LENGTH then 0 else pos - SPAWN_AREA_LENGTH⟩
        else if (c : Int) = 2 then
          some ⟨MAP_WIDTH - 1 - (if pos < SPAWN_AREA_LENGTH then pos else 0),
                MAP_HEIGHT - 1 - (if pos < SPAWN_AREA_LENGTH then 0 else pos - SPAWN_AREA_LENGTH)⟩
        else if (c : Int) = 3 then
          some ⟨if pos < SPAWN_AREA_LENGTH then pos else 0,
                MAP_HEIGHT - 1 - (if pos < SPAWN_AREA_LENGTH then 0 else pos - SPAWN_AREA_LENGTH)⟩
        else none) = some coord
      ∧ IsInSpawnArea coord.x coord.y = true ∧ inCornerStrip c coord := by
  unfold inCornerStrip IsInSpawnArea
  simp only [SPAWN_AREA_LENGTH, MAP_WIDTH, MAP_HEIGHT] at h1 ⊢
  by_cases hp : pos < 15
  · interval_cases c
    · refine ⟨_, rfl, ?_, ?_⟩
      · simp [hp]
      · simp [hp, h0]
    · refine ⟨_, rfl, ?_, ?_⟩
      · simp [hp]; omega
      · simp [hp]; omega
    · refine ⟨_, rfl, ?_, ?_⟩
      · simp [hp]; omega
      · simp [hp]; omega
    · refine ⟨_, rfl, ?_, ?_⟩
      · simp [hp]
      · simp [hp, h0]
  · interval_cases c
    · refine ⟨_, rfl, ?_, ?_⟩
      · simp [hp]; omega
      · simp [hp]; omega
    · refine ⟨_, rfl, ?_, ?_⟩
      · simp [hp]; omega
      · simp [hp]; omega
    · refine ⟨_, rfl, ?_, ?_⟩
      · simp [hp]; omega
      · simp [hp]; omega
    · refine ⟨_, rfl, ?_, ?_⟩
      · simp [hp]; omega
      · simp [hp]; omega

/-- For every generator, `Spawn` with a colour below 4 returns, and the
character is as `spawnedFor` says. -/
theorem Spawn_spawnedFor (env : Env) (ch : CharacterState) (c : Nat) (hc : c < 4)
    (rnd : RandomGenerator) :
    ∃ r, ch.Spawn env (c : Int) rnd = some r ∧ spawnedFor c r.1 := by
  have hr := GetIntRnd_range env rnd (2 * SPAWN_AREA_LENGTH - 1) (by decide)
  obtain ⟨coord, hplace, hin, hstrip⟩ :=
    spawn_tile c hc (rnd.GetIntRnd env (2 * SPAWN_AREA_LENGTH - 1)).1 hr.1 hr.2
  unfold CharacterState.Spawn
  simp only
  rw [hplace]
  refine ⟨_, rfl, ?_⟩
  exact ⟨hin, hstrip, rfl, rfl, facesFromEdge_Spawn ch coord⟩

/-- The state of the loop of `ApplySpawn` after `k` calls of
`SpawnCharacter` on a player without characters. -/
theorem SpawnCharacter_loop (env : Env) (c : Nat) (hc : c < 4) (pl0 : PlayerState)
    (hcol : pl0.color = c) (hidx : pl0.next_character_index = 0)
    (hchars : ∀ i, pl0.characters.find i = none) (k : Nat) :
    ∀ rnd, ∃ r,
      (List.range k).foldlM
          (fun (acc : PlayerState × RandomGenerator) _ => acc.1.SpawnCharacter env acc.2)
          (pl0, rnd) = some r
        ∧ r.1.color = c ∧ r.1.coinAmount = pl0.coinAmount
        ∧ r.1.next_character_index = k
        ∧ (∀ i : Int, (r.1.characters.find i).isSome = true ↔ 0 ≤ i ∧ i < k)
        ∧ ∀ i ch, r.1.characters.find i = some ch → spawnedFor c ch := by
  induction k with
  | zero =>
    intro rnd
    refine ⟨(pl0, rnd), rfl, hcol, rfl, by simpa using hidx, ?_, ?_⟩
    · intro i
      rw [hchars i]
      simp only [Option.isSome_none, Bool.false_eq_true, false_iff, not_and, not_lt]
      intro h
      exact_mod_cast h
    · intro i ch h
      rw [hchars i] at h
      exact absurd h (by simp)
  | succ k ih =>
    intro rnd
    obtain ⟨r, hr, h1, h2, h3, h4, h5⟩ := ih rnd
    rw [foldlM_range_succ, hr]
    simp only [Option.some_bind]
    obtain ⟨s, hs, hsp⟩ :=
      Spawn_spawnedFor env ((r.1.characters.find r.1.next_character_index).getD {}) c hc r.2
    unfold PlayerState.SpawnCharacter
    rw [h1, hs]
    refine ⟨_, rfl, rfl, h2, ?_, ?_, ?_⟩
    · simp only [h3]
      push_cast
      rfl
    · intro i
      simp only [StdMap.find_set, h3]
      by_cases hi : i = (k : Int)
      · rw [if_pos hi]
        simp only [Option.isSome_some, true_iff]
        push_cast
        omega
      · rw [if_neg hi, h4 i]
        push_cast
        omega
    · intro i ch hf
      simp only [StdMap.find_set, h3] at hf
      by_cases hi : i = (k : Int)
      · rw [if_pos hi] at hf
        simp only [Option.some.injEq] at hf
        rw [← hf]
        exact hsp
      · rw [if_neg hi] at hf
        exact h5 i ch hf

/-- C23: for a spawn move with colour `c` below 4 and `coinAmount = a >= 0`,
`ApplySpawn` on a state without the player returns for every generator, and
the player then has colour `c`, `coinAmount = a` and characters exactly at the
indices `0 .. GetNumInitialCharacters() - 1`; each of them stands in the
spawn area on the corner strip of its team, has no waypoints and
`from = coord`, and faces as its edge prescribes. -/
theorem C23_ApplySpawn (env : Env) (m : Move) (state : GameState) (rnd : RandomGenerator)
    (hc : m.color < 4) (ha : m.coinAmount ≥ 0)
    (habs : state.players.find m.player = none) :
    ∃ r pl, m.ApplySpawn env state rnd = some r
      ∧ r.1.players.find m.player = some pl
      ∧ pl.color = m.color ∧ pl.coinAmount = m.coinAmount
      ∧ (∀ i : Int, (pl.characters.find i).isSome = true
          ↔ 0 ≤ i ∧ i < (state.GetNumInitialCharacters env : Int))
      ∧ (∀ i ch, pl.characters.find i = some ch →
          IsInSpawnArea ch.coord.x ch.coord.y = true ∧ inCornerStrip m.color ch.coord
            ∧ ch.waypoints = [] ∧ ch.from_ = ch.coord ∧ facesFromEdge ch)
      ∧ ∀ q, q ≠ m.player → r.1.players.find q = state.players.find q := by
  obtain ⟨r, hr, h1, h2, _, h4, h5⟩ :=
    SpawnCharacter_loop env m.color hc
      { color := m.color, coinAmount := m.coinAmount } rfl rfl
      (fun i => rfl) (state.GetNumInitialCharacters env) rnd
  unfold Move.ApplySpawn
  simp only [habs, Option.getD_none]
  rw [if_pos trivial, if_neg (by simp [ha]), hr]
  refine ⟨_, r.1, rfl, ?_, h1, h2, h4, h5, ?_⟩
  · simp only [StdMap.find_set, if_pos]
  · intro q hq
    simp only [StdMap.find_set, if_neg hq]

/-- Witness for C23: `bob` spawns for the red team in a state where only
`alice` plays. -/
theorem C23_ApplySpawn_witness :
    ∃ r pl, spawnBob.ApplySpawn sampleEnv sampleState freshGenerator = some r
      ∧ r.1.players.find spawnBob.player = some pl
      ∧ pl.color = 1 ∧ pl.coinAmount = 100
      ∧ (∀ i : Int, (pl.characters.find i).isSome = true ↔ 0 ≤ i ∧ i < 3) := by
  obtain ⟨r, pl, h1, h2, h3, h4, h5, _⟩ :=
    C23_ApplySpawn sampleEnv spawnBob sampleState freshGenerator (by decide) (by decide)
      (by decide)
  exact ⟨r, pl, h1, h2, h3, h4, h5⟩

/-! ## Vote count and bounty tally of `Pass1_DAO` -/

theorem StdMap.find_of_mem_entries {K V : Type} [LinearOrder K] (m : StdMap K V)
    (e : K × V) (he : e ∈ m.entries) : m.find e.1 = some e.2 :=
  rawFind_of_mem m.entries m.sorted e he

/-- The accumulator after a loop over the entries of a map is the fold of the
body over the entry list. -/
theorem StdMap.foldEntries_snd {K V A : Type} [LinearOrder K] (m : StdMap K V)
    (f : A → K → V → V × A) (a : A) :
    (m.foldEntries f a).2 = m.entries.foldl (fun a e => (f a e.1 e.2).2) a := by
  unfold StdMap.foldEntries StdMap.keys
  have key : ∀ (es : List (K × V)), es.Pairwise (fun a b => a.1 < b.1) →
      ∀ (m1 : StdMap K V) (a1 : A), (∀ e ∈ es, m1.find e.1 = some e.2) →
      ((es.map Prod.fst).foldl
        (fun (acc : StdMap K V × A) k =>
          match acc.1.find k with
          | none => acc
          | some v => (acc.1.set k (f acc.2 k v).1, (f acc.2 k v).2))
        (m1, a1)).2 = es.foldl (fun a e => (f a e.1 e.2).2) a1 := by
    intro es
    induction es with
    | nil => intro _ m1 a1 _; rfl
    | cons e t ih =>
      intro hs m1 a1 hfind
      have hat := List.pairwise_cons.mp hs
      simp only [List.map_cons, List.foldl_cons]
      rw [hfind e (List.mem_cons_self _ _)]
      simp only
      apply ih hat.2
      intro e1 he1
      rw [StdMap.find_set, if_neg (ne_of_gt (hat.1 e1 he1))]
      exact hfind e1 (List.mem_cons_of_mem _ he1)
  exact key m.entries m.sorted m a (fun e he => m.find_of_mem_entries e he)

/-- The weight and the merchant flag after the loop over the characters of a
voter. -/
theorem daoVoteCharacter_fold (bountycycle_block : Int) (es : List (Int × CharacterState))
    (a : Int × Bool) :
    es.foldl (fun a e => (daoVoteCharacter bountycycle_block a e.1 e.2).2) a
      = (a.1 + (es.map (fun e => e.2.loot.nAmount)).sum,
          a.2 || es.any (fun e => NPCROLE_IS_MERCHANT e.2.ai_npc_role)) := by
  induction es generalizing a with
  | nil => simp
  | cons e t ih =>
    simp only [List.foldl_cons, List.map_cons, List.sum_cons, List.any_cons]
    rw [ih]
    unfold daoVoteCharacter
    by_cases hm : NPCROLE_IS_MERCHANT e.2.ai_npc_role = true
    · rw [if_pos hm, hm]
      simp only [Bool.true_or, Bool.or_true, Prod.mk.injEq, and_true]
      ring
    · rw [if_neg hm]
      have hm1 : NPCROLE_IS_MERCHANT e.2.ai_npc_role = false := by simpa using hm
      rw [hm1]
      by_cases hb : bountycycle_block = 0
      · rw [if_pos hb]
        by_cases hi : e.1 = 0
        · rw [if_pos hi]
          simp only [Bool.false_or, Prod.mk.injEq, and_true]
          ring
        · rw [if_neg hi]
          simp only [Bool.false_or, Prod.mk.injEq, and_true]
          ring
      · rw [if_neg hb]
        simp only [Bool.false_or, Prod.mk.injEq, and_true]
        ring

/-- The weight that the count takes for a voter is `daoWeight`. -/
theorem daoWeight_eq (bountycycle_block : Int) (pl : PlayerState) :
    (if (pl.characters.foldEntries (daoVoteCharacter bountycycle_block) (0, false)).2.2 = true
      then 0
      else (pl.characters.foldEntries (daoVoteCharacter bountycycle_block) (0, false)).2.1)
      = daoWeight pl := by
  rw [StdMap.foldEntries_snd, daoVoteCharacter_fold]
  unfold daoWeight
  simp only [Bool.false_or, zero_add]

/-- The cache after the body of the count for one player. -/
theorem daoVotePlayer_snd (COIN bountycycle_block bountycycle_start request : Int)
    (c : DaoCache) (pid : PlayerID) (pl : PlayerState) :
    (daoVotePlayer COIN bountycycle_block bountycycle_start request c pid pl).2
      = if pl.msg_vote_block > bountycycle_start then
          if daoVote request pl = 0 then
            { c with
              Cache_voteweight_total := c.Cache_voteweight_total + daoWeight pl
              Cache_voteweight_zero := c.Cache_voteweight_zero + daoWeight pl }
          else if daoVote request pl = request then
            { c with
              Cache_voteweight_total := c.Cache_voteweight_total + daoWeight pl
              Cache_voteweight_full := c.Cache_voteweight_full + daoWeight pl }
          else
            { c with
              Cache_voteweight_total := c.Cache_voteweight_total + daoWeight pl
              Cache_voteweight_part := c.Cache_voteweight_part + daoWeight pl
              Cache_vote_part := c.Cache_vote_part
                + Int.tdiv (daoVote request pl) COIN * Int.tdiv (daoWeight pl) COIN }
        else c := by
  unfold daoVotePlayer
  by_cases hv : pl.msg_vote_block > bountycycle_start
  · rw [if_pos hv, if_pos hv]
    simp only
    rw [daoWeight_eq]
    have hvote : (if (if pl.coins_vote > request then request else pl.coins_vote) < 0 then 0
        else if pl.coins_vote > request then request else pl.coins_vote)
        = daoVote request pl := rfl
    rw [hvote]
  · rw [if_neg hv, if_neg hv]

theorem daoDeclining_cons (request : Int) (pl : PlayerState) (t : List PlayerState) :
    daoDeclining request (pl :: t)
      = if daoVote request pl = 0 then pl :: daoDeclining request t
        else daoDeclining request t := by
  unfold daoDeclining
  rw [List.filter_cons]
  simp only [decide_eq_true_eq]

theorem daoAccepting_cons (request : Int) (pl : PlayerState) (t : List PlayerState) :
    daoAccepting request (pl :: t)
      = if daoVote request pl ≠ 0 ∧ daoVote request pl = request then
          pl :: daoAccepting request t
        else daoAccepting request t := by
  unfold daoAccepting
  rw [List.filter_cons]
  simp only [decide_eq_true_eq]

theorem daoPartial_cons (request : Int) (pl : PlayerState) (t : List PlayerState) :
    daoPartial request (pl :: t)
      = if daoVote request pl ≠ 0 ∧ daoVote request pl ≠ request then
          pl :: daoPartial request t
        else daoPartial request t := by
  unfold daoPartial
  rw [List.filter_cons]
  simp only [decide_eq_true_eq]

theorem daoWeightOf_cons (pl : PlayerState) (t : List PlayerState) :
    daoWeightOf (pl :: t) = daoWeight pl + daoWeightOf t := by
  simp [daoWeightOf]

theorem daoVoteSum_cons (COIN request : Int) (pl : PlayerState) (t : List PlayerState) :
    daoVoteSum COIN request (pl :: t)
      = Int.tdiv (daoVote request pl) COIN * Int.tdiv (daoWeight pl) COIN
        + daoVoteSum COIN request t := by
  simp [daoVoteSum]

/-- The cache after the count over a list of players. -/
theorem daoCount_fold (COIN bountycycle_block bountycycle_start request : Int)
    (es : List (PlayerID × PlayerState)) (c : DaoCache) :
    es.foldl
        (fun a e =>
          (daoVotePlayer COIN bountycycle_block bountycycle_start request a e.1 e.2).2) c
      = { Cache_voteweight_total := c.Cache_voteweight_total
            + daoWeightOf ((es.map Prod.snd).filter
                (fun pl => decide (pl.msg_vote_block > bountycycle_start)))
          Cache_voteweight_zero := c.Cache_voteweight_zero
            + daoWeightOf (daoDeclining request ((es.map Prod.snd).filter
                (fun pl => decide (pl.msg_vote_block > bountycycle_start))))
          Cache_voteweight_full := c.Cache_voteweight_full
            + daoWeightOf (daoAccepting request ((es.map Prod.snd).filter
                (fun pl => decide (pl.msg_vote_block > bountycycle_start))))
          Cache_voteweight_part := c.Cache_voteweight_part
            + daoWeightOf (daoPartial request ((es.map Prod.snd).filter
                (fun pl => decide (pl.msg_vote_block > bountycycle_start))))
          Cache_vote_part := c.Cache_vote_part
            + daoVoteSum COIN request (daoPartial request ((es.map Prod.snd).filter
                (fun pl => decide (pl.msg_vote_block > bountycycle_start))))
          Cache_actual_bounty := c.Cache_actual_bounty } := by
  induction es generalizing c with
  | nil =>
    simp [daoWeightOf, daoDeclining, daoAccepting, daoPartial, daoVoteSum]
  | cons e t ih =>
    simp only [List.foldl_cons, List.map_cons]
    rw [ih, daoVotePlayer_snd]
    by_cases hv : e.2.msg_vote_block > bountycycle_start
    · rw [if_pos hv, List.filter_cons_of_pos (by simpa using hv)]
      simp only [daoDeclining_cons, daoAccepting_cons, daoPartial_cons]
      by_cases h0 : daoVote request e.2 = 0
      · rw [if_pos h0, if_pos h0, if_neg (fun h => h.1 h0), if_neg (fun h => h.1 h0)]
        simp only [daoWeightOf_cons]
        congr 1 <;> ring
      · rw [if_neg h0, if_neg h0]
        by_cases h1 : daoVote request e.2 = request
        · rw [if_pos h1, if_pos ⟨h0, h1⟩, if_neg (fun h => h.2 h1)]
          simp only [daoWeightOf_cons]
          congr 1 <;> ring
        · rw [if_neg h1, if_neg (fun h => h1 h.2), if_pos ⟨h0, h1⟩]
          simp only [daoWeightOf_cons, daoVoteSum_cons]
          congr 1 <;> ring
    · rw [if_neg hv, List.filter_cons_of_neg (by simpa using hv)]

/-- The three buckets cover the voters: the total weight is the sum of the
weights of the buckets. -/
theorem daoWeightOf_split (request : Int) (voters : List PlayerState) :
    daoWeightOf voters
      = daoWeightOf (daoDeclining request voters) + daoWeightOf (daoAccepting request voters)
        + daoWeightOf (daoPartial request voters) := by
  induction voters with
  | nil => rfl
  | cons pl t ih =>
    simp only [daoDeclining_cons, daoAccepting_cons, daoPartial_cons]
    by_cases h0 : daoVote request pl = 0
    · rw [if_pos h0, if_neg (fun h => h.1 h0), if_neg (fun h => h.1 h0)]
      simp only [daoWeightOf_cons]
      rw [ih]; ring
    · rw [if_neg h0]
      by_cases h1 : daoVote request pl = request
      · rw [if_pos ⟨h0, h1⟩, if_neg (fun h => h.2 h1)]
        simp only [daoWeightOf_cons]
        rw [ih]; ring
      · rw [if_neg (fun h => h1 h.2), if_pos ⟨h0, h1⟩]
        simp only [daoWeightOf_cons]
        rw [ih]; ring

/-- The cache after the count of the votes, in terms of the voters. -/
theorem daoCountVotes_cache (COIN : Int) (gs : GameState)
    (bountycycle_block bountycycle_start : Int) :
    (gs.daoCountVotes COIN bountycycle_block bountycycle_start {}).2
      = { Cache_voteweight_total := daoWeightOf (gs.daoVoters bountycycle_start)
          Cache_voteweight_zero :=
            daoWeightOf (daoDeclining gs.dao_BestRequestFinal (gs.daoVoters bountycycle_start))
          Cache_voteweight_full :=
            daoWeightOf (daoAccepting gs.dao_BestRequestFinal (gs.daoVoters bountycycle_start))
          Cache_voteweight_part :=
            daoWeightOf (daoPartial gs.dao_BestRequestFinal (gs.daoVoters bountycycle_start))
          Cache_vote_part :=
            daoVoteSum COIN gs.dao_BestRequestFinal
              (daoPartial gs.dao_BestRequestFinal (gs.daoVoters bountycycle_start))
          Cache_actual_bounty := 0 } := by
  unfold GameState.daoCountVotes GameState.daoVoters
  simp only
  rw [StdMap.foldEntries_snd, daoCount_fold]
  simp

/-- C30: after the vote count of `Pass1_DAO`, the caches hold the weights
`Z`, `F`, `P` of the declining, the accepting and the partial voters, their
sum `T` and the sum `S` over the partial voters of
`(vote / COIN) * (weight / COIN)`; the bounty is then 0 if `Z > T / 2`,
otherwise the request if `F > T / 2`, otherwise, if `P > 0`,
`((S + (request / COIN) * (F / COIN)) / (T / COIN)) * COIN` (whenever the
divisor `T / COIN` is not 0), otherwise 0; all divisions truncate. -/
theorem C30_bounty_tally (COIN : Int) (gs : GameState)
    (bountycycle_block bountycycle_start Z F P S T : Int)
    (hZ : Z = daoWeightOf (daoDeclining gs.dao_BestRequestFinal (gs.daoVoters bountycycle_start)))
    (hF : F = daoWeightOf (daoAccepting gs.dao_BestRequestFinal (gs.daoVoters bountycycle_start)))
    (hP : P = daoWeightOf (daoPartial gs.dao_BestRequestFinal (gs.daoVoters bountycycle_start)))
    (hS : S = daoVoteSum COIN gs.dao_BestRequestFinal
      (daoPartial gs.dao_BestRequestFinal (gs.daoVoters bountycycle_start)))
    (hT : T = Z + F + P) :
    (gs.daoCountVotes COIN bountycycle_block bountycycle_start {}).2
        = { Cache_voteweight_total := T, Cache_voteweight_zero := Z, Cache_voteweight_full := F,
            Cache_voteweight_part := P, Cache_vote_part := S, Cache_actual_bounty := 0 }
      ∧ (gs.daoCountVotes COIN bountycycle_block bountycycle_start {}).1.dao_BestRequestFinal
          = gs.dao_BestRequestFinal
      ∧ (daoTally COIN gs.dao_BestRequestFinal
            (gs.daoCountVotes COIN bountycycle_block bountycycle_start {}).2).map
          (fun c => c.Cache_actual_bounty)
        = if Z > Int.tdiv T 2 then some 0
          else if F > Int.tdiv T 2 then some gs.dao_BestRequestFinal
          else if P > 0 then
            if Int.tdiv T COIN = 0 then none
            else
              some (Int.tdiv (S + Int.tdiv gs.dao_BestRequestFinal COIN * Int.tdiv F COIN)
                (Int.tdiv T COIN) * COIN)
          else some 0 := by
  have hc : (gs.daoCountVotes COIN bountycycle_block bountycycle_start {}).2
      = { Cache_voteweight_total := T, Cache_voteweight_zero := Z, Cache_voteweight_full := F,
          Cache_voteweight_part := P, Cache_vote_part := S, Cache_actual_bounty := 0 } := by
    rw [daoCountVotes_cache, hT, hZ, hF, hP, hS,
      daoWeightOf_split gs.dao_BestRequestFinal (gs.daoVoters bountycycle_start)]
  refine ⟨hc, rfl, ?_⟩
  rw [hc]
  unfold daoTally
  simp only
  have hsum : P + F + Z = T := by rw [hT]; ring
  rw [hsum]
  by_cases h1 : Z > Int.tdiv T 2
  · rw [if_pos h1, if_pos h1]; rfl
  · rw [if_neg h1, if_neg h1]
    by_cases h2 : F > Int.tdiv T 2
    · rw [if_pos h2, if_pos h2]; rfl
    · rw [if_neg h2, if_neg h2]
      by_cases h3 : P > 0
      · rw [if_pos h3, if_pos h3]
        by_cases h4 : Int.tdiv T COIN = 0
        · rw [if_pos h4, if_pos h4]; rfl
        · rw [if_neg h4, if_neg h4]; rfl
      · rw [if_neg h3, if_neg h3]; rfl

/-- Witness for C30: in `voteState` the weights are 2, 3 and 5 coins, the
sum over the partial voters is 10 * 4 + 25 * 1 = 65, and the bounty is
((65 + 40 * 3) / 10) coins = 18 coins. -/
theorem C30_bounty_tally_witness :
    (daoTally 100000000 voteState.dao_BestRequestFinal
        (voteState.daoCountVotes 100000000 10 0 {}).2).map (fun c => c.Cache_actual_bounty)
      = some 1800000000 := by
  have h := (C30_bounty_tally 100000000 voteState 10 0 200000000 300000000 500000000 65
    1000000000 (by decide) (by decide) (by decide) (by decide) (by decide)).2.2
  rw [h]
  decide

/-! ## Loops over the keys of a map -/

/-- An invariant of the loop body holds after the loop. -/
theorem foldlM_inv {α β : Type} (f : β → α → Option β) (I : β → Prop) (l : List α)
    (h : ∀ b x b1, x ∈ l → I b → f b x = some b1 → I b1) :
    ∀ b b1, I b → l.foldlM f b = some b1 → I b1 := by
  induction l with
  | nil =>
    intro b b1 hb hr
    simp only [List.foldlM_nil, Option.pure_def, Option.some.injEq] at hr
    rw [← hr]; exact hb
  | cons x t ih =>
    intro b b1 hb hr
    simp only [List.foldlM_cons, Option.bind_eq_bind] at hr
    cases hx : f b x with
    | none => rw [hx] at hr; simp at hr
    | some b2 =>
      rw [hx] at hr
      simp only [Option.some_bind] at hr
      exact ih (fun b x b1 hm => h b x b1 (List.mem_cons_of_mem _ hm)) b2 b1
        (h b x b2 (List.mem_cons_self _ _) hb hx) hr

/-- A loop over a list without repetition, seen from one of its elements
`a`: `I` holds until `a` is reached, the round of `a` establishes `Q`, and the
later rounds keep `Q`. -/
theorem foldlM_focus {α β : Type} (f : β → α → Option β) (I Q : β → Prop) (a : α)
    (l : List α) (hnd : l.Nodup) (ha : a ∈ l)
    (hI : ∀ b x b1, x ∈ l → x ≠ a → I b → f b x = some b1 → I b1)
    (hstep : ∀ b b1, I b → f b a = some b1 → Q b1)
    (hQ : ∀ b x b1, x ∈ l → x ≠ a → Q b → f b x = some b1 → Q b1) :
    ∀ b b1, I b → l.foldlM f b = some b1 → Q b1 := by
  induction l with
  | nil => simp at ha
  | cons x t ih =>
    intro b b1 hb hr
    simp only [List.foldlM_cons, Option.bind_eq_bind] at hr
    have hnd1 := List.nodup_cons.mp hnd
    cases hx : f b x with
    | none => rw [hx] at hr; simp at hr
    | some b2 =>
      rw [hx] at hr
      simp only [Option.some_bind] at hr
      by_cases hxa : x = a
      · rw [hxa] at hx
        have hq := hstep b b2 hb hx
        refine foldlM_inv f Q t ?_ b2 b1 hq hr
        intro c y c1 hy hc hfy
        refine hQ c y c1 (List.mem_cons_of_mem _ hy) ?_ hc hfy
        intro hya
        rw [hya, ← hxa] at hy
        exact hnd1.1 hy
      · have hat : a ∈ t := by
          rcases List.mem_cons.mp ha with h | h
          · exact absurd h.symm hxa
          · exact h
        exact ih hnd1.2 hat
          (fun c y c1 hy => hI c y c1 (List.mem_cons_of_mem _ hy))
          (fun c y c1 hy => hQ c y c1 (List.mem_cons_of_mem _ hy))
          b2 b1 (hI b x b2 (List.mem_cons_self _ _) hxa hb hx) hr

/-- A loop whose body returns under an invariant returns. -/
theorem foldlM_some_of_inv {α β : Type} (f : β → α → Option β) (I : β → Prop) (l : List α)
    (h : ∀ b x, x ∈ l → I b → ∃ b1, f b x = some b1 ∧ I b1) :
    ∀ b, I b → ∃ b1, l.foldlM f b = some b1 ∧ I b1 := by
  induction l with
  | nil => intro b hb; exact ⟨b, rfl, hb⟩
  | cons x t ih =>
    intro b hb
    obtain ⟨b2, hx, hb2⟩ := h b x (List.mem_cons_self _ _) hb
    simp only [List.foldlM_cons, Option.bind_eq_bind, hx, Option.some_bind]
    exact ih (fun b x hm => h b x (List.mem_cons_of_mem _ hm)) b2 hb2

theorem StdMap.keys_nodup {K V : Type} [LinearOrder K] (m : StdMap K V) : m.keys.Nodup := by
  unfold StdMap.keys
  have h := m.sorted
  rw [List.Nodup, List.pairwise_map]
  exact h.imp (fun hab => ne_of_lt hab)

theorem StdMap.mem_keys {K V : Type} [LinearOrder K] (m : StdMap K V) (k : K) :
    k ∈ m.keys ↔ ∃ v, m.find k = some v := by
  unfold StdMap.keys
  constructor
  · intro h
    obtain ⟨e, he, hk⟩ := List.mem_map.mp h
    exact ⟨e.2, by rw [← hk]; exact m.find_of_mem_entries e he⟩
  · rintro ⟨v, hv⟩
    exact List.mem_map.mpr ⟨(k, v), rawFind_mem m.entries k v hv, rfl⟩

/-- Lookup after the loop `BOOST_FOREACH (int i, toErase) characters.erase(i)`. -/
theorem StdMap.find_foldl_erase {K V : Type} [LinearOrder K] (l : List K) :
    ∀ (m : StdMap K V) (k : K),
      (l.foldl (fun m i => m.erase i) m).find k = if k ∈ l then none else m.find k := by
  induction l with
  | nil => intro m k; simp
  | cons x t ih =>
    intro m k
    simp only [List.foldl_cons, ih, StdMap.find_erase, List.mem_cons]
    by_cases h1 : k ∈ t
    · simp [h1]
    · by_cases h2 : k = x
      · simp [h2]
      · simp [h1, h2]

/-! ## What the kill functions leave alone -/

theorem mem_multimapInsert_self {K V : Type} [LinearOrder K] (k : K) (v : V)
    (l : List (K × V)) : (k, v) ∈ multimapInsert k v l := by
  induction l with
  | nil => simp [multimapInsert]
  | cons e t ih =>
    simp only [multimapInsert]
    by_cases h : k < e.1
    · rw [if_pos h]; exact List.mem_cons_self _ _
    · rw [if_neg h]; exact List.mem_cons_of_mem _ ih

theorem mem_multimapInsert_of_mem {K V : Type} [LinearOrder K] (k : K) (v : V)
    (l : List (K × V)) (e : K × V) (he : e ∈ l) : e ∈ multimapInsert k v l := by
  induction l with
  | nil => simp at he
  | cons a t ih =>
    simp only [multimapInsert]
    by_cases h : k < a.1
    · rw [if_pos h]; exact List.mem_cons_of_mem _ he
    · rw [if_neg h]
      rcases List.mem_cons.mp he with h1 | h1
      · rw [h1]; exact List.mem_cons_self _ _
      · exact List.mem_cons_of_mem _ (ih h1)

theorem records_KillPlayer_self (step : StepResult) (pid : PlayerID) (r : Reason) :
    (step.KillPlayer pid { reason := r }).records pid r := by
  unfold StepResult.records StepResult.KillPlayer StdMap.contains
  refine ⟨?_, mem_multimapInsert_self _ _ _⟩
  simp only [StdMap.find_insert, if_pos]
  cases step.killedPlayers.find pid <;> rfl

theorem records_KillPlayer_of_records (step : StepResult) (pid q : PlayerID) (r : Reason)
    (k : KilledByInfo) (h : step.records pid r) : (step.KillPlayer q k).records pid r := by
  unfold StepResult.records StepResult.KillPlayer StdMap.contains at *
  refine ⟨?_, mem_multimapInsert_of_mem _ _ _ _ h.2⟩
  simp only [StdMap.find_insert]
  by_cases hq : pid = q
  · rw [if_pos hq]
    cases step.killedPlayers.find q <;> rfl
  · rw [if_neg hq]; exact h.1

theorem HandleKilledLoot_tail_frame (ForkInEffect : Fork → Int → Bool) (gs : GameState)
    (pId : PlayerID) (chInd : Int) (canRefund : Bool) (pc : PlayerState) (ch : CharacterState)
    (step1 : StepResult) (nAmount : Int) (r : GameState × StepResult)
    (h : (if nAmount = 0 then some (gs, step1)
        else if ¬ (nAmount > 0) then none
        else if pc.remainingLife ≥ 0 ∧ ForkInEffect Fork.FORK_LESSHEARTS gs.nHeight = true then
          some ({ gs with gameFund := gs.gameFund + nAmount }, step1)
        else if canRefund = true ∧ ForkInEffect Fork.FORK_LESSHEARTS gs.nHeight = true then
          match CollectedLootInfo.SetRefund {} nAmount gs.nHeight, CharacterID.make pId chInd with
          | some loot, some chid =>
            some (gs, { step1 with bounties := step1.bounties ++ [⟨chid, loot, pc.address⟩] })
          | _, _ => none
        else some (gs.AddLoot (PushCoordOutOfSpawnArea ch.coord) nAmount, step1)) = some r) :
    r.1.players = gs.players ∧ r.1.nHeight = gs.nHeight
      ∧ r.2.killedPlayers = step1.killedPlayers ∧ r.2.killedBy = step1.killedBy := by
  by_cases h1 : nAmount = 0
  · rw [if_pos h1] at h
    simp only [Option.some.injEq] at h
    rw [← h]
    exact ⟨rfl, rfl, rfl, rfl⟩
  · rw [if_neg h1] at h
    by_cases h2 : ¬ (nAmount > 0)
    · rw [if_pos h2] at h; simp at h
    · rw [if_neg h2] at h
      by_cases h3 : pc.remainingLife ≥ 0 ∧ ForkInEffect Fork.FORK_LESSHEARTS gs.nHeight = true
      · rw [if_pos h3] at h
        simp only [Option.some.injEq] at h
        rw [← h]
        exact ⟨rfl, rfl, rfl, rfl⟩
      · rw [if_neg h3] at h
        by_cases h4 : canRefund = true ∧ ForkInEffect Fork.FORK_LESSHEARTS gs.nHeight = true
        · rw [if_pos h4] at h
          cases hs : CollectedLootInfo.SetRefund {} nAmount gs.nHeight with
          | none => rw [hs] at h; simp at h
          | some loot =>
            rw [hs] at h
            cases hm : CharacterID.make pId chInd with
            | none => rw [hm] at h; simp at h
            | some chid =>
              rw [hm] at h
              simp only [Option.some.injEq] at h
              rw [← h]
              exact ⟨rfl, rfl, rfl, rfl⟩
        · rw [if_neg h4] at h
          simp only [Option.some.injEq] at h
          rw [← h]
          exact ⟨AddLoot_players _ _ _, AddLoot_nHeight _ _ _, rfl, rfl⟩

/-- The method `HandleKilledLoot` changes neither the players, nor the height,
nor the record of the killed players. -/
theorem HandleKilledLoot_frame (ForkInEffect : Fork → Int → Bool) (gs : GameState)
    (pId : PlayerID) (chInd : Int) (hasTax canRefund : Bool) (step : StepResult)
    (r : GameState × StepResult)
    (h : gs.HandleKilledLoot ForkInEffect pId chInd hasTax canRefund step = some r) :
    r.1.players = gs.players ∧ r.1.nHeight = gs.nHeight
      ∧ r.2.killedPlayers = step.killedPlayers ∧ r.2.killedBy = step.killedBy := by
  unfold GameState.HandleKilledLoot at h
  cases hp : gs.players.find pId with
  | none => rw [hp] at h; simp at h
  | some pc =>
    rw [hp] at h
    simp only at h
    cases hc : pc.characters.find chInd with
    | none => rw [hc] at h; simp at h
    | some ch =>
      rw [hc] at h
      simp only at h
      by_cases h1 : chInd = 0 ∧ ¬ (pc.coinAmount ≥ 0)
      · rw [if_pos h1] at h; simp at h
      · rw [if_neg h1] at h
        cases hasTax with
        | false =>
          exact HandleKilledLoot_tail_frame ForkInEffect gs pId chInd canRefund pc ch step _ r h
        | true =>
          exact HandleKilledLoot_tail_frame ForkInEffect gs pId chInd canRefund pc ch
            { step with nTaxAmount := step.nTaxAmount + _ } _ r h

/-! ## Spawn-area kills: `KillSpawnArea` -/

theorem find_setCharacter (gs : GameState) (pid q : PlayerID) (i : Int) (ch : CharacterState) :
    (gs.setCharacter pid i ch).players.find q
      = if q = pid then
          (gs.players.find pid).map
            (fun pl => { pl with characters := pl.characters.modify i (fun _ => ch) })
        else gs.players.find q := by
  unfold GameState.setCharacter
  simp only [StdMap.find_modify]
  by_cases h : q = pid
  · rw [if_pos h, if_pos h]
  · rw [if_neg h, if_neg h]

theorem lootWellFormed_of_players (gs gs1 : GameState) (h : gs1.players = gs.players)
    (hw : gs.lootWellFormed) : gs1.lootWellFormed := by
  unfold GameState.lootWellFormed at *
  rw [h]; exact hw

/-- Writing back a character with a non-negative amount keeps the state well
formed. -/
theorem lootWellFormed_setCharacter (gs : GameState) (pid : PlayerID) (i : Int)
    (ch : CharacterState) (hw : gs.lootWellFormed) (hl : 0 ≤ ch.loot.nAmount) :
    (gs.setCharacter pid i ch).lootWellFormed := by
  intro q pl hq j c hc
  rw [find_setCharacter] at hq
  by_cases hqp : q = pid
  · rw [if_pos hqp] at hq
    cases hp : gs.players.find pid with
    | none => rw [hp] at hq; simp at hq
    | some pl0 =>
      rw [hp] at hq
      simp only [Option.map_some', Option.some.injEq] at hq
      rw [← hq] at hc ⊢
      simp only [StdMap.find_modify] at hc
      by_cases hji : j = i
      · rw [if_pos hji] at hc
        cases hc0 : pl0.characters.find i with
        | none => rw [hc0] at hc; simp at hc
        | some c0 =>
          rw [hc0] at hc
          simp only [Option.map_some', Option.some.injEq] at hc
          have h0 := hw pid pl0 hp i c0 hc0
          rw [← hc, hji]
          exact ⟨h0.1, hl, h0.2.2⟩
      · rw [if_neg hji] at hc
        exact hw pid pl0 hp j c hc
  · rw [if_neg hqp] at hq
    exact hw q pl hq j c hc

/-- The presence of the players and of the characters after
`setCharacter`. -/
theorem isSome_findCharacter_setCharacter (gs : GameState) (pid q : PlayerID) (i j : Int)
    (ch : CharacterState) :
    ((gs.setCharacter pid i ch).findCharacter q j).isSome = (gs.findCharacter q j).isSome := by
  rw [findCharacter_setCharacter]
  by_cases h : q = pid ∧ j = i
  · rw [if_pos h, h.1, h.2]
    cases gs.findCharacter pid i <;> rfl
  · rw [if_neg h]

theorem isSome_find_setCharacter (gs : GameState) (pid q : PlayerID) (i : Int)
    (ch : CharacterState) :
    ((gs.setCharacter pid i ch).players.find q).isSome = (gs.players.find q).isSome := by
  rw [find_setCharacter]
  by_cases h : q = pid
  · rw [if_pos h, h]
    cases gs.players.find pid <;> rfl
  · rw [if_neg h]

/-- On a well-formed state `HandleKilledLoot` returns for every character
that exists. -/
theorem HandleKilledLoot_isSome (ForkInEffect : Fork → Int → Bool) (gs : GameState)
    (pId : PlayerID) (chInd : Int) (hasTax canRefund : Bool) (step : StepResult)
    (hw : gs.lootWellFormed) (hc : (gs.findCharacter pId chInd).isSome = true) :
    ∃ r, gs.HandleKilledLoot ForkInEffect pId chInd hasTax canRefund step = some r := by
  unfold GameState.findCharacter at hc
  cases hp : gs.players.find pId with
  | none => rw [hp] at hc; simp at hc
  | some pc =>
    rw [hp] at hc
    simp only [Option.some_bind] at hc
    cases hch : pc.characters.find chInd with
    | none => rw [hch] at hc; simp at hc
    | some ch =>
      obtain ⟨hi, hl, hcoin⟩ := hw pId pc hp chInd ch hch
      have hA : 0 ≤ (if chInd = 0 then ch.loot.nAmount + pc.coinAmount else ch.loot.nAmount) := by
        by_cases h0 : chInd = 0
        · rw [if_pos h0]; exact add_nonneg hl (hcoin h0)
        · rw [if_neg h0]; exact hl
      have htail : ∀ (step1 : StepResult) (nAmount : Int), 0 ≤ nAmount →
          ∃ r, (if nAmount = 0 then some (gs, step1)
            else if ¬ (nAmount > 0) then none
            else if pc.remainingLife ≥ 0 ∧ ForkInEffect Fork.FORK_LESSHEARTS gs.nHeight = true
            then some ({ gs with gameFund := gs.gameFund + nAmount }, step1)
            else if canRefund = true ∧ ForkInEffect Fork.FORK_LESSHEARTS gs.nHeight = true then
              match CollectedLootInfo.SetRefund {} nAmount gs.nHeight,
                CharacterID.make pId chInd with
              | some loot, some chid =>
                some (gs,
                  { step1 with bounties := step1.bounties ++ [⟨chid, loot, pc.address⟩] })
              | _, _ => none
            else some (gs.AddLoot (PushCoordOutOfSpawnArea ch.coord) nAmount, step1))
            = some r := by
        intro step1 nAmount hn
        by_cases h1 : nAmount = 0
        · rw [if_pos h1]; exact ⟨_, rfl⟩
        · rw [if_neg h1]
          have h2 : nAmount > 0 := lt_of_le_of_ne hn (Ne.symm h1)
          rw [if_neg (not_not.mpr h2)]
          by_cases h3 : pc.remainingLife ≥ 0
              ∧ ForkInEffect Fork.FORK_LESSHEARTS gs.nHeight = true
          · rw [if_pos h3]; exact ⟨_, rfl⟩
          · rw [if_neg h3]
            by_cases h4 : canRefund = true ∧ ForkInEffect Fork.FORK_LESSHEARTS gs.nHeight = true
            · rw [if_pos h4]
              have hm : CharacterID.make pId chInd
                  = some { player := pId, index := chInd } := by
                unfold CharacterID.make
                rw [if_neg (not_lt.mpr hi)]
              rw [hm]
              exact ⟨_, rfl⟩
            · rw [if_neg h4]; exact ⟨_, rfl⟩
      unfold GameState.HandleKilledLoot
      rw [hp]
      simp only
      rw [hch]
      simp only
      rw [if_neg (fun h => h.2 (hcoin h.1))]
      cases hasTax with
      | false => exact htail step _ hA
      | true =>
        refine htail { step with nTaxAmount := step.nTaxAmount + _ } _ ?_
        have h25 := floor25_le _ hA
        simp only [if_true]
        rw [tdiv25_eq_floor _ hA]
        omega

theorem findCharacter_of_players (gs gs1 : GameState) (h : gs1.players = gs.players)
    (q : PlayerID) (j : Int) : gs1.findCharacter q j = gs.findCharacter q j := by
  unfold GameState.findCharacter
  rw [h]

/-- What one round of the inner loop of `KillSpawnArea` does to the state:
the players are untouched, or the character `i` of `pid` is written back with
another value of `stay_in_spawn_area`; the height stays, the record of the
kills only grows, and `toErase` gets at most `i`. -/
theorem killSpawnCharacter_shape (ForkInEffect : Fork → Int → Bool) (pid : PlayerID)
    (acc a1 : SpawnKillAcc) (i : Int)
    (h : killSpawnCharacter ForkInEffect pid acc i = some a1) :
    ∃ ch, acc.gs.findCharacter pid i = some ch
      ∧ (a1.gs.players = acc.gs.players
        ∨ ∃ n, a1.gs.players
            = (acc.gs.setCharacter pid i { ch with stay_in_spawn_area := n }).players)
      ∧ a1.gs.nHeight = acc.gs.nHeight
      ∧ (∀ v r, acc.step.records v r → a1.step.records v r)
      ∧ (a1.toErase = acc.toErase ∨ a1.toErase = acc.toErase ++ [i]) := by
  unfold killSpawnCharacter at h
  cases hc : acc.gs.findCharacter pid i with
  | none => rw [hc] at h; simp at h
  | some ch =>
    rw [hc] at h
    simp only at h
    refine ⟨ch, rfl, ?_⟩
    by_cases h1 : IsInSpawnArea ch.coord.x ch.coord.y = false
    · rw [if_pos h1] at h
      simp only [Option.some.injEq] at h
      rw [← h]
      exact ⟨Or.inr ⟨0, rfl⟩, rfl, fun _ _ hr => hr, Or.inl rfl⟩
    · rw [if_neg h1] at h
      by_cases h2 : ch.ai_state2 &&& AI_STATE2_ESSENTIAL ≠ 0
      · rw [if_pos h2] at h
        simp only [Option.some.injEq] at h
        rw [← h]
        exact ⟨Or.inl rfl, rfl, fun _ _ hr => hr, Or.inl rfl⟩
      · rw [if_neg h2] at h
        by_cases h3 : ch.stay_in_spawn_area < MAX_STAY_IN_SPAWN_AREA
        · rw [if_pos h3] at h
          simp only [Option.some.injEq] at h
          rw [← h]
          exact ⟨Or.inr ⟨_, rfl⟩, rfl, fun _ _ hr => hr, Or.inl rfl⟩
        · rw [if_neg h3] at h
          by_cases h4 : ForkInEffect Fork.FORK_CARRYINGCAP
                (acc.gs.setCharacter pid i
                  { ch with stay_in_spawn_area := (ch.stay_in_spawn_area + 1) % 256 }).nHeight
                = true
              ∧ ForkInEffect Fork.FORK_LESSHEARTS
                (acc.gs.setCharacter pid i
                  { ch with stay_in_spawn_area := (ch.stay_in_spawn_area + 1) % 256 }).nHeight
                = false
          · rw [if_pos h4] at h
            simp only [Option.some.injEq] at h
            rw [← h]
            exact ⟨Or.inr ⟨_, rfl⟩, rfl, fun _ _ hr => hr, Or.inl rfl⟩
          · rw [if_neg h4] at h
            cases hk : (acc.gs.setCharacter pid i
                { ch with stay_in_spawn_area := (ch.stay_in_spawn_area + 1) % 256 }).HandleKilledLoot
                ForkInEffect pid i false true acc.step with
            | none => rw [hk] at h; simp at h
            | some r =>
              rw [hk] at h
              simp only [Option.some.injEq] at h
              obtain ⟨f1, f2, f3, f4⟩ := HandleKilledLoot_frame _ _ _ _ _ _ _ r hk
              rw [← h]
              refine ⟨Or.inr ⟨_, f1⟩, f2, ?_, Or.inr rfl⟩
              intro v rr hr
              have hr2 : r.2.records v rr := by
                unfold StepResult.records at hr ⊢
                rw [f3, f4]; exact hr
              by_cases hi : i = 0
              · rw [if_pos hi]
                exact records_KillPlayer_of_records _ _ _ _ _ hr2
              · rw [if_neg hi]; exact hr2

/-- One round of the inner loop of `KillSpawnArea` leaves the other
characters and the presence of every player and character as they are. -/
theorem killSpawnCharacter_frame (ForkInEffect : Fork → Int → Bool) (pid : PlayerID)
    (acc a1 : SpawnKillAcc) (i : Int)
    (h : killSpawnCharacter ForkInEffect pid acc i = some a1) :
    (∀ q, q ≠ pid → a1.gs.players.find q = acc.gs.players.find q)
      ∧ (∀ q j, ¬ (q = pid ∧ j = i) → a1.gs.findCharacter q j = acc.gs.findCharacter q j)
      ∧ (∀ q, (a1.gs.players.find q).isSome = (acc.gs.players.find q).isSome)
      ∧ (∀ q j, (a1.gs.findCharacter q j).isSome = (acc.gs.findCharacter q j).isSome) := by
  obtain ⟨ch, _, hpl, _, _, _⟩ := killSpawnCharacter_shape ForkInEffect pid acc a1 i h
  rcases hpl with hpl | ⟨n, hpl⟩
  · refine ⟨fun q _ => by rw [hpl], fun q j _ => findCharacter_of_players _ _ hpl q j,
      fun q => by rw [hpl], fun q j => by rw [findCharacter_of_players _ _ hpl q j]⟩
  · refine ⟨?_, ?_, ?_, ?_⟩
    · intro q hq
      rw [hpl, find_setCharacter, if_neg hq]
    · intro q j hqj
      rw [findCharacter_of_players _ _ hpl q j, findCharacter_setCharacter, if_neg hqj]
    · intro q
      rw [hpl, isSome_find_setCharacter]
    · intro q j
      rw [findCharacter_of_players _ _ hpl q j, isSome_findCharacter_setCharacter]

/-- One round of the inner loop of `KillSpawnArea` on a well-formed state
returns, and the state stays well formed. -/
theorem killSpawnCharacter_total (ForkInEffect : Fork → Int → Bool) (pid : PlayerID)
    (acc : SpawnKillAcc) (i : Int) (hw : acc.gs.lootWellFormed)
    (hc : (acc.gs.findCharacter pid i).isSome = true) :
    ∃ a1, killSpawnCharacter ForkInEffect pid acc i = some a1 ∧ a1.gs.lootWellFormed := by
  have hres : ∃ a1, killSpawnCharacter ForkInEffect pid acc i = some a1 := by
    unfold killSpawnCharacter
    cases hch : acc.gs.findCharacter pid i with
    | none => rw [hch] at hc; simp at hc
    | some ch =>
      simp only
      by_cases h1 : IsInSpawnArea ch.coord.x ch.coord.y = false
      · rw [if_pos h1]; exact ⟨_, rfl⟩
      · rw [if_neg h1]
        by_cases h2 : ch.ai_state2 &&& AI_STATE2_ESSENTIAL ≠ 0
        · rw [if_pos h2]; exact ⟨_, rfl⟩
        · rw [if_neg h2]
          by_cases h3 : ch.stay_in_spawn_area < MAX_STAY_IN_SPAWN_AREA
          · rw [if_pos h3]; exact ⟨_, rfl⟩
          · rw [if_neg h3]
            by_cases h4 : ForkInEffect Fork.FORK_CARRYINGCAP
                  (acc.gs.setCharacter pid i
                    { ch with stay_in_spawn_area := (ch.stay_in_spawn_area + 1) % 256 }).nHeight
                  = true
                ∧ ForkInEffect Fork.FORK_LESSHEARTS
                  (acc.gs.setCharacter pid i
                    { ch with stay_in_spawn_area := (ch.stay_in_spawn_area + 1) % 256 }).nHeight
                  = false
            · rw [if_pos h4]; exact ⟨_, rfl⟩
            · rw [if_neg h4]
              have hl : 0 ≤ ch.loot.nAmount := by
                unfold GameState.findCharacter at hch
                cases hp : acc.gs.players.find pid with
                | none => rw [hp] at hch; simp at hch
                | some pl =>
                  rw [hp] at hch
                  exact (hw pid pl hp i ch hch).2.1
              obtain ⟨r, hr⟩ := HandleKilledLoot_isSome ForkInEffect
                (acc.gs.setCharacter pid i
                  { ch with stay_in_spawn_area := (ch.stay_in_spawn_area + 1) % 256 })
                pid i false true acc.step
                (lootWellFormed_setCharacter _ _ _ _ hw hl)
                (by rw [isSome_findCharacter_setCharacter]; exact hc)
              rw [hr]
              exact ⟨_, rfl⟩
  obtain ⟨a1, ha1⟩ := hres
  refine ⟨a1, ha1, ?_⟩
  obtain ⟨ch, hch, hpl, _, _, _⟩ := killSpawnCharacter_shape ForkInEffect pid acc a1 i ha1
  rcases hpl with hpl | ⟨n, hpl⟩
  · exact lootWellFormed_of_players _ _ hpl hw
  · refine lootWellFormed_of_players _ _ hpl (lootWellFormed_setCharacter _ _ _ _ hw ?_)
    unfold GameState.findCharacter at hch
    cases hp : acc.gs.players.find pid with
    | none => rw [hp] at hch; simp at hch
    | some pl =>
      rw [hp] at hch
      exact (hw pid pl hp i ch hch).2.1

/-- Erasing characters of a player keeps the state well formed. -/
theorem lootWellFormed_erase (gs : GameState) (pid : PlayerID) (l : List Int)
    (hw : gs.lootWellFormed) :
    ({ gs with
        players := gs.players.modify pid
          (fun p => { p with characters := l.foldl (fun m i => m.erase i) p.characters }) }
      : GameState).lootWellFormed := by
  intro q pl hq j c hc
  simp only [StdMap.find_modify] at hq
  by_cases hqp : q = pid
  · rw [if_pos hqp] at hq
    cases hp : gs.players.find pid with
    | none => rw [hp] at hq; simp at hq
    | some pl0 =>
      rw [hp] at hq
      simp only [Option.map_some', Option.some.injEq] at hq
      rw [← hq] at hc ⊢
      simp only [StdMap.find_foldl_erase] at hc
      by_cases hj : j ∈ l
      · rw [if_pos hj] at hc; simp at hc
      · rw [if_neg hj] at hc
        exact hw pid pl0 hp j c hc
  · rw [if_neg hqp] at hq
    exact hw q pl hq j c hc

/-- The round of the outer loop of `KillSpawnArea` for player `pid` leaves
the other players and the height as they are, and the record of the kills only
grows. -/
theorem killSpawnPlayer_frame (ForkInEffect : Fork → Int → Bool)
    (acc a1 : GameState × StepResult) (pid : PlayerID)
    (h : killSpawnPlayer ForkInEffect acc pid = some a1) :
    (∀ q, q ≠ pid → a1.1.players.find q = acc.1.players.find q)
      ∧ a1.1.nHeight = acc.1.nHeight
      ∧ (∀ v r, acc.2.records v r → a1.2.records v r) := by
  unfold killSpawnPlayer at h
  cases hp : acc.1.players.find pid with
  | none => rw [hp] at h; simp at h
  | some pl =>
    rw [hp] at h
    simp only at h
    cases hl : pl.characters.keys.foldlM (killSpawnCharacter ForkInEffect pid)
        { gs := acc.1, step := acc.2, toErase := [] } with
    | none => rw [hl] at h; simp at h
    | some r =>
      rw [hl] at h
      simp only [Option.some.injEq] at h
      have hinv := foldlM_inv (killSpawnCharacter ForkInEffect pid)
        (fun a => (∀ q, q ≠ pid → a.gs.players.find q = acc.1.players.find q)
          ∧ a.gs.nHeight = acc.1.nHeight ∧ (∀ v r, acc.2.records v r → a.step.records v r))
        pl.characters.keys
        (by
          intro b x b1 _ hb hx
          obtain ⟨_, _, _, s3, s4, _⟩ := killSpawnCharacter_shape ForkInEffect pid b b1 x hx
          obtain ⟨f1, _, _, _⟩ := killSpawnCharacter_frame ForkInEffect pid b b1 x hx
          exact ⟨fun q hq => by rw [f1 q hq, hb.1 q hq], by rw [s3, hb.2.1],
            fun v r hr => s4 v r (hb.2.2 v r hr)⟩)
        { gs := acc.1, step := acc.2, toErase := [] } r
        ⟨fun _ _ => rfl, rfl, fun _ _ hr => hr⟩ hl
      rw [← h]
      refine ⟨?_, hinv.2.1, hinv.2.2⟩
      intro q hq
      simp only [StdMap.find_modify, if_neg hq]
      exact hinv.1 q hq

/-- The round of the outer loop of `KillSpawnArea` for a player of a
well-formed state returns, and the state stays well formed with the same
players. -/
theorem killSpawnPlayer_total (ForkInEffect : Fork → Int → Bool)
    (acc : GameState × StepResult) (pid : PlayerID) (hw : acc.1.lootWellFormed)
    (hp : (acc.1.players.find pid).isSome = true) :
    ∃ a1, killSpawnPlayer ForkInEffect acc pid = some a1 ∧ a1.1.lootWellFormed
      ∧ ∀ q, (a1.1.players.find q).isSome = (acc.1.players.find q).isSome := by
  unfold killSpawnPlayer
  cases hpl : acc.1.players.find pid with
  | none => rw [hpl] at hp; simp at hp
  | some pl =>
    simp only
    obtain ⟨r, hr, hr1, hr2, hr3⟩ := foldlM_some_of_inv (killSpawnCharacter ForkInEffect pid)
      (fun a => a.gs.lootWellFormed
        ∧ (∀ q j, (a.gs.findCharacter q j).isSome = (acc.1.findCharacter q j).isSome)
        ∧ ∀ q, (a.gs.players.find q).isSome = (acc.1.players.find q).isSome)
      pl.characters.keys
      (by
        intro b x hx hb
        have hxc : (b.gs.findCharacter pid x).isSome = true := by
          rw [hb.2.1]
          unfold GameState.findCharacter
          rw [hpl]
          simp only [Option.some_bind]
          obtain ⟨v, hv⟩ := (StdMap.mem_keys pl.characters x).mp hx
          rw [hv]; rfl
        obtain ⟨b1, hb1, hw1⟩ := killSpawnCharacter_total ForkInEffect pid b x hb.1 hxc
        obtain ⟨_, _, f3, f4⟩ := killSpawnCharacter_frame ForkInEffect pid b b1 x hb1
        exact ⟨b1, hb1, hw1, fun q j => by rw [f4, hb.2.1], fun q => by rw [f3, hb.2.2]⟩)
      { gs := acc.1, step := acc.2, toErase := [] } ⟨hw, fun _ _ => rfl, fun _ => rfl⟩
    rw [hr]
    refine ⟨_, rfl, lootWellFormed_erase r.gs pid r.toErase hr1, ?_⟩
    intro q
    simp only [StdMap.find_modify]
    by_cases hq : q = pid
    · rw [if_pos hq, hq, ← hr3 pid]
      cases r.gs.players.find pid <;> rfl
    · rw [if_neg hq, hr3 q]

/-- On a well-formed state `KillSpawnArea` returns. -/
theorem KillSpawnArea_total (ForkInEffect : Fork → Int → Bool) (gs : GameState)
    (step : StepResult) (hw : gs.lootWellFormed) :
    ∃ r, gs.KillSpawnArea ForkInEffect step = some r := by
  unfold GameState.KillSpawnArea
  obtain ⟨r, hr, _⟩ := foldlM_some_of_inv (killSpawnPlayer ForkInEffect)
    (fun a => a.1.lootWellFormed
      ∧ ∀ q, (a.1.players.find q).isSome = (gs.players.find q).isSome)
    gs.players.keys
    (by
      intro b x hx hb
      have hxp : (b.1.players.find x).isSome = true := by
        rw [hb.2]
        obtain ⟨v, hv⟩ := (StdMap.mem_keys gs.players x).mp hx
        rw [hv]; rfl
      obtain ⟨b1, hb1, hw1, hs1⟩ := killSpawnPlayer_total ForkInEffect b x hb.1 hxp
      exact ⟨b1, hb1, hw1, fun q => by rw [hs1, hb.2]⟩)
    (gs, step) ⟨hw, fun _ => rfl⟩
  exact ⟨r, hr⟩

/-- The round of the inner loop of `KillSpawnArea` for a character that
overstays: it is put into `toErase`, and its player is recorded as killed when
it is the general. -/
theorem killSpawnCharacter_overstay (ForkInEffect : Fork → Int → Bool) (pid : PlayerID)
    (acc a1 : SpawnKillAcc) (i : Int) (ch : CharacterState)
    (hch : acc.gs.findCharacter pid i = some ch)
    (hin : IsInSpawnArea ch.coord.x ch.coord.y = true)
    (hstay : ch.stay_in_spawn_area = MAX_STAY_IN_SPAWN_AREA)
    (hess : ch.ai_state2 &&& AI_STATE2_ESSENTIAL = 0)
    (hfork : ¬ (ForkInEffect Fork.FORK_CARRYINGCAP acc.gs.nHeight = true
      ∧ ForkInEffect Fork.FORK_LESSHEARTS acc.gs.nHeight = false))
    (h : killSpawnCharacter ForkInEffect pid acc i = some a1) :
    i ∈ a1.toErase ∧ (i = 0 → a1.step.records pid Reason.KILLED_SPAWN) := by
  unfold killSpawnCharacter at h
  rw [hch] at h
  simp only at h
  have hn : ∀ c, (acc.gs.setCharacter pid i c).nHeight = acc.gs.nHeight := fun _ => rfl
  rw [if_neg (by rw [hin]; decide), if_neg (not_not.mpr hess),
    if_neg (by rw [hstay]; exact lt_irrefl _), hn, if_neg hfork] at h
  cases hk : (acc.gs.setCharacter pid i
      { ch with stay_in_spawn_area := (ch.stay_in_spawn_area + 1) % 256 }).HandleKilledLoot
      ForkInEffect pid i false true acc.step with
  | none => rw [hk] at h; simp at h
  | some r =>
    rw [hk] at h
    simp only [Option.some.injEq] at h
    rw [← h]
    refine ⟨by simp, ?_⟩
    intro hi
    simp only [if_pos hi]
    exact records_KillPlayer_self _ _ _

/-- What `KillSpawnArea` does to a character that overstays, whenever it
returns. -/
theorem KillSpawnArea_overstay (ForkInEffect : Fork → Int → Bool) (gs : GameState)
    (step : StepResult) (pid : PlayerID) (i : Int) (pl : PlayerState) (ch : CharacterState)
    (hp : gs.players.find pid = some pl) (hc : pl.characters.find i = some ch)
    (hin : IsInSpawnArea ch.coord.x ch.coord.y = true)
    (hstay : ch.stay_in_spawn_area = MAX_STAY_IN_SPAWN_AREA)
    (hess : ch.ai_state2 &&& AI_STATE2_ESSENTIAL = 0)
    (hfork : ¬ (ForkInEffect Fork.FORK_CARRYINGCAP gs.nHeight = true
      ∧ ForkInEffect Fork.FORK_LESSHEARTS gs.nHeight = false))
    (r : GameState × StepResult) (h : gs.KillSpawnArea ForkInEffect step = some r) :
    (∃ pl1, r.1.players.find pid = some pl1 ∧ pl1.characters.find i = none)
      ∧ (i = 0 → r.2.records pid Reason.KILLED_SPAWN) := by
  unfold GameState.KillSpawnArea at h
  refine foldlM_focus (killSpawnPlayer ForkInEffect)
    (fun a => a.1.players.find pid = some pl ∧ a.1.nHeight = gs.nHeight)
    (fun a => (∃ pl1, a.1.players.find pid = some pl1 ∧ pl1.characters.find i = none)
      ∧ (i = 0 → a.2.records pid Reason.KILLED_SPAWN))
    pid gs.players.keys gs.players.keys_nodup
    ((StdMap.mem_keys gs.players pid).mpr ⟨pl, hp⟩) ?_ ?_ ?_ (gs, step) r ⟨hp, rfl⟩ h
  · intro b x b1 _ hx hb hb1
    obtain ⟨f1, f2, _⟩ := killSpawnPlayer_frame ForkInEffect b b1 x hb1
    exact ⟨by rw [f1 pid (Ne.symm hx)]; exact hb.1, by rw [f2]; exact hb.2⟩
  · intro b b1 hb hb1
    unfold killSpawnPlayer at hb1
    rw [hb.1] at hb1
    simp only at hb1
    cases hl : pl.characters.keys.foldlM (killSpawnCharacter ForkInEffect pid)
        { gs := b.1, step := b.2, toErase := [] } with
    | none => rw [hl] at hb1; simp at hb1
    | some s =>
      rw [hl] at hb1
      simp only [Option.some.injEq] at hb1
      have hfoc := foldlM_focus (killSpawnCharacter ForkInEffect pid)
        (fun a => a.gs.findCharacter pid i = some ch ∧ a.gs.nHeight = gs.nHeight
          ∧ (a.gs.players.find pid).isSome = true)
        (fun a => i ∈ a.toErase ∧ (i = 0 → a.step.records pid Reason.KILLED_SPAWN)
          ∧ (a.gs.players.find pid).isSome = true)
        i pl.characters.keys pl.characters.keys_nodup
        ((StdMap.mem_keys pl.characters i).mpr ⟨ch, hc⟩)
        (by
          intro c x c1 _ hx hcI hc1
          obtain ⟨_, _, _, s3, _, _⟩ := killSpawnCharacter_shape ForkInEffect pid c c1 x hc1
          obtain ⟨_, f2, f3, _⟩ := killSpawnCharacter_frame ForkInEffect pid c c1 x hc1
          exact ⟨by rw [f2 pid i (fun hh => hx hh.2.symm)]; exact hcI.1,
            by rw [s3]; exact hcI.2.1, by rw [f3]; exact hcI.2.2⟩)
        (by
          intro c c1 hcI hc1
          obtain ⟨_, _, f3, _⟩ := killSpawnCharacter_frame ForkInEffect pid c c1 i hc1
          obtain ⟨k1, k2⟩ := killSpawnCharacter_overstay ForkInEffect pid c c1 i ch hcI.1 hin
            hstay hess (by rw [hcI.2.1]; exact hfork) hc1
          exact ⟨k1, k2, by rw [f3]; exact hcI.2.2⟩)
        (by
          intro c x c1 _ _ hcQ hc1
          obtain ⟨_, _, _, _, s4, s5⟩ := killSpawnCharacter_shape ForkInEffect pid c c1 x hc1
          obtain ⟨_, _, f3, _⟩ := killSpawnCharacter_frame ForkInEffect pid c c1 x hc1
          refine ⟨?_, fun hi => s4 _ _ (hcQ.2.1 hi), by rw [f3]; exact hcQ.2.2⟩
          rcases s5 with s5 | s5
          · rw [s5]; exact hcQ.1
          · rw [s5]; exact List.mem_append_left _ hcQ.1)
        { gs := b.1, step := b.2, toErase := [] } s
        ⟨by unfold GameState.findCharacter; rw [hb.1]; exact hc, hb.2, by rw [hb.1]; rfl⟩ hl
      have hfoc2 : i ∈ s.toErase ∧ (i = 0 → s.step.records pid Reason.KILLED_SPAWN)
          ∧ (s.gs.players.find pid).isSome = true := hfoc
      rw [← hb1]
      refine ⟨?_, hfoc2.2.1⟩
      cases hs : s.gs.players.find pid with
      | none =>
        have h3 := hfoc2.2.2
        rw [hs] at h3
        simp at h3
      | some pl2 =>
        refine ⟨{ pl2 with
          characters := s.toErase.foldl (fun m i => m.erase i) pl2.characters }, ?_, ?_⟩
        · simp only [StdMap.find_modify, if_pos, hs, Option.map_some']
        · simp only [StdMap.find_foldl_erase, if_pos hfoc2.1]
  · intro b x b1 _ hx hb hb1
    obtain ⟨f1, _, f3⟩ := killSpawnPlayer_frame ForkInEffect b b1 x hb1
    obtain ⟨⟨pl1, h1, h2⟩, h3⟩ := hb
    exact ⟨⟨pl1, by rw [f1 pid (Ne.symm hx)]; exact h1, h2⟩, fun hi => f3 _ _ (h3 hi)⟩

theorem stateOfGeneral_find (ch : CharacterState) (pid : PlayerID) (pl : PlayerState)
    (h : (stateOfGeneral ch).players.find pid = some pl) :
    pid = ⟨"alice"⟩ ∧ pl = { samplePlayer with characters := StdMap.empty.set 0 ch } := by
  unfold stateOfGeneral at h
  simp only [StdMap.find_set] at h
  by_cases hp : pid = ⟨"alice"⟩
  · rw [if_pos hp] at h
    simp only [Option.some.injEq] at h
    exact ⟨hp, h.symm⟩
  · rw [if_neg hp] at h
    exact absurd h (by simp [StdMap.find, StdMap.empty, rawFind])

theorem stateOfGeneral_lootWellFormed (ch : CharacterState) (h : 0 ≤ ch.loot.nAmount) :
    (stateOfGeneral ch).lootWellFormed := by
  intro pid pl hp i c hc
  obtain ⟨_, hpl⟩ := stateOfGeneral_find ch pid pl hp
  rw [hpl] at hc ⊢
  simp only [StdMap.find_set] at hc
  by_cases hi : i = 0
  · rw [if_pos hi] at hc
    simp only [Option.some.injEq] at hc
    rw [← hc, hi]
    exact ⟨le_refl _, h, fun _ => (by decide : (0 : Int) ≤ samplePlayer.coinAmount)⟩
  · rw [if_neg hi] at hc
    exact absurd hc (by simp [StdMap.find, StdMap.empty, rawFind])

/-- C24, as stated, fails: a general that stands in the spawn area with a
stay of 30 and is flagged essential is skipped, and between the forks
`FORK_CARRYINGCAP` and `FORK_LESSHEARTS` spawn death is disabled; in both
cases the character stays in the map and nobody is recorded as killed. -/
theorem C24_counterexample :
    IsInSpawnArea overstayGeneral.coord.x overstayGeneral.coord.y = true
      ∧ overstayGeneral.stay_in_spawn_area = MAX_STAY_IN_SPAWN_AREA
      ∧ ((stateOfGeneral { overstayGeneral with ai_state2 := AI_STATE2_ESSENTIAL }).KillSpawnArea
            noFork {}).map
          (fun r => ((r.1.players.find ⟨"alice"⟩).map (fun p => p.characters.keys),
            r.2.killedPlayers.keys))
          = some (some [0], [])
      ∧ ((stateOfGeneral overstayGeneral).KillSpawnArea betweenForks {}).map
          (fun r => ((r.1.players.find ⟨"alice"⟩).map (fun p => p.characters.keys),
            r.2.killedPlayers.keys))
          = some (some [0], []) := by
  refine ⟨by decide, by decide, by decide, by decide⟩

/-- C24 (amended): a character that stands in the spawn area with
`stay_in_spawn_area` equal to `MAX_STAY_IN_SPAWN_AREA`, is not flagged
essential, at a height where spawn death is not disabled (not between
`FORK_CARRYINGCAP` and `FORK_LESSHEARTS`), is removed from its player's
character map by `KillSpawnArea`, and if its index is 0 the player is recorded
as killed with reason `KILLED_SPAWN`; `KillSpawnArea` returns on every state
with non-negative indices, loot and locked amounts. -/
theorem C24_spawn_overstay (ForkInEffect : Fork → Int → Bool) (gs : GameState)
    (step : StepResult) (pid : PlayerID) (i : Int) (pl : PlayerState) (ch : CharacterState)
    (hp : gs.players.find pid = some pl) (hc : pl.characters.find i = some ch)
    (hin : IsInSpawnArea ch.coord.x ch.coord.y = true)
    (hstay : ch.stay_in_spawn_area = MAX_STAY_IN_SPAWN_AREA)
    (hess : ch.ai_state2 &&& AI_STATE2_ESSENTIAL = 0)
    (hfork : ¬ (ForkInEffect Fork.FORK_CARRYINGCAP gs.nHeight = true
      ∧ ForkInEffect Fork.FORK_LESSHEARTS gs.nHeight = false)) :
    (∀ r, gs.KillSpawnArea ForkInEffect step = some r →
        (∃ pl1, r.1.players.find pid = some pl1 ∧ pl1.characters.find i = none)
          ∧ (i = 0 → r.2.records pid Reason.KILLED_SPAWN))
      ∧ (gs.lootWellFormed → ∃ r, gs.KillSpawnArea ForkInEffect step = some r) :=
  ⟨fun r h => KillSpawnArea_overstay ForkInEffect gs step pid i pl ch hp hc hin hstay hess
      hfork r h,
    fun hw => KillSpawnArea_total ForkInEffect gs step hw⟩

/-- Witness for C24: the general of `alice` overstays and is removed, and
`alice` is recorded as killed. -/
theorem C24_spawn_overstay_witness :
    ∃ r, (stateOfGeneral overstayGeneral).KillSpawnArea noFork {} = some r
      ∧ (∃ pl1, r.1.players.find ⟨"alice"⟩ = some pl1 ∧ pl1.characters.find 0 = none)
      ∧ r.2.records ⟨"alice"⟩ Reason.KILLED_SPAWN := by
  have h := C24_spawn_overstay noFork (stateOfGeneral overstayGeneral) {} ⟨"alice"⟩ 0
    { samplePlayer with characters := StdMap.empty.set 0 overstayGeneral } overstayGeneral
    (by decide) (by decide) (by decide) (by decide) (by decide) (by decide)
  obtain ⟨r, hr⟩ := h.2 (stateOfGeneral_lootWellFormed overstayGeneral (by decide))
  obtain ⟨h1, h2⟩ := h.1 r hr
  exact ⟨r, hr, h1, h2 rfl⟩

/-! ## Poison: `DecrementLife` and `FinaliseKills` -/

theorem DecrementLife_eq (gs : GameState) (step : StepResult) :
    gs.DecrementLife step = gs.players.keys.foldlM decrementLifeBody (gs, step) := rfl

theorem isSome_rawFind_multimapInsert_self {K V : Type} [LinearOrder K]
    (inst : DecidableEq K) (k : K) (v : V) (l : List (K × V)) :
    (@rawFind K V inst k (multimapInsert k v l)).isSome = true := by
  induction l with
  | nil => simp [multimapInsert, rawFind]
  | cons e t ih =>
    simp only [multimapInsert]
    by_cases h : k < e.1
    · rw [if_pos h]; simp [rawFind]
    · rw [if_neg h]
      simp only [rawFind]
      by_cases h1 : e.1 = k
      · rw [if_pos h1]; rfl
      · rw [if_neg h1]; exact ih

theorem isSome_rawFind_multimapInsert_of_isSome {K V : Type} [LinearOrder K]
    (inst : DecidableEq K) (k q : K) (v : V) (l : List (K × V))
    (h : (@rawFind K V inst q l).isSome = true) :
    (@rawFind K V inst q (multimapInsert k v l)).isSome = true := by
  induction l with
  | nil => simp [rawFind] at h
  | cons e t ih =>
    simp only [multimapInsert]
    by_cases h0 : k < e.1
    · rw [if_pos h0]
      simp only [rawFind] at h ⊢
      by_cases h1 : k = q
      · rw [if_pos h1]; rfl
      · rw [if_neg h1]; exact h
    · rw [if_neg h0]
      simp only [rawFind] at h ⊢
      by_cases h1 : e.1 = q
      · rw [if_pos h1]; rfl
      · rw [if_neg h1] at h ⊢
        exact ih h

/-- One round of `DecrementLife`: what it needs and what it does. -/
theorem decrementLifeBody_spec (acc a1 : GameState × StepResult) (pid : PlayerID)
    (h : decrementLifeBody acc pid = some a1) :
    ∃ pl, acc.1.players.find pid = some pl
      ∧ a1.1.players.find pid = some (decrementedLife pl)
      ∧ (∀ q, q ≠ pid → a1.1.players.find q = acc.1.players.find q)
      ∧ (∀ q, q ≠ pid → a1.2.killedPlayers.contains q = acc.2.killedPlayers.contains q)
      ∧ (∀ v r, acc.2.records v r → a1.2.records v r)
      ∧ (pl.remainingLife = 1 → a1.2.records pid Reason.KILLED_POISON)
      ∧ (pl.remainingLife = -1 → a1.2 = acc.2) := by
  unfold decrementLifeBody at h
  cases hp : acc.1.players.find pid with
  | none => rw [hp] at h; simp at h
  | some pl =>
    rw [hp] at h
    simp only at h
    refine ⟨pl, rfl, ?_⟩
    by_cases h1 : pl.remainingLife = -1
    · rw [if_pos h1] at h
      simp only [Option.some.injEq] at h
      rw [← h]
      refine ⟨?_, fun _ _ => rfl, fun _ _ => rfl, fun _ _ hr => hr, ?_, fun _ => rfl⟩
      · unfold decrementedLife
        rw [if_pos h1]; exact hp
      · intro h2; rw [h2] at h1; exact absurd h1 (by decide)
    · rw [if_neg h1] at h
      by_cases h2 : ¬ (pl.remainingLife > 0)
      · rw [if_pos h2] at h; simp at h
      · rw [if_neg h2] at h
        simp only [Option.some.injEq] at h
        rw [← h]
        refine ⟨?_, ?_, ?_, ?_, ?_, fun h3 => absurd h3 h1⟩
        · unfold decrementedLife
          simp only [StdMap.find_modify, if_pos, hp, Option.map_some', if_neg h1]
        · intro q hq
          simp only [StdMap.find_modify, if_neg hq]
        · intro q hq
          by_cases h3 : pl.remainingLife - 1 = 0
          · simp only [if_pos h3]
            unfold StepResult.KillPlayer StdMap.contains
            simp only [StdMap.find_insert, if_neg hq]
          · simp only [if_neg h3]
        · intro v r hr
          by_cases h3 : pl.remainingLife - 1 = 0
          · simp only [if_pos h3]
            exact records_KillPlayer_of_records _ _ _ _ _ hr
          · simp only [if_neg h3]; exact hr
        · intro h3
          simp only [if_pos (show pl.remainingLife - 1 = 0 by rw [h3]; rfl)]
          exact records_KillPlayer_self _ _ _

/-- One round of `DecrementLife` returns when the counter of the player is
-1 or positive, and keeps the step consistent. -/
theorem decrementLifeBody_total (acc : GameState × StepResult) (pid : PlayerID)
    (pl : PlayerState) (hp : acc.1.players.find pid = some pl)
    (hl : pl.remainingLife = -1 ∨ pl.remainingLife > 0) (hs : acc.2.consistentWith acc.1) :
    ∃ a1, decrementLifeBody acc pid = some a1 ∧ a1.2.consistentWith a1.1 := by
  unfold decrementLifeBody
  rw [hp]
  simp only
  by_cases h1 : pl.remainingLife = -1
  · rw [if_pos h1]; exact ⟨acc, rfl, hs⟩
  · rw [if_neg h1]
    have h2 : pl.remainingLife > 0 := by
      rcases hl with h | h
      · exact absurd h h1
      · exact h
    rw [if_neg (not_not.mpr h2)]
    refine ⟨_, rfl, ?_⟩
    have hsome : ∀ v, ((acc.1.players.modify pid
        (fun p => { p with remainingLife := p.remainingLife - 1 })).find v).isSome
        = (acc.1.players.find v).isSome := by
      intro v
      simp only [StdMap.find_modify]
      by_cases hv : v = pid
      · rw [if_pos hv, hv]
        cases acc.1.players.find pid <;> rfl
      · rw [if_neg hv]
    intro v hv
    simp only at hv ⊢
    rw [hsome]
    by_cases h3 : pl.remainingLife - 1 = 0
    · simp only [if_pos h3] at hv ⊢
      unfold StepResult.KillPlayer at hv ⊢
      simp only at hv ⊢
      by_cases hvp : v = pid
      · rw [hvp, hp]
        exact ⟨rfl, isSome_rawFind_multimapInsert_self _ _ _ _⟩
      · unfold StdMap.contains at hv
        simp only [StdMap.find_insert, if_neg hvp] at hv
        have h4 := hs v hv
        exact ⟨h4.1, isSome_rawFind_multimapInsert_of_isSome _ _ _ _ _ h4.2⟩
    · simp only [if_neg h3] at hv ⊢
      exact hs v hv

/-- A loop whose body returns under an invariant that may depend on the
elements still to come returns. -/
theorem foldlM_some_of_rest {α β : Type} (f : β → α → Option β) (I : List α → β → Prop)
    (h : ∀ x t b, I (x :: t) b → ∃ b1, f b x = some b1 ∧ I t b1) :
    ∀ l b, I l b → ∃ b1, l.foldlM f b = some b1 ∧ I [] b1 := by
  intro l
  induction l with
  | nil => intro b hb; exact ⟨b, rfl, hb⟩
  | cons x t ih =>
    intro b hb
    obtain ⟨b2, hx, hb2⟩ := h x t b hb
    simp only [List.foldlM_cons, Option.bind_eq_bind, hx, Option.some_bind]
    exact ih b2 hb2

theorem decrementLifeBody_isSome (acc : GameState × StepResult) (pid : PlayerID)
    (pl : PlayerState) (hp : acc.1.players.find pid = some pl)
    (hl : pl.remainingLife = -1 ∨ pl.remainingLife > 0) :
    ∃ a1, decrementLifeBody acc pid = some a1 := by
  unfold decrementLifeBody
  rw [hp]
  simp only
  by_cases h1 : pl.remainingLife = -1
  · rw [if_pos h1]; exact ⟨acc, rfl⟩
  · rw [if_neg h1]
    have h2 : pl.remainingLife > 0 := by
      rcases hl with h | h
      · exact absurd h h1
      · exact h
    rw [if_neg (not_not.mpr h2)]
    exact ⟨_, rfl⟩

theorem decrementLifeBody_consistent (acc a1 : GameState × StepResult) (pid : PlayerID)
    (h : decrementLifeBody acc pid = some a1) (hs : acc.2.consistentWith acc.1) :
    a1.2.consistentWith a1.1 := by
  obtain ⟨pl, hp, _, _, _, _, _, _⟩ := decrementLifeBody_spec acc a1 pid h
  have hl : pl.remainingLife = -1 ∨ pl.remainingLife > 0 := by
    unfold decrementLifeBody at h
    rw [hp] at h
    simp only at h
    by_cases h1 : pl.remainingLife = -1
    · exact Or.inl h1
    · rw [if_neg h1] at h
      by_cases h2 : ¬ (pl.remainingLife > 0)
      · rw [if_pos h2] at h; simp at h
      · exact Or.inr (not_not.mp h2)
  obtain ⟨a2, ha2, hc2⟩ := decrementLifeBody_total acc pid pl hp hl hs
  rw [h] at ha2
  simp only [Option.some.injEq] at ha2
  rw [ha2]; exact hc2

/-- The players after `DecrementLife`. -/
theorem DecrementLife_find (gs : GameState) (step : StepResult) (r : GameState × StepResult)
    (h : gs.DecrementLife step = some r) (q : PlayerID) :
    r.1.players.find q = (gs.players.find q).map decrementedLife := by
  rw [DecrementLife_eq] at h
  by_cases hq : q ∈ gs.players.keys
  · refine foldlM_focus decrementLifeBody
      (fun a => a.1.players.find q = gs.players.find q)
      (fun a => a.1.players.find q = (gs.players.find q).map decrementedLife)
      q gs.players.keys gs.players.keys_nodup hq ?_ ?_ ?_ (gs, step) r rfl h
    · intro b x b1 _ hx hb hb1
      obtain ⟨_, _, _, f, _⟩ := decrementLifeBody_spec b b1 x hb1
      show b1.1.players.find q = gs.players.find q
      rw [f q (Ne.symm hx)]; exact hb
    · intro b b1 hb hb1
      obtain ⟨pl, h1, h2, _⟩ := decrementLifeBody_spec b b1 q hb1
      show b1.1.players.find q = (gs.players.find q).map decrementedLife
      have hb2 : b.1.players.find q = gs.players.find q := hb
      rw [h2, ← hb2, h1]; rfl
    · intro b x b1 _ hx hb hb1
      obtain ⟨_, _, _, f, _⟩ := decrementLifeBody_spec b b1 x hb1
      show b1.1.players.find q = (gs.players.find q).map decrementedLife
      rw [f q (Ne.symm hx)]; exact hb
  · have hnone : gs.players.find q = none := by
      cases hf : gs.players.find q with
      | none => rfl
      | some v => exact absurd ((StdMap.mem_keys gs.players q).mpr ⟨v, hf⟩) hq
    rw [hnone]
    refine foldlM_inv decrementLifeBody (fun a => a.1.players.find q = none)
      gs.players.keys ?_ (gs, step) r hnone h
    intro b x b1 hx hb hb1
    obtain ⟨_, _, _, f, _⟩ := decrementLifeBody_spec b b1 x hb1
    show b1.1.players.find q = none
    rw [f q (fun hqx => hq (hqx ▸ hx))]; exact hb

/-- The record of the kills after `DecrementLife`. -/
theorem DecrementLife_records (gs : GameState) (step : StepResult)
    (r : GameState × StepResult) (h : gs.DecrementLife step = some r) :
    (∀ v rr, step.records v rr → r.2.records v rr)
      ∧ (∀ q pl, gs.players.find q = some pl → pl.remainingLife = 1 →
          r.2.records q Reason.KILLED_POISON)
      ∧ (∀ q pl, gs.players.find q = some pl → pl.remainingLife = -1 →
          r.2.killedPlayers.contains q = step.killedPlayers.contains q) := by
  rw [DecrementLife_eq] at h
  refine ⟨?_, ?_, ?_⟩
  · intro v rr hr
    refine foldlM_inv decrementLifeBody (fun a => a.2.records v rr) gs.players.keys ?_
      (gs, step) r hr h
    intro b x b1 _ hb hb1
    obtain ⟨_, _, _, _, _, f, _⟩ := decrementLifeBody_spec b b1 x hb1
    exact f v rr hb
  · intro q pl hq hl
    refine foldlM_focus decrementLifeBody
      (fun a => a.1.players.find q = gs.players.find q)
      (fun a => a.2.records q Reason.KILLED_POISON)
      q gs.players.keys gs.players.keys_nodup ((StdMap.mem_keys gs.players q).mpr ⟨pl, hq⟩)
      ?_ ?_ ?_ (gs, step) r rfl h
    · intro b x b1 _ hx hb hb1
      obtain ⟨_, _, _, f, _⟩ := decrementLifeBody_spec b b1 x hb1
      show b1.1.players.find q = gs.players.find q
      rw [f q (Ne.symm hx)]; exact hb
    · intro b b1 hb hb1
      obtain ⟨pl1, h1, _, _, _, _, f, _⟩ := decrementLifeBody_spec b b1 q hb1
      have hb2 : b.1.players.find q = gs.players.find q := hb
      rw [hb2, hq] at h1
      simp only [Option.some.injEq] at h1
      exact f (by rw [← h1]; exact hl)
    · intro b x b1 _ _ hb hb1
      obtain ⟨_, _, _, _, _, f, _⟩ := decrementLifeBody_spec b b1 x hb1
      exact f _ _ hb
  · intro q pl hq hl
    refine foldlM_focus decrementLifeBody
      (fun a => a.1.players.find q = gs.players.find q
        ∧ a.2.killedPlayers.contains q = step.killedPlayers.contains q)
      (fun a => a.2.killedPlayers.contains q = step.killedPlayers.contains q)
      q gs.players.keys gs.players.keys_nodup ((StdMap.mem_keys gs.players q).mpr ⟨pl, hq⟩)
      ?_ ?_ ?_ (gs, step) r ⟨rfl, rfl⟩ h
    · intro b x b1 _ hx hb hb1
      obtain ⟨_, _, _, f, g, _⟩ := decrementLifeBody_spec b b1 x hb1
      exact ⟨by rw [f q (Ne.symm hx)]; exact hb.1, by rw [g q (Ne.symm hx)]; exact hb.2⟩
    · intro b b1 hb hb1
      obtain ⟨pl1, h1, _, _, _, _, _, f⟩ := decrementLifeBody_spec b b1 q hb1
      rw [hb.1, hq] at h1
      simp only [Option.some.injEq] at h1
      show b1.2.killedPlayers.contains q = step.killedPlayers.contains q
      rw [f (by rw [← h1]; exact hl)]; exact hb.2
    · intro b x b1 _ hx hb hb1
      obtain ⟨_, _, _, _, g, _⟩ := decrementLifeBody_spec b b1 x hb1
      show b1.2.killedPlayers.contains q = step.killedPlayers.contains q
      rw [g q (Ne.symm hx)]; exact hb

/-- The method `DecrementLife` returns when every counter is -1 or
positive. -/
theorem DecrementLife_total (gs : GameState) (step : StepResult)
    (hlife : ∀ pid pl, gs.players.find pid = some pl →
      pl.remainingLife = -1 ∨ pl.remainingLife > 0) :
    ∃ r, gs.DecrementLife step = some r := by
  rw [DecrementLife_eq]
  obtain ⟨r, hr, _⟩ := foldlM_some_of_rest decrementLifeBody
    (fun t a => t.Nodup ∧ ∀ q ∈ t, q ∈ gs.players.keys
      ∧ a.1.players.find q = gs.players.find q)
    (by
      intro x t b hb
      have hnd := List.nodup_cons.mp hb.1
      obtain ⟨hx1, hx2⟩ := hb.2 x (List.mem_cons_self _ _)
      obtain ⟨pl, hpl⟩ := (StdMap.mem_keys gs.players x).mp hx1
      obtain ⟨b1, hb1⟩ := decrementLifeBody_isSome b x pl (by rw [hx2]; exact hpl)
        (hlife x pl hpl)
      obtain ⟨_, _, _, f, _⟩ := decrementLifeBody_spec b b1 x hb1
      refine ⟨b1, hb1, hnd.2, ?_⟩
      intro q hq
      obtain ⟨hq1, hq2⟩ := hb.2 q (List.mem_cons_of_mem _ hq)
      exact ⟨hq1, by rw [f q (fun hqx => hnd.1 (hqx ▸ hq))]; exact hq2⟩)
    gs.players.keys (gs, step) ⟨gs.players.keys_nodup, fun q hq => ⟨hq, rfl⟩⟩
  exact ⟨r, hr⟩

theorem DecrementLife_consistent (gs : GameState) (step : StepResult)
    (r : GameState × StepResult) (h : gs.DecrementLife step = some r)
    (hs : step.consistentWith gs) : r.2.consistentWith r.1 := by
  rw [DecrementLife_eq] at h
  exact foldlM_inv decrementLifeBody (fun a => a.2.consistentWith a.1) gs.players.keys
    (fun b x b1 _ hb hb1 => decrementLifeBody_consistent b b1 x hb1 hb) (gs, step) r hs h

theorem DecrementLife_lootWellFormed (gs : GameState) (step : StepResult)
    (r : GameState × StepResult) (h : gs.DecrementLife step = some r)
    (hw : gs.lootWellFormed) : r.1.lootWellFormed := by
  intro q pl hq i c hc
  rw [DecrementLife_find gs step r h q] at hq
  cases hp : gs.players.find q with
  | none => rw [hp] at hq; simp at hq
  | some pl0 =>
    rw [hp] at hq
    simp only [Option.map_some', Option.some.injEq] at hq
    have hch : pl.characters = pl0.characters ∧ pl.coinAmount = pl0.coinAmount := by
      rw [← hq]
      unfold decrementedLife
      by_cases h1 : pl0.remainingLife = -1
      · rw [if_pos h1]; exact ⟨rfl, rfl⟩
      · rw [if_neg h1]; exact ⟨rfl, rfl⟩
    rw [hch.1] at hc
    rw [hch.2]
    exact hw q pl0 hp i c hc

/-- The loop of `FinaliseKills` over the characters of one victim. -/
theorem finaliseVictim_frame (ForkInEffect : Fork → Int → Bool) (victim : PlayerID)
    (hasTax : Bool) (keys : List Int) (a r : GameState × StepResult)
    (h : keys.foldlM
      (fun (a : GameState × StepResult) i =>
        a.1.HandleKilledLoot ForkInEffect victim i hasTax false a.2) a = some r) :
    r.1.players = a.1.players ∧ r.2.killedPlayers = a.2.killedPlayers
      ∧ r.2.killedBy = a.2.killedBy := by
  refine foldlM_inv _
    (fun b => b.1.players = a.1.players ∧ b.2.killedPlayers = a.2.killedPlayers
      ∧ b.2.killedBy = a.2.killedBy) keys ?_ a r ⟨rfl, rfl, rfl⟩ h
  intro b x b1 _ hb hb1
  obtain ⟨f1, _, f3, f4⟩ := HandleKilledLoot_frame _ _ _ _ _ _ _ b1 hb1
  exact ⟨by rw [f1]; exact hb.1, by rw [f3]; exact hb.2.1, by rw [f4]; exact hb.2.2⟩

theorem FinaliseKills_eq (ForkInEffect : Fork → Int → Bool) (gs : GameState)
    (step : StepResult) :
    gs.FinaliseKills ForkInEffect step
      = match step.killedPlayers.keys.foldlM (finaliseVictim ForkInEffect step) (gs, step) with
        | none => none
        | some r =>
          some
            ({ r.1 with
                players := step.killedPlayers.keys.foldl (fun m v => m.erase v) r.1.players },
              r.2) := rfl

/-- The players and the record of the kills after `FinaliseKills`: the killed
players are erased, nothing else changes among the players. -/
theorem FinaliseKills_spec (ForkInEffect : Fork → Int → Bool) (gs : GameState)
    (step : StepResult) (r : GameState × StepResult)
    (h : gs.FinaliseKills ForkInEffect step = some r) :
    (∀ q, r.1.players.find q
        = if step.killedPlayers.contains q = true then none else gs.players.find q)
      ∧ r.2.killedPlayers = step.killedPlayers ∧ r.2.killedBy = step.killedBy := by
  rw [FinaliseKills_eq] at h
  cases hl : step.killedPlayers.keys.foldlM (finaliseVictim ForkInEffect step) (gs, step) with
  | none => rw [hl] at h; simp at h
  | some s =>
    rw [hl] at h
    simp only [Option.some.injEq] at h
    have hinv := foldlM_inv (finaliseVictim ForkInEffect step)
      (fun (b : GameState × StepResult) => b.1.players = gs.players
        ∧ b.2.killedPlayers = step.killedPlayers ∧ b.2.killedBy = step.killedBy)
      step.killedPlayers.keys
      (by
        intro b x b1 _ hb hb1
        unfold finaliseVictim at hb1
        cases hv : b.1.players.find x with
        | none => rw [hv] at hb1; simp at hb1
        | some victimState =>
          cases hk : rawFind x step.killedBy with
          | none => rw [hv, hk] at hb1; simp at hb1
          | some killer =>
            rw [hv, hk] at hb1
            simp only at hb1
            obtain ⟨f1, f2, f3⟩ := finaliseVictim_frame ForkInEffect x killer.HasDeathTax
              victimState.characters.keys b b1 hb1
            exact ⟨by rw [f1]; exact hb.1, by rw [f2]; exact hb.2.1, by rw [f3]; exact hb.2.2⟩)
      (gs, step) s ⟨rfl, rfl, rfl⟩ hl
    rw [← h]
    refine ⟨?_, hinv.2.1, hinv.2.2⟩
    intro q
    simp only [StdMap.find_foldl_erase, hinv.1]
    by_cases hq : q ∈ step.killedPlayers.keys
    · rw [if_pos hq]
      obtain ⟨v, hv⟩ := (StdMap.mem_keys _ q).mp hq
      unfold StdMap.contains
      rw [hv]; rfl
    · rw [if_neg hq]
      have hnone : step.killedPlayers.find q = none := by
        cases hf : step.killedPlayers.find q with
        | none => rfl
        | some v => exact absurd ((StdMap.mem_keys _ q).mpr ⟨v, hf⟩) hq
      unfold StdMap.contains
      rw [hnone]; rfl

/-- The method `FinaliseKills` returns on a well-formed state with a
consistent step. -/
theorem FinaliseKills_total (ForkInEffect : Fork → Int → Bool) (gs : GameState)
    (step : StepResult) (hw : gs.lootWellFormed) (hs : step.consistentWith gs) :
    ∃ r, gs.FinaliseKills ForkInEffect step = some r := by
  rw [FinaliseKills_eq]
  obtain ⟨s, hsl, _⟩ := foldlM_some_of_inv (finaliseVictim ForkInEffect step)
    (fun b => b.1.players = gs.players) step.killedPlayers.keys
    (by
      intro b x hx hb
      obtain ⟨v, hv⟩ := (StdMap.mem_keys _ x).mp hx
      obtain ⟨c1, c2⟩ := hs x (by unfold StdMap.contains; rw [hv]; rfl)
      cases hp : gs.players.find x with
      | none => rw [hp] at c1; simp at c1
      | some victimState =>
        cases hk : rawFind x step.killedBy with
        | none => rw [hk] at c2; simp at c2
        | some killer =>
          unfold finaliseVictim
          rw [hb, hp, hk]
          simp only
          obtain ⟨b1, hb1, hb2⟩ := foldlM_some_of_inv
            (fun (a : GameState × StepResult) i =>
              a.1.HandleKilledLoot ForkInEffect x i killer.HasDeathTax false a.2)
            (fun a => a.1.players = gs.players) victimState.characters.keys
            (by
              intro a i hi ha
              obtain ⟨c, hc⟩ := (StdMap.mem_keys _ i).mp hi
              obtain ⟨a1, ha1⟩ := HandleKilledLoot_isSome ForkInEffect a.1 x i
                killer.HasDeathTax false a.2 (lootWellFormed_of_players _ _ ha hw)
                (by
                  unfold GameState.findCharacter
                  rw [ha, hp]
                  simp only [Option.some_bind]
                  rw [hc]; rfl)
              obtain ⟨f1, _⟩ := HandleKilledLoot_frame _ _ _ _ _ _ _ a1 ha1
              exact ⟨a1, ha1, f1.trans ha⟩)
            b hb
          exact ⟨b1, hb1, hb2⟩)
    (gs, step) rfl
  rw [hsl]
  exact ⟨_, rfl⟩

/-- C25: if every player has `remainingLife = -1` or `> 0`, then
`DecrementLife` returns, and after `FinaliseKills` every remaining player has
`remainingLife = -1` or `> 0` again; a player whose counter reaches 0 is
recorded as killed with reason `KILLED_POISON` and erased; a player with
`remainingLife = -1` that the step has not killed is unchanged; on a state
with non-negative indices, loot and locked amounts and a step whose killed
players exist, `FinaliseKills` returns as well. -/
theorem C25_poison_counter (ForkInEffect : Fork → Int → Bool) (gs : GameState)
    (step : StepResult)
    (hlife : ∀ pid pl, gs.players.find pid = some pl →
      pl.remainingLife = -1 ∨ pl.remainingLife > 0) :
    (∃ r1, gs.DecrementLife step = some r1
      ∧ ∀ r2, r1.1.FinaliseKills ForkInEffect r1.2 = some r2 →
        (∀ pid pl2, r2.1.players.find pid = some pl2 →
          pl2.remainingLife = -1 ∨ pl2.remainingLife > 0)
        ∧ (∀ pid pl, gs.players.find pid = some pl → pl.remainingLife = 1 →
            r2.2.records pid Reason.KILLED_POISON ∧ r2.1.players.find pid = none)
        ∧ (∀ pid pl, gs.players.find pid = some pl → pl.remainingLife = -1 →
            r2.1.players.find pid
              = if step.killedPlayers.contains pid = true then none else some pl))
      ∧ (gs.lootWellFormed → step.consistentWith gs →
          ∃ r1 r2, gs.DecrementLife step = some r1
            ∧ r1.1.FinaliseKills ForkInEffect r1.2 = some r2) := by
  obtain ⟨r1, hr1⟩ := DecrementLife_total gs step hlife
  have hfind := DecrementLife_find gs step r1 hr1
  obtain ⟨_, hrec, hkeep⟩ := DecrementLife_records gs step r1 hr1
  refine ⟨⟨r1, hr1, ?_⟩, ?_⟩
  · intro r2 hr2
    obtain ⟨g1, g2, g3⟩ := FinaliseKills_spec ForkInEffect r1.1 r1.2 r2 hr2
    have hrecords : ∀ v rr, r1.2.records v rr → r2.2.records v rr := by
      intro v rr hr
      unfold StepResult.records at hr ⊢
      rw [g2, g3]; exact hr
    refine ⟨?_, ?_, ?_⟩
    · intro pid pl2 hp2
      rw [g1 pid] at hp2
      by_cases hk : r1.2.killedPlayers.contains pid = true
      · rw [if_pos hk] at hp2; simp at hp2
      · rw [if_neg hk, hfind pid] at hp2
        cases hp : gs.players.find pid with
        | none => rw [hp] at hp2; simp at hp2
        | some pl =>
          rw [hp] at hp2
          simp only [Option.map_some', Option.some.injEq] at hp2
          rw [← hp2]
          unfold decrementedLife
          by_cases h1 : pl.remainingLife = -1
          · rw [if_pos h1]; exact Or.inl h1
          · rw [if_neg h1]
            right
            have h2 : pl.remainingLife > 0 := by
              rcases hlife pid pl hp with h | h
              · exact absurd h h1
              · exact h
            have h3 : pl.remainingLife ≠ 1 := by
              intro h3
              exact hk (hrec pid pl hp h3).1
            show pl.remainingLife - 1 > 0
            omega
    · intro pid pl hp h1
      have hr := hrec pid pl hp h1
      refine ⟨hrecords _ _ hr, ?_⟩
      rw [g1 pid, if_pos hr.1]
    · intro pid pl hp h1
      rw [g1 pid, hkeep pid pl hp h1, hfind pid, hp]
      simp only [Option.map_some']
      unfold decrementedLife
      rw [if_pos h1]
  · intro hw hs
    obtain ⟨r2, hr2⟩ := FinaliseKills_total ForkInEffect r1.1 r1.2
      (DecrementLife_lootWellFormed gs step r1 hr1 hw)
      (DecrementLife_consistent gs step r1 hr1 hs)
    exact ⟨r1, r2, hr1, hr2⟩

theorem poisonState_life :
    ∀ pid pl, poisonState.players.find pid = some pl →
      pl.remainingLife = -1 ∨ pl.remainingLife > 0 := by
  intro pid pl h
  unfold poisonState at h
  simp only [StdMap.find_set] at h
  by_cases h1 : pid = ⟨"cat"⟩
  · rw [if_pos h1] at h
    simp only [Option.some.injEq] at h
    rw [← h]; right; decide
  · rw [if_neg h1] at h
    by_cases h2 : pid = ⟨"bob"⟩
    · rw [if_pos h2] at h
      simp only [Option.some.injEq] at h
      rw [← h]; right; decide
    · rw [if_neg h2] at h
      by_cases h3 : pid = ⟨"ann"⟩
      · rw [if_pos h3] at h
        simp only [Option.some.injEq] at h
        rw [← h]; left; rfl
      · rw [if_neg h3] at h
        exact absurd h (by simp [StdMap.find, StdMap.empty, rawFind])

/-- Witness for C25: in `poisonState` the two functions return, `cat` is
erased and recorded as killed by poison, `ann` and `bob` remain. -/
theorem C25_poison_counter_witness :
    (∃ r1, poisonState.DecrementLife {} = some r1
      ∧ ∀ r2, r1.1.FinaliseKills noFork r1.2 = some r2 →
        r2.2.records ⟨"cat"⟩ Reason.KILLED_POISON ∧ r2.1.players.find ⟨"cat"⟩ = none)
      ∧ ((poisonState.DecrementLife {}).bind (fun r1 => r1.1.FinaliseKills noFork r1.2)).map
          (fun r2 => (r2.1.players.entries.map (fun e => (e.1.name, e.2.remainingLife)),
            r2.2.killedPlayers.keys.map (fun p => p.name)))
        = some ([("ann", -1), ("bob", 1)], ["cat"]) := by
  obtain ⟨⟨r1, hr1, h⟩, _⟩ := C25_poison_counter noFork poisonState {} poisonState_life
  refine ⟨⟨r1, hr1, fun r2 hr2 => ?_⟩, by decide⟩
  exact (h r2 hr2).2.1 ⟨"cat"⟩ { samplePlayer with remainingLife := 1 } (by decide) rfl

/-! ## The flag registers -/

theorem and_low_mask (x : Nat) : x &&& 23 = (x % 32) &&& 23 := by
  have h := Nat.and_pow_two_sub_one_eq_mod x 5
  have h1 : (31 : Nat) &&& 23 = 23 := by decide
  have h2 : (x &&& 31) &&& 23 = x &&& 23 := by rw [Nat.land_assoc, h1]
  rw [← h2]
  congr 1

/-- Clearing the four death flags leaves none of them. -/
theorem clearBits_death (s : Nat) : clearBits s 23 &&& 23 = 0 := by
  unfold clearBits
  have hm : s &&& 23 = (s % 32) &&& 23 := and_low_mask s
  have hle : (s % 32) &&& 23 ≤ s % 32 := Nat.and_le_left
  have hlt : s % 32 < 32 := Nat.mod_lt _ (by decide)
  have hs : s - (s &&& 23) = 32 * (s / 32) + (s % 32 - ((s % 32) &&& 23)) := by
    rw [hm]
    have := Nat.div_add_mod s 32
    omega
  rw [hs, and_low_mask]
  have hmod : (32 * (s / 32) + (s % 32 - ((s % 32) &&& 23))) % 32
      = s % 32 - ((s % 32) &&& 23) := by
    rw [Nat.mul_add_mod]
    exact Nat.mod_eq_of_lt (lt_of_le_of_lt (Nat.sub_le _ _) hlt)
  rw [hmod]
  have hfin : ∀ r : Nat, r < 32 → (r - (r &&& 23)) &&& 23 = 0 := by decide
  exact hfin _ hlt

/-- Clearing the death flags and setting the escape flag leaves no death
flag. -/
theorem clearBits_death_escape (s : Nat) : (clearBits s 23 ||| 32) &&& 23 = 0 := by
  rw [Nat.and_distrib_right, clearBits_death]
  decide

/-- Setting the death flag of a destruct order keeps the register
death-flagged and does not touch the essential flag. -/
theorem or_death_flagged (s : Nat) : (s ||| 4) &&& 23 ≠ 0 := by
  intro h
  have h1 : ((s ||| 4) &&& 23).testBit 2 = Nat.testBit 0 2 := by rw [h]
  rw [Nat.testBit_and, Nat.testBit_or] at h1
  have h2 : Nat.testBit 4 2 = true := by decide
  have h3 : Nat.testBit 23 2 = true := by decide
  have h4 : Nat.testBit 0 2 = false := by decide
  rw [h2, h3, h4, Bool.or_true] at h1
  exact absurd h1 (by decide)

theorem or_death_essential (s : Nat) : (s ||| 4) &&& 8 = s &&& 8 := by
  rw [Nat.and_distrib_right]
  have h : (4 : Nat) &&& 8 = 0 := by decide
  rw [h, Nat.or_zero]

/-- The destruct orders change nothing but the register `ai_state2` of a
character that is no merchant: it stays as it is or gets the death flag. -/
theorem applyDestructOrders_of_not_merchant (destruct : List String) (name : String)
    (ch : CharacterState) (hm : NPCROLE_IS_MERCHANT ch.ai_npc_role = false) :
    applyDestructOrders destruct name ch = ch
      ∨ applyDestructOrders destruct name ch
          = { ch with ai_state2 := ch.ai_state2 ||| AI_STATE2_DEATH_DEATH } := by
  unfold applyDestructOrders
  have key : ∀ (l : List String) (c : CharacterState),
      (c = ch ∨ c = { ch with ai_state2 := ch.ai_state2 ||| AI_STATE2_DEATH_DEATH }) →
      (l.foldl
        (fun c msg =>
          if name = msg then
            let c1 := { c with ai_state2 := c.ai_state2 ||| AI_STATE2_DEATH_DEATH }
            if NPCROLE_IS_MERCHANT c1.ai_npc_role = true
                ∧ c1.ai_state2 &&& AI_STATE2_DEATH_DEATH ≠ 0
            then { c1 with ai_state2 := c1.ai_state2 - AI_STATE2_DEATH_DEATH }
            else c1
          else c) c = ch
        ∨ l.foldl
          (fun c msg =>
            if name = msg then
              let c1 := { c with ai_state2 := c.ai_state2 ||| AI_STATE2_DEATH_DEATH }
              if NPCROLE_IS_MERCHANT c1.ai_npc_role = true
                  ∧ c1.ai_state2 &&& AI_STATE2_DEATH_DEATH ≠ 0
              then { c1 with ai_state2 := c1.ai_state2 - AI_STATE2_DEATH_DEATH }
              else c1
            else c) c
          = { ch with ai_state2 := ch.ai_state2 ||| AI_STATE2_DEATH_DEATH }) := by
    intro l
    induction l with
    | nil => intro c hc; exact hc
    | cons msg t ih =>
      intro c hc
      simp only [List.foldl_cons]
      apply ih
      by_cases hn : name = msg
      · rw [if_pos hn]
        have hrole : NPCROLE_IS_MERCHANT c.ai_npc_role = false := by
          rcases hc with h | h <;> rw [h] <;> exact hm
        simp only [hrole, Bool.false_eq_true, false_and, if_false]
        right
        rcases hc with h | h
        · rw [h]
        · rw [h]
          simp only [Nat.lor_assoc, Nat.or_self]
      · rw [if_neg hn]; exact hc
  exact key destruct ch (Or.inl rfl)

/-! ## `KillRangedAttacks`: saved and recycled characters -/

theorem revived_spec (ch : CharacterState) (ilive : Int) :
    (revived ch ilive).waypoints = [] ∧ (revived ch ilive).from_ = (revived ch ilive).coord
      ∧ (revived ch ilive).coord = ch.coord
      ∧ (revived ch ilive).ai_state2 &&& AI_STATE2_DEATH_ALL = 0
      ∧ (revived ch ilive).ai_slot_amulet = ch.ai_slot_amulet
      ∧ (revived ch ilive).ai_npc_role = ch.ai_npc_role := by
  have hmask : AI_STATE2_DEATH_POISON ||| AI_STATE2_DEATH_FIRE ||| AI_STATE2_DEATH_DEATH
      ||| AI_STATE2_DEATH_LIGHTNING = 23 := by decide
  unfold revived CharacterState.StopMoving
  simp only [hmask]
  by_cases h : ilive ≥ 2
  · rw [if_pos h]
    exact ⟨rfl, rfl, rfl, clearBits_death_escape _, rfl, rfl⟩
  · rw [if_neg h]
    exact ⟨rfl, rfl, rfl, clearBits_death _, rfl, rfl⟩

/-- What the destruct orders leave alone on a character that is no
merchant. -/
theorem applyDestructOrders_facts (destruct : List String) (name : String)
    (ch : CharacterState) (hm : NPCROLE_IS_MERCHANT ch.ai_npc_role = false) :
    (applyDestructOrders destruct name ch).coord = ch.coord
      ∧ (applyDestructOrders destruct name ch).ai_slot_amulet = ch.ai_slot_amulet
      ∧ (applyDestructOrders destruct name ch).ai_npc_role = ch.ai_npc_role
      ∧ (applyDestructOrders destruct name ch).ai_state2 &&& AI_STATE2_ESSENTIAL
          = ch.ai_state2 &&& AI_STATE2_ESSENTIAL
      ∧ (ch.ai_state2 &&& AI_STATE2_DEATH_ALL ≠ 0 →
          (applyDestructOrders destruct name ch).ai_state2 &&& AI_STATE2_DEATH_ALL ≠ 0) := by
  rcases applyDestructOrders_of_not_merchant destruct name ch hm with h | h
  · rw [h]
    exact ⟨rfl, rfl, rfl, rfl, fun h => h⟩
  · rw [h]
    exact ⟨rfl, rfl, rfl, or_death_essential _, fun _ => or_death_flagged _⟩

/-- The round of the inner loop of `KillRangedAttacks` for a character that
is no merchant and that the verdict keeps. -/
theorem killRangedCharacter_revived {W : Type} (destruct : List String) (pid : PlayerID)
    (acc : RangedAcc W) (i : Int) (pl : PlayerState) (ch0 : CharacterState)
    (hp : acc.gs.players.find pid = some pl) (hc : pl.characters.find i = some ch0)
    (hi : 0 ≤ i) (hm : NPCROLE_IS_MERCHANT ch0.ai_npc_role = false)
    (hdie : (rangedVerdict acc.cache (pl.color : Int) i acc.general_is_merchant
      (applyDestructOrders destruct (CharacterID.ToString pid i) ch0)).2.2.1 = true)
    (hlive : (rangedVerdict acc.cache (pl.color : Int) i acc.general_is_merchant
      (applyDestructOrders destruct (CharacterID.ToString pid i) ch0)).2.2.2 ≠ 0) :
    killRangedCharacter destruct pid acc i
      = some { acc with
          gs := acc.gs.setCharacter pid i
            (revived
              (rangedVerdict acc.cache (pl.color : Int) i acc.general_is_merchant
                (applyDestructOrders destruct (CharacterID.ToString pid i) ch0)).1
              (rangedVerdict acc.cache (pl.color : Int) i acc.general_is_merchant
                (applyDestructOrders destruct (CharacterID.ToString pid i) ch0)).2.2.2)
          cache := (rangedVerdict acc.cache (pl.color : Int) i acc.general_is_merchant
            (applyDestructOrders destruct (CharacterID.ToString pid i) ch0)).2.1 } := by
  have hrole := (applyDestructOrders_facts destruct (CharacterID.ToString pid i) ch0 hm).2.2.1
  have hgim : (if i = 0 ∧ NPCROLE_IS_MERCHANT ch0.ai_npc_role = true then true
      else acc.general_is_merchant) = acc.general_is_merchant := by
    rw [if_neg (by rw [hm]; simp)]
  unfold killRangedCharacter
  rw [hp]
  simp only
  rw [hc]
  simp only
  rw [hgim, if_neg (not_lt.mpr hi), if_neg (by rw [hrole, hm]; simp), if_pos hdie,
    if_pos hlive]
  rfl

theorem players_find_of_setCharacter_players (gs gs1 : GameState) (pid : PlayerID) (i : Int)
    (c : CharacterState) (h : gs1.players = (gs.setCharacter pid i c).players) :
    (∀ q, q ≠ pid → gs1.players.find q = gs.players.find q)
      ∧ (∀ q j, ¬ (q = pid ∧ j = i) → gs1.findCharacter q j = gs.findCharacter q j)
      ∧ (∀ q, (gs1.players.find q).isSome = (gs.players.find q).isSome)
      ∧ (∀ q j, (gs1.findCharacter q j).isSome = (gs.findCharacter q j).isSome)
      ∧ gs1.findCharacter pid i = (gs.findCharacter pid i).map (fun _ => c) := by
  refine ⟨?_, ?_, ?_, ?_, ?_⟩
  · intro q hq
    rw [h, find_setCharacter, if_neg hq]
  · intro q j hqj
    rw [findCharacter_of_players _ _ h q j, findCharacter_setCharacter, if_neg hqj]
  · intro q
    rw [h, isSome_find_setCharacter]
  · intro q j
    rw [findCharacter_of_players _ _ h q j, isSome_findCharacter_setCharacter]
  · rw [findCharacter_of_players _ _ h pid i, findCharacter_setCharacter, if_pos ⟨rfl, rfl⟩]

/-- What one round of the inner loop of `KillRangedAttacks` does to the
players: the character `i` of `pid` is written back; `toErase` gets at most
`i`. -/
theorem killRangedCharacter_shape {W : Type} (destruct : List String) (pid : PlayerID)
    (acc a1 : RangedAcc W) (i : Int) (h : killRangedCharacter destruct pid acc i = some a1) :
    ∃ c, a1.gs.players = (acc.gs.setCharacter pid i c).players
      ∧ (a1.toErase = acc.toErase ∨ a1.toErase = acc.toErase ++ [i]) := by
  have hadd : ∀ (g : GameState) (n : Int) (d : Coord),
      (if n > 0 then g.AddLoot d n else g).players = g.players := by
    intro g n d
    by_cases hn : n > 0
    · rw [if_pos hn]; exact AddLoot_players _ _ _
    · rw [if_neg hn]
  unfold killRangedCharacter at h
  cases hp : acc.gs.players.find pid with
  | none => rw [hp] at h; simp at h
  | some pl =>
    rw [hp] at h
    simp only at h
    cases hc : pl.characters.find i with
    | none => rw [hc] at h; simp at h
    | some ch0 =>
      rw [hc] at h
      simp only at h
      by_cases h1 : i < 0
      · rw [if_pos h1] at h; simp at h
      · rw [if_neg h1] at h
        by_cases h2 : NPCROLE_IS_MERCHANT
            (applyDestructOrders destruct (CharacterID.ToString pid i) ch0).ai_npc_role = true
        · rw [if_pos h2] at h
          simp only [Option.some.injEq] at h
          rw [← h]
          exact ⟨_, rfl, Or.inl rfl⟩
        · rw [if_neg h2] at h
          by_cases h3 : (rangedVerdict acc.cache (pl.color : Int) i
              (if i = 0 ∧ NPCROLE_IS_MERCHANT ch0.ai_npc_role = true then true
                else acc.general_is_merchant)
              (applyDestructOrders destruct (CharacterID.ToString pid i) ch0)).2.2.1 = true
          · rw [if_pos h3] at h
            by_cases h4 : (rangedVerdict acc.cache (pl.color : Int) i
                (if i = 0 ∧ NPCROLE_IS_MERCHANT ch0.ai_npc_role = true then true
                  else acc.general_is_merchant)
                (applyDestructOrders destruct (CharacterID.ToString pid i) ch0)).2.2.2 ≠ 0
            · rw [if_pos h4] at h
              simp only [Option.some.injEq] at h
              rw [← h]
              exact ⟨_, rfl, Or.inl rfl⟩
            · rw [if_neg h4] at h
              by_cases h5 : i = 0 ∧ ¬ (pl.coinAmount ≥ 0)
              · rw [if_pos h5] at h; simp at h
              · rw [if_neg h5] at h
                simp only [Option.some.injEq] at h
                rw [← h]
                refine ⟨(rangedVerdict acc.cache (pl.color : Int) i
                  (if i = 0 ∧ NPCROLE_IS_MERCHANT ch0.ai_npc_role = true then true
                    else acc.general_is_merchant)
                  (applyDestructOrders destruct (CharacterID.ToString pid i) ch0)).1, ?_,
                  Or.inr rfl⟩
                exact hadd _ _ _
          · rw [if_neg h3] at h
            simp only [Option.some.injEq] at h
            rw [← h]
            exact ⟨_, rfl, Or.inl rfl⟩

/-- One round of the inner loop of `KillRangedAttacks` returns on a state
with well-formed indices. -/
theorem killRangedCharacter_isSome {W : Type} (destruct : List String) (pid : PlayerID)
    (acc : RangedAcc W) (i : Int) (hw : acc.gs.indexWellFormed)
    (hc : (acc.gs.findCharacter pid i).isSome = true) :
    ∃ a1, killRangedCharacter destruct pid acc i = some a1 := by
  unfold GameState.findCharacter at hc
  unfold killRangedCharacter
  cases hp : acc.gs.players.find pid with
  | none => rw [hp] at hc; simp at hc
  | some pl =>
    rw [hp] at hc
    simp only [Option.some_bind] at hc
    simp only
    obtain ⟨hi, hcoin⟩ := hw pid pl hp i hc
    cases hch : pl.characters.find i with
    | none => rw [hch] at hc; simp at hc
    | some ch0 =>
      simp only
      rw [if_neg (not_lt.mpr hi)]
      by_cases h2 : NPCROLE_IS_MERCHANT
          (applyDestructOrders destruct (CharacterID.ToString pid i) ch0).ai_npc_role = true
      · rw [if_pos h2]; exact ⟨_, rfl⟩
      · rw [if_neg h2]
        by_cases h3 : (rangedVerdict acc.cache (pl.color : Int) i
            (if i = 0 ∧ NPCROLE_IS_MERCHANT ch0.ai_npc_role = true then true
              else acc.general_is_merchant)
            (applyDestructOrders destruct (CharacterID.ToString pid i) ch0)).2.2.1 = true
        · rw [if_pos h3]
          by_cases h4 : (rangedVerdict acc.cache (pl.color : Int) i
              (if i = 0 ∧ NPCROLE_IS_MERCHANT ch0.ai_npc_role = true then true
                else acc.general_is_merchant)
              (applyDestructOrders destruct (CharacterID.ToString pid i) ch0)).2.2.2 ≠ 0
          · rw [if_pos h4]; exact ⟨_, rfl⟩
          · rw [if_neg h4, if_neg (fun h5 => h5.2 (hcoin h5.1))]
            exact ⟨_, rfl⟩
        · rw [if_neg h3]; exact ⟨_, rfl⟩

theorem indexWellFormed_of_isSome (gs gs1 : GameState)
    (hc : ∀ q j, (gs1.findCharacter q j).isSome = (gs.findCharacter q j).isSome)
    (hcoin : ∀ q pl1, gs1.players.find q = some pl1 →
      ∃ pl, gs.players.find q = some pl ∧ pl1.coinAmount = pl.coinAmount)
    (hw : gs.indexWellFormed) : gs1.indexWellFormed := by
  intro q pl1 hq j hj
  obtain ⟨pl, hpl, hca⟩ := hcoin q pl1 hq
  have h1 := hc q j
  unfold GameState.findCharacter at h1
  rw [hq, hpl] at h1
  simp only [Option.some_bind] at h1
  rw [hca]
  exact hw q pl hpl j (by rw [← h1]; exact hj)

theorem indexWellFormed_setCharacter_players (gs gs1 : GameState) (pid : PlayerID) (i : Int)
    (c : CharacterState) (h : gs1.players = (gs.setCharacter pid i c).players)
    (hw : gs.indexWellFormed) : gs1.indexWellFormed := by
  obtain ⟨_, _, _, f4, _⟩ := players_find_of_setCharacter_players gs gs1 pid i c h
  refine indexWellFormed_of_isSome gs gs1 f4 ?_ hw
  intro q pl1 hq
  rw [h, find_setCharacter] at hq
  by_cases hqp : q = pid
  · rw [if_pos hqp] at hq
    cases hp : gs.players.find pid with
    | none => rw [hp] at hq; simp at hq
    | some pl =>
      rw [hp] at hq
      simp only [Option.map_some', Option.some.injEq] at hq
      exact ⟨pl, by rw [hqp]; exact hp, by rw [← hq]⟩
  · rw [if_neg hqp] at hq
    exact ⟨pl1, hq, rfl⟩

theorem indexWellFormed_erase (gs : GameState) (pid : PlayerID) (l : List Int)
    (hw : gs.indexWellFormed) :
    ({ gs with
        players := gs.players.modify pid
          (fun p => { p with characters := l.foldl (fun m i => m.erase i) p.characters }) }
      : GameState).indexWellFormed := by
  intro q pl hq j hj
  simp only [StdMap.find_modify] at hq
  by_cases hqp : q = pid
  · rw [if_pos hqp] at hq
    cases hp : gs.players.find pid with
    | none => rw [hp] at hq; simp at hq
    | some pl0 =>
      rw [hp] at hq
      simp only [Option.map_some', Option.some.injEq] at hq
      rw [← hq] at hj ⊢
      simp only [StdMap.find_foldl_erase] at hj
      by_cases hjl : j ∈ l
      · rw [if_pos hjl] at hj; simp at hj
      · rw [if_neg hjl] at hj
        exact hw pid pl0 hp j hj
  · rw [if_neg hqp] at hq
    exact hw q pl hq j hj

theorem killRangedCharacter_nonneg {W : Type} (destruct : List String) (pid : PlayerID)
    (acc a1 : RangedAcc W) (i : Int) (h : killRangedCharacter destruct pid acc i = some a1) :
    0 ≤ i := by
  unfold killRangedCharacter at h
  cases hp : acc.gs.players.find pid with
  | none => rw [hp] at h; simp at h
  | some pl =>
    rw [hp] at h
    simp only at h
    cases hc : pl.characters.find i with
    | none => rw [hc] at h; simp at h
    | some ch0 =>
      rw [hc] at h
      simp only at h
      by_cases h1 : i < 0
      · rw [if_pos h1] at h; simp at h
      · exact not_lt.mp h1

/-- The round of the outer loop of `KillRangedAttacks` for player `pid`
leaves the other players as they are and keeps every player. -/
theorem killRangedPlayer_frame {W : Type} (destruct : List String)
    (acc a1 : GameState × StepResult × Cache W) (pid : PlayerID)
    (h : killRangedPlayer destruct acc pid = some a1) :
    (∀ q, q ≠ pid → a1.1.players.find q = acc.1.players.find q)
      ∧ ∀ q, (a1.1.players.find q).isSome = (acc.1.players.find q).isSome := by
  unfold killRangedPlayer at h
  cases hp : acc.1.players.find pid with
  | none => rw [hp] at h; simp at h
  | some pl =>
    rw [hp] at h
    simp only at h
    cases hl : pl.characters.keys.foldlM (killRangedCharacter destruct pid)
        { gs := acc.1, step := acc.2.1, cache := acc.2.2, general_is_merchant := false,
          toErase := [] } with
    | none => rw [hl] at h; simp at h
    | some r =>
      rw [hl] at h
      simp only [Option.some.injEq] at h
      have hinv := foldlM_inv (killRangedCharacter destruct pid)
        (fun a => (∀ q, q ≠ pid → a.gs.players.find q = acc.1.players.find q)
          ∧ ∀ q, (a.gs.players.find q).isSome = (acc.1.players.find q).isSome)
        pl.characters.keys
        (by
          intro b x b1 _ hb hx
          obtain ⟨c, s1, _⟩ := killRangedCharacter_shape destruct pid b b1 x hx
          obtain ⟨f1, _, f3, _, _⟩ := players_find_of_setCharacter_players _ _ _ _ _ s1
          exact ⟨fun q hq => by rw [f1 q hq, hb.1 q hq], fun q => by rw [f3, hb.2]⟩)
        { gs := acc.1, step := acc.2.1, cache := acc.2.2, general_is_merchant := false,
          toErase := [] } r ⟨fun _ _ => rfl, fun _ => rfl⟩ hl
      rw [← h]
      refine ⟨?_, ?_⟩
      · intro q hq
        simp only [StdMap.find_modify, if_neg hq]
        exact hinv.1 q hq
      · intro q
        simp only [StdMap.find_modify]
        by_cases hq : q = pid
        · rw [if_pos hq, hq, ← hinv.2 pid]
          cases r.gs.players.find pid <;> rfl
        · rw [if_neg hq, hinv.2 q]

/-- On a state with well-formed indices `KillRangedAttacks` returns. -/
theorem KillRangedAttacks_total {W : Type} (gs : GameState) (step : StepResult)
    (cache : Cache W) (destruct : List String) (hw : gs.indexWellFormed) :
    ∃ r, gs.KillRangedAttacks step cache destruct = some r := by
  unfold GameState.KillRangedAttacks
  obtain ⟨r, hr, _⟩ := foldlM_some_of_inv (killRangedPlayer destruct)
    (fun (a : GameState × StepResult × Cache W) => a.1.indexWellFormed
      ∧ ∀ q, (a.1.players.find q).isSome = (gs.players.find q).isSome)
    gs.players.keys
    (by
      intro b x hx hb
      obtain ⟨v, hv⟩ := (StdMap.mem_keys gs.players x).mp hx
      have hxp : (b.1.players.find x).isSome = true := by rw [hb.2, hv]; rfl
      cases hpl : b.1.players.find x with
      | none => rw [hpl] at hxp; simp at hxp
      | some pl =>
        obtain ⟨s, hs, hs1, _⟩ := foldlM_some_of_inv (killRangedCharacter destruct x)
          (fun a => a.gs.indexWellFormed
            ∧ ∀ q j, (a.gs.findCharacter q j).isSome = (b.1.findCharacter q j).isSome)
          pl.characters.keys
          (by
            intro a j hj ha
            have hjc : (a.gs.findCharacter x j).isSome = true := by
              rw [ha.2]
              unfold GameState.findCharacter
              rw [hpl]
              simp only [Option.some_bind]
              obtain ⟨c, hc⟩ := (StdMap.mem_keys pl.characters j).mp hj
              rw [hc]; rfl
            obtain ⟨a1, ha1⟩ := killRangedCharacter_isSome destruct x a j ha.1 hjc
            obtain ⟨c, s1, _⟩ := killRangedCharacter_shape destruct x a a1 j ha1
            obtain ⟨_, _, _, f4, _⟩ := players_find_of_setCharacter_players _ _ _ _ _ s1
            exact ⟨a1, ha1, indexWellFormed_setCharacter_players _ _ _ _ _ s1 ha.1,
              fun q k => by rw [f4, ha.2]⟩)
          { gs := b.1, step := b.2.1, cache := b.2.2, general_is_merchant := false,
            toErase := [] } ⟨hb.1, fun _ _ => rfl⟩
        have hres : killRangedPlayer destruct b x
            = some ({ s.gs with
                players := s.gs.players.modify x
                  (fun p => { p with
                    characters := s.toErase.foldl (fun m i => m.erase i) p.characters }) },
              s.step, s.cache) := by
          unfold killRangedPlayer
          rw [hpl]
          simp only
          rw [hs]
        obtain ⟨_, g2⟩ := killRangedPlayer_frame destruct b _ x hres
        exact ⟨_, hres, indexWellFormed_erase s.gs x s.toErase hs1,
          fun q => by rw [g2, hb.2]⟩)
    (gs, step, cache) ⟨hw, fun _ => rfl⟩
  exact ⟨r, hr⟩

/-- The character that a round of the inner loop of `KillRangedAttacks`
writes back without putting it into `toErase` is the character of the
result. -/
theorem KillRangedAttacks_round {W : Type} (gs : GameState) (step : StepResult)
    (cache : Cache W) (destruct : List String) (pid : PlayerID) (i : Int)
    (pl : PlayerState) (ch0 : CharacterState) (hp : gs.players.find pid = some pl)
    (hc : pl.characters.find i = some ch0) (P : CharacterState → Prop)
    (hround : ∀ (acc a1 : RangedAcc W), acc.gs.findCharacter pid i = some ch0 →
      killRangedCharacter destruct pid acc i = some a1 →
      a1.toErase = acc.toErase ∧ ∃ c, a1.gs.findCharacter pid i = some c ∧ P c)
    (r : GameState × StepResult × Cache W)
    (h : gs.KillRangedAttacks step cache destruct = some r) :
    ∃ pl1 c, r.1.players.find pid = some pl1 ∧ pl1.characters.find i = some c ∧ P c := by
  unfold GameState.KillRangedAttacks at h
  refine foldlM_focus (killRangedPlayer destruct)
    (fun a => a.1.players.find pid = some pl)
    (fun a => ∃ pl1 c, a.1.players.find pid = some pl1 ∧ pl1.characters.find i = some c ∧ P c)
    pid gs.players.keys gs.players.keys_nodup
    ((StdMap.mem_keys gs.players pid).mpr ⟨pl, hp⟩) ?_ ?_ ?_ (gs, step, cache) r hp h
  · intro b x b1 _ hx hb hb1
    obtain ⟨f1, _⟩ := killRangedPlayer_frame destruct b b1 x hb1
    show b1.1.players.find pid = some pl
    rw [f1 pid (Ne.symm hx)]; exact hb
  · intro b b1 hb hb1
    have hb0 : b.1.players.find pid = some pl := hb
    unfold killRangedPlayer at hb1
    rw [hb0] at hb1
    simp only at hb1
    cases hl : pl.characters.keys.foldlM (killRangedCharacter destruct pid)
        { gs := b.1, step := b.2.1, cache := b.2.2, general_is_merchant := false,
          toErase := [] } with
    | none => rw [hl] at hb1; simp at hb1
    | some s =>
      rw [hl] at hb1
      simp only [Option.some.injEq] at hb1
      have hfoc := foldlM_focus (killRangedCharacter destruct pid)
        (fun a => a.gs.findCharacter pid i = some ch0 ∧ i ∉ a.toErase)
        (fun a => i ∉ a.toErase ∧ ∃ c, a.gs.findCharacter pid i = some c ∧ P c)
        i pl.characters.keys pl.characters.keys_nodup
        ((StdMap.mem_keys pl.characters i).mpr ⟨ch0, hc⟩)
        (by
          intro c x c1 _ hx hcI hc1
          obtain ⟨cc, s1, s2⟩ := killRangedCharacter_shape destruct pid c c1 x hc1
          obtain ⟨_, f2, _, _, _⟩ := players_find_of_setCharacter_players _ _ _ _ _ s1
          refine ⟨by rw [f2 pid i (fun hh => hx hh.2.symm)]; exact hcI.1, ?_⟩
          rcases s2 with s2 | s2
          · rw [s2]; exact hcI.2
          · rw [s2]
            intro hmem
            rcases List.mem_append.mp hmem with h1 | h1
            · exact hcI.2 h1
            · exact hx (List.mem_singleton.mp h1).symm)
        (by
          intro c c1 hcI hc1
          obtain ⟨k1, k2⟩ := hround c c1 hcI.1 hc1
          exact ⟨by rw [k1]; exact hcI.2, k2⟩)
        (by
          intro c x c1 _ hx hcQ hc1
          obtain ⟨cc, s1, s2⟩ := killRangedCharacter_shape destruct pid c c1 x hc1
          obtain ⟨_, f2, _, _, _⟩ := players_find_of_setCharacter_players _ _ _ _ _ s1
          obtain ⟨q1, c0, q2, q3⟩ := hcQ
          refine ⟨?_, c0, by rw [f2 pid i (fun hh => hx hh.2.symm)]; exact q2, q3⟩
          rcases s2 with s2 | s2
          · rw [s2]; exact q1
          · rw [s2]
            intro hmem
            rcases List.mem_append.mp hmem with h1 | h1
            · exact q1 h1
            · exact hx (List.mem_singleton.mp h1).symm)
        { gs := b.1, step := b.2.1, cache := b.2.2, general_is_merchant := false,
          toErase := [] } s
        ⟨by unfold GameState.findCharacter; rw [hb0]; exact hc, by simp⟩ hl
      have hfoc2 : i ∉ s.toErase ∧ ∃ c, s.gs.findCharacter pid i = some c ∧ P c := hfoc
      obtain ⟨e1, c, e2, e3⟩ := hfoc2
      unfold GameState.findCharacter at e2
      cases hs : s.gs.players.find pid with
      | none => rw [hs] at e2; simp at e2
      | some pl2 =>
        rw [hs] at e2
        simp only [Option.some_bind] at e2
        rw [← hb1]
        refine ⟨{ pl2 with
          characters := s.toErase.foldl (fun m i => m.erase i) pl2.characters }, c, ?_, ?_, e3⟩
        · simp only [StdMap.find_modify, if_pos, hs, Option.map_some']
        · simp only [StdMap.find_foldl_erase, if_neg e1]
          exact e2
  · intro b x b1 _ hx hb hb1
    obtain ⟨f1, _⟩ := killRangedPlayer_frame destruct b b1 x hb1
    obtain ⟨pl1, c, h1, h2, h3⟩ := hb
    exact ⟨pl1, c, by rw [f1 pid (Ne.symm hx)]; exact h1, h2, h3⟩

theorem leastPopulatedMonster_eq (pop : Nat → Int) :
    (if pop MONSTER_REDHEAD
          < pop (if pop MONSTER_SPITTER < pop MONSTER_REAPER then MONSTER_SPITTER
            else MONSTER_REAPER)
      then MONSTER_REDHEAD
      else if pop MONSTER_SPITTER < pop MONSTER_REAPER then MONSTER_SPITTER
        else MONSTER_REAPER) = leastPopulatedMonster pop := by
  unfold leastPopulatedMonster monsterRoles
  simp only [List.find?, List.all, Bool.and_true, le_refl, decide_True, Bool.true_and,
    Bool.decide_and]
  by_cases h1 : pop MONSTER_SPITTER < pop MONSTER_REAPER
  · rw [if_pos h1]
    have e1 : decide (pop MONSTER_REAPER ≤ pop MONSTER_SPITTER) = false :=
      decide_eq_false (not_le.mpr h1)
    have e2 : decide (pop MONSTER_SPITTER ≤ pop MONSTER_REAPER) = true :=
      decide_eq_true (le_of_lt h1)
    by_cases h2 : pop MONSTER_REDHEAD < pop MONSTER_SPITTER
    · rw [if_pos h2]
      have e3 : decide (pop MONSTER_SPITTER ≤ pop MONSTER_REDHEAD) = false :=
        decide_eq_false (not_le.mpr h2)
      simp [e1, e2, e3, le_of_lt h2, le_of_lt (lt_trans h2 h1)]
    · rw [if_neg h2]
      have e3 : decide (pop MONSTER_SPITTER ≤ pop MONSTER_REDHEAD) = true :=
        decide_eq_true (not_lt.mp h2)
      simp [e1, e2, e3]
  · rw [if_neg h1]
    have e1 : decide (pop MONSTER_REAPER ≤ pop MONSTER_SPITTER) = true :=
      decide_eq_true (not_lt.mp h1)
    by_cases h2 : pop MONSTER_REDHEAD < pop MONSTER_REAPER
    · rw [if_pos h2]
      have e3 : decide (pop MONSTER_REAPER ≤ pop MONSTER_REDHEAD) = false :=
        decide_eq_false (not_le.mpr h2)
      have e4 : decide (pop MONSTER_SPITTER ≤ pop MONSTER_REDHEAD) = false :=
        decide_eq_false (not_le.mpr (lt_of_lt_of_le h2 (not_lt.mp h1)))
      simp [e1, e3, e4, le_of_lt h2, le_trans (le_of_lt h2) (not_lt.mp h1)]
    · rw [if_neg h2]
      have e3 : decide (pop MONSTER_REAPER ≤ pop MONSTER_REDHEAD) = true :=
        decide_eq_true (not_lt.mp h2)
      simp [e1, e3]

/-- The verdict for a death-flagged character that is saved. -/
theorem rangedVerdict_saved {W : Type} (cache : Cache W) (tmp_color i : Int)
    (general_is_merchant : Bool) (ch : CharacterState)
    (hflag : ch.ai_state2 &&& AI_STATE2_DEATH_ALL ≠ 0) (hsave : ch.isSaved) :
    (rangedVerdict cache tmp_color i general_is_merchant ch).2.2.1 = true
      ∧ (rangedVerdict cache tmp_color i general_is_merchant ch).2.2.2 = 2
      ∧ (rangedVerdict cache tmp_color i general_is_merchant ch).1.coord = ch.coord
      ∧ (ch.ai_slot_amulet = AI_ITEM_LIFE_SAVING →
          (rangedVerdict cache tmp_color i general_is_merchant ch).1.ai_slot_amulet = 0) := by
  unfold CharacterState.isSaved at hsave
  unfold rangedVerdict
  rw [if_pos hflag, if_pos hsave]
  refine ⟨rfl, rfl, ?_, ?_⟩
  · simp only
    split_ifs <;> rfl
  · intro ha
    simp only
    rw [if_pos ha]
    split_ifs <;> rfl

/-- The verdict for a death-flagged character that is not saved and takes
the missing merchant role of its team. -/
theorem rangedVerdict_merchant {W : Type} (cache : Cache W) (tmp_color i : Int)
    (general_is_merchant : Bool) (ch : CharacterState)
    (hflag : ch.ai_state2 &&& AI_STATE2_DEATH_ALL ≠ 0) (hsave : ¬ ch.isSaved)
    (hmiss : cache.Rpg_MissingMerchantPerColor tmp_color ≠ 0
      ∧ (i = 0 ∨ general_is_merchant = true)) :
    rangedVerdict cache tmp_color i general_is_merchant ch
      = ({ ch with ai_npc_role := toUChar (cache.Rpg_MissingMerchantPerColor tmp_color) },
          { cache with
            Rpg_MissingMerchantPerColor :=
              fun c => if c = tmp_color then 0 else cache.Rpg_MissingMerchantPerColor c },
          true, 1) := by
  unfold CharacterState.isSaved at hsave
  unfold rangedVerdict
  rw [if_pos hflag, if_neg hsave, if_pos hmiss]

/-- The verdict for a death-flagged character that is not saved and becomes
a monster. -/
theorem rangedVerdict_monster {W : Type} (cache : Cache W) (tmp_color i : Int)
    (general_is_merchant : Bool) (ch : CharacterState)
    (hflag : ch.ai_state2 &&& AI_STATE2_DEATH_ALL ≠ 0) (hsave : ¬ ch.isSaved)
    (hmiss : ¬ (cache.Rpg_MissingMerchantPerColor tmp_color ≠ 0
      ∧ (i = 0 ∨ general_is_merchant = true)))
    (hneed : cache.Rpg_need_monsters_badly = true
      ∨ (tmp_color ≠ cache.Rpg_StrongestTeam ∧ cache.Rpg_less_monsters_than_players = true)
      ∨ tmp_color = cache.Rpg_WeakestTeam) :
    (rangedVerdict cache tmp_color i general_is_merchant ch).2.2.1 = true
      ∧ (rangedVerdict cache tmp_color i general_is_merchant ch).2.2.2 = 2
      ∧ (rangedVerdict cache tmp_color i general_is_merchant ch).2.1 = cache
      ∧ (rangedVerdict cache tmp_color i general_is_merchant ch).1.ai_npc_role
          = leastPopulatedMonster cache.Rpg_PopulationCount := by
  unfold CharacterState.isSaved at hsave
  unfold rangedVerdict
  rw [if_pos hflag, if_neg hsave, if_neg hmiss, if_pos hneed]
  exact ⟨rfl, rfl, rfl, leastPopulatedMonster_eq cache.Rpg_PopulationCount⟩

theorem isSaved_applyDestructOrders (destruct : List String) (name : String)
    (ch : CharacterState) (hm : NPCROLE_IS_MERCHANT ch.ai_npc_role = false) :
    (applyDestructOrders destruct name ch).isSaved ↔ ch.isSaved := by
  obtain ⟨h1, h2, _, h4, _⟩ := applyDestructOrders_facts destruct name ch hm
  unfold CharacterState.isSaved
  rw [h1, h2, h4]

theorem and_zero_of_death_all (x m : Nat) (h : x &&& AI_STATE2_DEATH_ALL = 0)
    (hm : AI_STATE2_DEATH_ALL &&& m = m) : x &&& m = 0 := by
  rw [← hm, ← Nat.land_assoc, h, Nat.zero_and]

theorem indexWellFormed_of_lootWellFormed (gs : GameState) (hw : gs.lootWellFormed) :
    gs.indexWellFormed := by
  intro pid pl hp i hi
  cases hc : pl.characters.find i with
  | none => rw [hc] at hi; simp at hi
  | some ch =>
    obtain ⟨h1, _, h3⟩ := hw pid pl hp i ch hc
    exact ⟨h1, h3⟩

/-- C28: in `KillRangedAttacks`, a character that is no merchant, has one of
the four death flags and is saved (inside a safe zone, flagged essential, or
carrying a Life-Saving amulet) is in its player's character map afterwards,
with none of the four death flags, no waypoints and `from = coord`, on its
tile, and with an empty amulet slot if it carried a Life-Saving amulet;
`KillRangedAttacks` returns on every state with non-negative indices and
locked amounts. -/
theorem C28_saved_character_survives {W : Type} (gs : GameState) (step : StepResult)
    (cache : Cache W) (destruct : List String) (pid : PlayerID) (i : Int)
    (pl : PlayerState) (ch : CharacterState) (hp : gs.players.find pid = some pl)
    (hc : pl.characters.find i = some ch)
    (hm : NPCROLE_IS_MERCHANT ch.ai_npc_role = false)
    (hflag : ch.ai_state2 &&& AI_STATE2_DEATH_ALL ≠ 0) (hsave : ch.isSaved) :
    (∀ r, gs.KillRangedAttacks step cache destruct = some r →
        ∃ pl1 c, r.1.players.find pid = some pl1 ∧ pl1.characters.find i = some c
          ∧ c.ai_state2 &&& AI_STATE2_DEATH_POISON = 0
          ∧ c.ai_state2 &&& AI_STATE2_DEATH_FIRE = 0
          ∧ c.ai_state2 &&& AI_STATE2_DEATH_DEATH = 0
          ∧ c.ai_state2 &&& AI_STATE2_DEATH_LIGHTNING = 0
          ∧ c.waypoints = [] ∧ c.from_ = c.coord ∧ c.coord = ch.coord
          ∧ (ch.ai_slot_amulet = AI_ITEM_LIFE_SAVING → c.ai_slot_amulet = 0))
      ∧ (gs.indexWellFormed → ∃ r, gs.KillRangedAttacks step cache destruct = some r) := by
  refine ⟨?_, fun hw => KillRangedAttacks_total gs step cache destruct hw⟩
  intro r hr
  refine KillRangedAttacks_round gs step cache destruct pid i pl ch hp hc
    (fun c => c.ai_state2 &&& AI_STATE2_DEATH_POISON = 0
      ∧ c.ai_state2 &&& AI_STATE2_DEATH_FIRE = 0
      ∧ c.ai_state2 &&& AI_STATE2_DEATH_DEATH = 0
      ∧ c.ai_state2 &&& AI_STATE2_DEATH_LIGHTNING = 0
      ∧ c.waypoints = [] ∧ c.from_ = c.coord ∧ c.coord = ch.coord
      ∧ (ch.ai_slot_amulet = AI_ITEM_LIFE_SAVING → c.ai_slot_amulet = 0)) ?_ r hr
  intro acc a1 hfc ha1
  have hi := killRangedCharacter_nonneg destruct pid acc a1 i ha1
  have hfc0 := hfc
  unfold GameState.findCharacter at hfc
  cases hpa : acc.gs.players.find pid with
  | none => rw [hpa] at hfc; simp at hfc
  | some pl2 =>
    rw [hpa] at hfc
    simp only [Option.some_bind] at hfc
    obtain ⟨d1, d2, _, _, d5⟩ :=
      applyDestructOrders_facts destruct (CharacterID.ToString pid i) ch hm
    have hsave1 := (isSaved_applyDestructOrders destruct (CharacterID.ToString pid i) ch
      hm).mpr hsave
    obtain ⟨v1, v2, v3, v4⟩ := rangedVerdict_saved acc.cache (pl2.color : Int) i
      acc.general_is_merchant (applyDestructOrders destruct (CharacterID.ToString pid i) ch)
      (d5 hflag) hsave1
    have hres := killRangedCharacter_revived destruct pid acc i pl2 ch hpa hfc hi hm v1
      (by rw [v2]; decide)
    rw [hres] at ha1
    simp only [Option.some.injEq] at ha1
    rw [← ha1]
    refine ⟨rfl, revived
      (rangedVerdict acc.cache (pl2.color : Int) i acc.general_is_merchant
        (applyDestructOrders destruct (CharacterID.ToString pid i) ch)).1
      (rangedVerdict acc.cache (pl2.color : Int) i acc.general_is_merchant
        (applyDestructOrders destruct (CharacterID.ToString pid i) ch)).2.2.2, ?_, ?_⟩
    · simp only
      rw [findCharacter_setCharacter, if_pos ⟨rfl, rfl⟩, hfc0]
      rfl
    · obtain ⟨r1, r2, r3, r4, r5, _⟩ := revived_spec
        (rangedVerdict acc.cache (pl2.color : Int) i acc.general_is_merchant
          (applyDestructOrders destruct (CharacterID.ToString pid i) ch)).1
        (rangedVerdict acc.cache (pl2.color : Int) i acc.general_is_merchant
          (applyDestructOrders destruct (CharacterID.ToString pid i) ch)).2.2.2
      refine ⟨and_zero_of_death_all _ _ r4 (by decide), and_zero_of_death_all _ _ r4 (by decide),
        and_zero_of_death_all _ _ r4 (by decide), and_zero_of_death_all _ _ r4 (by decide),
        r1, r2, by rw [r3, v3, d1], ?_⟩
      intro ha
      rw [r5]
      exact v4 (by rw [d2]; exact ha)

/-- Witness for C28: the general of `alice` with the poison flag and a
Life-Saving amulet. -/
theorem C28_saved_character_survives_witness :
    ∃ r pl1 c, (stateOfGeneral amuletGeneral).KillRangedAttacks {} rangedCache [] = some r
      ∧ r.1.players.find ⟨"alice"⟩ = some pl1 ∧ pl1.characters.find 0 = some c
      ∧ c.ai_state2 &&& AI_STATE2_DEATH_POISON = 0 ∧ c.waypoints = []
      ∧ c.from_ = ⟨100, 101⟩ ∧ c.ai_slot_amulet = 0 := by
  have h := C28_saved_character_survives (stateOfGeneral amuletGeneral) {} rangedCache []
    ⟨"alice"⟩ 0 { samplePlayer with characters := StdMap.empty.set 0 amuletGeneral }
    amuletGeneral (by decide) (by decide) (by decide) (by decide)
    (Or.inr (Or.inr (by decide)))
  obtain ⟨r, hr⟩ := h.2 (indexWellFormed_of_lootWellFormed _
    (stateOfGeneral_lootWellFormed amuletGeneral (by decide)))
  obtain ⟨pl1, c, h1, h2, h3, _, _, _, h7, h8, h9, h10⟩ := h.1 r hr
  exact ⟨r, pl1, c, hr, h1, h2, h3, h7, by rw [h8, h9]; rfl, h10 (by decide)⟩

/-- C29, as stated, fails: a merchant is skipped by `KillRangedAttacks`.  The
general of `alice` is a merchant with the poison flag, outside the safe zones,
not essential and without amulet, and its team misses a merchant; it keeps its
role and its death flag. -/
theorem C29_counterexample :
    merchantGeneral.ai_state2 &&& AI_STATE2_DEATH_ALL ≠ 0
      ∧ AI_IS_SAFEZONE merchantGeneral.coord.x merchantGeneral.coord.y = false
      ∧ merchantGeneral.ai_state2 &&& AI_STATE2_ESSENTIAL = 0
      ∧ merchantGeneral.ai_slot_amulet ≠ AI_ITEM_LIFE_SAVING
      ∧ rangedCache.Rpg_MissingMerchantPerColor 0 = 1
      ∧ ((stateOfGeneral merchantGeneral).KillRangedAttacks {} rangedCache []).map
          (fun r => (r.1.players.find ⟨"alice"⟩).bind
            (fun p => (p.characters.find 0).map (fun c => (c.ai_npc_role, c.ai_state2))))
        = some (some (5, AI_STATE2_DEATH_POISON)) := by
  refine ⟨by decide, by decide, by decide, by decide, by decide, by decide⟩

/-- C29 (amended): in the round of `KillRangedAttacks` for a death-flagged
character that is no merchant and is not saved, the character takes the
missing merchant role of its team (`Rpg_MissingMerchantPerColor[color]`
non-zero) when it is the general or the general of the player already is a
merchant; otherwise, when monsters are needed, it takes the role among Reaper,
Spitter and Redhead with the smallest population count, the first in that
order on ties; in both cases it is written back with its death flags cleared
and is not put into `toErase`; the round returns in both cases when the index
is not negative. -/
theorem C29_recycled_role {W : Type} (destruct : List String) (pid : PlayerID)
    (acc : RangedAcc W) (i : Int) (pl : PlayerState) (ch : CharacterState)
    (hp : acc.gs.players.find pid = some pl) (hc : pl.characters.find i = some ch)
    (hi : 0 ≤ i) (hm : NPCROLE_IS_MERCHANT ch.ai_npc_role = false)
    (hflag : ch.ai_state2 &&& AI_STATE2_DEATH_ALL ≠ 0) (hnot : ¬ ch.isSaved) :
    (acc.cache.Rpg_MissingMerchantPerColor (pl.color : Int) ≠ 0
        ∧ (i = 0 ∨ acc.general_is_merchant = true) →
      ∃ a1 c, killRangedCharacter destruct pid acc i = some a1
        ∧ a1.toErase = acc.toErase ∧ a1.gs.findCharacter pid i = some c
        ∧ c.ai_npc_role = toUChar (acc.cache.Rpg_MissingMerchantPerColor (pl.color : Int))
        ∧ c.ai_state2 &&& AI_STATE2_DEATH_ALL = 0)
      ∧ (¬ (acc.cache.Rpg_MissingMerchantPerColor (pl.color : Int) ≠ 0
          ∧ (i = 0 ∨ acc.general_is_merchant = true)) →
        (acc.cache.Rpg_need_monsters_badly = true
          ∨ ((pl.color : Int) ≠ acc.cache.Rpg_StrongestTeam
            ∧ acc.cache.Rpg_less_monsters_than_players = true)
          ∨ (pl.color : Int) = acc.cache.Rpg_WeakestTeam) →
        ∃ a1 c, killRangedCharacter destruct pid acc i = some a1
          ∧ a1.toErase = acc.toErase ∧ a1.gs.findCharacter pid i = some c
          ∧ c.ai_npc_role = leastPopulatedMonster acc.cache.Rpg_PopulationCount
          ∧ c.ai_state2 &&& AI_STATE2_DEATH_ALL = 0) := by
  obtain ⟨_, _, _, _, d5⟩ :=
    applyDestructOrders_facts destruct (CharacterID.ToString pid i) ch hm
  have hnot1 : ¬ (applyDestructOrders destruct (CharacterID.ToString pid i) ch).isSaved :=
    fun h => hnot ((isSaved_applyDestructOrders destruct (CharacterID.ToString pid i) ch
      hm).mp h)
  have hfc : acc.gs.findCharacter pid i = some ch := by
    unfold GameState.findCharacter
    rw [hp]; exact hc
  constructor
  · intro hmiss
    have hv := rangedVerdict_merchant acc.cache (pl.color : Int) i acc.general_is_merchant
      (applyDestructOrders destruct (CharacterID.ToString pid i) ch) (d5 hflag) hnot1 hmiss
    have hres := killRangedCharacter_revived destruct pid acc i pl ch hp hc hi hm
      (by rw [hv]) (by rw [hv]; exact one_ne_zero)
    refine ⟨_, revived
      (rangedVerdict acc.cache (pl.color : Int) i acc.general_is_merchant
        (applyDestructOrders destruct (CharacterID.ToString pid i) ch)).1
      (rangedVerdict acc.cache (pl.color : Int) i acc.general_is_merchant
        (applyDestructOrders destruct (CharacterID.ToString pid i) ch)).2.2.2, hres, rfl, ?_, ?_, ?_⟩
    · simp only
      rw [findCharacter_setCharacter, if_pos ⟨rfl, rfl⟩, hfc]
      rfl
    · rw [(revived_spec _ _).2.2.2.2.2, hv]
    · exact (revived_spec _ _).2.2.2.1
  · intro hmiss hneed
    obtain ⟨v1, v2, _, v4⟩ := rangedVerdict_monster acc.cache (pl.color : Int) i
      acc.general_is_merchant (applyDestructOrders destruct (CharacterID.ToString pid i) ch)
      (d5 hflag) hnot1 hmiss hneed
    have hres := killRangedCharacter_revived destruct pid acc i pl ch hp hc hi hm v1
      (by rw [v2]; decide)
    refine ⟨_, revived
      (rangedVerdict acc.cache (pl.color : Int) i acc.general_is_merchant
        (applyDestructOrders destruct (CharacterID.ToString pid i) ch)).1
      (rangedVerdict acc.cache (pl.color : Int) i acc.general_is_merchant
        (applyDestructOrders destruct (CharacterID.ToString pid i) ch)).2.2.2, hres, rfl, ?_, ?_, ?_⟩
    · simp only
      rw [findCharacter_setCharacter, if_pos ⟨rfl, rfl⟩, hfc]
      rfl
    · rw [(revived_spec _ _).2.2.2.2.2, v4]
    · exact (revived_spec _ _).2.2.2.1

/-- Witness for C29: the poisoned hunter general of `alice` becomes the
missing merchant of its team (role 1); with no merchant missing and monsters
badly needed it becomes a Spitter, the first of the two monster roles without
population. -/
theorem C29_recycled_role_witness :
    (∃ a1 c, killRangedCharacter [] ⟨"alice"⟩ (firstRound (stateOfGeneral poisonedGeneral)) 0
          = some a1
        ∧ a1.toErase = [] ∧ a1.gs.findCharacter ⟨"alice"⟩ 0 = some c
        ∧ c.ai_npc_role = 1 ∧ c.ai_state2 &&& AI_STATE2_DEATH_ALL = 0)
      ∧ (((stateOfGeneral poisonedGeneral).KillRangedAttacks {}
            { rangedCache with
              Rpg_MissingMerchantPerColor := fun _ => 0, Rpg_need_monsters_badly := true } []).map
          (fun r => (r.1.players.find ⟨"alice"⟩).bind
            (fun p => (p.characters.find 0).map (fun c => (c.ai_npc_role, c.ai_state2)))))
        = some (some (MONSTER_SPITTER, AI_STATE2_ESCAPE)) := by
  refine ⟨?_, by decide⟩
  obtain ⟨a1, c, h1, h2, h3, h4, h5⟩ :=
    (C29_recycled_role [] ⟨"alice"⟩ (firstRound (stateOfGeneral poisonedGeneral)) 0
      { samplePlayer with characters := StdMap.empty.set 0 poisonedGeneral } poisonedGeneral
      (by decide) (by decide) (by decide) (by decide) (by decide)
      (by unfold CharacterState.isSaved; decide)).1 ⟨by decide, Or.inl rfl⟩
  exact ⟨a1, c, h1, h2, h3, by rw [h4]; decide, h5⟩

/-! ## The straight-line stepper never divides by zero -/

theorem CoordUpd_eq_none_iff (u v du dv from_u from_v : Int) :
    CoordUpd u v du dv from_u from_v = none ↔ dv ≠ 0 ∧ du = 0 := by
  unfold CoordUpd
  by_cases hdv : dv = 0
  · simp [hdv]
  · by_cases hdu : du = 0
    · simp [hdv, hdu]
    · simp [hdv, hdu]

theorem nextTile_isSome (ch : CharacterState) (target : Coord) :
    ∃ c, ch.nextTile target = some c := by
  unfold CharacterState.nextTile
  simp only
  by_cases h : |target.x - ch.from_.x| > |target.y - ch.from_.y|
  · rw [if_pos h]
    have hdu : target.x - ch.from_.x ≠ 0 := by
      intro h0
      rw [h0] at h
      have := abs_nonneg (target.y - ch.from_.y)
      simp at h
      omega
    cases hc : CoordUpd (CoordStep ch.coord.x target.x) ch.coord.y (target.x - ch.from_.x)
        (target.y - ch.from_.y) ch.from_.x ch.from_.y with
    | none => exact absurd ((CoordUpd_eq_none_iff _ _ _ _ _ _).mp hc).2 hdu
    | some y => exact ⟨_, rfl⟩
  · rw [if_neg h]
    cases hc : CoordUpd (CoordStep ch.coord.y target.y) ch.coord.x (target.y - ch.from_.y)
        (target.x - ch.from_.x) ch.from_.y ch.from_.x with
    | none =>
      exfalso
      obtain ⟨h1, h2⟩ := (CoordUpd_eq_none_iff _ _ _ _ _ _).mp hc
      rw [h2] at h
      simp at h
      exact h1 h
    | some x => exact ⟨_, rfl⟩

theorem walkLine_isSome (env : Env) (normalStep : Bool) (ch : CharacterState)
    (hne : ch.waypoints ≠ []) : ∃ ch1, ch.walkLine env normalStep = some ch1 := by
  unfold CharacterState.walkLine
  cases hl : ch.waypoints.getLast? with
  | none => exact absurd (List.getLast?_eq_none_iff.mp hl) hne
  | some target =>
    obtain ⟨c, hc⟩ := nextTile_isSome ch target
    simp only [hc, Option.some_bind]
    by_cases hw : IsWalkable env c.x c.y = false
    · rw [if_pos hw]; exact ⟨_, rfl⟩
    · rw [if_neg hw]
      by_cases ht : c = target
      · rw [if_pos ht]; exact ⟨_, rfl⟩
      · rw [if_neg ht]; exact ⟨_, rfl⟩

theorem moveAlongLine_isSome (env : Env) (normalStep : Bool) (ch : CharacterState)
    (hne : ch.waypoints ≠ []) : ∃ ch1, ch.moveAlongLine env normalStep = some ch1 := by
  unfold CharacterState.moveAlongLine
  cases hl : ch.waypoints.getLast? with
  | none => exact absurd (List.getLast?_eq_none_iff.mp hl) hne
  | some back =>
    simp only
    by_cases hb : ch.coord = back
    · rw [if_pos hb]
      by_cases hw : popBackWhile ch.coord ch.waypoints.dropLast = []
      · rw [if_pos hw]; exact ⟨_, rfl⟩
      · rw [if_neg hw]
        exact walkLine_isSome env normalStep _ hw
    · rw [if_neg hb]
      exact walkLine_isSome env normalStep ch hne

theorem MoveTowardsWaypoint_isSome (env : Env) (ch : CharacterState) :
    ∃ ch1, ch.MoveTowardsWaypoint env = some ch1 := by
  unfold CharacterState.MoveTowardsWaypoint
  by_cases h : ch.waypoints = []
  · rw [if_pos h]; exact ⟨_, rfl⟩
  · rw [if_neg h]; exact moveAlongLine_isSome env false ch h

/-- C34: in the straight-line stepper `CoordUpd` never divides by zero.  The
model of `CoordUpd` fails exactly when its division is evaluated (`dv` is not
zero) with the divisor `du` zero; for every `from`, `coord` and target the
computation of the next tile does not fail, and so neither `MoveTowardsWaypoint`
nor the end of `MoveTowardsWaypointX_Pathfinder` (reached with a non-empty
waypoint list) fails, on any obstacle map. -/
theorem C34_CoordUpd_never_divides_by_zero (env : Env) (ch : CharacterState) (target : Coord) :
    (∀ u v du dv from_u from_v : Int,
        CoordUpd u v du dv from_u from_v = none ↔ dv ≠ 0 ∧ du = 0)
      ∧ (∃ c, ch.nextTile target = some c)
      ∧ (∃ ch1, ch.MoveTowardsWaypoint env = some ch1)
      ∧ ∀ normalStep, ch.waypoints ≠ [] → ∃ ch1, ch.moveAlongLine env normalStep = some ch1 :=
  ⟨CoordUpd_eq_none_iff, nextTile_isSome ch target, MoveTowardsWaypoint_isSome env ch,
    fun normalStep hne => moveAlongLine_isSome env normalStep ch hne⟩

/-- Witness for C34: the walker from `(0, 0)` to `(5, 2)` on the map with an
obstacle. -/
theorem C34_CoordUpd_never_divides_by_zero_witness :
    lineWalker.waypoints ≠ []
      ∧ CoordUpd 1 0 0 2 0 0 = none
      ∧ lineWalker.nextTile ⟨5, 2⟩ = some ⟨1, 0⟩
      ∧ ∃ ch1, lineWalker.moveAlongLine blockedEnv true = some ch1 :=
  ⟨by decide, by decide, by decide,
    (C34_CoordUpd_never_divides_by_zero blockedEnv lineWalker ⟨5, 2⟩).2.2.2 true (by decide)⟩

/-! ## Loot is pushed out of the spawn area -/

theorem IsInSpawnArea_iff (x y : Int) :
    IsInSpawnArea x y = true
      ↔ ((x = 0 ∨ x = 501) ∧ (y < 15 ∨ 487 ≤ y)) ∨ ((y = 0 ∨ y = 501) ∧ (x < 15 ∨ 487 ≤ x)) := by
  simp [IsInSpawnArea, MAP_WIDTH, MAP_HEIGHT, SPAWN_AREA_LENGTH]

theorem IsInSpawnArea_false_iff (x y : Int) :
    IsInSpawnArea x y = false
      ↔ ¬ (((x = 0 ∨ x = 501) ∧ (y < 15 ∨ 487 ≤ y))
            ∨ ((y = 0 ∨ y = 501) ∧ (x < 15 ∨ 487 ≤ x))) := by
  rw [← IsInSpawnArea_iff]
  simp

theorem distLInf_one_of (c r : Coord) (hx : |c.x - r.x| ≤ 1) (hy : |c.y - r.y| ≤ 1)
    (h : |c.x - r.x| = 1 ∨ |c.y - r.y| = 1) : distLInf c r = 1 := by
  unfold distLInf
  rcases h with h | h
  · rw [h]; exact max_eq_left hy
  · rw [h]; exact max_eq_right hx

/-- C37: for every coordinate `c` inside the map, `PushCoordOutOfSpawnArea c`
is `c` when `c` is not in the spawn area; otherwise the result is inside the
map, is not in the spawn area, and is at L-infinity distance exactly 1 from
`c`. -/
theorem C37_PushCoordOutOfSpawnArea (c : Coord) (hin : IsInsideMap c.x c.y = true) :
    (IsInSpawnArea c.x c.y = false → PushCoordOutOfSpawnArea c = c)
      ∧ (IsInSpawnArea c.x c.y = true →
          IsInsideMap (PushCoordOutOfSpawnArea c).x (PushCoordOutOfSpawnArea c).y = true
            ∧ IsInSpawnArea (PushCoordOutOfSpawnArea c).x (PushCoordOutOfSpawnArea c).y = false
            ∧ distLInf c (PushCoordOutOfSpawnArea c) = 1) := by
  constructor
  · intro h
    unfold PushCoordOutOfSpawnArea
    rw [if_pos h]
  · intro h
    have hne : ¬ (IsInSpawnArea c.x c.y = false) := by rw [h]; simp
    rw [IsInsideMap_iff] at hin
    rw [IsInSpawnArea_iff] at h
    obtain ⟨x, y⟩ := c
    simp only at hin h
    unfold PushCoordOutOfSpawnArea
    rw [if_neg hne]
    simp only [MAP_WIDTH, MAP_HEIGHT, show (502 : Int) - 1 = 501 by norm_num]
    by_cases hx0 : x = 0
    · rw [if_pos hx0]
      by_cases hy0 : y = 0
      · rw [if_pos hy0]
        refine ⟨(IsInsideMap_iff _ _).mpr ?_, (IsInSpawnArea_false_iff _ _).mpr ?_, ?_⟩
        · simp only; omega
        · simp only; omega
        · apply distLInf_one_of <;> simp
      · rw [if_neg hy0]
        by_cases hy1 : y = 501
        · rw [if_pos hy1]
          refine ⟨(IsInsideMap_iff _ _).mpr ?_, (IsInSpawnArea_false_iff _ _).mpr ?_, ?_⟩
          · simp only; omega
          · simp only; omega
          · apply distLInf_one_of <;> simp
        · rw [if_neg hy1]
          refine ⟨(IsInsideMap_iff _ _).mpr ?_, (IsInSpawnArea_false_iff _ _).mpr ?_, ?_⟩
          · simp only; omega
          · simp only; omega
          · apply distLInf_one_of <;> simp
    · rw [if_neg hx0]
      by_cases hx1 : x = 501
      · rw [if_pos hx1]
        by_cases hy0 : y = 0
        · rw [if_pos hy0]
          refine ⟨(IsInsideMap_iff _ _).mpr ?_, (IsInSpawnArea_false_iff _ _).mpr ?_, ?_⟩
          · simp only; omega
          · simp only; omega
          · apply distLInf_one_of <;> simp
        · rw [if_neg hy0]
          by_cases hy1 : y = 501
          · rw [if_pos hy1]
            refine ⟨(IsInsideMap_iff _ _).mpr ?_, (IsInSpawnArea_false_iff _ _).mpr ?_, ?_⟩
            · simp only; omega
            · simp only; omega
            · apply distLInf_one_of <;> simp
          · rw [if_neg hy1]
            refine ⟨(IsInsideMap_iff _ _).mpr ?_, (IsInSpawnArea_false_iff _ _).mpr ?_, ?_⟩
            · simp only; omega
            · simp only; omega
            · apply distLInf_one_of <;> simp
      · rw [if_neg hx1]
        by_cases hy0 : y = 0
        · rw [if_pos hy0]
          refine ⟨(IsInsideMap_iff _ _).mpr ?_, (IsInSpawnArea_false_iff _ _).mpr ?_, ?_⟩
          · simp only; omega
          · simp only; omega
          · apply distLInf_one_of <;> simp
        · rw [if_neg hy0]
          by_cases hy1 : y = 501
          · rw [if_pos hy1]
            refine ⟨(IsInsideMap_iff _ _).mpr ?_, (IsInSpawnArea_false_iff _ _).mpr ?_, ?_⟩
            · simp only; omega
            · simp only; omega
            · apply distLInf_one_of <;> simp
          · exfalso; omega

/-- Witness for C37: the corner `(501, 0)` is pushed to `(500, 1)`, and the
tile `(20, 0)` of the upper edge, which is outside the spawn strips, stays. -/
theorem C37_PushCoordOutOfSpawnArea_witness :
    IsInsideMap 501 0 = true ∧ IsInSpawnArea 501 0 = true
      ∧ PushCoordOutOfSpawnArea ⟨501, 0⟩ = ⟨500, 1⟩
      ∧ IsInSpawnArea 20 0 = false ∧ PushCoordOutOfSpawnArea ⟨20, 0⟩ = ⟨20, 0⟩
      ∧ distLInf ⟨501, 0⟩ (PushCoordOutOfSpawnArea ⟨501, 0⟩) = 1 :=
  ⟨by decide, by decide, by decide, by decide, by decide,
    ((C37_PushCoordOutOfSpawnArea ⟨501, 0⟩ (by decide)).2 (by decide)).2.2⟩

/-! ## Directions and the backward step of the hit scan -/

theorem clampStep_props (d : Int) :
    ((if d < -1 then -1 else if d > 1 then 1 else d) = -1
        ∨ (if d < -1 then -1 else if d > 1 then 1 else d) = 0
        ∨ (if d < -1 then (-1 : Int) else if d > 1 then 1 else d) = 1)
      ∧ ((if d < -1 then (-1 : Int) else if d > 1 then 1 else d) = 0 ↔ d = 0)
      ∧ (-1 ≤ d → d ≤ 1 → (if d < -1 then (-1 : Int) else if d > 1 then 1 else d) = d) := by
  by_cases h1 : d < -1
  · rw [if_pos h1]
    exact ⟨by omega, ⟨fun h => by omega, fun h => by omega⟩, fun _ _ => by omega⟩
  · rw [if_neg h1]
    by_cases h2 : d > 1
    · rw [if_pos h2]
      exact ⟨by omega, ⟨fun h => by omega, fun h => by omega⟩, fun _ _ => by omega⟩
    · rw [if_neg h2]
      exact ⟨by omega, ⟨fun h => h, fun h => h⟩, fun _ _ => rfl⟩

theorem GetDirection_val (a b : Coord) :
    ∃ cx cy : Int, (cx = -1 ∨ cx = 0 ∨ cx = 1) ∧ (cy = -1 ∨ cy = 0 ∨ cy = 1)
      ∧ (cx = 0 ↔ b.x = a.x) ∧ (cy = 0 ↔ b.y = a.y)
      ∧ (|a.x - b.x| ≤ 1 → cx = b.x - a.x) ∧ (|a.y - b.y| ≤ 1 → cy = b.y - a.y)
      ∧ (GetDirection a b : Int) = (1 - cy) * 3 + cx + 2 := by
  obtain ⟨p1, p2, p3⟩ := clampStep_props (b.x - a.x)
  obtain ⟨q1, q2, q3⟩ := clampStep_props (b.y - a.y)
  refine ⟨if b.x - a.x < -1 then -1 else if b.x - a.x > 1 then 1 else b.x - a.x,
    if b.y - a.y < -1 then -1 else if b.y - a.y > 1 then 1 else b.y - a.y, p1, q1, ?_, ?_, ?_, ?_,
    ?_⟩
  · rw [p2]; constructor <;> intro h <;> omega
  · rw [q2]; constructor <;> intro h <;> omega
  · intro h
    rw [abs_le] at h
    exact p3 (by omega) (by omega)
  · intro h
    rw [abs_le] at h
    exact q3 (by omega) (by omega)
  · unfold GetDirection toUChar
    simp only
    generalize (if b.x - a.x < -1 then (-1 : Int) else if b.x - a.x > 1 then 1 else b.x - a.x)
      = cx at p1
    generalize (if b.y - a.y < -1 then (-1 : Int) else if b.y - a.y > 1 then 1 else b.y - a.y)
      = cy at q1
    omega

theorem distLInf_eq_one (a b : Coord) (h : distLInf a b = 1) :
    |a.x - b.x| ≤ 1 ∧ |a.y - b.y| ≤ 1 ∧ (b.x ≠ a.x ∨ b.y ≠ a.y) := by
  unfold distLInf at h
  have h1 : |a.x - b.x| ≤ 1 := by rw [← h]; exact le_max_left _ _
  have h2 : |a.y - b.y| ≤ 1 := by rw [← h]; exact le_max_right _ _
  refine ⟨h1, h2, ?_⟩
  by_contra hn
  push_neg at hn
  rw [hn.1, hn.2] at h
  simp at h

theorem backward_step (d : Nat) (cx cy x y : Int) (hcx : cx = -1 ∨ cx = 0 ∨ cx = 1)
    (hcy : cy = -1 ∨ cy = 0 ∨ cy = 1) (hd : (d : Int) = (1 - cy) * 3 + cx + 2) :
    (if d ≤ 3 then y - 1 else if d ≥ 7 then y + 1 else y) = y - cy
      ∧ (if d % 3 = 1 then x + 1 else if d % 3 = 0 then x - 1 else x) = x - cx
      ∧ (¬ (cx = 0 ∧ cy = 0) → d ∈ [1, 2, 3, 4, 6, 7, 8, 9]) := by
  rcases hcx with h | h | h <;> rcases hcy with h1 | h1 | h1 <;> subst h <;> subst h1
  · have e : d = 7 := by omega
    subst e; simp
  · have e : d = 4 := by omega
    subst e; simp
  · have e : d = 1 := by omega
    subst e; simp
  · have e : d = 8 := by omega
    subst e; simp
  · have e : d = 5 := by omega
    subst e; simp
  · have e : d = 2 := by omega
    subst e; simp
  · have e : d = 9 := by omega
    subst e; simp
  · have e : d = 6 := by omega
    subst e; simp
  · have e : d = 3 := by omega
    subst e; simp

/-- C40: for two tiles `a` and `b` at L-infinity distance exactly 1 the
direction `d = GetDirection(a, b)` is one of 1, 2, 3, 4, 6, 7, 8, 9, and the
backward step that `Pass3_PaymentAndHitscan` applies to a character on `b`
that faces `d` after a normal step yields `a`; for all tiles,
`GetDirection(a, b) = 5` if and only if `a = b`. -/
theorem C40_GetDirection_backward (a b : Coord) :
    (distLInf a b = 1 →
        GetDirection a b ∈ [1, 2, 3, 4, 6, 7, 8, 9]
          ∧ ∀ ch : CharacterState, ch.coord = b → ch.dir = GetDirection a b →
              ch.ai_state &&& AI_STATE_NORMAL_STEP ≠ 0 → hitscanTile ch = a)
      ∧ (GetDirection a b = 5 ↔ a = b) := by
  obtain ⟨cx, cy, hcx, hcy, hx0, hy0, hx1, hy1, hd⟩ := GetDirection_val a b
  constructor
  · intro h
    obtain ⟨h1, h2, h3⟩ := distLInf_eq_one a b h
    have ex := hx1 h1
    have ey := hy1 h2
    obtain ⟨s1, s2, s3⟩ := backward_step (GetDirection a b) cx cy b.x b.y hcx hcy hd
    have hne : ¬ (cx = 0 ∧ cy = 0) := by
      intro hz
      rcases h3 with h3 | h3
      · exact h3 (hx0.mp hz.1)
      · exact h3 (hy0.mp hz.2)
    refine ⟨s3 hne, ?_⟩
    intro ch hc hdir hflag
    unfold hitscanTile
    simp only
    rw [if_pos hflag, hdir, hc, s1, s2]
    cases a
    simp only at ex ey
    simp only [Coord.mk.injEq]
    constructor <;> omega
  · constructor
    · intro h5
      rw [h5] at hd
      have hx : cx = 0 := by omega
      have hy : cy = 0 := by omega
      have e1 := hx0.mp hx
      have e2 := hy0.mp hy
      cases a; cases b
      simp only at e1 e2
      simp [e1, e2]
    · intro hab
      have hx : cx = 0 := hx0.mpr (by rw [hab])
      have hy : cy = 0 := hy0.mpr (by rw [hab])
      rw [hx, hy] at hd
      omega

/-- Witness for C40: the step from `(7, 7)` to `(8, 6)` has direction 9, and
the backward step from `(8, 6)` leads to `(7, 7)`. -/
theorem C40_GetDirection_backward_witness :
    distLInf ⟨7, 7⟩ ⟨8, 6⟩ = 1 ∧ GetDirection ⟨7, 7⟩ ⟨8, 6⟩ = 9
      ∧ hitscanTile { coord := ⟨8, 6⟩, dir := 9, ai_state := AI_STATE_NORMAL_STEP } = ⟨7, 7⟩
      ∧ hitscanTile { coord := ⟨8, 6⟩, dir := 9 } = ⟨8, 6⟩
      ∧ GetDirection ⟨7, 7⟩ ⟨8, 6⟩ ∈ [1, 2, 3, 4, 6, 7, 8, 9] :=
  ⟨by decide, by decide, by decide, by decide,
    ((C40_GetDirection_backward ⟨7, 7⟩ ⟨8, 6⟩).1 (by decide)).1⟩

/-! ## The score of a tile and the highest level on it -/

theorem ite_between (c : Prop) [Decidable c] (a b lo hi : Int) (ha : lo ≤ a ∧ a ≤ hi)
    (hb : lo ≤ b ∧ b ≤ hi) : lo ≤ (if c then a else b) ∧ (if c then a else b) ≤ hi := by
  by_cases h : c
  · rw [if_pos h]; exact ha
  · rw [if_neg h]; exact hb

theorem cacheLevel_range (ch : CharacterState) : 1 ≤ cacheLevel ch ∧ cacheLevel ch ≤ 9 := by
  unfold cacheLevel RPG_CLEVEL_FROM_LOOT
  repeat' apply ite_between
  all_goals decide

theorem RPG_SCORE_FROM_CLEVEL_cases (a s : Int) (hs : RPG_SCORE_FROM_CLEVEL a = s) :
    (a ≤ 1 ∧ s = 1) ∨ (a = 2 ∧ s = 10) ∨ (a = 3 ∧ s = 100) ∨ (a = 4 ∧ s = 1000)
      ∨ (a = 5 ∧ s = 10000) ∨ (a = 6 ∧ s = 100000) ∨ (a = 7 ∧ s = 1000000)
      ∨ (a = 8 ∧ s = 10000000) ∨ (9 ≤ a ∧ s = 100000000) := by
  unfold RPG_SCORE_FROM_CLEVEL SCORE_FOR_CLVL2 SCORE_FOR_CLVL3 SCORE_FOR_CLVL4 SCORE_FOR_CLVL5
    SCORE_FOR_CLVL6 SCORE_FOR_CLVL7 SCORE_FOR_CLVL8 SCORE_FOR_CLVL9 at hs
  by_cases h9 : a ≥ 9
  · rw [if_pos h9] at hs
    right; right; right; right; right; right; right; right; exact ⟨by omega, hs.symm⟩
  rw [if_neg h9] at hs
  by_cases h8 : a ≥ 8
  · rw [if_pos h8] at hs
    right; right; right; right; right; right; right; left; exact ⟨by omega, hs.symm⟩
  rw [if_neg h8] at hs
  by_cases h7 : a ≥ 7
  · rw [if_pos h7] at hs
    right; right; right; right; right; right; left; exact ⟨by omega, hs.symm⟩
  rw [if_neg h7] at hs
  by_cases h6 : a ≥ 6
  · rw [if_pos h6] at hs
    right; right; right; right; right; left; exact ⟨by omega, hs.symm⟩
  rw [if_neg h6] at hs
  by_cases h5 : a ≥ 5
  · rw [if_pos h5] at hs
    right; right; right; right; left; exact ⟨by omega, hs.symm⟩
  rw [if_neg h5] at hs
  by_cases h4 : a ≥ 4
  · rw [if_pos h4] at hs
    right; right; right; left; exact ⟨by omega, hs.symm⟩
  rw [if_neg h4] at hs
  by_cases h3 : a ≥ 3
  · rw [if_pos h3] at hs
    right; right; left; exact ⟨by omega, hs.symm⟩
  rw [if_neg h3] at hs
  by_cases h2 : a ≥ 2
  · rw [if_pos h2] at hs
    right; left; exact ⟨by omega, hs.symm⟩
  rw [if_neg h2] at hs
  left; exact ⟨by omega, hs.symm⟩

theorem RPG_SCORE_FROM_CLEVEL_pos (a : Int) :
    1 ≤ RPG_SCORE_FROM_CLEVEL a ∧ RPG_SCORE_FROM_CLEVEL a ≤ 100000000 := by
  have h := RPG_SCORE_FROM_CLEVEL_cases a _ rfl
  omega

theorem RPG_SCORE_FROM_CLEVEL_mono (a b : Int) (h : a ≤ b) :
    RPG_SCORE_FROM_CLEVEL a ≤ RPG_SCORE_FROM_CLEVEL b := by
  have ha := RPG_SCORE_FROM_CLEVEL_cases a _ rfl
  have hb := RPG_SCORE_FROM_CLEVEL_cases b _ rfl
  omega

/-- Without overflow the cell is the sum of the scores. -/
theorem foldl_countOnPlayermap (chs : List CharacterState) :
    ∀ cell : Int, 0 ≤ cell → cell + 100000000 * chs.length < 2 ^ 31 →
      chs.foldl countOnPlayermap cell
        = cell + (chs.map (fun ch => RPG_SCORE_FROM_CLEVEL (cacheLevel ch))).sum := by
  induction chs with
  | nil => intro cell _ _; simp
  | cons ch t ih =>
    intro cell h0 hlt
    have hs := RPG_SCORE_FROM_CLEVEL_pos (cacheLevel ch)
    simp only [List.length_cons, Nat.cast_add, Nat.cast_one] at hlt
    have hstep : countOnPlayermap cell ch = cell + RPG_SCORE_FROM_CLEVEL (cacheLevel ch) := by
      unfold countOnPlayermap toInt32
      have : (0 : Int) ≤ (t.length : Int) := Int.natCast_nonneg _
      omega
    simp only [List.foldl_cons, List.map_cons, List.sum_cons]
    rw [hstep, ih _ (by omega) (by omega)]
    ring

theorem highestLevel_cons (ch : CharacterState) (t : List CharacterState) :
    highestLevel (ch :: t) = max (cacheLevel ch) (highestLevel t) := rfl

/-- The sum of the scores lies between the score of the highest level and
that score times the number of characters. -/
theorem score_sum_bounds (chs : List CharacterState) (hne : chs ≠ []) :
    1 ≤ highestLevel chs ∧ highestLevel chs ≤ 9
      ∧ RPG_SCORE_FROM_CLEVEL (highestLevel chs)
          ≤ (chs.map (fun ch => RPG_SCORE_FROM_CLEVEL (cacheLevel ch))).sum
      ∧ (chs.map (fun ch => RPG_SCORE_FROM_CLEVEL (cacheLevel ch))).sum
          ≤ chs.length * RPG_SCORE_FROM_CLEVEL (highestLevel chs) := by
  induction chs with
  | nil => exact absurd rfl hne
  | cons ch t ih =>
    have hl := cacheLevel_range ch
    rw [highestLevel_cons]
    simp only [List.map_cons, List.sum_cons, List.length_cons, Nat.cast_add, Nat.cast_one]
    by_cases ht : t = []
    · subst ht
      have h0 : highestLevel [] = 0 := rfl
      rw [h0, max_eq_left (by omega)]
      simp only [List.map_nil, List.sum_nil, List.length_nil, Nat.cast_zero]
      refine ⟨hl.1, hl.2, ?_, ?_⟩ <;> omega
    · obtain ⟨i1, i2, i3, i4⟩ := ih ht
      have hm1 := RPG_SCORE_FROM_CLEVEL_mono (cacheLevel ch)
        (max (cacheLevel ch) (highestLevel t)) (le_max_left _ _)
      have hm2 := RPG_SCORE_FROM_CLEVEL_mono (highestLevel t)
        (max (cacheLevel ch) (highestLevel t)) (le_max_right _ _)
      have hp := RPG_SCORE_FROM_CLEVEL_pos (cacheLevel ch)
      have hlen : (0 : Int) ≤ (t.length : Int) := Int.natCast_nonneg _
      have hmul : (t.length : Int) * RPG_SCORE_FROM_CLEVEL (highestLevel t)
          ≤ t.length * RPG_SCORE_FROM_CLEVEL (max (cacheLevel ch) (highestLevel t)) :=
        mul_le_mul_of_nonneg_left hm2 hlen
      refine ⟨le_trans hl.1 (le_max_left _ _), max_le hl.2 i2, ?_, ?_⟩
      · rcases max_cases (cacheLevel ch) (highestLevel t) with ⟨he, _⟩ | ⟨he, _⟩
        · rw [he]
          have := le_trans (RPG_SCORE_FROM_CLEVEL_pos (highestLevel t)).1 i3
          omega
        · rw [he]; omega
      · rw [add_mul, one_mul]
        omega

theorem RPG_MAX_CLEVEL_cases (S r : Int) (hr : RPG_MAX_CLEVEL_FROM_PLAYERMAP_SCORE S = r) :
    (S < 1 ∧ r = 0) ∨ (1 ≤ S ∧ S < 10 ∧ r = 1) ∨ (10 ≤ S ∧ S < 100 ∧ r = 2)
      ∨ (100 ≤ S ∧ S < 1000 ∧ r = 3) ∨ (1000 ≤ S ∧ S < 10000 ∧ r = 4)
      ∨ (10000 ≤ S ∧ S < 100000 ∧ r = 5) ∨ (100000 ≤ S ∧ S < 1000000 ∧ r = 6)
      ∨ (1000000 ≤ S ∧ S < 10000000 ∧ r = 7) ∨ (10000000 ≤ S ∧ S < 100000000 ∧ r = 8)
      ∨ (100000000 ≤ S ∧ r = 9) := by
  unfold RPG_MAX_CLEVEL_FROM_PLAYERMAP_SCORE SCORE_FOR_CLVL2 SCORE_FOR_CLVL3 SCORE_FOR_CLVL4
    SCORE_FOR_CLVL5 SCORE_FOR_CLVL6 SCORE_FOR_CLVL7 SCORE_FOR_CLVL8 SCORE_FOR_CLVL9 at hr
  by_cases h9 : S ≥ 100000000
  · rw [if_pos h9] at hr
    right; right; right; right; right; right; right; right; right; exact ⟨by omega, hr.symm⟩
  rw [if_neg h9] at hr
  by_cases h8 : S ≥ 10000000
  · rw [if_pos h8] at hr
    right; right; right; right; right; right; right; right; left; exact ⟨by omega, by omega, hr.symm⟩
  rw [if_neg h8] at hr
  by_cases h7 : S ≥ 1000000
  · rw [if_pos h7] at hr
    right; right; right; right; right; right; right; left; exact ⟨by omega, by omega, hr.symm⟩
  rw [if_neg h7] at hr
  by_cases h6 : S ≥ 100000
  · rw [if_pos h6] at hr
    right; right; right; right; right; right; left; exact ⟨by omega, by omega, hr.symm⟩
  rw [if_neg h6] at hr
  by_cases h5 : S ≥ 10000
  · rw [if_pos h5] at hr
    right; right; right; right; right; left; exact ⟨by omega, by omega, hr.symm⟩
  rw [if_neg h5] at hr
  by_cases h4 : S ≥ 1000
  · rw [if_pos h4] at hr
    right; right; right; right; left; exact ⟨by omega, by omega, hr.symm⟩
  rw [if_neg h4] at hr
  by_cases h3 : S ≥ 100
  · rw [if_pos h3] at hr
    right; right; right; left; exact ⟨by omega, by omega, hr.symm⟩
  rw [if_neg h3] at hr
  by_cases h2 : S ≥ 10
  · rw [if_pos h2] at hr
    right; right; left; exact ⟨by omega, by omega, hr.symm⟩
  rw [if_neg h2] at hr
  by_cases h1 : S ≥ 1
  · rw [if_pos h1] at hr
    right; left; exact ⟨by omega, by omega, hr.symm⟩
  rw [if_neg h1] at hr
  left; exact ⟨by omega, hr.symm⟩

theorem RPG_MAX_CLEVEL_of_bounds (S m : Int) (h1 : 1 ≤ m) (h9 : m ≤ 9)
    (hlo : RPG_SCORE_FROM_CLEVEL m ≤ S) (hhi : S ≤ 9 * RPG_SCORE_FROM_CLEVEL m) :
    RPG_MAX_CLEVEL_FROM_PLAYERMAP_SCORE S = m := by
  have hs := RPG_SCORE_FROM_CLEVEL_cases m _ rfl
  have hm := RPG_MAX_CLEVEL_cases S _ rfl
  omega

/-- C39: when at most 9 characters are counted on a tile for a team (each is
counted with a level from 1 to 9), `RPG_MAX_CLEVEL_FROM_PLAYERMAP_SCORE`
applied to the cell of `AI_playermap`, the sum of their
`RPG_SCORE_FROM_CLEVEL` scores, is the highest level among them, and it is 0
exactly when no character is counted. -/
theorem C39_max_clevel_from_score (chs : List CharacterState) (hlen : chs.length ≤ 9) :
    (∀ ch ∈ chs, 1 ≤ cacheLevel ch ∧ cacheLevel ch ≤ 9)
      ∧ playermapCell chs = (chs.map (fun ch => RPG_SCORE_FROM_CLEVEL (cacheLevel ch))).sum
      ∧ RPG_MAX_CLEVEL_FROM_PLAYERMAP_SCORE (playermapCell chs) = highestLevel chs
      ∧ (RPG_MAX_CLEVEL_FROM_PLAYERMAP_SCORE (playermapCell chs) = 0 ↔ chs = []) := by
  have hl : (chs.length : Int) ≤ 9 := by exact_mod_cast hlen
  have hsum : playermapCell chs
      = (chs.map (fun ch => RPG_SCORE_FROM_CLEVEL (cacheLevel ch))).sum := by
    unfold playermapCell
    rw [foldl_countOnPlayermap chs 0 le_rfl (by norm_num; omega)]
    simp
  have hmax : RPG_MAX_CLEVEL_FROM_PLAYERMAP_SCORE (playermapCell chs) = highestLevel chs := by
    by_cases hne : chs = []
    · subst hne; rfl
    · obtain ⟨i1, i2, i3, i4⟩ := score_sum_bounds chs hne
      rw [hsum]
      apply RPG_MAX_CLEVEL_of_bounds _ _ i1 i2 i3
      have hp := RPG_SCORE_FROM_CLEVEL_pos (highestLevel chs)
      have : (chs.length : Int) * RPG_SCORE_FROM_CLEVEL (highestLevel chs)
          ≤ 9 * RPG_SCORE_FROM_CLEVEL (highestLevel chs) :=
        mul_le_mul_of_nonneg_right hl (by omega)
      omega
  refine ⟨fun ch _ => cacheLevel_range ch, hsum, hmax, ?_⟩
  rw [hmax]
  constructor
  · intro h0
    by_contra hne
    have := (score_sum_bounds chs hne).1
    omega
  · intro h
    subst h
    rfl

/-- Witness for C39: two characters of level 1 and one of level 3 give the
score 102 and the level 3. -/
theorem C39_max_clevel_from_score_witness :
    [sampleCharacter, levelThree, sampleCharacter].length ≤ 9
      ∧ playermapCell [sampleCharacter, levelThree, sampleCharacter] = 102
      ∧ highestLevel [sampleCharacter, levelThree, sampleCharacter] = 3
      ∧ RPG_MAX_CLEVEL_FROM_PLAYERMAP_SCORE
          (playermapCell [sampleCharacter, levelThree, sampleCharacter]) = 3
      ∧ RPG_MAX_CLEVEL_FROM_PLAYERMAP_SCORE
          (playermapCell [sampleCharacter, levelThree, sampleCharacter])
          = highestLevel [sampleCharacter, levelThree, sampleCharacter] :=
  ⟨by decide, by decide, by decide, by decide,
    (C39_max_clevel_from_score [sampleCharacter, levelThree, sampleCharacter]
      (by decide)).2.2.1⟩

/-- C32: the divisor of the prorated bounty of `Pass1_DAO` can be zero.  When
the partial-vote weight is greater than 0, neither the decline nor the
full-accept bucket is above half of the total, and the three buckets together
weigh less than `COIN`, the divisor `tmp_weight / COIN` is 0 and the division
`Cache_vote_part / (tmp_weight / COIN)` is a division by zero. -/
theorem C32_prorated_bounty_divides_by_zero (COIN request : Int) (c : DaoCache)
    (hz : ¬ c.Cache_voteweight_zero > Int.tdiv c.Cache_voteweight_total 2)
    (hf : ¬ c.Cache_voteweight_full > Int.tdiv c.Cache_voteweight_total 2)
    (hp : c.Cache_voteweight_part > 0)
    (h0 : 0 ≤ c.Cache_voteweight_part + c.Cache_voteweight_full + c.Cache_voteweight_zero)
    (hlt : c.Cache_voteweight_part + c.Cache_voteweight_full + c.Cache_voteweight_zero < COIN) :
    Int.tdiv (c.Cache_voteweight_part + c.Cache_voteweight_full + c.Cache_voteweight_zero) COIN
        = 0
      ∧ daoTally COIN request c = none := by
  have hd := Int.tdiv_eq_zero_of_lt h0 hlt
  refine ⟨hd, ?_⟩
  unfold daoTally
  rw [if_neg hz, if_neg hf, if_pos hp]
  simp only
  rw [if_pos hd]

/-- Witness for C32: with `COIN = 100000000` the count over `smallVoteState`
puts the 5 units of `eve` into the partial bucket, and the tally divides by
`5 / 100000000 = 0`. -/
theorem C32_prorated_bounty_divides_by_zero_witness :
    (smallVoteState.daoCountVotes 100000000 10 0 {}).2
        = { Cache_voteweight_total := 5, Cache_voteweight_part := 5,
            Cache_vote_part := 0 }
      ∧ daoTally 100000000 smallVoteState.dao_BestRequestFinal
          (smallVoteState.daoCountVotes 100000000 10 0 {}).2 = none :=
  ⟨by decide,
    (C32_prorated_bounty_divides_by_zero 100000000 smallVoteState.dao_BestRequestFinal
      (smallVoteState.daoCountVotes 100000000 10 0 {}).2 (by decide) (by decide) (by decide)
      (by decide) (by decide)).2⟩

theorem walkEnds_of_moveTimes (env : Env) (n : Nat) (ch ch1 : CharacterState)
    (h : moveTimes env n ch = some ch1) (h1 : walkEnds env ch1) : walkEnds env ch := by
  obtain ⟨m, ch2, h2, h3⟩ := h1
  refine ⟨n + m, ch2, ?_, h3⟩
  rw [moveTimes_add, h]
  exact h2

theorem eq_nil_or_snoc {α : Type} (l : List α) : l = [] ∨ ∃ rest B, l = rest ++ [B] := by
  rcases List.eq_nil_or_concat l with h | ⟨rest, B, h⟩
  · exact Or.inl h
  · exact Or.inr ⟨rest, B, by rw [h, List.concat_eq_append]⟩

theorem popBackWhile_length_le (c : Coord) (l : List Coord) :
    (popBackWhile c l).length ≤ l.length := by
  unfold popBackWhile
  rw [List.length_reverse]
  have h := (List.dropWhile_suffix (fun w => decide (c = w)) (l := l.reverse)).length_le
  rw [List.length_reverse] at h
  exact h

theorem popBackWhile_getLast (c : Coord) (l : List Coord) (B : Coord)
    (h : (popBackWhile c l).getLast? = some B) : c ≠ B := by
  unfold popBackWhile at h
  rw [List.getLast?_reverse] at h
  intro hcb
  cases hd : List.dropWhile (fun w => decide (c = w)) l.reverse with
  | nil => rw [hd] at h; simp at h
  | cons x t =>
    rw [hd] at h
    simp only [List.head?_cons, Option.some.injEq] at h
    have := List.head_dropWhile_not (fun w => decide (c = w)) l.reverse (by rw [hd]; simp)
    simp only [hd, List.head_cons] at this
    rw [h, hcb] at this
    simp at this

/-- One step of the stepper on the line, on any obstacle map: the character
stops, or advances on the line, or reaches the waypoint and drops it. -/
theorem walkLine_onLine_any (env : Env) (normalStep : Bool) (A B : Coord) (rest : List Coord)
    (k : Int) (ch : CharacterState) (hk0 : 0 ≤ k) (hk : k < distLInf A B)
    (h : onLine A B rest k ch) :
    ∃ ch1, ch.walkLine env normalStep = some ch1
      ∧ (ch1.waypoints = []
          ∨ (k + 1 < distLInf A B ∧ onLine A B rest (k + 1) ch1)
          ∨ (ch1.from_ = ch1.coord ∧ ch1.waypoints = popBackWhile B rest)) := by
  obtain ⟨hfrom, hcoord, hwp⟩ := h
  have hlast : ch.waypoints.getLast? = some B := by rw [hwp]; simp
  have hnext := nextTile_linePoint ch A B k hk0 hk hfrom hcoord
  unfold CharacterState.walkLine
  rw [hlast]
  simp only [hnext, Option.some_bind]
  by_cases hw : IsWalkable env (linePoint A B (k + 1)).x (linePoint A B (k + 1)).y = false
  · rw [if_pos hw]
    exact ⟨_, rfl, Or.inl rfl⟩
  · rw [if_neg hw]
    by_cases hend : linePoint A B (k + 1) = B
    · rw [if_pos hend]
      refine ⟨_, rfl, Or.inr (Or.inr ⟨?_, ?_⟩)⟩
      · split_ifs <;> rfl
      · have : ch.waypoints.dropLast = rest := by rw [hwp]; simp
        split_ifs <;> simp only [this, hend]
    · rw [if_neg hend]
      have hlt : k + 1 < distLInf A B := by
        by_contra hge
        have heq : k + 1 = distLInf A B := by omega
        apply hend
        rw [heq]
        apply linePoint_dist
        intro hAB
        rw [hAB] at hk
        have : distLInf A A = 0 := by simp [distLInf]
        omega
      refine ⟨_, rfl, Or.inr (Or.inl ⟨hlt, ?_, ?_, ?_⟩)⟩
      · split_ifs <;> exact hfrom
      · split_ifs <;> rfl
      · split_ifs <;> exact hwp

theorem MoveTowardsWaypoint_onLine_any (env : Env) (A B : Coord) (rest : List Coord)
    (k : Int) (ch : CharacterState) (hk0 : 0 ≤ k) (hk : k < distLInf A B)
    (h : onLine A B rest k ch) :
    ∃ ch1, ch.MoveTowardsWaypoint env = some ch1
      ∧ (ch1.waypoints = []
          ∨ (k + 1 < distLInf A B ∧ onLine A B rest (k + 1) ch1)
          ∨ (ch1.from_ = ch1.coord ∧ ch1.waypoints = popBackWhile B rest)) := by
  have hlast : ch.waypoints.getLast? = some B := by rw [h.2.2]; simp
  have hne : ch.coord ≠ B := by rw [h.2.1]; exact linePoint_ne A B k hk0 hk
  have hwne : ch.waypoints ≠ [] := by rw [h.2.2]; simp
  unfold CharacterState.MoveTowardsWaypoint
  rw [if_neg hwne]
  unfold CharacterState.moveAlongLine
  rw [hlast]
  simp only [if_neg hne]
  exact walkLine_onLine_any env false A B rest k ch hk0 hk h

/-- From a tile of the line the character stops or reaches the waypoint: in
both cases after finitely many steps. -/
theorem segment_any (env : Env) (A B : Coord) (rest : List Coord) (m : Nat) :
    ∀ (k : Int) (ch : CharacterState), 0 ≤ k → k < distLInf A B → distLInf A B - k ≤ m →
      onLine A B rest k ch →
      ∃ n ch1, moveTimes env n ch = some ch1
        ∧ (ch1.waypoints = []
            ∨ (ch1.from_ = ch1.coord ∧ ch1.waypoints = popBackWhile B rest)) := by
  induction m with
  | zero =>
    intro k ch _ hk hm _
    exfalso
    omega
  | succ m ih =>
    intro k ch hk0 hk hm h
    push_cast at hm
    obtain ⟨ch1, h1, h2⟩ := MoveTowardsWaypoint_onLine_any env A B rest k ch hk0 hk h
    have hone : moveTimes env 1 ch = some ch1 := by
      simp only [moveTimes, h1, Option.some_bind]
    rcases h2 with h2 | ⟨hlt, h2⟩ | h2
    · exact ⟨1, ch1, hone, Or.inl h2⟩
    · obtain ⟨n, ch2, h3, h4⟩ := ih (k + 1) ch1 (by omega) hlt (by omega) h2
      refine ⟨1 + n, ch2, ?_, h4⟩
      rw [moveTimes_add, hone]
      exact h3
    · exact ⟨1, ch1, hone, Or.inr h2⟩

/-- A character that stands where its line started, or on its next waypoint,
ends its walk. -/
theorem walkEnds_of_start (env : Env) (m : Nat) :
    ∀ ch : CharacterState, ch.waypoints.length ≤ m →
      (ch.from_ = ch.coord ∨ ∃ B, ch.waypoints.getLast? = some B ∧ ch.coord = B) →
      walkEnds env ch := by
  induction m with
  | zero =>
    intro ch hlen _
    exact ⟨0, ch, rfl, List.length_eq_zero.mp (Nat.le_zero.mp hlen)⟩
  | succ m ih =>
    intro ch hlen hstart
    rcases eq_nil_or_snoc ch.waypoints with hnil | ⟨rest, B, hwp⟩
    · exact ⟨0, ch, rfl, hnil⟩
    · have hlast : ch.waypoints.getLast? = some B := by rw [hwp]; simp
      have hrest : rest.length ≤ m := by
        rw [hwp] at hlen
        simp only [List.length_append, List.length_singleton] at hlen
        omega
      have hwne : ch.waypoints ≠ [] := by rw [hwp]; simp
      -- after reaching a waypoint (or stopping) the rest of the walk is shorter
      have hafter : ∀ (A1 B1 : Coord) (rest1 : List Coord) (k : Int) (c1 : CharacterState),
          rest1.length ≤ m → 0 ≤ k → k < distLInf A1 B1 → onLine A1 B1 rest1 k c1 →
          walkEnds env c1 := by
        intro A1 B1 rest1 k c1 hr1 hk0 hk hon
        obtain ⟨n, c2, h1, h2⟩ :=
          segment_any env A1 B1 rest1 (distLInf A1 B1 - k).toNat k c1 hk0 hk
            (by rw [Int.toNat_of_nonneg (by omega)]) hon
        apply walkEnds_of_moveTimes env n c1 c2 h1
        rcases h2 with h2 | ⟨h2, h3⟩
        · exact ⟨0, c2, rfl, h2⟩
        · apply ih c2 _ (Or.inl h2)
          rw [h3]
          exact le_trans (popBackWhile_length_le B1 rest1) hr1
      by_cases hcb : ch.coord = B
      · -- the waypoints on which the character stands are dropped first
        have hdrop : ch.waypoints.dropLast = rest := by rw [hwp]; simp
        have hstep : ch.MoveTowardsWaypoint env
            = if popBackWhile ch.coord rest = [] then
                some { ch with from_ := ch.coord, waypoints := [] }
              else CharacterState.walkLine env false
                { ch with from_ := ch.coord, waypoints := popBackWhile ch.coord rest } := by
          unfold CharacterState.MoveTowardsWaypoint
          rw [if_neg hwne]
          unfold CharacterState.moveAlongLine
          rw [hlast]
          simp only [if_pos hcb, hdrop]
        by_cases hpop : popBackWhile ch.coord rest = []
        · rw [if_pos hpop] at hstep
          refine ⟨1, { ch with from_ := ch.coord, waypoints := [] }, ?_, rfl⟩
          simp only [moveTimes, hstep, Option.some_bind]
        · rw [if_neg hpop] at hstep
          rcases eq_nil_or_snoc (popBackWhile ch.coord rest) with hnil | ⟨rest1, B1, hw1⟩
          · exact absurd hnil hpop
          · have hne1 : ch.coord ≠ B1 :=
              popBackWhile_getLast ch.coord rest B1 (by rw [hw1]; simp)
            have hlen1 : rest1.length + 1 ≤ rest.length := by
              have := popBackWhile_length_le ch.coord rest
              rw [hw1] at this
              simpa using this
            have hpos := distLInf_pos ch.coord B1 (Ne.symm hne1)
            have hon : onLine ch.coord B1 rest1 0
                { ch with from_ := ch.coord, waypoints := popBackWhile ch.coord rest } :=
              ⟨rfl, (linePoint_zero ch.coord B1 (Ne.symm hne1)).symm, hw1⟩
            obtain ⟨c1, h1, h2⟩ :=
              walkLine_onLine_any env false ch.coord B1 rest1 0 _ le_rfl hpos hon
            have hone : moveTimes env 1 ch = some c1 := by
              simp only [moveTimes, hstep, h1, Option.some_bind]
            apply walkEnds_of_moveTimes env 1 ch c1 hone
            rcases h2 with h2 | ⟨hlt, h2⟩ | ⟨h2, h3⟩
            · exact ⟨0, c1, rfl, h2⟩
            · exact hafter ch.coord B1 rest1 (0 + 1) c1 (by omega) (by omega) hlt h2
            · apply ih c1 _ (Or.inl h2)
              rw [h3]
              exact le_trans (popBackWhile_length_le B1 rest1) (by omega)
      · have hfrom : ch.from_ = ch.coord := by
          rcases hstart with h | ⟨B2, h1, h2⟩
          · exact h
          · rw [hlast] at h1
            exact absurd (h2.trans (Option.some.inj h1).symm) hcb
        have hpos := distLInf_pos ch.coord B (Ne.symm hcb)
        exact hafter ch.coord B rest 0 ch hrest le_rfl hpos
          ⟨hfrom, (linePoint_zero ch.coord B (Ne.symm hcb)).symm, hwp⟩

/-- A character on its track ends its walk, on any obstacle map. -/
theorem walkEnds_of_onTrack (env : Env) (ch : CharacterState) (h : onTrack ch) :
    walkEnds env ch := by
  rcases h with h | ⟨B, hB, h | ⟨k, hk0, hk, hc⟩⟩
  · exact walkEnds_of_start env ch.waypoints.length ch le_rfl (Or.inl h)
  · exact walkEnds_of_start env ch.waypoints.length ch le_rfl (Or.inr ⟨B, hB, h⟩)
  · rcases eq_nil_or_snoc ch.waypoints with hnil | ⟨rest, B1, hwp⟩
    · exact ⟨0, ch, rfl, hnil⟩
    · have hBB : B1 = B := by
        rw [hwp] at hB
        simpa using hB
      subst hBB
      obtain ⟨n, c2, h1, h2⟩ :=
        segment_any env ch.from_ B1 rest (distLInf ch.from_ B1 - k).toNat k ch hk0 hk
          (by rw [Int.toNat_of_nonneg (by omega)]) ⟨rfl, hc, hwp⟩
      apply walkEnds_of_moveTimes env n ch c2 h1
      rcases h2 with h2 | ⟨h2, _⟩
      · exact ⟨0, c2, rfl, h2⟩
      · exact walkEnds_of_start env c2.waypoints.length c2 le_rfl (Or.inl h2)

/-- When the walk ends after `n` steps, the loop of `DumpPath` ends within
`n` rounds. -/
theorem dumpLoop_of_moveTimes (env : Env) (n : Nat) :
    ∀ (ch ch1 : CharacterState) (ret : List Coord) (fuel : Nat),
      moveTimes env n ch = some ch1 → ch1.waypoints = [] → ch.waypoints ≠ [] → n ≤ fuel →
      ∃ r, dumpLoop env fuel ch ret = some r := by
  induction n with
  | zero =>
    intro ch ch1 ret fuel h h1 hne _
    simp only [moveTimes, Option.some.injEq] at h
    rw [h] at hne
    exact absurd h1 hne
  | succ n ih =>
    intro ch ch1 ret fuel h h1 hne hfuel
    obtain ⟨f, hf⟩ : ∃ f, fuel = f + 1 := ⟨fuel - 1, by omega⟩
    subst hf
    simp only [moveTimes] at h
    cases hm : ch.MoveTowardsWaypoint env with
    | none => rw [hm] at h; simp at h
    | some c2 =>
      rw [hm] at h
      simp only [Option.some_bind] at h
      simp only [dumpLoop, hm]
      by_cases hw : c2.waypoints ≠ []
      · rw [if_pos hw]
        exact ih c2 ch1 _ f h h1 hw (by omega)
      · rw [if_neg hw]
        exact ⟨_, rfl⟩

theorem DumpPath_of_walkEnds (env : Env) (ch : CharacterState) (h : walkEnds env ch) :
    ∃ n, ∀ fuel, n ≤ fuel → ∃ path, ch.DumpPath env fuel none = some path := by
  obtain ⟨n, ch1, h1, h2⟩ := h
  refine ⟨n, fun fuel hfuel => ?_⟩
  unfold CharacterState.DumpPath
  simp only
  by_cases hne : ch.waypoints ≠ []
  · rw [if_pos hne]
    obtain ⟨r, hr⟩ := dumpLoop_of_moveTimes env n ch ch1 [] fuel h1 h2 hne hfuel
    rw [hr]
    exact ⟨_, rfl⟩
  · rw [if_neg hne]
    exact ⟨_, rfl⟩

theorem moveTimes_stuck (n : Nat) : moveTimes sampleEnv n stuckWalker = some stuckWalker := by
  induction n with
  | zero => rfl
  | succ n ih =>
    have h : stuckWalker.MoveTowardsWaypoint sampleEnv = some stuckWalker := by decide
    simp only [moveTimes, h, Option.some_bind, ih]

theorem dumpLoop_stuck (fuel : Nat) :
    ∀ ret, dumpLoop sampleEnv fuel stuckWalker ret = none := by
  induction fuel with
  | zero => intro ret; rfl
  | succ f ih =>
    intro ret
    have h : stuckWalker.MoveTowardsWaypoint sampleEnv = some stuckWalker := by decide
    simp only [dumpLoop, h]
    rw [if_pos (by decide)]
    exact ih _

/-- Counterexample for C33: the character on `(5, 5)` whose `from` is its
waypoint `(7, 5)` (all tiles inside the map and walkable): the slope that the
stepper takes from `from` is zero in both directions, the next tile is the
tile on which the character stands, and the step changes nothing.  The
waypoint list never gets empty and the loop of `DumpPath` does not end. -/
theorem C33_counterexample :
    IsInsideMap stuckWalker.coord.x stuckWalker.coord.y = true
      ∧ IsInsideMap stuckWalker.from_.x stuckWalker.from_.y = true
      ∧ (∀ w ∈ stuckWalker.waypoints, IsInsideMap w.x w.y = true)
      ∧ stuckWalker.nextTile ⟨7, 5⟩ = some stuckWalker.coord
      ∧ stuckWalker.MoveTowardsWaypoint sampleEnv = some stuckWalker
      ∧ (∀ n, ∃ ch1, moveTimes sampleEnv n stuckWalker = some ch1 ∧ ch1.waypoints ≠ [])
      ∧ ∀ fuel, stuckWalker.DumpPath sampleEnv fuel none = none := by
  refine ⟨by decide, by decide, by decide, by decide, by decide, ?_, ?_⟩
  · intro n
    exact ⟨stuckWalker, moveTimes_stuck n, by decide⟩
  · intro fuel
    unfold CharacterState.DumpPath
    simp only
    rw [if_pos (by decide), dumpLoop_stuck]
    rfl

/-- C33 (amended): for every obstacle map and every character state that is
on its track (it stands where its line started, `from = coord`, or on its
next waypoint, or on a tile of the stepper's line from `from` to the next
waypoint), repeated application of `MoveTowardsWaypoint` empties the waypoint
list after finitely many steps, and the loop of `DumpPath` ends; with
alternative waypoints, for which `DumpPath` starts from `from = coord`, this
holds for every character state. -/
theorem C33_walk_terminates (env : Env) (ch : CharacterState) :
    (onTrack ch →
        (∃ n ch1, moveTimes env n ch = some ch1 ∧ ch1.waypoints = [])
          ∧ ∃ n, ∀ fuel, n ≤ fuel → ∃ path, ch.DumpPath env fuel none = some path)
      ∧ ∀ wp : List Coord,
          ∃ n, ∀ fuel, n ≤ fuel → ∃ path, ch.DumpPath env fuel (some wp) = some path := by
  constructor
  · intro h
    have hw := walkEnds_of_onTrack env ch h
    exact ⟨hw, DumpPath_of_walkEnds env ch hw⟩
  · intro wp
    have hw : walkEnds env { ch.StopMoving with waypoints := wp } :=
      walkEnds_of_onTrack env _ (Or.inl rfl)
    exact DumpPath_of_walkEnds env { ch.StopMoving with waypoints := wp } hw

/-- Witness for C33: the walker from `(0, 0)` to `(5, 2)` on the map with an
obstacle on `(1, 0)` stops at once, and its path is the tile `(0, 0)`. -/
theorem C33_walk_terminates_witness :
    onTrack lineWalker
      ∧ lineWalker.DumpPath blockedEnv 1 none = some [⟨0, 0⟩]
      ∧ lineWalker.DumpPath sampleEnv 5 none
          = some [⟨0, 0⟩, ⟨1, 0⟩, ⟨2, 1⟩, ⟨3, 1⟩, ⟨4, 2⟩, ⟨5, 2⟩]
      ∧ ∃ n ch1, moveTimes blockedEnv n lineWalker = some ch1 ∧ ch1.waypoints = [] :=
  ⟨Or.inl rfl, by decide, by decide,
    ((C33_walk_terminates blockedEnv lineWalker).1 (Or.inl rfl)).1⟩

theorem foldlM_prefix {α β : Type} (f : β → α → Option β) (I : List α → β → Prop) (l : List α)
    (h : ∀ pre x post b b1, l = pre ++ x :: post → I pre b → f b x = some b1 →
      I (pre ++ [x]) b1) :
    ∀ b b1, I [] b → l.foldlM f b = some b1 → I l b1 := by
  have key : ∀ post pre, l = pre ++ post → ∀ b b1, I pre b → post.foldlM f b = some b1 →
      I l b1 := by
    intro post
    induction post with
    | nil =>
      intro pre hl b b1 hb hr
      simp only [List.foldlM_nil, Option.pure_def, Option.some.injEq] at hr
      rw [hl, List.append_nil, ← hr]
      exact hb
    | cons x t ih =>
      intro pre hl b b1 hb hr
      simp only [List.foldlM_cons, Option.bind_eq_bind] at hr
      cases hx : f b x with
      | none => rw [hx] at hr; simp at hr
      | some b2 =>
        rw [hx] at hr
        simp only [Option.some_bind] at hr
        exact ih (pre ++ [x]) (by rw [hl]; simp) b2 b1 (h pre x t b b2 hl hb hx) hr
  intro b b1 hb hr
  exact key l [] rfl b b1 hb hr

theorem foldlM_some_prefix {α β : Type} (f : β → α → Option β) (I : List α → β → Prop)
    (l : List α)
    (h : ∀ pre x post b, l = pre ++ x :: post → I pre b →
      ∃ b1, f b x = some b1 ∧ I (pre ++ [x]) b1) :
    ∀ b, I [] b → ∃ b1, l.foldlM f b = some b1 := by
  have key : ∀ post pre, l = pre ++ post → ∀ b, I pre b → ∃ b1, post.foldlM f b = some b1 := by
    intro post
    induction post with
    | nil => intro pre _ b _; exact ⟨b, rfl⟩
    | cons x t ih =>
      intro pre hl b hb
      obtain ⟨b2, hx, hb2⟩ := h pre x t b hl hb
      simp only [List.foldlM_cons, Option.bind_eq_bind, hx, Option.some_bind]
      exact ih (pre ++ [x]) (by rw [hl]; simp) b2 hb2
  intro b hb
  exact key l [] rfl b hb

theorem mem_characterIds (gs : GameState) (pid : PlayerID) (i : Int) :
    (pid, i) ∈ gs.characterIds ↔ (gs.findCharacter pid i).isSome = true := by
  unfold GameState.characterIds GameState.findCharacter
  simp only [List.mem_flatMap, List.mem_map, Prod.mk.injEq]
  constructor
  · rintro ⟨p, hp, j, hj, h1, h2⟩
    have hf := gs.players.find_of_mem_entries p hp
    rw [← h1, hf]
    simp only [Option.some_bind]
    obtain ⟨v, hv⟩ := (StdMap.mem_keys p.2.characters j).mp hj
    rw [← h2, hv]
    rfl
  · intro h
    cases hf : gs.players.find pid with
    | none => rw [hf] at h; simp at h
    | some pl =>
      rw [hf] at h
      simp only [Option.some_bind] at h
      have hk : pid ∈ gs.players.keys := (StdMap.mem_keys gs.players pid).mpr ⟨pl, hf⟩
      obtain ⟨e, he, hek⟩ := List.mem_map.mp hk
      have hfe := gs.players.find_of_mem_entries e he
      rw [hek, hf] at hfe
      have hpl : e.2 = pl := (Option.some.inj hfe).symm
      refine ⟨e, he, i, ?_, hek, rfl⟩
      rw [hpl]
      apply (StdMap.mem_keys pl.characters i).mpr
      cases hc : pl.characters.find i with
      | none => rw [hc] at h; simp at h
      | some ch => exact ⟨ch, rfl⟩

theorem characterIds_nodup (gs : GameState) : gs.characterIds.Nodup := by
  unfold GameState.characterIds
  rw [List.nodup_flatMap]
  constructor
  · intro p _
    exact (StdMap.keys_nodup p.2.characters).map (fun a b h => (Prod.mk.inj h).2)
  · refine gs.players.sorted.imp ?_
    intro a b hab
    simp only [Function.onFun, List.disjoint_left, List.mem_map]
    rintro x ⟨i, _, hi⟩ ⟨j, _, hj⟩
    rw [← hj] at hi
    exact absurd (Prod.mk.inj hi).1 (ne_of_lt hab)

theorem inBank_iff (ch : CharacterState) :
    inBank ch = true
      ↔ ch.ai_state2 &&& AI_STATE2_ESSENTIAL = 0 ∧ ch.loot.nAmount > 0
          ∧ IsInSpawnArea ch.coord.x ch.coord.y = true := by
  unfold inBank
  simp [and_assoc]

theorem bankCharacter_step (gs : GameState) (step : StepResult) (pre : List (PlayerID × Int))
    (x : PlayerID × Int) (acc : GameState × StepResult) (hx : x ∉ pre)
    (hmem : (gs.findCharacter x.1 x.2).isSome = true) (hI : bankInv gs step pre acc) :
    (∀ b1, bankCharacter acc x = some b1 → bankInv gs step (pre ++ [x]) b1)
      ∧ (0 ≤ x.2 → ∃ b1, bankCharacter acc x = some b1) := by
  obtain ⟨i1, i2, i3, i4, i5, i6⟩ := hI
  obtain ⟨pid, i⟩ := x
  simp only at hmem
  cases hch : gs.findCharacter pid i with
  | none => rw [hch] at hmem; simp at hmem
  | some ch =>
    have hacc : acc.1.findCharacter pid i = some ch := by
      rw [i6 pid i, hch]
      simp only [Option.map_some', Option.some.injEq]
      rw [if_neg (fun h => hx h.1)]
    -- the player and the character as the loop body finds them
    obtain ⟨pl1, hp1, hc1⟩ : ∃ pl1, acc.1.players.find pid = some pl1
        ∧ pl1.characters.find i = some ch := by
      unfold GameState.findCharacter at hacc
      cases hp : acc.1.players.find pid with
      | none => rw [hp] at hacc; simp at hacc
      | some pl1 => rw [hp] at hacc; exact ⟨pl1, rfl, hacc⟩
    obtain ⟨pl, hp, haddr⟩ := i5 pid pl1 hp1
    have hc : pl.characters.find i = some ch := by
      unfold GameState.findCharacter at hch
      rw [hp] at hch
      exact hch
    have hbounty : bankBounty gs (pid, i)
        = if inBank ch = true then
            some ⟨{ player := pid, index := i },
              { ch.loot with nAmount := ch.loot.nAmount - ch.loot.nAmount / 10 }, pl.address⟩
          else none := by
      unfold bankBounty
      simp only [hp, hc]
    have htax : bankTax gs (pid, i) = if inBank ch = true then ch.loot.nAmount / 10 else 0 := by
      unfold bankTax
      simp only [hch]
    -- what is kept when the state does not change
    have hkeep : inBank ch = false → bankInv gs step (pre ++ [(pid, i)]) acc := by
      intro hb
      refine ⟨?_, ?_, i3, i4, i5, ?_⟩
      · rw [List.filterMap_append, i1]
        simp [hbounty, hb]
      · rw [List.map_append, List.sum_append, i2]
        simp [htax, hb]
      · intro q j
        rw [i6 q j]
        cases hq : gs.findCharacter q j with
        | none => rfl
        | some c =>
          simp only [Option.map_some', Option.some.injEq, List.mem_append, List.mem_singleton,
            Prod.mk.injEq]
          by_cases hqj : q = pid ∧ j = i
          · obtain ⟨e1, e2⟩ := hqj
            subst e1; subst e2
            rw [hch] at hq
            have hcc : c = ch := (Option.some.inj hq).symm
            subst hcc
            rw [if_neg (fun h => hx h.1), if_neg (by rw [hb]; simp)]
          · by_cases hpre : (q, j) ∈ pre ∧ inBank c = true
            · rw [if_pos hpre, if_pos ⟨Or.inl hpre.1, hpre.2⟩]
            · rw [if_neg hpre, if_neg]
              rintro ⟨h1 | h1, h2⟩
              · exact hpre ⟨h1, h2⟩
              · exact hqj h1
    unfold bankCharacter
    simp only [hp1, hc1]
    by_cases hess : ch.ai_state2 &&& AI_STATE2_ESSENTIAL ≠ 0
    · rw [if_pos hess]
      have hb : inBank ch = false := by
        cases h : inBank ch with
        | false => rfl
        | true => exact absurd ((inBank_iff ch).mp h).1 hess
      refine ⟨?_, fun _ => ⟨acc, rfl⟩⟩
      intro b1 h1
      rw [← Option.some.inj h1]
      exact hkeep hb
    · rw [if_neg hess]
      by_cases hbank : ch.loot.nAmount > 0 ∧ IsInSpawnArea ch.coord.x ch.coord.y = true
      · rw [if_pos hbank]
        have hb : inBank ch = true :=
          (inBank_iff ch).mpr ⟨not_not.mp hess, hbank.1, hbank.2⟩
        have hdiv : Int.tdiv ch.loot.nAmount 10 = ch.loot.nAmount / 10 :=
          Int.tdiv_eq_ediv (le_of_lt hbank.1) (by norm_num)
        constructor
        · intro b1 h1
          unfold CharacterID.make at h1
          by_cases hneg : i < 0
          · rw [if_pos hneg] at h1; simp at h1
          · rw [if_neg hneg] at h1
            simp only [Option.some.injEq] at h1
            rw [← h1]
            refine ⟨?_, ?_, i3, i4, ?_, ?_⟩
            · simp only
              rw [List.filterMap_append, i1, hdiv]
              simp [hbounty, hb, haddr]
            · simp only
              rw [List.map_append, List.sum_append, i2, hdiv]
              simp [htax, hb]
              ring
            · intro q pl2 hq
              simp only at hq
              rw [find_setCharacter] at hq
              by_cases hqp : q = pid
              · rw [if_pos hqp, hp1] at hq
                simp only [Option.map_some', Option.some.injEq] at hq
                rw [hqp]
                exact ⟨pl, hp, by rw [← hq]; exact haddr⟩
              · rw [if_neg hqp] at hq
                exact i5 q pl2 hq
            · intro q j
              simp only
              rw [findCharacter_setCharacter]
              by_cases hqj : q = pid ∧ j = i
              · rw [if_pos hqj, hacc]
                obtain ⟨e1, e2⟩ := hqj
                subst e1; subst e2
                rw [hch]
                simp only [Option.map_some', Option.some.injEq]
                rw [if_pos ⟨by simp, hb⟩]
              · rw [if_neg hqj, i6 q j]
                cases hq : gs.findCharacter q j with
                | none => rfl
                | some c =>
                  simp only [Option.map_some', Option.some.injEq, List.mem_append,
                    List.mem_singleton, Prod.mk.injEq]
                  by_cases hpre : (q, j) ∈ pre ∧ inBank c = true
                  · rw [if_pos hpre, if_pos ⟨Or.inl hpre.1, hpre.2⟩]
                  · rw [if_neg hpre, if_neg]
                    rintro ⟨h1 | h1, h2⟩
                    · exact hpre ⟨h1, h2⟩
                    · exact hqj h1
        · intro hi
          unfold CharacterID.make
          rw [if_neg (by omega)]
          exact ⟨_, rfl⟩
      · rw [if_neg hbank]
        have hb : inBank ch = false := by
          cases h : inBank ch with
          | false => rfl
          | true =>
            have := (inBank_iff ch).mp h
            exact absurd ⟨this.2.1, this.2.2⟩ hbank
        refine ⟨?_, fun _ => ⟨acc, rfl⟩⟩
        intro b1 h1
        rw [← Option.some.inj h1]
        exact hkeep hb

theorem bankInv_init (gs : GameState) (step : StepResult) : bankInv gs step [] (gs, step) := by
  refine ⟨by simp, by simp, rfl, rfl, fun q pl1 h => ⟨pl1, h, rfl⟩, ?_⟩
  intro q j
  cases gs.findCharacter q j with
  | none => rfl
  | some c => simp

/-- C38: the banking phase of `PerformStep`.  A character banks when it has
no essential flag, holds loot `L > 0` and stands in the spawn area.  Whenever
the phase completes: every character that banks ends with a default loot
record and every other character is unchanged; the bounties of the step grow,
in the order of the characters, by one bounty for each character that banks,
carrying its loot record with the amount `L - floor(L / 10)` and the address
of its player, and by nothing else; the tax grows by `floor(L / 10)` for each
of them.  The phase completes when no character has a negative index. -/
theorem C38_banking_phase (gs : GameState) (step : StepResult) :
    (∀ ch, inBank ch = true
        ↔ ch.ai_state2 &&& AI_STATE2_ESSENTIAL = 0 ∧ ch.loot.nAmount > 0
            ∧ IsInSpawnArea ch.coord.x ch.coord.y = true)
      ∧ gs.characterIds.Nodup
      ∧ (∀ pid i, (pid, i) ∈ gs.characterIds ↔ (gs.findCharacter pid i).isSome = true)
      ∧ (∀ r, bankAll gs step = some r →
          (∀ pid i ch, gs.findCharacter pid i = some ch →
              r.1.findCharacter pid i
                = some (if inBank ch = true then { ch with loot := {} } else ch))
            ∧ r.2.bounties = step.bounties ++ gs.characterIds.filterMap (bankBounty gs)
            ∧ r.2.nTaxAmount = step.nTaxAmount + (gs.characterIds.map (bankTax gs)).sum)
      ∧ ((∀ pid i, (gs.findCharacter pid i).isSome = true → 0 ≤ i) →
          ∃ r, bankAll gs step = some r) := by
  refine ⟨inBank_iff, characterIds_nodup gs, mem_characterIds gs, ?_, ?_⟩
  · intro r hr
    have hnd := characterIds_nodup gs
    have hfin : bankInv gs step gs.characterIds r := by
      apply foldlM_prefix bankCharacter (bankInv gs step) gs.characterIds _ (gs, step) r
        (bankInv_init gs step) hr
      intro pre x post b b1 hl hb hx
      have hxpre : x ∉ pre := by
        rw [hl] at hnd
        have := (List.nodup_append.mp hnd).2.2
        intro hin
        exact this hin (List.mem_cons_self _ _)
      have hxmem : (gs.findCharacter x.1 x.2).isSome = true :=
        (mem_characterIds gs x.1 x.2).mp (by rw [hl]; simp)
      exact (bankCharacter_step gs step pre x b hxpre hxmem hb).1 b1 hx
    obtain ⟨i1, i2, _, _, _, i6⟩ := hfin
    refine ⟨?_, i1, i2⟩
    intro pid i ch hch
    rw [i6 pid i, hch]
    simp only [Option.map_some', Option.some.injEq]
    have hmem : (pid, i) ∈ gs.characterIds := (mem_characterIds gs pid i).mpr (by rw [hch]; rfl)
    by_cases hb : inBank ch = true
    · rw [if_pos ⟨hmem, hb⟩, if_pos hb]
    · rw [if_neg (fun h => hb h.2), if_neg hb]
  · intro hidx
    have hnd := characterIds_nodup gs
    apply foldlM_some_prefix bankCharacter (bankInv gs step) gs.characterIds _ (gs, step)
      (bankInv_init gs step)
    intro pre x post b hl hb
    have hxpre : x ∉ pre := by
      rw [hl] at hnd
      have := (List.nodup_append.mp hnd).2.2
      intro hin
      exact this hin (List.mem_cons_self _ _)
    have hxmem : (gs.findCharacter x.1 x.2).isSome = true :=
      (mem_characterIds gs x.1 x.2).mp (by rw [hl]; simp)
    obtain ⟨s1, s2⟩ := bankCharacter_step gs step pre x b hxpre hxmem hb
    obtain ⟨b1, hb1⟩ := s2 (hidx x.1 x.2 hxmem)
    exact ⟨b1, hb1, s1 b1 hb1⟩

/-- Witness for C38: the general of `alice` banks 105 coins: the tax is 10,
the bounty carries 95, and the general keeps a default loot record. -/
theorem C38_banking_phase_witness :
    (bankAll (stateOfGeneral bankingGeneral) {}).map
        (fun r => (r.1.findCharacter ⟨"alice"⟩ 0, r.2.bounties, r.2.nTaxAmount))
      = some (some { bankingGeneral with loot := {} },
          [⟨{ player := ⟨"alice"⟩, index := 0 },
            { nAmount := 95, collectedFirstBlock := 3, collectedLastBlock := 7 }, ""⟩], 10)
      ∧ ∃ r, bankAll (stateOfGeneral bankingGeneral) {} = some r :=
  ⟨by decide,
    (C38_banking_phase (stateOfGeneral bankingGeneral) {}).2.2.2.2 (by
      intro pid i h
      have hm := (mem_characterIds (stateOfGeneral bankingGeneral) pid i).mpr h
      have hl : (stateOfGeneral bankingGeneral).characterIds = [(⟨"alice"⟩, 0)] := by decide
      rw [hl] at hm
      simp only [List.mem_singleton, Prod.mk.injEq] at hm
      omega)⟩

/-! ## The request phase of `Pass1_DAO` -/

/-- A loop over the keys `ks` does not touch an entry whose key is not among
them. -/
theorem foldEntries_frame {K V A : Type} [LinearOrder K] (f : A → K → V → V × A) (k : K)
    (ks : List K) (hk : k ∉ ks) :
    ∀ acc : StdMap K V × A,
      (ks.foldl
        (fun (acc : StdMap K V × A) k1 =>
          match acc.1.find k1 with
          | none => acc
          | some v => (acc.1.set k1 (f acc.2 k1 v).1, (f acc.2 k1 v).2))
        acc).1.find k = acc.1.find k := by
  induction ks with
  | nil => intro acc; rfl
  | cons k1 t ih =>
    intro acc
    have hne : k ≠ k1 := fun h => hk (by rw [h]; exact List.mem_cons_self _ _)
    have ht : k ∉ t := fun h => hk (List.mem_cons_of_mem _ h)
    simp only [List.foldl_cons]
    rw [ih ht]
    cases h1 : acc.1.find k1 with
    | none => rfl
    | some v =>
      simp only
      rw [StdMap.find_set, if_neg hne]

/-- The entry of a key after a loop over the entries of a map: the body
applied to the accumulator that the entries before it have left. -/
theorem StdMap.foldEntries_find {K V A : Type} [LinearOrder K] (m : StdMap K V)
    (f : A → K → V → V × A) (a : A) (l1 l2 : List (K × V)) (k : K) (v : V)
    (h : m.entries = l1 ++ (k, v) :: l2) :
    (m.foldEntries f a).1.find k
      = some (f (l1.foldl (fun a e => (f a e.1 e.2).2) a) k v).1 := by
  unfold StdMap.foldEntries StdMap.keys
  have key : ∀ (l1 : List (K × V)) (es : List (K × V)), es.Pairwise (fun a b => a.1 < b.1) →
      es = l1 ++ (k, v) :: l2 →
      ∀ (m1 : StdMap K V) (a1 : A), (∀ e ∈ es, m1.find e.1 = some e.2) →
      ((es.map Prod.fst).foldl
        (fun (acc : StdMap K V × A) k1 =>
          match acc.1.find k1 with
          | none => acc
          | some v => (acc.1.set k1 (f acc.2 k1 v).1, (f acc.2 k1 v).2))
        (m1, a1)).1.find k
        = some (f (l1.foldl (fun a e => (f a e.1 e.2).2) a1) k v).1 := by
    intro l1
    induction l1 with
    | nil =>
      intro es hs hes m1 a1 hfind
      rw [hes] at hs hfind ⊢
      have hat := List.pairwise_cons.mp hs
      simp only [List.nil_append, List.map_cons, List.foldl_cons, List.foldl_nil]
      have hk : k ∉ l2.map Prod.fst := by
        intro hin
        obtain ⟨e, he, hek⟩ := List.mem_map.mp hin
        have := hat.1 e he
        simp only at this
        rw [hek] at this
        exact lt_irrefl _ this
      rw [foldEntries_frame f k _ hk]
      rw [hfind (k, v) (by simp)]
      simp only
      rw [StdMap.find_set, if_pos rfl]
    | cons e t ih =>
      intro es hs hes m1 a1 hfind
      rw [hes] at hs hfind ⊢
      have hat := List.pairwise_cons.mp hs
      simp only [List.cons_append, List.map_cons, List.foldl_cons]
      rw [hfind e (by simp)]
      simp only
      apply ih (t ++ (k, v) :: l2) hat.2 rfl
      intro e1 he1
      rw [StdMap.find_set, if_neg (ne_of_gt (hat.1 e1 he1))]
      exact hfind e1 (List.mem_cons_of_mem _ he1)
  exact key l1 m.entries m.sorted h m a (fun e he => m.find_of_mem_entries e he)

/-- What the body of the request phase does to a player that is charged. -/
theorem daoRequestPlayer_charged (COIN : Int) (ParseMoney : String → Int → Int)
    (addRations : Int → Int → Int) (nHeight : Int) (b : DaoBid) (pid : PlayerID)
    (pl : PlayerState) (ch : CharacterState)
    (h1 : pl.msg_request_block = nHeight - 1)
    (h2 : (daoParseRequest COIN ParseMoney pl).coins_fee > b.dao_BestFee)
    (h3 : pl.characters.find 0 = some ch)
    (h4 : ch.loot.nAmount ≥ (daoParseRequest COIN ParseMoney pl).coins_fee) :
    (daoRequestPlayer COIN ParseMoney addRations nHeight b pid pl).1.characters
        = pl.characters.set 0
            { ch with
              loot := { ch.loot with
                nAmount := ch.loot.nAmount - (daoParseRequest COIN ParseMoney pl).coins_fee }
              rpg_rations :=
                addRations ch.rpg_rations (daoParseRequest COIN ParseMoney pl).coins_fee }
      ∧ (daoRequestPlayer COIN ParseMoney addRations nHeight b pid pl).2
        = { dao_BestFee := (daoParseRequest COIN ParseMoney pl).coins_fee
            dao_BestRequest := (daoParseRequest COIN ParseMoney pl).coins_request
            dao_BestName := pid.name
            Merchant_sats_received :=
              b.Merchant_sats_received + (daoParseRequest COIN ParseMoney pl).coins_fee } := by
  have hchars : (daoParseRequest COIN ParseMoney pl).characters = pl.characters := by
    unfold daoParseRequest
    simp only
    split_ifs <;> rfl
  have hbid : daoBid addRations b pid (daoParseRequest COIN ParseMoney pl)
      = ({ daoParseRequest COIN ParseMoney pl with
            characters := pl.characters.set 0
              { ch with
                loot := { ch.loot with
                  nAmount := ch.loot.nAmount - (daoParseRequest COIN ParseMoney pl).coins_fee }
                rpg_rations :=
                  addRations ch.rpg_rations (daoParseRequest COIN ParseMoney pl).coins_fee } },
          { dao_BestFee := (daoParseRequest COIN ParseMoney pl).coins_fee
            dao_BestRequest := (daoParseRequest COIN ParseMoney pl).coins_request
            dao_BestName := pid.name
            Merchant_sats_received :=
              b.Merchant_sats_received + (daoParseRequest COIN ParseMoney pl).coins_fee }) := by
    unfold daoBid
    rw [if_pos h2, hchars, h3]
    simp only
    rw [if_pos h4]
    simp only [AI_dbg_allow_payments, if_true]
  unfold daoRequestPlayer
  simp only
  rw [if_pos h1, hbid]
  simp only
  constructor
  · split_ifs <;> rfl
  · trivial

/-- What the body of the request phase does to a player that is not charged:
its characters and the record of the best bid stay as they are. -/
theorem daoRequestPlayer_not_charged (COIN : Int) (ParseMoney : String → Int → Int)
    (addRations : Int → Int → Int) (nHeight : Int) (b : DaoBid) (pid : PlayerID)
    (pl : PlayerState) (h : ¬ daoCharged COIN ParseMoney nHeight b pl) :
    (daoRequestPlayer COIN ParseMoney addRations nHeight b pid pl).1.characters = pl.characters
      ∧ (daoRequestPlayer COIN ParseMoney addRations nHeight b pid pl).2 = b := by
  have hchars : (daoParseRequest COIN ParseMoney pl).characters = pl.characters := by
    unfold daoParseRequest
    simp only
    split_ifs <;> rfl
  have hbid : pl.msg_request_block = nHeight - 1 →
      (daoBid addRations b pid (daoParseRequest COIN ParseMoney pl)).1.characters = pl.characters
        ∧ (daoBid addRations b pid (daoParseRequest COIN ParseMoney pl)).2 = b := by
    intro h1
    unfold daoBid
    by_cases h2 : (daoParseRequest COIN ParseMoney pl).coins_fee > b.dao_BestFee
    · rw [if_pos h2, hchars]
      cases h3 : pl.characters.find 0 with
      | none => exact ⟨hchars, rfl⟩
      | some ch =>
        simp only
        by_cases h4 : ch.loot.nAmount ≥ (daoParseRequest COIN ParseMoney pl).coins_fee
        · exact absurd ⟨h1, h2, ch, h3, h4⟩ h
        · rw [if_neg h4]
          exact ⟨hchars, rfl⟩
    · rw [if_neg h2]
      exact ⟨hchars, rfl⟩
  unfold daoRequestPlayer
  simp only
  by_cases h1 : pl.msg_request_block = nHeight - 1
  · rw [if_pos h1]
    obtain ⟨e1, e2⟩ := hbid h1
    refine ⟨?_, e2⟩
    rw [← e1]
    split_ifs <;> rfl
  · rw [if_neg h1]
    simp only
    refine ⟨?_, trivial⟩
    split_ifs <;> rfl

theorem daoBidAfter_append (COIN : Int) (ParseMoney : String → Int → Int)
    (addRations : Int → Int → Int) (nHeight : Int) (l1 l2 : List (PlayerID × PlayerState))
    (b : DaoBid) :
    daoBidAfter COIN ParseMoney addRations nHeight (l1 ++ l2) b
      = daoBidAfter COIN ParseMoney addRations nHeight l2
          (daoBidAfter COIN ParseMoney addRations nHeight l1 b) := by
  unfold daoBidAfter
  rw [List.foldl_append]

/-- When no player of `l` is charged at its turn, the record of the best bid
stays as it is. -/
theorem daoBidAfter_of_none_charged (COIN : Int) (ParseMoney : String → Int → Int)
    (addRations : Int → Int → Int) (nHeight : Int) (l : List (PlayerID × PlayerState)) :
    ∀ b : DaoBid,
      (∀ l3 q pq l4, l = l3 ++ (q, pq) :: l4 →
        ¬ daoCharged COIN ParseMoney nHeight
            (daoBidAfter COIN ParseMoney addRations nHeight l3 b) pq) →
      daoBidAfter COIN ParseMoney addRations nHeight l b = b := by
  induction l with
  | nil => intro b _; rfl
  | cons e t ih =>
    intro b h
    have h0 := h [] e.1 e.2 t rfl
    have hstep : (daoRequestPlayer COIN ParseMoney addRations nHeight b e.1 e.2).2 = b :=
      (daoRequestPlayer_not_charged COIN ParseMoney addRations nHeight b e.1 e.2 h0).2
    have hcons : ∀ l3, daoBidAfter COIN ParseMoney addRations nHeight (e :: l3) b
        = daoBidAfter COIN ParseMoney addRations nHeight l3 b := by
      intro l3
      show daoBidAfter COIN ParseMoney addRations nHeight l3
        (daoRequestPlayer COIN ParseMoney addRations nHeight b e.1 e.2).2 = _
      rw [hstep]
    rw [hcons]
    apply ih
    intro l3 q pq l4 hl
    have := h (e :: l3) q pq l4 (by rw [hl]; rfl)
    rw [hcons] at this
    exact this

/-- Counterexample for C31: `ann` (fee 5 coins) and `bob` (fee 10 coins) both
made their request one block ago.  At her turn `ann` is the highest bidder and
pays; then `bob` outbids her and pays as well.  The winner recorded at the end
is `bob`, but the general of `ann` has lost 5 of its 20 coins and has got
rations. -/
theorem C31_counterexample :
    ((bidState.daoRequestPhase 100000000 sampleParseMoney sampleRations true 0 0).1.players.entries.map
        (fun e => (e.1.name,
          (e.2.characters.find 0).map (fun c => (c.loot.nAmount, c.rpg_rations))))
      = [("ann", some (1500000000, 2)), ("bob", some (1000000000, 5))])
      ∧ (bidState.daoRequestPhase 100000000 sampleParseMoney sampleRations true 0 0).1.dao_BestName
          = "bob"
      ∧ bidState.players.entries.map
          (fun e => (e.1.name, e.2.msg_request_block,
            (e.2.characters.find 0).map (fun c => (c.loot.nAmount, c.rpg_rations))))
        = [("ann", 9, some (2000000000, 0)), ("bob", 9, some (2000000000, 0))]
      ∧ bidState.nHeight = 10 := by
  decide

/-- C31 (amended): in one run of the request phase of `Pass1_DAO` (the
players are visited in the order of the player map) a player is charged
exactly when, at its turn, its request is one block old, its fee exceeds the
best fee recorded so far, and its general holds at least the fee.  A charged
player has the fee deducted from the loot of its general and converted into
rations, and is recorded as the best bidder; when no later player is charged
it is the winner recorded at the end of the pass.  The characters of every
other player, and the record of the best bid at its turn, stay as they are. -/
theorem C31_request_phase (COIN : Int) (ParseMoney : String → Int → Int)
    (addRations : Int → Int → Int) (Gamecache_devmode : Int) (gs : GameState) (sats : Int)
    (hcycle : Int.tmod gs.nHeight (INTERVAL_BOUNTYCYCLE Gamecache_devmode) > 0)
    (l1 l2 : List (PlayerID × PlayerState)) (pid : PlayerID) (pl : PlayerState)
    (hsplit : gs.players.entries = l1 ++ (pid, pl) :: l2) (b0 b : DaoBid)
    (hb0 : b0 = { dao_BestFee := gs.dao_BestFee, dao_BestRequest := gs.dao_BestRequest,
                  dao_BestName := gs.dao_BestName, Merchant_sats_received := sats })
    (hb : b = daoBidAfter COIN ParseMoney addRations gs.nHeight l1 b0) :
    (daoCharged COIN ParseMoney gs.nHeight b pl →
        ∃ pl1 ch,
          (gs.daoRequestPhase COIN ParseMoney addRations true Gamecache_devmode sats).1.players.find
              pid = some pl1
            ∧ pl.characters.find 0 = some ch
            ∧ pl1.characters = pl.characters.set 0
                { ch with
                  loot := { ch.loot with
                    nAmount :=
                      ch.loot.nAmount - (daoParseRequest COIN ParseMoney pl).coins_fee }
                  rpg_rations :=
                    addRations ch.rpg_rations (daoParseRequest COIN ParseMoney pl).coins_fee }
            ∧ daoBidAfter COIN ParseMoney addRations gs.nHeight (l1 ++ [(pid, pl)]) b0
                = { dao_BestFee := (daoParseRequest COIN ParseMoney pl).coins_fee
                    dao_BestRequest := (daoParseRequest COIN ParseMoney pl).coins_request
                    dao_BestName := pid.name
                    Merchant_sats_received :=
                      b.Merchant_sats_received
                        + (daoParseRequest COIN ParseMoney pl).coins_fee }
            ∧ ((∀ l3 q pq l4, l2 = l3 ++ (q, pq) :: l4 →
                  ¬ daoCharged COIN ParseMoney gs.nHeight
                      (daoBidAfter COIN ParseMoney addRations gs.nHeight
                        (l1 ++ (pid, pl) :: l3) b0) pq) →
                (gs.daoRequestPhase COIN ParseMoney addRations true Gamecache_devmode
                    sats).1.dao_BestName = pid.name))
      ∧ (¬ daoCharged COIN ParseMoney gs.nHeight b pl →
          ∃ pl1,
            (gs.daoRequestPhase COIN ParseMoney addRations true Gamecache_devmode
                sats).1.players.find pid = some pl1
              ∧ pl1.characters = pl.characters
              ∧ daoBidAfter COIN ParseMoney addRations gs.nHeight (l1 ++ [(pid, pl)]) b0 = b)
      ∧ (gs.daoRequestPhase COIN ParseMoney addRations true Gamecache_devmode sats).1.dao_BestName
          = (daoBidAfter COIN ParseMoney addRations gs.nHeight gs.players.entries b0).dao_BestName
      := by
  have hphase : gs.daoRequestPhase COIN ParseMoney addRations true Gamecache_devmode sats
      = ({ gs with
            players := (gs.players.foldEntries
              (daoRequestPlayer COIN ParseMoney addRations gs.nHeight) b0).1
            dao_BestFee := (gs.players.foldEntries
              (daoRequestPlayer COIN ParseMoney addRations gs.nHeight) b0).2.dao_BestFee
            dao_BestRequest := (gs.players.foldEntries
              (daoRequestPlayer COIN ParseMoney addRations gs.nHeight) b0).2.dao_BestRequest
            dao_BestName := (gs.players.foldEntries
              (daoRequestPlayer COIN ParseMoney addRations gs.nHeight) b0).2.dao_BestName },
          (gs.players.foldEntries
            (daoRequestPlayer COIN ParseMoney addRations gs.nHeight)
            b0).2.Merchant_sats_received) := by
    unfold GameState.daoRequestPhase
    simp only [if_true]
    rw [if_pos hcycle, hb0]
  have hfind : (gs.daoRequestPhase COIN ParseMoney addRations true Gamecache_devmode
      sats).1.players.find pid
      = some (daoRequestPlayer COIN ParseMoney addRations gs.nHeight b pid pl).1 := by
    rw [hphase, hb]
    exact StdMap.foldEntries_find gs.players _ b0 l1 l2 pid pl hsplit
  have hname : (gs.daoRequestPhase COIN ParseMoney addRations true Gamecache_devmode
      sats).1.dao_BestName
      = (daoBidAfter COIN ParseMoney addRations gs.nHeight gs.players.entries b0).dao_BestName
      := by
    rw [hphase]
    simp only
    rw [StdMap.foldEntries_snd]
    rfl
  have hone : daoBidAfter COIN ParseMoney addRations gs.nHeight (l1 ++ [(pid, pl)]) b0
      = (daoRequestPlayer COIN ParseMoney addRations gs.nHeight b pid pl).2 := by
    rw [daoBidAfter_append, ← hb]
    rfl
  refine ⟨?_, ?_, hname⟩
  · rintro ⟨h1, h2, ch, h3, h4⟩
    obtain ⟨e1, e2⟩ := daoRequestPlayer_charged COIN ParseMoney addRations gs.nHeight b pid pl
      ch h1 h2 h3 h4
    refine ⟨_, ch, hfind, h3, e1, by rw [hone, e2], ?_⟩
    intro hlater
    rw [hname, hsplit]
    have hsplit2 : l1 ++ (pid, pl) :: l2 = (l1 ++ [(pid, pl)]) ++ l2 := by simp
    rw [hsplit2, daoBidAfter_append, hone, e2]
    rw [daoBidAfter_of_none_charged COIN ParseMoney addRations gs.nHeight l2]
    intro l3 q pq l4 hl
    have := hlater l3 q pq l4 hl
    have hsplit3 : l1 ++ (pid, pl) :: l3 = (l1 ++ [(pid, pl)]) ++ l3 := by simp
    rw [hsplit3, daoBidAfter_append, hone, e2] at this
    exact this
  · intro hn
    obtain ⟨e1, e2⟩ := daoRequestPlayer_not_charged COIN ParseMoney addRations gs.nHeight b pid
      pl hn
    exact ⟨_, hfind, e1, by rw [hone, e2]⟩

/-- Witness for C31: in `bidState` the player `ann` is charged at her turn
(nobody has bid before her), and her general pays the fee of 5 coins. -/
theorem C31_request_phase_witness :
    Int.tmod bidState.nHeight (INTERVAL_BOUNTYCYCLE 0) > 0
      ∧ bidState.players.entries
          = [] ++ (⟨"ann"⟩, bidderOf "5") :: [(⟨"bob"⟩, bidderOf "10")]
      ∧ daoCharged 100000000 sampleParseMoney bidState.nHeight {} (bidderOf "5")
      ∧ ∃ pl1 ch,
          (bidState.daoRequestPhase 100000000 sampleParseMoney sampleRations true 0
              0).1.players.find ⟨"ann"⟩ = some pl1
            ∧ (bidderOf "5").characters.find 0 = some ch
            ∧ pl1.characters = (bidderOf "5").characters.set 0
                { ch with
                  loot := { ch.loot with nAmount := ch.loot.nAmount - 500000000 }
                  rpg_rations := sampleRations ch.rpg_rations 500000000 } := by
  have hch : daoCharged 100000000 sampleParseMoney bidState.nHeight {} (bidderOf "5") :=
    ⟨by decide, by decide, _, rfl, by decide⟩
  refine ⟨by decide, by decide, hch, ?_⟩
  obtain ⟨pl1, ch, h1, h2, h3, _⟩ :=
    (C31_request_phase 100000000 sampleParseMoney sampleRations 0 bidState 0 (by decide) []
      [(⟨"bob"⟩, bidderOf "10")] ⟨"ann"⟩ (bidderOf "5") (by decide) {} {} (by decide)
      (by decide)).1 hch
  exact ⟨pl1, ch, h1, h2, h3⟩

/-! ## The error branches of the scans are not taken -/

theorem forUntil_up (n : Nat) : ∀ (fuel : Nat) (u : Int), n ≤ fuel →
    ∃ l, forUntil fuel u (u + n) 1 = some l ∧ l.length = n
      ∧ ∀ w ∈ l, u ≤ w ∧ w < u + n := by
  induction n with
  | zero =>
    intro fuel u _
    refine ⟨[], ?_, rfl, fun w hw => absurd hw (List.not_mem_nil w)⟩
    cases fuel <;> simp [forUntil]
  | succ n ih =>
    intro fuel u hf
    obtain ⟨f, rfl⟩ : ∃ f, fuel = f + 1 := ⟨fuel - 1, by omega⟩
    have hne : ¬ (u = u + ((n + 1 : Nat) : Int)) := by push_cast; omega
    obtain ⟨l, h1, h2, h3⟩ := ih f (u + 1) (by omega)
    have he : u + ((n + 1 : Nat) : Int) = u + 1 + (n : Int) := by push_cast; ring
    refine ⟨u :: l, ?_, by simp [h2], ?_⟩
    · simp only [forUntil, if_neg hne]
      rw [he, h1]
      rfl
    · intro w hw
      rcases List.mem_cons.mp hw with h | h
      · rw [h]; push_cast; omega
      · have := h3 w h
        push_cast
        omega

theorem forUntil_down (n : Nat) : ∀ (fuel : Nat) (u : Int), n ≤ fuel →
    ∃ l, forUntil fuel u (u - n) (-1) = some l ∧ l.length = n
      ∧ ∀ w ∈ l, u - n < w ∧ w ≤ u := by
  induction n with
  | zero =>
    intro fuel u _
    refine ⟨[], ?_, rfl, fun w hw => absurd hw (List.not_mem_nil w)⟩
    cases fuel <;> simp [forUntil]
  | succ n ih =>
    intro fuel u hf
    obtain ⟨f, rfl⟩ : ∃ f, fuel = f + 1 := ⟨fuel - 1, by omega⟩
    have hne : ¬ (u = u - ((n + 1 : Nat) : Int)) := by push_cast; omega
    obtain ⟨l, h1, h2, h3⟩ := ih f (u + -1) (by omega)
    have he : u - ((n + 1 : Nat) : Int) = u + -1 - (n : Int) := by push_cast; ring
    refine ⟨u :: l, ?_, by simp [h2], ?_⟩
    · simp only [forUntil, if_neg hne]
      rw [he, h1]
      rfl
    · intro w hw
      rcases List.mem_cons.mp hw with h | h
      · rw [h]; push_cast; omega
      · have := h3 w h
        push_cast
        omega

theorem mem_forUpTo (lo hi u : Int) : u ∈ forUpTo lo hi ↔ lo ≤ u ∧ u ≤ hi := by
  unfold forUpTo
  simp only [List.mem_map, List.mem_range]
  by_cases hle : 0 ≤ hi + 1 - lo
  · have hc : (((hi + 1 - lo).toNat : Nat) : Int) = hi + 1 - lo := Int.toNat_of_nonneg hle
    constructor
    · rintro ⟨n, hn, rfl⟩
      have hn1 : (n : Int) < ((hi + 1 - lo).toNat : Nat) := by exact_mod_cast hn
      rw [hc] at hn1
      constructor <;> omega
    · intro h
      obtain ⟨n, hn⟩ : ∃ n : Nat, u - lo = n := ⟨(u - lo).toNat, (Int.toNat_of_nonneg (by omega)).symm⟩
      refine ⟨n, ?_, by omega⟩
      have : (n : Int) < ((hi + 1 - lo).toNat : Nat) := by rw [hc]; omega
      exact_mod_cast this
  · have hz : (hi + 1 - lo).toNat = 0 := Int.toNat_eq_zero.mpr (by omega)
    rw [hz]
    constructor
    · rintro ⟨n, hn, _⟩
      exact absurd hn (Nat.not_lt_zero n)
    · intro h
      omega

/-- The scan for ranged attacks ends within 21 rounds of each loop and stays
in the square of side `2 * max_range + 1` around the character. -/
theorem rangedScanTiles_spec (ch : CharacterState) (mr : Int)
    (hz : AI_IS_SAFEZONE ch.coord.x ch.coord.y = false) (hmr : mr > 0) :
    ∃ tiles, rangedScanTiles 21 ch mr = some tiles
      ∧ ∀ t ∈ tiles, |t.1 - ch.coord.x| ≤ (if mr > AI_NAV_CENTER then AI_NAV_CENTER else mr)
          ∧ |t.2 - ch.coord.y| ≤ (if mr > AI_NAV_CENTER then AI_NAV_CENTER else mr) := by
  unfold rangedScanTiles
  rw [if_pos ⟨hz, hmr⟩]
  simp only
  obtain ⟨r, hr, hr10⟩ : ∃ r : Nat, (if mr > AI_NAV_CENTER then AI_NAV_CENTER else mr) = r
      ∧ r ≤ 10 := by
    unfold AI_NAV_CENTER
    by_cases h : mr > 10
    · exact ⟨10, by rw [if_pos h]; rfl, le_rfl⟩
    · obtain ⟨n, hn⟩ : ∃ n : Nat, mr = n := ⟨mr.toNat, (Int.toNat_of_nonneg (by omega)).symm⟩
      exact ⟨n, by rw [if_neg h]; exact hn, by omega⟩
  rw [hr]
  by_cases hb : decide (ch.dir ≤ 3 ∨ ch.dir = 6) = true
  · simp only [hb, if_true]
    obtain ⟨us, hu, _, hu2⟩ := forUntil_down (2 * r + 1) 21 (ch.coord.x + r) (by omega)
    obtain ⟨vs, hv, _, hv2⟩ := forUntil_down (2 * r + 1) 21 (ch.coord.y + r) (by omega)
    rw [show ch.coord.x + (r : Int) - ((2 * r + 1 : Nat) : Int) = ch.coord.x - r - 1 by
      push_cast; ring] at hu
    rw [show ch.coord.y + (r : Int) - ((2 * r + 1 : Nat) : Int) = ch.coord.y - r - 1 by
      push_cast; ring] at hv
    rw [hu, hv]
    refine ⟨_, rfl, ?_⟩
    intro t ht
    simp only [List.mem_flatMap, List.mem_map] at ht
    obtain ⟨u, hum, v, hvm, rfl⟩ := ht
    have b1 := hu2 u hum
    have b2 := hv2 v hvm
    push_cast at b1 b2
    simp only
    rw [abs_le, abs_le]
    omega
  · simp only [hb, Bool.false_eq_true, if_false]
    obtain ⟨us, hu, _, hu2⟩ := forUntil_up (2 * r + 1) 21 (ch.coord.x - r) (by omega)
    obtain ⟨vs, hv, _, hv2⟩ := forUntil_up (2 * r + 1) 21 (ch.coord.y - r) (by omega)
    rw [show ch.coord.x - (r : Int) + ((2 * r + 1 : Nat) : Int) = ch.coord.x + r + 1 by
      push_cast; ring] at hu
    rw [show ch.coord.y - (r : Int) + ((2 * r + 1 : Nat) : Int) = ch.coord.y + r + 1 by
      push_cast; ring] at hv
    rw [hu, hv]
    refine ⟨_, rfl, ?_⟩
    intro t ht
    simp only [List.mem_flatMap, List.mem_map] at ht
    obtain ⟨u, hum, v, hvm, rfl⟩ := ht
    have b1 := hu2 u hum
    have b2 := hv2 v hvm
    push_cast at b1 b2
    simp only
    rw [abs_le, abs_le]
    omega

theorem rangedScanError_none (env : Env) (Distance_To_Tile : Int → Int → Int → Int → Int)
    (x y max_range u v : Int) (hr : max_range ≤ 10) (hu : |u - x| ≤ max_range)
    (hv : |v - y| ≤ max_range) :
    rangedScanError env Distance_To_Tile x y max_range u v = none := by
  rw [abs_le] at hu hv
  unfold rangedScanError
  simp only [AI_NAV_CENTER, AI_NAV_SIZE]
  rw [if_neg (by omega), if_neg (by omega)]
  by_cases h1 : Distance_To_Tile y x (10 + (v - y)) (10 + (u - x)) < 0
  · rw [if_pos h1]
  rw [if_neg h1]
  by_cases h2 : IsInsideMap u v = false
  · rw [if_pos h2]
  rw [if_neg h2]
  by_cases h3 : IsWalkable env u v = false
  · rw [if_pos h3]
  rw [if_neg h3]
  by_cases h4 : u = x ∧ v = y
  · rw [if_pos h4]
  rw [if_neg h4]
  by_cases h5 : Distance_To_Tile y x (10 + (v - y)) (10 + (u - x)) = 0
  · rw [if_pos h5]
  rw [if_neg h5]
  by_cases h6 : AI_IS_SAFEZONE u v = false
  · rw [if_pos h6]
    have e1 : x + (u - x) = u := by ring
    have e2 : y + (v - y) = v := by ring
    rw [e1, e2, if_neg h2]
  · rw [if_neg h6]

theorem neighbourScanError_none (env : Env) (Distance_To_Tile : Int → Int → Int → Int → Int)
    (x y u v : Int) (hu : |u - x| ≤ 10) (hv : |v - y| ≤ 10) :
    neighbourScanError env Distance_To_Tile x y u v = none := by
  rw [abs_le] at hu hv
  unfold neighbourScanError
  simp only [AI_NAV_CENTER, AI_NAV_SIZE]
  rw [if_neg (by omega)]
  by_cases h1 : Distance_To_Tile y x (10 + (v - y)) (10 + (u - x)) < 0
  · rw [if_pos h1]
  rw [if_neg h1]
  by_cases h2 : IsInsideMap u v = false
  · rw [if_pos h2]
  rw [if_neg h2]
  by_cases h3 : IsWalkable env u v = false
  · rw [if_pos h3]
  rw [if_neg h3]
  by_cases h4 : u = x ∧ v = y
  · rw [if_pos h4]
  rw [if_neg h4]
  by_cases h5 : Distance_To_Tile y x (10 + (v - y)) (10 + (u - x)) = 0
  · rw [if_pos h5]
  rw [if_neg h5]
  by_cases h7 : Distance_To_Tile y x (10 + (v - y)) (10 + (u - x)) ≥ 10
  · rw [if_pos h7]
  rw [if_neg h7]
  by_cases h6 : AI_IS_SAFEZONE x y = false
  · rw [if_pos h6]
    have e1 : x + (u - x) = u := by ring
    have e2 : y + (v - y) = v := by ring
    rw [e1, e2, if_neg h2]
  · rw [if_neg h6]

/-- A round of the choice keeps: once a candidate is found, there are
between 1 and `AI_NUM_MOVES` candidates. -/
theorem chooseMoveStep_inv (Distance_To_Tile : Int → Int → Int → Int → Int)
    (AI_merchantbasemap : Int → Int → Int) (x y best_u best_v i j panic : Int)
    (st st1 : MoveChoice) (ij : Int × Int)
    (hinv : st.success2 = true → 1 ≤ st.ai_moves ∧ st.ai_moves ≤ AI_NUM_MOVES)
    (h : chooseMoveStep Distance_To_Tile AI_merchantbasemap x y best_u best_v i j panic st ij
      = some st1) :
    st1.success2 = true → 1 ≤ st1.ai_moves ∧ st1.ai_moves ≤ AI_NUM_MOVES := by
  unfold chooseMoveStep at h
  simp only at h
  by_cases h1 : ij.1 < 0 ∨ ij.1 ≥ AI_NAV_SIZE ∨ ij.2 < 0 ∨ ij.2 ≥ AI_NAV_SIZE
  · rw [if_pos h1] at h
    rw [← Option.some.inj h]; exact hinv
  rw [if_neg h1] at h
  by_cases h2 : IsInsideMap best_u best_v = false
  · rw [if_pos h2] at h; simp at h
  rw [if_neg h2] at h
  by_cases h3 : Distance_To_Tile best_v best_u ij.2 ij.1 < 0
  · rw [if_pos h3] at h
    rw [← Option.some.inj h]; exact hinv
  rw [if_neg h3] at h
  by_cases h4 : Distance_To_Tile best_v best_u ij.2 ij.1 < st.d_best
      ∨ (panic ≠ 0 ∧ Distance_To_Tile best_v best_u ij.2 ij.1 > st.d_best)
  · rw [if_pos h4] at h
    by_cases h5 : IsInsideMap (x + ij.1 - i) (y + ij.2 - j) = true
        ∧ (AI_merchantbasemap (y + ij.2 - j) (x + ij.1 - i) < AI_MBASEMAP_AVOID_MIN
          ∨ Distance_To_Tile best_v best_u ij.2 ij.1 = 0)
    · rw [if_pos h5] at h
      rw [← Option.some.inj h]
      intro _
      simp only [AI_NUM_MOVES]
      omega
    · rw [if_neg h5] at h
      rw [← Option.some.inj h]; exact hinv
  rw [if_neg h4] at h
  by_cases h6 : st.success2 = true ∧ Distance_To_Tile best_v best_u ij.2 ij.1 = st.d_best
      ∧ st.ai_moves < AI_NUM_MOVES
  · rw [if_pos h6] at h
    by_cases h5 : IsInsideMap (x + ij.1 - i) (y + ij.2 - j) = true
        ∧ (AI_merchantbasemap (y + ij.2 - j) (x + ij.1 - i) < AI_MBASEMAP_AVOID_MIN
          ∨ Distance_To_Tile best_v best_u ij.2 ij.1 = 0)
    · rw [if_pos h5] at h
      rw [← Option.some.inj h]
      intro _
      have := hinv h6.1
      have := h6.2.2
      simp only
      omega
    · rw [if_neg h5] at h
      rw [← Option.some.inj h]; exact hinv
  · rw [if_neg h6] at h
    rw [← Option.some.inj h]; exact hinv

theorem drawMove_ok (env : Env) (rnd : RandomGenerator) (st : MoveChoice)
    (hinv : st.success2 = true → 1 ≤ st.ai_moves ∧ st.ai_moves ≤ AI_NUM_MOVES) :
    ∃ r, drawMove env rnd st = Except.ok r := by
  unfold drawMove
  by_cases h1 : st.success2 = true
  · rw [if_pos h1]
    by_cases h2 : st.ai_moves > 1
    · rw [if_pos h2]
      simp only
      have hr := GetIntRnd_range env rnd st.ai_moves (by omega)
      have := (hinv h1).2
      rw [if_neg (by omega)]
      exact ⟨_, rfl⟩
    · rw [if_neg h2]
      exact ⟨_, rfl⟩
  · rw [if_neg h1]
    exact ⟨_, rfl⟩

/-- C36: the scan-geometry error branches of `MoveTowardsWaypointX_Pathfinder`
are not taken, for every character state and every content of the cache
tables.  The scan for ranged attacks (run when the character is outside the
safe zones with a range `mr > 0`) ends, and on every tile of it neither
`ERROR 1` nor `ERROR 1a` nor `ERROR 2a` is taken; no tile of the scan of the
neighbourhood takes `ERROR 1` or `ERROR 2a`; and whenever the choice among the
candidate moves completes, the draw does not take `ERROR 4a`. -/
theorem C36_scan_errors_unreachable (env : Env)
    (Distance_To_Tile : Int → Int → Int → Int → Int) (AI_merchantbasemap : Int → Int → Int)
    (ch : CharacterState) :
    (∀ mr : Int, ∃ tiles, rangedScanTiles 21 ch mr = some tiles
        ∧ ∀ t ∈ tiles,
            rangedScanError env Distance_To_Tile ch.coord.x ch.coord.y
              (if mr > AI_NAV_CENTER then AI_NAV_CENTER else mr) t.1 t.2 = none)
      ∧ (∀ t ∈ neighbourScanTiles ch.coord.x ch.coord.y,
          neighbourScanError env Distance_To_Tile ch.coord.x ch.coord.y t.1 t.2 = none)
      ∧ ∀ (best_u best_v panic current_dist : Int) (st st1 : MoveChoice)
          (rnd : RandomGenerator),
          chooseMove Distance_To_Tile AI_merchantbasemap ch.coord.x ch.coord.y best_u best_v
              panic current_dist st = some st1 →
          (st1.success2 = true → 1 ≤ st1.ai_moves ∧ st1.ai_moves ≤ AI_NUM_MOVES)
            ∧ ∃ r, drawMove env rnd st1 = Except.ok r := by
  refine ⟨?_, ?_, ?_⟩
  · intro mr
    by_cases hg : AI_IS_SAFEZONE ch.coord.x ch.coord.y = false ∧ mr > 0
    · obtain ⟨tiles, h1, h2⟩ := rangedScanTiles_spec ch mr hg.1 hg.2
      refine ⟨tiles, h1, ?_⟩
      intro t ht
      obtain ⟨b1, b2⟩ := h2 t ht
      apply rangedScanError_none env Distance_To_Tile _ _ _ _ _ _ b1 b2
      unfold AI_NAV_CENTER
      split_ifs <;> omega
    · refine ⟨[], ?_, fun t ht => absurd ht (List.not_mem_nil t)⟩
      unfold rangedScanTiles
      rw [if_neg hg]
  · intro t ht
    unfold neighbourScanTiles at ht
    simp only [List.mem_flatMap, List.mem_map, mem_forUpTo, AI_NAV_CENTER] at ht
    obtain ⟨u, hu, v, hv, rfl⟩ := ht
    apply neighbourScanError_none
    · rw [abs_le]; simp only; omega
    · rw [abs_le]; simp only; omega
  · intro best_u best_v panic current_dist st st1 rnd h
    have hinv : st1.success2 = true → 1 ≤ st1.ai_moves ∧ st1.ai_moves ≤ AI_NUM_MOVES := by
      unfold chooseMove at h
      exact foldlM_inv _
        (fun s : MoveChoice => s.success2 = true → 1 ≤ s.ai_moves ∧ s.ai_moves ≤ AI_NUM_MOVES) _
        (fun b x b1 _ hb hx => chooseMoveStep_inv _ _ _ _ _ _ _ _ _ b b1 x hb hx) _ st1
        (fun hf => by simp at hf) h
    exact ⟨hinv, drawMove_ok env rnd st1 hinv⟩

/-- Witness for C36: the crossbow hunter on `(100, 100)` that faces east
scans the 25 tiles around it backwards, from `(102, 102)` to `(98, 98)`. -/
theorem C36_scan_errors_unreachable_witness :
    crossbowHunter.max_range = 2
      ∧ (rangedScanTiles 21 crossbowHunter crossbowHunter.max_range).map
          (fun l => (l.length, l.head?, l.getLast?))
        = some (25, some (102, 102), some (98, 98))
      ∧ ∀ t ∈ neighbourScanTiles crossbowHunter.coord.x crossbowHunter.coord.y,
          neighbourScanError sampleEnv (fun _ _ _ _ => 3) crossbowHunter.coord.x
            crossbowHunter.coord.y t.1 t.2 = none :=
  ⟨by decide, by decide,
    (C36_scan_errors_unreachable sampleEnv (fun _ _ _ _ => 3) (fun _ _ => 0)
      crossbowHunter).2.1⟩

theorem toShort_of_range (v : Int) (h0 : -32768 ≤ v) (h1 : v ≤ 32767) : toShort v = v := by
  unfold toShort
  omega

theorem setDistance_self (table : Nat → Int → Int → Int) (k : Nat) (y x v : Int) :
    setDistance table k y x v k y x = v := by
  unfold setDistance
  rw [if_pos ⟨rfl, rfl, rfl⟩]

theorem setDistance_tile_ne (table : Nat → Int → Int → Int) (k : Nat) (t p : Coord) (v : Int)
    (h : p ≠ t) : setDistance table k t.y t.x v k p.y p.x = table k p.y p.x := by
  unfold setDistance
  rw [if_neg]
  rintro ⟨_, h1, h2⟩
  apply h
  cases p; cases t
  simp only at h1 h2
  rw [h1, h2]

theorem setDistance_slice_ne (table : Nat → Int → Int → Int) (k k1 : Nat) (y x v y1 x1 : Int)
    (h : k1 ≠ k) : setDistance table k y x v k1 y1 x1 = table k1 y1 x1 := by
  unfold setDistance
  rw [if_neg (fun hh => h hh.1)]

theorem mem_tilesAround (x y u v : Int) :
    (u, v) ∈ tilesAround x y ↔ x - 1 ≤ u ∧ u ≤ x + 1 ∧ y - 1 ≤ v ∧ v ≤ y + 1 := by
  unfold tilesAround
  simp only [List.mem_flatMap, List.mem_map, mem_forUpTo, Prod.mk.injEq]
  constructor
  · rintro ⟨u1, hu, v1, hv, rfl, rfl⟩
    exact ⟨hu.1, hu.2, hv.1, hv.2⟩
  · rintro ⟨h1, h2, h3, h4⟩
    exact ⟨u, ⟨h1, h2⟩, v, ⟨h3, h4⟩, rfl, rfl⟩

theorem tilesAround_of_dist (p t : Coord) (h : distLInf p t = 1) :
    (t.x, t.y) ∈ tilesAround p.x p.y := by
  obtain ⟨h1, h2, _⟩ := distLInf_eq_one p t h
  rw [abs_le] at h1 h2
  rw [mem_tilesAround]
  omega

theorem dist_of_tilesAround (p t : Coord) (h : (t.x, t.y) ∈ tilesAround p.x p.y)
    (hne : t ≠ p) : distLInf p t = 1 := by
  rw [mem_tilesAround] at h
  have hx : |p.x - t.x| ≤ 1 := by rw [abs_le]; omega
  have hy : |p.y - t.y| ≤ 1 := by rw [abs_le]; omega
  apply distLInf_one_of p t hx hy
  by_contra hn
  push_neg at hn
  apply hne
  have h1 : |p.x - t.x| = 0 := by
    have := abs_nonneg (p.x - t.x)
    omega
  have h2 : |p.y - t.y| = 0 := by
    have := abs_nonneg (p.y - t.y)
    omega
  have e1 := abs_eq_zero.mp h1
  have e2 := abs_eq_zero.mp h2
  cases p; cases t
  simp only at e1 e2
  simp only [Coord.mk.injEq]
  constructor <;> omega

/-- A list of different tiles inside the map has at most `MAP_HEIGHT *
MAP_WIDTH` entries. -/
theorem queue_length_le (Q : List Coord) (hnd : Q.Nodup)
    (hin : ∀ p ∈ Q, IsInsideMap p.x p.y = true) : Q.length ≤ 252004 := by
  have hsub : Q.toFinset ⊆ ((Finset.Icc (0 : Int) 501) ×ˢ (Finset.Icc (0 : Int) 501)).image
      (fun p => (⟨p.1, p.2⟩ : Coord)) := by
    intro p hp
    rw [List.mem_toFinset] at hp
    have := (IsInsideMap_iff p.x p.y).mp (hin p hp)
    rw [Finset.mem_image]
    refine ⟨(p.x, p.y), ?_, rfl⟩
    rw [Finset.mem_product, Finset.mem_Icc, Finset.mem_Icc]
    simp only
    omega
  have h1 := Finset.card_le_card hsub
  rw [List.toFinset_card_of_nodup hnd] at h1
  have h2 := Finset.card_image_le (s := (Finset.Icc (0 : Int) 501) ×ˢ (Finset.Icc (0 : Int) 501))
    (f := fun p => (⟨p.1, p.2⟩ : Coord))
  rw [Finset.card_product, Int.card_Icc] at h2
  have h3 : ((501 : Int) + 1 - 0).toNat * ((501 : Int) + 1 - 0).toNat = 252004 := by decide
  omega

theorem foldl_prefix {α β : Type} (f : β → α → β) (I : List α → β → Prop) (l : List α)
    (h : ∀ pre x post b, l = pre ++ x :: post → I pre b → I (pre ++ [x]) (f b x)) :
    ∀ b, I [] b → I l (l.foldl f b) := by
  have key : ∀ post pre, l = pre ++ post → ∀ b, I pre b → I l (post.foldl f b) := by
    intro post
    induction post with
    | nil =>
      intro pre hl b hb
      rw [hl, List.append_nil]
      exact hb
    | cons x t ih =>
      intro pre hl b hb
      simp only [List.foldl_cons]
      exact ih (pre ++ [x]) (by rw [hl]; simp) (f b x) (h pre x t b hl hb)
  intro b hb
  exact key l [] rfl b hb

theorem getElem?_mem_queue (Q : List Coord) (m : Nat) (p : Coord) (h : Q[m]? = some p) :
    p ∈ Q ∧ m < Q.length := by
  obtain ⟨hm, hp⟩ := List.getElem?_eq_some_iff.mp h
  exact ⟨by rw [← hp]; exact List.getElem_mem hm, hm⟩

/-- The anchors of the points of interest are inside the map. -/
theorem poiAnchor_inside : ∀ k, k < AI_NUM_POI →
    IsInsideMap (poiAnchor k).x (poiAnchor k).y = true := by
  decide

theorem Coord_eta (t : Coord) : (⟨t.x, t.y⟩ : Coord) = t := by
  cases t
  rfl

/-- The step of the search that labels a new tile `t` around the tile `c`
with the distance `D + 1` and appends it to the queue keeps the invariant. -/
theorem BfsInv_label (env : Env) (k : Nat) (a : Coord) (T0 : Nat → Int → Int → Int)
    (hfit : ∀ n t, isShortest env a n t → n ≤ 32767)
    (st : PoiScan) (i : Nat) (c t : Coord) (D : Int)
    (h : BfsInv env k a T0 st i D) (hc : st.queue[i]? = some c)
    (hD : st.table k c.y c.x = D)
    (haround : (t.x, t.y) ∈ tilesAround c.x c.y)
    (hin : IsInsideMap t.x t.y = true) (hnew : ¬ st.table k t.y t.x > -1)
    (hw : IsWalkable env t.x t.y = true) :
    t ∉ st.queue ∧ st.queue.length < 252004 ∧ toShort (D + 1) = D + 1
      ∧ BfsInv env k a T0
          { st with table := setDistance st.table k t.y t.x (D + 1), queue := st.queue ++ [t] }
          i D := by
  have hcq := (getElem?_mem_queue st.queue i c hc).1
  have htq : t ∉ st.queue := by
    intro ht
    obtain ⟨n, hn, _⟩ := h.short t ht
    rw [hn] at hnew
    apply hnew
    have : (0 : Int) ≤ (n : Int) := Int.natCast_nonneg n
    omega
  have hne : t ≠ c := fun e => htq (by rw [e]; exact hcq)
  have hlen : st.queue.length < 252004 := by
    have hnd : (st.queue ++ [t]).Nodup := by
      rw [List.nodup_append]
      refine ⟨h.nodup, List.nodup_singleton t, ?_⟩
      intro x hx hx1
      rw [List.mem_singleton] at hx1
      rw [hx1] at hx
      exact htq hx
    have hins : ∀ p ∈ st.queue ++ [t], IsInsideMap p.x p.y = true := by
      intro p hp
      rcases List.mem_append.mp hp with hp | hp
      · exact h.inside p hp
      · rw [List.mem_singleton] at hp
        rw [hp]; exact hin
    have := queue_length_le _ hnd hins
    simp only [List.length_append, List.length_singleton] at this
    omega
  obtain ⟨nD, hnD, hsD⟩ := h.short c hcq
  rw [hD] at hnD
  have hdist := dist_of_tilesAround c t haround hne
  have hshort : isShortest env a (nD + 1) t := by
    refine ⟨⟨c, hsD.1, hdist, hin, hw⟩, ?_⟩
    intro m hm
    by_contra hlt
    apply htq
    apply h.complete m t hm
    rw [hnD]
    have : m ≤ nD := by omega
    exact_mod_cast this
  have hle := hfit (nD + 1) t hshort
  have hval : D + 1 = ((nD + 1 : Nat) : Int) := by rw [hnD]; push_cast; rfl
  have hshortv : toShort (D + 1) = D + 1 := by
    apply toShort_of_range
    · rw [hnD]
      have : (0 : Int) ≤ (nD : Int) := Int.natCast_nonneg nD
      omega
    · rw [hval]
      exact_mod_cast hle
  refine ⟨htq, hlen, hshortv, ?_⟩
  -- the entries of the old queue keep their distances
  have hold : ∀ p ∈ st.queue,
      setDistance st.table k t.y t.x (D + 1) k p.y p.x = st.table k p.y p.x := by
    intro p hp
    apply setDistance_tile_ne
    intro e
    exact htq (by rw [← e]; exact hp)
  constructor
  · exact h.running
  · show (st.queue ++ [t]).Nodup
    rw [List.nodup_append]
    refine ⟨h.nodup, List.nodup_singleton t, ?_⟩
    intro x hx hx1
    rw [List.mem_singleton] at hx1
    rw [hx1] at hx
    exact htq hx
  · intro p hp
    rcases List.mem_append.mp hp with hp | hp
    · exact h.inside p hp
    · rw [List.mem_singleton] at hp
      rw [hp]; exact hin
  · exact List.mem_append_left _ h.anchor
  · intro p hp
    show ∃ n : Nat, setDistance st.table k t.y t.x (D + 1) k p.y p.x = n ∧ isShortest env a n p
    rcases List.mem_append.mp hp with hp | hp
    · rw [hold p hp]
      exact h.short p hp
    · rw [List.mem_singleton] at hp
      rw [hp, setDistance_self]
      exact ⟨nD + 1, hval, hshort⟩
  · intro p hp
    show setDistance st.table k t.y t.x (D + 1) k p.y p.x = -1
    have hp1 : p ∉ st.queue := fun hh => hp (List.mem_append_left _ hh)
    have hp2 : p ≠ t := fun e => hp (by rw [e]; simp)
    rw [setDistance_tile_ne _ _ _ _ _ hp2]
    exact h.unseen p hp1
  · show (st.queue ++ [t]).Pairwise (fun p q =>
      setDistance st.table k t.y t.x (D + 1) k p.y p.x
        ≤ setDistance st.table k t.y t.x (D + 1) k q.y q.x)
    rw [List.pairwise_append]
    refine ⟨?_, List.pairwise_singleton _ _, ?_⟩
    · have hs := h.sorted
      rw [List.pairwise_iff_forall_sublist] at hs ⊢
      intro p q hpq
      have hp : p ∈ st.queue := hpq.subset (by simp)
      have hq : q ∈ st.queue := hpq.subset (by simp)
      rw [hold p hp, hold q hq]
      exact hs hpq
    · intro p hp q hq
      rw [List.mem_singleton] at hq
      rw [hq, setDistance_self, hold p hp]
      exact h.bound p hp
  · intro p hp
    show setDistance st.table k t.y t.x (D + 1) k p.y p.x ≤ D + 1
    rcases List.mem_append.mp hp with hp | hp
    · rw [hold p hp]
      exact h.bound p hp
    · rw [List.mem_singleton] at hp
      rw [hp, setDistance_self]
  · intro m p hm hp t1 h1 h2 h3
    show t1 ∈ st.queue ++ [t]
    apply List.mem_append_left
    have hmq : st.queue[m]? = some p := by
      have hp' : (st.queue ++ [t])[m]? = some p := hp
      by_cases hml : m < st.queue.length
      · rw [List.getElem?_append_left hml] at hp'
        exact hp'
      · exfalso
        have := (getElem?_mem_queue st.queue i c hc).2
        omega
    exact h.processed m p hm hmq t1 h1 h2 h3
  · intro n t1 hr hn
    exact List.mem_append_left _ (h.complete n t1 hr hn)
  · intro k1 y x hk1
    show setDistance st.table k t.y t.x (D + 1) k1 y x = T0 k1 y x
    rw [setDistance_slice_ne _ _ _ _ _ _ _ _ hk1]
    exact h.frame k1 y x hk1

/-- A round of the loops over the tiles around `c` keeps the invariant of
these loops. -/
theorem visitTile_inv (env : Env) (k : Nat) (a : Coord) (T0 : Nat → Int → Int → Int)
    (hfit : ∀ n t, isShortest env a n t → n ≤ 32767)
    (i : Nat) (c : Coord) (D : Int) (pre : List (Int × Int)) (uv : Int × Int) (st : PoiScan)
    (huv : uv ∈ tilesAround c.x c.y) (h : InnerInv env k a T0 i c D pre st) :
    InnerInv env k a T0 i c D (pre ++ [uv]) (visitTile env k D st uv) := by
  obtain ⟨hinv, hc, hD, hidone, hpre⟩ := h
  -- when the state stays, the tile `uv` must be in the queue or need not be
  have hstay : (IsInsideMap uv.1 uv.2 = true → IsWalkable env uv.1 uv.2 = true →
      (⟨uv.1, uv.2⟩ : Coord) ∈ st.queue) → InnerInv env k a T0 i c D (pre ++ [uv]) st := by
    intro hh
    refine ⟨hinv, hc, hD, hidone, ?_⟩
    intro w hw
    rcases List.mem_append.mp hw with hw | hw
    · exact hpre w hw
    · rw [List.mem_singleton] at hw
      rw [hw]; exact hh
  unfold visitTile
  rw [if_neg (by rw [hinv.running]; simp)]
  by_cases h1 : IsInsideMap uv.1 uv.2 = false
  · rw [if_pos h1]
    apply hstay
    intro hh
    rw [h1] at hh
    exact absurd hh (by simp)
  rw [if_neg h1]
  have hin : IsInsideMap uv.1 uv.2 = true := by
    cases hh : IsInsideMap uv.1 uv.2 with
    | true => rfl
    | false => exact absurd hh h1
  by_cases h2 : st.table k uv.2 uv.1 > -1
  · rw [if_pos h2]
    apply hstay
    intro _ _
    by_contra hnot
    have := hinv.unseen ⟨uv.1, uv.2⟩ hnot
    simp only at this
    omega
  rw [if_neg h2]
  by_cases h3 : IsWalkable env uv.1 uv.2 = false
  · rw [if_pos h3]
    apply hstay
    intro _ hh
    rw [h3] at hh
    exact absurd hh (by simp)
  rw [if_neg h3]
  have hw : IsWalkable env uv.1 uv.2 = true := by
    cases hh : IsWalkable env uv.1 uv.2 with
    | true => rfl
    | false => exact absurd hh h3
  obtain ⟨htq, hlen, hshortv, hnew⟩ :=
    BfsInv_label env k a T0 hfit st i c ⟨uv.1, uv.2⟩ D hinv hc hD huv hin h2 hw
  simp only
  have hlen2 : ¬ ((st.queue.length : Int) ≥ MAP_HEIGHT * MAP_WIDTH) := by
    simp only [MAP_HEIGHT, MAP_WIDTH]
    have : (st.queue.length : Int) < 252004 := by exact_mod_cast hlen
    omega
  rw [if_neg hlen2, hshortv]
  refine ⟨hnew, ?_, ?_, hidone, ?_⟩
  · show (st.queue ++ [⟨uv.1, uv.2⟩])[i]? = some c
    rw [List.getElem?_append_left (getElem?_mem_queue st.queue i c hc).2]
    exact hc
  · show setDistance st.table k uv.2 uv.1 (D + 1) k c.y c.x = D
    have hcq := (getElem?_mem_queue st.queue i c hc).1
    have hne : c ≠ (⟨uv.1, uv.2⟩ : Coord) := fun e => htq (by rw [← e]; exact hcq)
    have := setDistance_tile_ne st.table k ⟨uv.1, uv.2⟩ c (D + 1) hne
    simp only at this
    rw [this]
    exact hD
  · intro w hw1
    show _ → _ → (⟨w.1, w.2⟩ : Coord) ∈ st.queue ++ [⟨uv.1, uv.2⟩]
    intro hw2 hw3
    rcases List.mem_append.mp hw1 with hw1 | hw1
    · exact List.mem_append_left _ (hpre w hw1 hw2 hw3)
    · rw [List.mem_singleton] at hw1
      rw [hw1]
      exact List.mem_append_right _ (List.mem_singleton.mpr rfl)

/-- After the loops over the tiles around the tile `c`, the tile `c` is
worked off. -/
theorem visitAround_inv (env : Env) (k : Nat) (a : Coord) (T0 : Nat → Int → Int → Int)
    (hfit : ∀ n t, isShortest env a n t → n ≤ 32767)
    (i : Nat) (c : Coord) (D : Int) (st : PoiScan)
    (h : BfsInv env k a T0 st i D) (hc : st.queue[i]? = some c)
    (hD : st.table k c.y c.x = D) (hidone : st.idone = i) :
    BfsInv env k a T0 ((tilesAround c.x c.y).foldl (visitTile env k D) st) (i + 1) D
      ∧ ((tilesAround c.x c.y).foldl (visitTile env k D) st).queue[i]? = some c
      ∧ ((tilesAround c.x c.y).foldl (visitTile env k D) st).table k c.y c.x = D
      ∧ ((tilesAround c.x c.y).foldl (visitTile env k D) st).idone = i := by
  have hfold := foldl_prefix (visitTile env k D) (InnerInv env k a T0 i c D)
    (tilesAround c.x c.y)
    (fun pre x post b hl hb =>
      visitTile_inv env k a T0 hfit i c D pre x b (by rw [hl]; simp) hb)
    st ⟨h, hc, hD, hidone, fun uv huv => absurd huv (List.not_mem_nil uv)⟩
  obtain ⟨g1, g2, g3, g4, g5⟩ := hfold
  refine ⟨?_, g2, g3, g4⟩
  constructor
  · exact g1.running
  · exact g1.nodup
  · exact g1.inside
  · exact g1.anchor
  · exact g1.short
  · exact g1.unseen
  · exact g1.sorted
  · exact g1.bound
  · intro m p hm hp t h1 h2 h3
    by_cases hmi : m < i
    · exact g1.processed m p hmi hp t h1 h2 h3
    · have hmeq : m = i := by omega
      rw [hmeq, g2] at hp
      have hpc : c = p := Option.some.inj hp
      rw [← hpc] at h1
      have := g5 (t.x, t.y) h1 h2 h3
      rw [Coord_eta] at this
      exact this
  · exact g1.complete
  · exact g1.frame

/-- Passing to the next tile of the queue: the invariant holds with the
distance of that tile. -/
theorem BfsInv_next (env : Env) (k : Nat) (a : Coord) (T0 : Nat → Int → Int → Int)
    (st : PoiScan) (i : Nat) (c c1 : Coord) (D : Int)
    (h : BfsInv env k a T0 st (i + 1) D) (hc : st.queue[i]? = some c)
    (hD : st.table k c.y c.x = D) (hc1 : st.queue[i + 1]? = some c1) :
    BfsInv env k a T0 st (i + 1) (st.table k c1.y c1.x) := by
  obtain ⟨hi, hci⟩ := List.getElem?_eq_some_iff.mp hc
  obtain ⟨hi1, hci1⟩ := List.getElem?_eq_some_iff.mp hc1
  have hsorted := List.pairwise_iff_getElem.mp h.sorted
  have hc1q : c1 ∈ st.queue := (getElem?_mem_queue st.queue (i + 1) c1 hc1).1
  have hlo : D ≤ st.table k c1.y c1.x := by
    have := hsorted i (i + 1) hi hi1 (by omega)
    rw [hci, hci1, hD] at this
    exact this
  have hhi : st.table k c1.y c1.x ≤ D + 1 := h.bound c1 hc1q
  constructor
  · exact h.running
  · exact h.nodup
  · exact h.inside
  · exact h.anchor
  · exact h.short
  · exact h.unseen
  · exact h.sorted
  · intro p hp
    have := h.bound p hp
    omega
  · exact h.processed
  · intro n t hr hn
    by_cases hnD : (n : Int) ≤ D
    · exact h.complete n t hr hnD
    · -- the last move of the path starts on a tile that is worked off
      have hn1 : (n : Int) = D + 1 := by omega
      cases n with
      | zero =>
        simp only [reach] at hr
        rw [hr]
        exact h.anchor
      | succ m =>
        obtain ⟨q, hrq, hdq, hin, hw⟩ := hr
        have hmD : (m : Int) = D := by push_cast at hn1; omega
        have hq : q ∈ st.queue := h.complete m q hrq (by omega)
        obtain ⟨nq, hnq, hsq⟩ := h.short q hq
        have hqle : nq ≤ m := hsq.2 m hrq
        obtain ⟨jq, hjq, hqj⟩ := List.mem_iff_getElem.mp hq
        have hjle : jq < i + 1 := by
          by_contra hge
          have hTq : st.table k c1.y c1.x ≤ st.table k q.y q.x := by
            by_cases heq : jq = i + 1
            · subst heq
              rw [← hqj, ← hci1]
            · have := hsorted (i + 1) jq hi1 hjq (by omega)
              rw [hci1, hqj] at this
              exact this
          rw [hnq] at hTq
          have : (nq : Int) ≤ (m : Int) := by exact_mod_cast hqle
          omega
        have hqget : st.queue[jq]? = some q := List.getElem?_eq_some_iff.mpr ⟨hjq, hqj⟩
        exact h.processed jq q hjle hqget t (tilesAround_of_dist q t hdq) hin hw
  · exact h.frame

/-- When every tile of the queue is worked off, the table holds the lengths
of the shortest paths, and `-1` for the tiles without a path. -/
theorem PoiFinal_of_inv (env : Env) (k : Nat) (a : Coord) (T0 : Nat → Int → Int → Int)
    (st : PoiScan) (j : Nat) (D : Int) (h : BfsInv env k a T0 st j D)
    (hall : st.queue.length ≤ j) : PoiFinal env k a T0 st := by
  have hclosed : ∀ n t, reach env a n t → t ∈ st.queue := by
    intro n
    induction n with
    | zero =>
      intro t hr
      simp only [reach] at hr
      rw [hr]
      exact h.anchor
    | succ m ih =>
      intro t hr
      obtain ⟨q, hrq, hdq, hin, hw⟩ := hr
      have hq := ih q hrq
      obtain ⟨jq, hjq, hqj⟩ := List.mem_iff_getElem.mp hq
      have hqget : st.queue[jq]? = some q := List.getElem?_eq_some_iff.mpr ⟨hjq, hqj⟩
      exact h.processed jq q (by omega) hqget t (tilesAround_of_dist q t hdq) hin hw
  refine ⟨h.running, ?_, ?_, h.frame⟩
  · intro t
    constructor
    · intro hT n hr
      obtain ⟨nt, hnt, _⟩ := h.short t (hclosed n t hr)
      rw [hnt] at hT
      have : (0 : Int) ≤ (nt : Int) := Int.natCast_nonneg nt
      omega
    · intro hno
      apply h.unseen
      intro ht
      obtain ⟨nt, _, hst⟩ := h.short t ht
      exact hno nt hst.1
  · intro n t hs
    obtain ⟨nt, hnt, hst⟩ := h.short t (hclosed n t hs.1)
    rw [hnt]
    have h1 := hs.2 nt hst.1
    have h2 := hst.2 n hs.1
    have : nt = n := by omega
    rw [this]

/-- The loop over `l` from a round in which the tile `l` of the queue is
worked on ends with the table of the shortest paths. -/
theorem poiLoop_final (env : Env) (k : Nat) (a : Coord) (T0 : Nat → Int → Int → Int)
    (hfit : ∀ n t, isShortest env a n t → n ≤ 32767) (fuel : Nat) :
    ∀ (l : Nat) (st : PoiScan) (c : Coord), fuel + l = 252004 → st.idone = l →
      st.queue[l]? = some c → BfsInv env k a T0 st l (st.table k c.y c.x) →
      PoiFinal env k a T0 (poiLoop env k fuel l st) := by
  induction fuel with
  | zero =>
    intro l st c hl _ hc h
    exfalso
    have h1 := (getElem?_mem_queue st.queue l c hc).2
    have h2 := queue_length_le st.queue h.nodup h.inside
    omega
  | succ fuel ih =>
    intro l st c hl hidone hc h
    have hcq := getElem?_mem_queue st.queue l c hc
    obtain ⟨g1, g2, g3, g4⟩ := visitAround_inv env k a T0 hfit l c (st.table k c.y c.x) st h hc
      rfl hidone
    have hin : ¬ (IsInsideMap c.x c.y = false) := by
      rw [h.inside c hcq.1]; simp
    have hrun : ¬ (((tilesAround c.x c.y).foldl (visitTile env k (st.table k c.y c.x)) st).status
        ≠ ScanStatus.running) := by
      rw [g1.running]; simp
    have hlen := queue_length_le _ g1.nodup g1.inside
    unfold poiLoop
    rw [hidone, hc]
    simp only
    rw [if_neg hin, if_neg hrun]
    by_cases hlast : (l : Int) ≥ MAP_HEIGHT * MAP_WIDTH - 1
    · rw [if_pos hlast]
      apply PoiFinal_of_inv env k a T0 _ (l + 1) _ g1
      simp only [MAP_HEIGHT, MAP_WIDTH] at hlast
      omega
    · rw [if_neg hlast]
      rw [g4]
      by_cases hend : ((tilesAround c.x c.y).foldl
          (visitTile env k (st.table k c.y c.x)) st).queue.length ≤ l + 1
      · rw [if_pos hend]
        have g1' : BfsInv env k a T0
            { (tilesAround c.x c.y).foldl (visitTile env k (st.table k c.y c.x)) st with
              idone := l + 1 } (l + 1) (st.table k c.y c.x) :=
          ⟨g1.running, g1.nodup, g1.inside, g1.anchor, g1.short, g1.unseen, g1.sorted,
            g1.bound, g1.processed, g1.complete, g1.frame⟩
        exact PoiFinal_of_inv env k a T0 _ (l + 1) _ g1' hend
      · rw [if_neg hend]
        obtain ⟨c1, hc1⟩ : ∃ c1, ((tilesAround c.x c.y).foldl
            (visitTile env k (st.table k c.y c.x)) st).queue[l + 1]? = some c1 := by
          have hlt : l + 1 < ((tilesAround c.x c.y).foldl
              (visitTile env k (st.table k c.y c.x)) st).queue.length := by omega
          exact ⟨_, List.getElem?_eq_getElem hlt⟩
        have hnext := BfsInv_next env k a T0 _ l c c1 _ g1 g2 g3 hc1
        have hnext' : BfsInv env k a T0
            { (tilesAround c.x c.y).foldl (visitTile env k (st.table k c.y c.x)) st with
              idone := l + 1 } (l + 1)
            (((tilesAround c.x c.y).foldl (visitTile env k (st.table k c.y c.x)) st).table k
              c1.y c1.x) :=
          ⟨hnext.running, hnext.nodup, hnext.inside, hnext.anchor, hnext.short, hnext.unseen,
            hnext.sorted, hnext.bound, hnext.processed, hnext.complete, hnext.frame⟩
        have := ih (l + 1)
          { (tilesAround c.x c.y).foldl (visitTile env k (st.table k c.y c.x)) st with
            idone := l + 1 } c1 (by omega) rfl hc1 hnext'
        rw [show ((l + 1 : Nat) : Int) = (l : Int) + 1 by push_cast; rfl] at this
        exact this

/-- The work on one point of interest, started on a table whose entries for
this point are all `-1`. -/
theorem poiDistances_final (env : Env) (k : Nat) (T0 : Nat → Int → Int → Int)
    (hk : k < AI_NUM_POI)
    (hfit : ∀ n t, isShortest env (poiAnchor k) n t → n ≤ 32767)
    (hclear : ∀ y x, T0 k y x = -1) :
    PoiFinal env k (poiAnchor k) T0 (poiDistances env T0 k) := by
  unfold poiDistances
  simp only
  have hN : (MAP_HEIGHT * MAP_WIDTH).toNat = 252004 := by decide
  rw [hN]
  have ha : (⟨POI_pos_xa.getD k 0, POI_pos_ya.getD k 0⟩ : Coord) = poiAnchor k := rfl
  rw [ha]
  have hax : POI_pos_xa.getD k 0 = (poiAnchor k).x := rfl
  have hay : POI_pos_ya.getD k 0 = (poiAnchor k).y := rfl
  rw [hax, hay]
  have hmem : ∀ p : Coord, p ∈ [poiAnchor k] → p = poiAnchor k := fun p hp =>
    List.mem_singleton.mp hp
  have h0 : setDistance T0 k (poiAnchor k).y (poiAnchor k).x 0 k (poiAnchor k).y (poiAnchor k).x
      = 0 := setDistance_self _ _ _ _ _
  have hs0 : isShortest env (poiAnchor k) 0 (poiAnchor k) := ⟨rfl, fun m _ => Nat.zero_le m⟩
  have hloop := poiLoop_final env k (poiAnchor k) T0 hfit 252004 0
    { table := setDistance T0 k (poiAnchor k).y (poiAnchor k).x 0, queue := [poiAnchor k],
      idone := 0, status := ScanStatus.running } (poiAnchor k) rfl rfl rfl
  apply hloop
  constructor
  · rfl
  · exact List.nodup_singleton _
  · intro p hp
    rw [hmem p hp]
    exact poiAnchor_inside k hk
  · exact List.mem_singleton.mpr rfl
  · intro p hp
    rw [hmem p hp]
    exact ⟨0, h0, hs0⟩
  · intro p hp
    have hne : p ≠ poiAnchor k := fun e => hp (by rw [e]; exact List.mem_singleton.mpr rfl)
    show setDistance T0 k (poiAnchor k).y (poiAnchor k).x 0 k p.y p.x = -1
    rw [setDistance_tile_ne _ _ _ _ _ hne]
    exact hclear p.y p.x
  · exact List.pairwise_singleton _ _
  · intro p hp
    rw [hmem p hp]
    show setDistance T0 k (poiAnchor k).y (poiAnchor k).x 0 k (poiAnchor k).y (poiAnchor k).x
      ≤ setDistance T0 k (poiAnchor k).y (poiAnchor k).x 0 k (poiAnchor k).y (poiAnchor k).x + 1
    omega
  · intro m p hm
    exact absurd hm (Nat.not_lt_zero m)
  · intro n t hr hn
    have hn0 : n = 0 := by
      have h1 : setDistance T0 k (poiAnchor k).y (poiAnchor k).x 0 k (poiAnchor k).y
          (poiAnchor k).x = 0 := h0
      have h2 : (n : Int) ≤ 0 := by
        have := hn
        simp only at this
        rw [h1] at this
        exact this
      omega
    subst hn0
    simp only [reach] at hr
    rw [hr]
    exact List.mem_singleton.mpr rfl
  · intro k1 y x hk1
    exact setDistance_slice_ne _ _ _ _ _ _ _ _ hk1

/-- The loop over the points of interest leaves a right table for each of
them. -/
theorem Calculate_distance_to_POI_right (env : Env)
    (hfit : ∀ k, k < AI_NUM_POI → ∀ n t, isShortest env (poiAnchor k) n t → n ≤ 32767) :
    (Calculate_distance_to_POI env).2 = ScanStatus.running
      ∧ ∀ k, k < AI_NUM_POI → poiTableRight env k (Calculate_distance_to_POI env).1 := by
  have hfold := foldl_prefix
    (fun (acc : (Nat → Int → Int → Int) × ScanStatus) k =>
      if acc.2 ≠ ScanStatus.running then acc
      else ((poiDistances env acc.1 k).table, (poiDistances env acc.1 k).status))
    (fun pre acc => acc.2 = ScanStatus.running
      ∧ (∀ k ∈ pre, poiTableRight env k acc.1)
      ∧ ∀ k, k ∉ pre → ∀ y x, acc.1 k y x = -1)
    (List.range AI_NUM_POI)
    (by
      intro pre k post acc hl hacc
      obtain ⟨h1, h2, h3⟩ := hacc
      have hk : k < AI_NUM_POI := List.mem_range.mp (by rw [hl]; simp)
      have hkpre : k ∉ pre := by
        have hnd := List.nodup_range AI_NUM_POI
        rw [hl] at hnd
        intro hin
        exact (List.nodup_append.mp hnd).2.2 hin (List.mem_cons_self _ _)
      obtain ⟨f1, f2, f3, f4⟩ := poiDistances_final env k acc.1 hk (hfit k hk) (h3 k hkpre)
      simp only
      rw [if_neg (by rw [h1]; simp)]
      refine ⟨f1, ?_, ?_⟩
      · intro k1 hk1
        rcases List.mem_append.mp hk1 with hk1 | hk1
        · have hne : k1 ≠ k := fun e => hkpre (by rw [← e]; exact hk1)
          obtain ⟨r1, r2⟩ := h2 k1 hk1
          constructor
          · intro t
            show (poiDistances env acc.1 k).table k1 t.y t.x = -1 ↔ _
            rw [f4 k1 t.y t.x hne]
            exact r1 t
          · intro n t hs
            show (poiDistances env acc.1 k).table k1 t.y t.x = n
            rw [f4 k1 t.y t.x hne]
            exact r2 n t hs
        · rw [List.mem_singleton] at hk1
          rw [hk1]
          exact ⟨f2, f3⟩
      · intro k1 hk1 y x
        have hne : k1 ≠ k := fun e => hk1 (by rw [e]; simp)
        have hk1pre : k1 ∉ pre := fun hh => hk1 (List.mem_append_left _ hh)
        show (poiDistances env acc.1 k).table k1 y x = -1
        rw [f4 k1 y x hne]
        exact h3 k1 hk1pre y x)
    (fun _ _ _ => -1, ScanStatus.running)
    ⟨rfl, fun k hk => absurd hk (List.not_mem_nil k), fun _ _ _ _ => rfl⟩
  obtain ⟨g1, g2, _⟩ := hfold
  exact ⟨g1, fun k hk => g2 k (List.mem_range.mpr hk)⟩

/-- C35: after `Calculate_distance_to_POI`, for every point of interest `k`
and every tile `t` inside the map, `Distance_To_POI[k][t]` is the length of a
shortest path from the anchor of `k` to `t` that moves between 8-neighbouring
tiles and enters only walkable tiles inside the map (the anchor has distance
0), and it is `-1` exactly when there is no such path; the function runs to
its end.  The obstacle table, which is not among the sources, is a parameter:
this holds for every table on which the lengths of the shortest paths fit the
`short` entries. -/
theorem C35_distance_to_POI (env : Env)
    (hfit : ∀ k, k < AI_NUM_POI → ∀ n t, isShortest env (poiAnchor k) n t → n ≤ 32767)
    (k : Nat) (hk : k < AI_NUM_POI) (t : Coord) (_ht : IsInsideMap t.x t.y = true) :
    (Calculate_distance_to_POI env).2 = ScanStatus.running
      ∧ (∀ n : Nat, isShortest env (poiAnchor k) n t →
          (Calculate_distance_to_POI env).1 k t.y t.x = n)
      ∧ ((Calculate_distance_to_POI env).1 k t.y t.x = -1
          ↔ ∀ n, ¬ reach env (poiAnchor k) n t)
      ∧ (Calculate_distance_to_POI env).1 k (poiAnchor k).y (poiAnchor k).x = 0 := by
  obtain ⟨h1, h2⟩ := Calculate_distance_to_POI_right env hfit
  obtain ⟨r1, r2⟩ := h2 k hk
  refine ⟨h1, fun n hs => r2 n t hs, r1 t, ?_⟩
  exact r2 0 (poiAnchor k) ⟨rfl, fun m _ => Nat.zero_le m⟩

/-- A path of `n` moves ends at most `n` tiles away. -/
theorem reach_dist_le (env : Env) (a : Coord) (n : Nat) :
    ∀ t, reach env a n t → distLInf a t ≤ n := by
  induction n with
  | zero =>
    intro t h
    simp only [reach] at h
    rw [h]
    simp [distLInf]
  | succ m ih =>
    intro t h
    obtain ⟨p, hp, hd, _, _⟩ := h
    have h1 := ih p hp
    obtain ⟨d1, d2, _⟩ := distLInf_eq_one p t hd
    unfold distLInf at h1 ⊢
    have hx : |a.x - p.x| ≤ m := le_trans (le_max_left _ _) h1
    have hy : |a.y - p.y| ≤ m := le_trans (le_max_right _ _) h1
    rw [abs_le] at hx hy d1 d2
    push_cast
    apply max_le
    · rw [abs_le]; constructor <;> omega
    · rw [abs_le]; constructor <;> omega

/-- On a map without obstacles every tile inside the map is reached from a
tile inside the map with as many moves as the tiles are apart. -/
theorem reach_free (env : Env) (hfree : ∀ x y, IsWalkable env x y = true) (a : Coord)
    (ha : IsInsideMap a.x a.y = true) (d : Nat) :
    ∀ t : Coord, IsInsideMap t.x t.y = true → distLInf a t = d → reach env a d t := by
  induction d with
  | zero =>
    intro t _ hd
    simp only [reach]
    by_contra hne
    have := distLInf_pos a t hne
    rw [hd] at this
    simp at this
  | succ m ih =>
    intro t ht hd
    rw [IsInsideMap_iff] at ha ht
    have hdx : |a.x - t.x| ≤ (m : Int) + 1 := by
      have := le_max_left |a.x - t.x| |a.y - t.y|
      unfold distLInf at hd
      rw [hd] at this
      exact_mod_cast this
    have hdy : |a.y - t.y| ≤ (m : Int) + 1 := by
      have := le_max_right |a.x - t.x| |a.y - t.y|
      unfold distLInf at hd
      rw [hd] at this
      exact_mod_cast this
    have hmax : |a.x - t.x| = (m : Int) + 1 ∨ |a.y - t.y| = (m : Int) + 1 := by
      unfold distLInf at hd
      rcases max_choice |a.x - t.x| |a.y - t.y| with h | h
      · left; rw [← h, hd]; push_cast; rfl
      · right; rw [← h, hd]; push_cast; rfl
    rw [abs_le] at hdx hdy
    -- the tile before `t` on a shortest path
    refine ⟨⟨CoordStep t.x a.x, CoordStep t.y a.y⟩, ?_, ?_, (IsInsideMap_iff _ _).mpr ht,
      hfree _ _⟩
    · apply ih
      · rw [IsInsideMap_iff]
        simp only
        unfold CoordStep
        split_ifs <;> omega
      · unfold distLInf
        simp only
        have hx : |a.x - CoordStep t.x a.x| ≤ (m : Int) := by
          rw [abs_le]
          unfold CoordStep
          split_ifs <;> constructor <;> omega
        have hy : |a.y - CoordStep t.y a.y| ≤ (m : Int) := by
          rw [abs_le]
          unfold CoordStep
          split_ifs <;> constructor <;> omega
        apply le_antisymm (max_le hx hy)
        rcases hmax with h | h
        · apply le_trans _ (le_max_left _ _)
          rcases abs_cases (a.x - t.x) with ⟨e, _⟩ | ⟨e, _⟩
          · rw [e] at h
            have hs : CoordStep t.x a.x = t.x + 1 := by
              unfold CoordStep
              have : (0 : Int) ≤ (m : Int) := Int.natCast_nonneg m
              rw [if_pos (by omega)]
            rw [hs]
            have : (0 : Int) ≤ (m : Int) := Int.natCast_nonneg m
            rw [abs_of_nonneg (by omega)]
            omega
          · rw [e] at h
            have hs : CoordStep t.x a.x = t.x - 1 := by
              unfold CoordStep
              have : (0 : Int) ≤ (m : Int) := Int.natCast_nonneg m
              rw [if_neg (by omega), if_pos (by omega)]
            rw [hs]
            have : (0 : Int) ≤ (m : Int) := Int.natCast_nonneg m
            rw [abs_of_nonpos (by omega)]
            omega
        · apply le_trans _ (le_max_right _ _)
          rcases abs_cases (a.y - t.y) with ⟨e, _⟩ | ⟨e, _⟩
          · rw [e] at h
            have hs : CoordStep t.y a.y = t.y + 1 := by
              unfold CoordStep
              have : (0 : Int) ≤ (m : Int) := Int.natCast_nonneg m
              rw [if_pos (by omega)]
            rw [hs]
            have : (0 : Int) ≤ (m : Int) := Int.natCast_nonneg m
            rw [abs_of_nonneg (by omega)]
            omega
          · rw [e] at h
            have hs : CoordStep t.y a.y = t.y - 1 := by
              unfold CoordStep
              have : (0 : Int) ≤ (m : Int) := Int.natCast_nonneg m
              rw [if_neg (by omega), if_pos (by omega)]
            rw [hs]
            have : (0 : Int) ≤ (m : Int) := Int.natCast_nonneg m
            rw [abs_of_nonpos (by omega)]
            omega
    · apply distLInf_one_of
      · simp only
        rw [abs_le]
        unfold CoordStep
        split_ifs <;> constructor <;> omega
      · simp only
        rw [abs_le]
        unfold CoordStep
        split_ifs <;> constructor <;> omega
      · simp only
        have : (0 : Int) ≤ (m : Int) := Int.natCast_nonneg m
        rcases hmax with h | h
        · left
          rcases abs_cases (a.x - t.x) with ⟨e, _⟩ | ⟨e, _⟩
          · rw [e] at h
            unfold CoordStep
            rw [if_pos (by omega)]
            simp
          · rw [e] at h
            unfold CoordStep
            rw [if_neg (by omega), if_pos (by omega)]
            simp
        · right
          rcases abs_cases (a.y - t.y) with ⟨e, _⟩ | ⟨e, _⟩
          · rw [e] at h
            unfold CoordStep
            rw [if_pos (by omega)]
            simp
          · rw [e] at h
            unfold CoordStep
            rw [if_neg (by omega), if_pos (by omega)]
            simp

/-- On a map without obstacles the length of a shortest path between tiles
inside the map is their L-infinity distance. -/
theorem isShortest_free (env : Env) (hfree : ∀ x y, IsWalkable env x y = true) (a t : Coord)
    (ha : IsInsideMap a.x a.y = true) (ht : IsInsideMap t.x t.y = true) :
    isShortest env a (distLInf a t).toNat t := by
  have hnn := distLInf_nonneg a t
  refine ⟨reach_free env hfree a ha _ t ht (Int.toNat_of_nonneg hnn).symm, ?_⟩
  intro m hm
  have := reach_dist_le env a m t hm
  have h2 : ((distLInf a t).toNat : Int) = distLInf a t := Int.toNat_of_nonneg hnn
  have : ((distLInf a t).toNat : Int) ≤ (m : Int) := by rw [h2]; exact this
  exact_mod_cast this

theorem fits_free (env : Env) (hfree : ∀ x y, IsWalkable env x y = true) (k : Nat)
    (hk : k < AI_NUM_POI) (n : Nat) (t : Coord) (h : isShortest env (poiAnchor k) n t) :
    n ≤ 32767 := by
  have ha := poiAnchor_inside k hk
  have ht : IsInsideMap t.x t.y = true := by
    cases n with
    | zero =>
      have := h.1
      simp only [reach] at this
      rw [this]; exact ha
    | succ m =>
      obtain ⟨_, _, _, hin, _⟩ := h.1
      exact hin
  have h1 := (isShortest_free env hfree (poiAnchor k) t ha ht).1
  have h2 := h.2 _ h1
  have h3 : distLInf (poiAnchor k) t ≤ 501 := by
    rw [IsInsideMap_iff] at ha ht
    unfold distLInf
    apply max_le
    · rw [abs_le]; constructor <;> omega
    · rw [abs_le]; constructor <;> omega
  have hnn := distLInf_nonneg (poiAnchor k) t
  have h4 : ((distLInf (poiAnchor k) t).toNat : Int) = distLInf (poiAnchor k) t :=
    Int.toNat_of_nonneg hnn
  have h5 : (n : Int) ≤ ((distLInf (poiAnchor k) t).toNat : Int) := by exact_mod_cast h2
  have h6 : (n : Int) ≤ 32767 := by omega
  exact_mod_cast h6

/-- Witness for C35: on the obstacle-free map the distance from the first
point of interest, whose anchor is `(8, 6)`, to the tile `(10, 9)` is 3. -/
theorem C35_distance_to_POI_witness :
    (∀ k, k < AI_NUM_POI → ∀ n t, isShortest freeEnv (poiAnchor k) n t → n ≤ 32767)
      ∧ poiAnchor 0 = ⟨8, 6⟩ ∧ farTile = ⟨10, 9⟩
      ∧ isShortest freeEnv (poiAnchor 0) 3 farTile
      ∧ (Calculate_distance_to_POI freeEnv).1 0 farTile.y farTile.x = 3 :=
  have hfree : ∀ x y, IsWalkable freeEnv x y = true := fun _ _ => rfl
  have hfit : ∀ k, k < AI_NUM_POI → ∀ n t, isShortest freeEnv (poiAnchor k) n t → n ≤ 32767 :=
    fun k hk n t h => fits_free freeEnv hfree k hk n t h
  have hs : isShortest freeEnv (poiAnchor 0) 3 farTile :=
    isShortest_free freeEnv hfree (poiAnchor 0) farTile (by decide) (by decide)
  ⟨hfit, rfl, rfl, hs,
    Eq.trans ((C35_distance_to_POI freeEnv hfit 0 (by decide) farTile (by decide)).2.1 3 hs)
      (Nat.cast_ofNat : ((3 : Nat) : Int) = 3)⟩

end Game
